import Mathlib

/-!
# dumpread / prefix : a shallow embedding

The development models the decoder of `src/dumpread.c` (namespace `Dumpread`) and the
aggregator of `src/prefix.c` (namespace `Trie`) as pure functions.

Conventions of the model

* A byte is a `Fin 256`.  Multi-byte loads follow the host the program is
  written for: little-endian, LP64 (`unsigned int` 32 bits, `unsigned long`,
  `unsigned long long` and pointers 64 bits).
* The input stream `FILE *fd` is the whole file contents together with the
  current position.  `fread` delivers the bytes that are left (a short read at
  the end of the file) and leaves the untouched part of its destination as it
  was.  Device errors (`ferror`) do not occur on such a stream.
* A heap buffer is the list of bytes stored from its first cell on, terminator
  and zero padding included; `cstr` is the C string held in it.
* `malloc` is the parameter `canAlloc` wherever the source tests its result.
  Allocations whose result the source never tests are taken to succeed.
* `printf`-family conversions `%d`, `%u`, `%llu`, `%lu` are `fmt_d` / `fmt_u`.
* An access outside its object has no result: a call that reads or writes outside
  a heap block (`sprintf` past the end of its block included) or goes through a
  null pointer does not return, and its model is `none` (`crash` for a run of
  `main`).  The store of `main` to `keyper[11]`, behind the array, is the
  parameter `Behind` of `main`.
-/

namespace Dumpread

/-! ## Bytes, buffers, streams -/

abbrev Byte := Fin 256

/-- Little-endian value of a run of bytes, as `memcpy`/`fread` into a zeroed integer gives. -/
def le : List Byte → Nat
  | [] => 0
  | b :: bs => b.val + 256 * le bs

/-- Big-endian value of a run of bytes. -/
def be (bs : List Byte) : Nat := le bs.reverse

/-- Value of an integer variable holding `old` after `bs` was written over its
lowest-addressed `bs.length` bytes. -/
def store (old : Nat) (bs : List Byte) : Nat :=
  le bs + 256 ^ bs.length * (old / 256 ^ bs.length)

/-- Reading a `w`-bit pattern as a two's-complement signed integer. -/
def toSigned (w : Nat) (v : Nat) : Int :=
  if v % 2 ^ w < 2 ^ (w - 1) then ((v % 2 ^ w : Nat) : Int) else ((v % 2 ^ w : Nat) : Int) - ((2 ^ w : Nat) : Int)

/-- The C string stored at the start of a buffer: the bytes before the first NUL. -/
def cstr (buf : List Byte) : List Byte := buf.takeWhile (fun b => b ≠ 0)

/-- The bytes of an ASCII literal. -/
def ascii (s : String) : List Byte := s.toList.map (fun c => Fin.ofNat c.toNat)

/-- Decimal digits of `n`, most significant first, prepended to `acc`. -/
def digitsAux : Nat → Nat → List Byte → List Byte
  | 0, _, acc => acc
  | fuel + 1, n, acc =>
    if n / 10 = 0 then Fin.ofNat (48 + n % 10) :: acc
    else digitsAux fuel (n / 10) (Fin.ofNat (48 + n % 10) :: acc)

/-- The text `printf` produces for an unsigned conversion (`%u`, `%lu`, `%llu`). -/
def fmt_u (n : Nat) : List Byte := digitsAux (n + 1) n []

/-- The text `printf` produces for a signed conversion (`%d` and the `PRId` family). -/
def fmt_d (i : Int) : List Byte :=
  if i < 0 then (45 : Byte) :: fmt_u i.natAbs else fmt_u i.natAbs

/-- A heap block of `size` bytes cleared by `memset` and then filled by `sprintf` with
`text` and its terminator: the `size` bytes of the block.  The result is `none` when the
text and its terminator do not fit: `sprintf` then writes past the end of the block, and
the call does not return. -/
def sprintf_into (size : Nat) (text : List Byte) : Option (List Byte) :=
  if text.length + 1 ≤ size then
    some (text ++ 0 :: List.replicate (size - (text.length + 1)) 0)
  else none

/-- The input stream: file contents and current position. -/
structure FILE where
  data : List Byte
  pos : Nat
deriving DecidableEq

/-- Model of `fread(dst,1,n,fd)`: the bytes delivered and the advanced stream. -/
def fread (fd : FILE) (n : Nat) : List Byte × FILE :=
  let bs := (fd.data.drop fd.pos).take n
  (bs, { fd with pos := fd.pos + bs.length })

/-- Model of `fseek(fd,off,SEEK_CUR)` where `off` is a 64-bit unsigned value passed for
the `long` parameter.  A target outside `0 .. 2^63-1` makes the call fail and leaves the
position alone. -/
def fseek_cur (fd : FILE) (off : Nat) : FILE :=
  let o : Int := toSigned 64 off
  let p : Int := (fd.pos : Int) + o
  if 0 ≤ p ∧ p < 2 ^ 63 then { fd with pos := p.toNat } else fd

/-- The cells of a caller's scratch `buffer[BUFFERSIZE]` that are ever accessed. -/
structure Buffer where
  b0 : Byte
  b1 : Byte
deriving DecidableEq

def MASK : Nat := 0x3F
def PTRSZ : Nat := 8
def ULSZ : Nat := 8
def SPACE_FOR_NULL : Nat := 1
def maxint : Nat := 11
def ROBJ_OH : Nat := PTRSZ + 8
def STR_OH : Nat := PTRSZ * 2
def EXP_OH : Nat := 8 + (2 * PTRSZ) + 8
/-- The modulus of `unsigned int` arithmetic, `2^32`. -/
def U32 : Nat := 4294967296
/-- The modulus of 64-bit unsigned arithmetic, `2^64`. -/
def U64 : Nat := 18446744073709551616

/-! ## Length codec -/

/-- The byte swap `get_length` and `get_zl_entry` perform on a 32-bit load, in `unsigned int`
arithmetic. -/
def swap32 (val : Nat) : Nat :=
  let len := 0
  let len := len ||| (((val &&& 0x000000ff) <<< 24) % U32)
  let len := len ||| (((val &&& 0x0000ff00) <<< 8) % U32)
  let len := len ||| ((val &&& 0x00ff0000) >>> 8)
  let len := len ||| ((val &&& 0xff000000) >>> 24)
  len

/-- The byte swap `get_length` performs on a 64-bit load. -/
def swap64 (dval : Nat) : Nat :=
  let dlen := 0
  let dlen := dlen ||| (((dval &&& 0x00000000000000ff) <<< 56) % U64)
  let dlen := dlen ||| (((dval &&& 0x000000000000ff00) <<< 40) % U64)
  let dlen := dlen ||| (((dval &&& 0x0000000000ff0000) <<< 24) % U64)
  let dlen := dlen ||| (((dval &&& 0x00000000ff000000) <<< 8) % U64)
  let dlen := dlen ||| ((dval &&& 0x000000ff00000000) >>> 8)
  let dlen := dlen ||| ((dval &&& 0x0000ff0000000000) >>> 24)
  let dlen := dlen ||| ((dval &&& 0x00ff000000000000) >>> 40)
  let dlen := dlen ||| ((dval &&& 0xff00000000000000) >>> 56)
  dlen

/-- Model of `get_length(buffer, fd)`: the decoded length, the scratch buffer and the
stream afterwards. -/
def get_length (buffer : Buffer) (fd : FILE) : Nat × Buffer × FILE :=
  if buffer.b0.val = 0x80 then
    let r := fread fd 4
    let val := le r.1
    (swap32 val, buffer, r.2)
  else if buffer.b0.val = 0x81 then
    let r := fread fd 8
    let dval := le r.1
    (swap64 dval, buffer, r.2)
  else
    let sw := buffer.b0.val &&& 0xC0
    if sw = 0x00 then
      (0 ||| (buffer.b0.val &&& MASK), buffer, fd)
    else if sw = 0x40 then
      let r := fread fd 1
      let buffer := { buffer with b1 := r.1.headD buffer.b1 }
      (((buffer.b0.val &&& MASK) <<< 8) ||| buffer.b1.val, buffer, r.2)
    else if sw = 0x80 then
      let r := fread fd 4
      let val := le r.1
      (swap32 val, buffer, r.2)
    else if sw = 0xC0 then
      (0, buffer, fd)
    else
      (0, buffer, fd)

/-! ## Scalar / string decoder -/

/-- A `struct KI`: estimated size and the heap buffer `str` points to (`none` is `NULL`). -/
structure KI where
  size : Nat
  str : Option (List Byte)
deriving DecidableEq

/-- The environment the decoders run in: the allocator (consulted where the source tests the
result of `malloc`), the external `lzf_decompress` of `lzf.h`, and `args.full`.
`lzf_decompress c size unlen` receives the bytes loaded into `c` (cells after them are not
initialised), the two declared lengths, and gives the return value together with the output
buffer of `unlen + 1` cleared cells after the call. -/
structure Env where
  canAlloc : Nat → Bool
  lzf_decompress : List Byte → Nat → Nat → Nat × List Byte
  full : Bool

/-- Size in bytes of a `struct KI`. -/
def KI_SZ : Nat := 16

/-- Model of `load_compressed(c, clen, fd)`; `clen` is an `unsigned int`. -/
def load_compressed (clen : Nat) (fd : FILE) : List Byte × FILE :=
  fread fd (clen % U32)

/-- An environment for evaluating the model on concrete inputs: every tested allocation
succeeds and the codec reports failure without touching its output buffer. -/
def testEnv (full : Bool) : Env :=
  ⟨fun _ => true, fun _ _ unlen => (0, List.replicate (unlen + 1) 0), full⟩

/-- The `case 3` block of `str_enc`: a compressed string. -/
def str_enc_compressed (env : Env) (aux : Bool) (fd : FILE) : Option KI × FILE :=
  let buffer : Buffer := ⟨0, 0⟩
  let r := fread fd 1
  let g := get_length { buffer with b0 := r.1.headD buffer.b0 } r.2
  let size := g.1
  let r := fread g.2.2 1
  let g := get_length { g.2.1 with b0 := r.1.headD g.2.1.b0 } r.2
  let unlen := g.1
  if env.full || aux then
    let l := load_compressed size g.2.2
    if l.1.length = 0 then (none, l.2)
    else
      let d := env.lzf_decompress l.1 size unlen
      if d.1 = 0 then (none, l.2)
      else (some ⟨unlen, some d.2⟩, l.2)
  else
    (some ⟨unlen, some (List.replicate (unlen + 1) 0)⟩, fseek_cur g.2.2 size)

/-- The "special format area" of `str_enc`, entered when the decoded length is 0: the
`switch` on `buffer[0] & MASK`. -/
def str_enc_special (env : Env) (aux : Bool) (buffer : Buffer) (fd : FILE) :
    Option (Option KI × FILE) :=
  let sel := buffer.b0.val &&& MASK
  if sel = 0 then
    if buffer.b0.val = 0x00 then
      some (some ⟨0, if env.full || aux then some [0] else none⟩, fd)
    else
      let r := fread fd 1
      let x := toSigned 8 (store 0 r.1)
      if env.full || aux then
        match sprintf_into maxint (fmt_d x) with
        | none => none
        | some str => some (some ⟨1, some str⟩, r.2)
      else some (some ⟨1, none⟩, r.2)
  else if sel = 1 then
    let r := fread fd 2
    let y := toSigned 16 (store 0 r.1)
    if env.full || aux then
      match sprintf_into maxint (fmt_d y) with
      | none => none
      | some str => some (some ⟨2, some str⟩, r.2)
    else some (some ⟨2, none⟩, r.2)
  else if sel = 2 then
    let r := fread fd 4
    let z := toSigned 32 (store 0 r.1)
    if env.full || aux then
      match sprintf_into maxint (fmt_d z) with
      | none => none
      | some str => some (some ⟨4, some str⟩, r.2)
    else some (some ⟨4, none⟩, r.2)
  else if sel = 3 then
    some (str_enc_compressed env aux fd)
  else
    some (some ⟨0, some [32, 0]⟩, fd)

/-- The `else` block of `str_enc`, entered with a non-zero decoded length `size`: a
literal string of `size` bytes. -/
def str_enc_raw (env : Env) (size : Nat) (fd : FILE) : Option KI × FILE :=
  if !env.canAlloc ((size + SPACE_FOR_NULL) % U64) then
    (none, fseek_cur fd size)
  else
    let r := if size > 0 then fread fd size else ([], fd)
    let str := r.1 ++ List.replicate (size + 1 - r.1.length) 0
    (some ⟨(size + STR_OH) % U64, some str⟩, r.2)

/-- Model of `str_enc(fd)`.  `aux` is the global `aux.x`.  The result is the returned
pointer (`none` for `NULL`) and the stream afterwards; the outer `none` is a call that does
not return: the text of an embedded integer is written past the end of its block.  A
decoder that calls `str_enc` does not return then either. -/
def str_enc (env : Env) (aux : Bool) (fd : FILE) : Option (Option KI × FILE) :=
  if !env.canAlloc KI_SZ then some (none, fd)
  else
    let buffer : Buffer := ⟨0, 0⟩
    let r := fread fd 1
    let g := get_length { buffer with b0 := r.1.headD buffer.b0 } r.2
    if g.1 = 0 then str_enc_special env aux g.2.1 g.2.2
    else some (str_enc_raw env g.1 g.2.2)

/-! ## Compact-entry codec -/

/-- The `n` bytes at `c + i`, when they lie inside the memory `c` points into. -/
def peek (c : List Byte) (i n : Nat) : Option (List Byte) :=
  if i + n ≤ c.length then some ((c.drop i).take n) else none

/-- The chain of `if`s of `get_zl_entry` on the leading byte of the entry; `c` points at
that byte (the source's `c` after `c++`) and `offset` already counts the bytes before it. -/
def zl_entry_at (env : Env) (c : List Byte) (offset : Nat) :
    Option (Option (List Byte) × Nat) :=
  match c.head? with
  | none => none
  | some t =>
  if t.val < 64 then
    let slen := (0 ||| (t.val &&& MASK)) % 256
    if slen > 0 then
      if !env.canAlloc (slen + SPACE_FOR_NULL) then some (none, offset)
      else
        match peek c 1 slen with
        | none => none
        | some payload => some (some (payload ++ [0]), (offset + (slen + 1)) % U64)
    else some (none, (offset + (slen + 1)) % U64)
  else if t.val > 63 ∧ t.val < 128 then
    match c.get? 1 with
    | none => none
    | some c1 =>
    let slen := (0 ||| ((t.val &&& MASK) <<< 8)) % 65536
    let slen := (slen ||| (c1.val &&& 0x000000FF)) % 65536
    if !env.canAlloc (slen + SPACE_FOR_NULL) then some (none, offset)
    else
      match peek c 2 slen with
      | none => none
      | some payload => some (some (payload ++ [0]), (offset + (2 + slen)) % U64)
  else if t.val > 127 ∧ t.val < 192 then
    match peek c 1 4 with
    | none => none
    | some vb =>
    let val := le vb
    let slen := swap32 val
    if !env.canAlloc (slen + SPACE_FOR_NULL) then some (none, offset)
    else
      match peek c 5 slen with
      | none => none
      | some payload => some (some (payload ++ [0]), (offset + (5 + slen) % U32) % U64)
  else if t.val > 191 ∧ t.val < 208 then
    match peek c 1 2 with
    | none => none
    | some vb =>
      let i := toSigned 16 (le vb)
      match sprintf_into (5 + SPACE_FOR_NULL) (fmt_d i) with
      | none => none
      | some entry => some (some entry, (offset + 3) % U64)
  else if t.val > 207 ∧ t.val < 224 then
    match peek c 1 4 with
    | none => none
    | some vb =>
      let i := toSigned 32 (le vb)
      match sprintf_into (11 + SPACE_FOR_NULL) (fmt_d i) with
      | none => none
      | some entry => some (some entry, (offset + 5) % U64)
  else if t.val > 223 ∧ t.val < 240 then
    match peek c 1 8 with
    | none => none
    | some vb =>
      let i := toSigned 64 (le vb)
      match sprintf_into (20 + SPACE_FOR_NULL) (fmt_d i) with
      | none => none
      | some entry => some (some entry, (offset + 9) % U64)
  else if t.val > 240 ∧ t.val < 254 then
    let i := ((t.val &&& 0x0F) + 256 - 1) % 256
    match sprintf_into (3 + SPACE_FOR_NULL) (fmt_u i) with
    | none => none
    | some entry => some (some entry, (offset + 1) % U64)
  else if t.val = 240 then
    match peek c 1 3 with
    | none => none
    | some vb =>
      let int24 := toSigned 32 (store 0 vb)
      match sprintf_into (11 + SPACE_FOR_NULL) (fmt_d int24) with
      | none => none
      | some entry => some (some entry, (offset + 4) % U64)
  else if t.val = 254 then
    match peek c 1 1 with
    | none => none
    | some vb =>
      let int8 := toSigned 8 (le vb)
      match sprintf_into (3 + SPACE_FOR_NULL) (fmt_d int8) with
      | none => none
      | some entry => some (some entry, (offset + 2) % U64)
  else some (none, offset)

/-- Model of `get_zl_entry(c, &offset)`.  `c` is the memory from the pointer to the end of
its allocation.  The result is `none` when the function reads outside that memory or
`sprintf` writes the text of an integer past the end of the entry buffer, else the returned
entry buffer (`none` for `NULL`) and the updated `*offset`. -/
def get_zl_entry (env : Env) (c : List Byte) (offset : Nat) :
    Option (Option (List Byte) × Nat) :=
  match c.head? with
  | none => none
  | some p =>
    if p.val = 254 then zl_entry_at env ((c.drop 4).drop 1) (((offset + 4) % U64 + 1) % U64)
    else zl_entry_at env (c.drop 1) ((offset + 1) % U64)

/-- Whether `pre` is a whole previous-entry-length field: one byte other than 254, or the
byte 254 followed by four more bytes. -/
def zl_prevlen_field (pre : List Byte) : Bool :=
  match pre with
  | [p] => p.val ≠ 254
  | [p, _, _, _, _] => p.val = 254
  | _ => false

/-! ## Report emitter -/

/-- The text `printf` produces for `%s`; glibc prints `(null)` for a null pointer. -/
def fmt_s : Option (List Byte) → List Byte
  | none => ascii "(null)"
  | some buf => cstr buf

/-- The `Type : ...` line `print_key_info` writes for a type tag. -/
def type_line (type : Nat) : List Byte :=
  if type = 0 then ascii "Type : String\n"
  else if type = 1 then ascii "Type : List\n"
  else if type = 2 then ascii "Type : Set\n"
  else if type = 3 then ascii "Type : Sorted set\n"
  else if type = 4 then ascii "Type : Hash\n"
  else if type = 9 then ascii "Type : Zipmap\n"
  else if type = 10 then ascii "Type : Ziplist\n"
  else if type = 11 then ascii "Type : Intset\n"
  else if type = 12 then ascii "Type : Sorted set in ziplist\n"
  else if type = 13 then ascii "Type : Hashmap in ziplist\n"
  else if type = 14 then ascii "Type : Quicklist\n"
  else ascii "Type : N/A\n"

/-- Model of `print_key_info(name, value, type, exp, fo)`: the output file afterwards. -/
def print_key_info (env : Env) (name value : Option KI) (type : Nat) (exp : Nat)
    (fo : List Byte) : List Byte :=
  match name, value with
  | none, _ => fo
  | some _, none => fo
  | some name, some value =>
    let fo := fo ++ (ascii "Key  : " ++ fmt_s name.str ++ ascii "\n")
    let fo := fo ++ type_line type
    let fo := fo ++ (ascii "Size : " ++ fmt_u (((name.size + value.size) + ROBJ_OH) % U64) ++ ascii "\n")
    let fo := fo ++ (ascii "Exp  : " ++ fmt_u exp ++ ascii "\n")
    let fo := if env.full then fo ++ (ascii "Value: " ++ fmt_s value.str ++ ascii "\n") else fo
    fo ++ ascii "\n"

/-- The human-readable label of a type tag in the report, as the `Type` field shows it. -/
def type_label (type : Nat) : List Byte :=
  if type = 0 then ascii "String"
  else if type = 1 then ascii "List"
  else if type = 2 then ascii "Set"
  else if type = 3 then ascii "Sorted set"
  else if type = 4 then ascii "Hash"
  else if type = 9 then ascii "Zipmap"
  else if type = 10 then ascii "Ziplist"
  else if type = 11 then ascii "Intset"
  else if type = 12 then ascii "Sorted set in ziplist"
  else if type = 13 then ascii "Hashmap in ziplist"
  else if type = 14 then ascii "Quicklist"
  else ascii "N/A"

/-- One record of the report text contract: the fields `Key`, `Type`, `Size`, `Exp`, each
on a line of its own, the `Value` line in full-render mode only, and a blank line. -/
def report_record (full : Bool) (name label : List Byte) (size exp : Nat)
    (value : List Byte) : List Byte :=
  ascii "Key  : " ++ name ++ ascii "\n"
    ++ (ascii "Type : " ++ label ++ ascii "\n")
    ++ (ascii "Size : " ++ fmt_u size ++ ascii "\n")
    ++ (ascii "Exp  : " ++ fmt_u exp ++ ascii "\n")
    ++ (if full then ascii "Value: " ++ value ++ ascii "\n" else [])
    ++ ascii "\n"

/-! ## Dump stream walker -/

/-- Model of `strtou64(s)`, the loop started with accumulator `x`. -/
def strtou64 : List Byte → Nat → Nat
  | [], x => x
  | b :: bs, x =>
    if ((toSigned 8 b.val - 48) % (U32 : Int)).toNat < 10
    then strtou64 bs ((x * 10 + (b.val - 48)) % U64)
    else x

/-- The locals of `main` (and the global `aux.x`) that live across iterations of its loop. -/
structure Walk where
  fd : FILE
  fo : List Byte
  buffer : Buffer
  type : Byte
  exp : Nat
  rdbtime : Nat
  aux : Bool
  keycount : Nat
  keyper : List Nat
  big : KI
deriving DecidableEq

/-- Where the opcode `switch` of `main` leaves the iteration. -/
inductive Switch where
  | again (s : Walk)
  | finish (s : Walk)
  | entry (s : Walk)
deriving DecidableEq

/-- How one iteration of the loop of `main` ends: `continue` (or the end of the body),
`goto end`, or a null-pointer dereference. -/
inductive Step where
  | again (s : Walk)
  | finish (s : Walk)
  | crash
deriving DecidableEq

/-- Model of the opcode `switch` of `main`, the type byte read after an expiration and the
range test on the type; the opcode is in `buffer[0]`. -/
def main_switch (env : Env) (s : Walk) : Switch :=
  let op := s.buffer.b0.val
  if op = 0xFB then
    let r := fread s.fd 1
    let buffer := { s.buffer with b0 := r.1.headD s.buffer.b0 }
    let g := get_length buffer r.2
    let r := fread g.2.2 1
    let buffer := { g.2.1 with b0 := r.1.headD g.2.1.b0 }
    let g := get_length buffer r.2
    .again { s with fd := g.2.2, buffer := g.2.1 }
  else if op = 0xFE then
    let r := fread s.fd 1
    let buffer := { s.buffer with b0 := r.1.headD s.buffer.b0 }
    if env.full then
      let g := get_length buffer r.2
      .again { s with fd := g.2.2, buffer := g.2.1,
                      fo := s.fo ++ (ascii "Database selected: " ++ fmt_u g.1 ++ ascii "\n") }
    else .again { s with fd := r.2, buffer := buffer }
  else if op = 0xFF then
    .finish { s with fo := s.fo ++ (ascii "Total number of keys: " ++ fmt_u s.keycount ++ ascii "\n")
                        ++ (ascii "Largest key: " ++ fmt_s s.big.str ++ ascii " with size "
                            ++ fmt_u s.big.size ++ ascii " bytes\n") }
  else
    let s1 : Walk :=
      if op = 0xFA then { s with aux := true, exp := 0, type := 0 }
      else if op = 0xFC then
        let r := fread s.fd 8
        { s with fd := r.2, exp := store s.exp r.1 / 1000 }
      else if op = 0xFD then
        let r := fread s.fd 4
        { s with fd := r.2, exp := store s.exp r.1 }
      else { s with exp := 0, type := s.buffer.b0 }
    let s2 : Walk :=
      if op = 0xFC ∨ op = 0xFD then
        let r := fread s1.fd 1
        { s1 with fd := r.2, type := r.1.headD s1.type }
      else s1
    if s2.type.val > 14 then .again s2
    else .entry { s2 with buffer := ⟨0, 0⟩ }

/-- A value decoder of the table `fptr`: it reads `aux.x` and the stream, and gives the
returned pointer and the stream afterwards; `none` when the call does not return (a null
pointer is dereferenced, memory outside a buffer is accessed, or a loop never ends). -/
abbrev Decoder := Bool → FILE → Option (Option KI × FILE)

/-- Model of the decoding of the key name and, through the table `fptr`, of the value;
`none` when the value decoder does not return. -/
def main_decode (env : Env) (fptr : Nat → Decoder) (s : Walk) :
    Option (Option KI × Option KI × Walk) :=
  match str_enc env s.aux s.fd with
  | none => none
  | some n =>
  let v := if s.type.val < 9 then fptr s.type.val s.aux n.2 else fptr (s.type.val - 2) s.aux n.2
  let k := if s.type.val < 9 then s.type.val else s.type.val - 4
  match v with
  | none => none
  | some v =>
    some (n.1, v.1, { s with fd := v.2, keyper := s.keyper.set k ((s.keyper.getD k 0 + 1) % U64) })

/-- The creation timestamp after the `ctime` test of `main`; `none` when `strtou64` is
handed a null pointer. -/
def main_ctime (s : Walk) (name : KI) (value : Option KI) : Option Nat :=
  match name.str with
  | none => some s.rdbtime
  | some nb =>
    if s.type.val = 0 ∧ nb.take 5 = ascii "ctime" then
      match value with
      | none => none
      | some v =>
        match v.str with
        | none => none
        | some vb => some (strtou64 vb 0)
    else some s.rdbtime

/-- Model of the rest of the loop body of `main` once name and value are decoded: the
`ctime` test, the expiration, `print_key_info`, the largest key, the reset of the locals. -/
def main_record (env : Env) (s : Walk) (name value : Option KI) : Step :=
  match name with
  | none => .crash
  | some name =>
    match main_ctime s name value with
    | none => .crash
    | some rdbtime =>
      let exp := if s.exp > 0 then (((s.exp : Int) - (rdbtime : Int)) % (U64 : Int)).toNat else s.exp
      let name : KI := if s.exp > 0 then { name with size := (name.size + EXP_OH) % U64 } else name
      let fo := print_key_info env (some name) value s.type.val exp s.fo
      match value with
      | none => .crash
      | some value =>
        let big : KI :=
          if (name.size + value.size) % U64 > s.big.size then
            match name.str with
            | none => s.big
            | some nb =>
              ⟨(name.size + value.size) % U64,
               some ((cstr nb).take ((cstr nb).length % U32) ++ [0])⟩
          else s.big
        .again { s with fo := fo, rdbtime := rdbtime, big := big, type := 255, exp := 0,
                        aux := false, keycount := (s.keycount + 1) % U64 }

/-- Model of one iteration of the loop of `main`, entered with the opcode in `buffer[0]`. -/
def main_iter (env : Env) (fptr : Nat → Decoder) (s : Walk) : Step :=
  match main_switch env s with
  | .again s1 => .again s1
  | .finish s1 => .finish s1
  | .entry s1 =>
    match main_decode env fptr s1 with
    | none => .crash
    | some d => main_record env d.2.2 d.1 d.2.1

/-- The locals of `main` at the head of its loop on the stream `fd` with output file `fo`,
in a run that gets there: cleared buffer, counters and timestamps, the eleven cells of
`keyper` cleared, `big = create_KI()`.  The uninitialised `type` is taken to be 0. -/
def main_locals (fd : FILE) (fo : List Byte) : Walk :=
  { fd := fd, fo := fo, buffer := ⟨0, 0⟩, type := 0, exp := 0, rdbtime := 0, aux := false,
    keycount := 0, keyper := List.replicate 11 0, big := ⟨0, none⟩ }

/-- What lies in the 8 bytes behind `keyper[10]` in the frame of `main`.  The loop
`for(i=0; i<12; i++) keyper[i] = 0;` runs `i` up to 11 on `unsigned long keyper[11]`: in
every run its twelfth pass stores 0 behind the array.  The source does not fix where the
objects of the frame lie, so the run is given what the store hits:
* `spare`: bytes the run does not read again before it writes them, or that hold 0 at that
  point (padding, `keycount`, `exp`, `rdbtime`, `cur`, `name`, `value`, `big`, `buffer`);
* `code`: the return code `rc`, set by `check_rdb_version` just before, which is 0 again;
* `counter`: the counter `i`, which is 0 again after the store, so that the loop starts
  over and never ends;
* `pointer`: a pointer the run goes through afterwards (`fd`, `fo`, an entry of `fptr`,
  the saved registers of the caller), which is null after the store, or the file size `sz`,
  by which the progress bar divides: the run ends in a fault. -/
inductive Behind where
  | spare
  | code
  | counter
  | pointer
deriving DecidableEq

/-- Model of the part of `main` between `check_rdb_version` and the loop:
`for(i=0; i<12; i++) keyper[i] = 0;`, `memset(buffer,0,BUFFERSIZE)` and `big = create_KI()`.
The result is the locals at the head of the loop; `none` when the clearing loop never ends,
`some none` when the run ends in a fault (see `Behind`). -/
def main_init (behind : Behind) (fd : FILE) (fo : List Byte) : Option (Option Walk) :=
  match behind with
  | .counter => none
  | .pointer => some none
  | .code => some (some (main_locals fd fo))
  | .spare => some (some (main_locals fd fo))

/-- The output file after a step of the walker; `none` after a crash. -/
def Step.out : Step → Option (List Byte)
  | .again s => some s.fo
  | .finish s => some s.fo
  | .crash => none

/-- The content of a local array after `fread` stored `bs` at its start; the cells after
them keep what the array held. -/
def overlay (bs old : List Byte) : List Byte := bs ++ old.drop bs.length

/-- Model of `check_magic(fd)`: the return code and the stream afterwards.  `buffer` is
what the uninitialised local array holds on entry. -/
def check_magic (buffer : List Byte) (fd : FILE) : Nat × FILE :=
  let magic : List Byte := [0x52, 0x45, 0x44, 0x49, 0x53]
  let rc := 0
  let r := fread fd 5
  let buffer := overlay r.1 buffer
  let rc := if buffer.take 5 ≠ magic then 3 else rc
  (rc, r.2)

/-- Model of `check_rdb_version(fd)`: the return code and the stream afterwards.  `buffer`
is what the uninitialised local array holds on entry. -/
def check_rdb_version (buffer : List Byte) (fd : FILE) : Nat × FILE :=
  let RDB3 : List Byte := [0x30, 0x30, 0x30, 0x37]
  let RDB4 : List Byte := [0x30, 0x30, 0x30, 0x38]
  let rc := 0
  let r := fread fd 4
  let buffer := overlay r.1 buffer
  let rc := if buffer.take 4 ≠ RDB3 ∨ buffer.take 4 ≠ RDB4 then 3 else rc
  (rc, r.2)

/-- Model of the `while` loop of `main`: each round reads the opcode byte and runs one
iteration.  The result is `none` when `fuel` rounds did not end the loop, `some none` after
a crash, and `some (some s)` when the loop was left, by the end marker or at the end of the
file, with the locals `s`.  The test `feof(fd) || ferror(fd)` at the head of the body never
fires on this stream: the opcode byte was just read, so no earlier read hit the end of the
file. -/
def main_loop (env : Env) (fptr : Nat → Decoder) : Nat → Walk → Option (Option Walk)
  | 0, _ => none
  | fuel + 1, s =>
    let r := fread s.fd 1
    match r.1.head? with
    | none => some (some s)
    | some b =>
      match main_iter env fptr { s with fd := r.2, buffer := { s.buffer with b0 := b } } with
      | .again s1 => main_loop env fptr fuel s1
      | .finish s1 => some (some s1)
      | .crash => some none

/-- How a run of `main` ends: `return rc` with the output file as written, or a crash. -/
inductive Run where
  | exit (rc : Nat) (fo : List Byte)
  | crash
deriving DecidableEq

/-- Model of `main` from the point where the arguments are parsed and both files are open:
`data` is the content of the dump, `env.full` is `args.full`, `stack` is what the
uninitialised local arrays of `check_magic` and `check_rdb_version` hold, `behind` is what
the store to `keyper[11]` hits, `fuel` bounds the rounds of the loop (`none` when it is used
up, or when the run never ends).  Text written to `stdout` and `stderr` is not part of the
model. -/
def main (env : Env) (fptr : Nat → Decoder) (stack : List Byte) (behind : Behind)
    (fuel : Nat) (data : List Byte) : Option Run :=
  let fd : FILE := ⟨data, 0⟩
  let m := check_magic stack fd
  if m.1 ≠ 0 then some (.exit m.1 [])
  else
    let v := check_rdb_version stack m.2
    let rc := if behind = .code then 0 else v.1
    match main_init behind v.2 [] with
    | none => none
    | some none => some .crash
    | some (some s0) =>
      match main_loop env fptr fuel s0 with
      | none => none
      | some none => some .crash
      | some (some s) => some (.exit rc s.fo)

/-- Whether the bytes `h` are a length field that encodes `n` in one of the forms of the
format: one byte with top bits `00`; two bytes, the first with top bits `01`; a byte with
top bits `10` other than `0x81` and four big-endian bytes; `0x81` and eight big-endian
bytes. -/
def len_header (h : List Byte) (n : Nat) : Bool :=
  match h with
  | [b] => b.val / 64 = 0 && n = b.val
  | [b, c] => b.val / 64 = 1 && n = b.val % 64 * 256 + c.val
  | [b, p0, p1, p2, p3] =>
    b.val / 64 = 2 && b.val ≠ 0x81 &&
      n = p0.val * 2 ^ 24 + p1.val * 2 ^ 16 + p2.val * 2 ^ 8 + p3.val
  | [b, p0, p1, p2, p3, p4, p5, p6, p7] =>
    b.val = 0x81 &&
      n = p0.val * 2 ^ 56 + p1.val * 2 ^ 48 + p2.val * 2 ^ 40 + p3.val * 2 ^ 32
          + p4.val * 2 ^ 24 + p5.val * 2 ^ 16 + p6.val * 2 ^ 8 + p7.val
  | _ => false

/-! ## Sorted-set decoder -/

/-- The locals of `sset_enc` that its loop carries from one member to the next: the value
being built, the scratch buffer, the stream, and whether `bytelen` holds the address of a
block that was already freed. -/
structure SSet where
  key : KI
  buffer : Buffer
  fd : FILE
  bytelen : Bool
deriving DecidableEq

/-- The value `key` of `sset_enc` after one member `ktmp` with score length `score`: the
`asprintf` of full-render mode and the size update. -/
def sset_add (env : Env) (key ktmp : KI) (score : Nat) : KI :=
  { size := (key.size + ktmp.size + 24 + score) % U64,
    str := if env.full then
        match key.str with
        | none => some (fmt_s ktmp.str ++ ascii " > " ++ fmt_u score ++ [0])
        | some ks => some (cstr ks ++ ascii ", " ++ fmt_s ktmp.str ++ ascii " > "
                            ++ fmt_u score ++ [0])
      else key.str }

/-- One pass of the loop of `sset_enc`: a member name by `str_enc`, one byte, `get_length`
of it as the score length, and, unless that length is 253, 254 or 255, as many score bytes.
The result is `none` when the pass does not complete: `str_enc` returned `NULL`, which is
dereferenced, or `free(bytelen)` is handed a block that was freed in an earlier pass.
The score block is not tested after `malloc` and is taken to be allocated. -/
def sset_member (env : Env) (aux : Bool) (s : SSet) : Option SSet :=
  match str_enc env aux s.fd with
  | none => none
  | some n =>
  match n.1 with
  | none => none
  | some ktmp =>
    let r := fread n.2 1
    let g := get_length { s.buffer with b0 := r.1.headD s.buffer.b0 } r.2
    let score := g.1
    if score = 253 ∨ score = 254 ∨ score = 255 then
      if s.bytelen then none
      else some { key := sset_add env s.key ktmp score, buffer := g.2.1, fd := g.2.2,
                  bytelen := false }
    else
      let r2 := fread g.2.2 score
      some { key := sset_add env s.key ktmp score, buffer := g.2.1, fd := r2.2,
             bytelen := true }

/-- The loop `for(i=0;i<num;i++)` of `sset_enc`, `num` passes. -/
def sset_loop (env : Env) (aux : Bool) : Nat → SSet → Option SSet
  | 0, s => some s
  | n + 1, s =>
    match sset_member env aux s with
    | none => none
    | some s1 => sset_loop env aux n s1

/-- Model of `sset_enc(fd)`.  `buffer0` is what the local `buffer`, which is not cleared,
holds on entry.  `create_KI` is not tested: when it fails the call does not return. -/
def sset_enc (env : Env) (buffer0 : Buffer) (aux : Bool) (fd : FILE) :
    Option (Option KI × FILE) :=
  let r := fread fd 1
  let g := get_length { buffer0 with b0 := r.1.headD buffer0.b0 } r.2
  if !env.canAlloc KI_SZ then none
  else
    match sset_loop env aux g.1 ⟨⟨0, none⟩, g.2.1, g.2.2, false⟩ with
    | none => none
    | some s => some (some { s.key with size := (s.key.size + 56) % U64 }, s.fd)

/-! ## Compact map and compact sorted set decoders -/

/-- Writing the bytes `bs` into the heap block `buf` from index `i` on (`memcpy`, or a run
of single stores); `none` when a cell outside the block would be written. -/
def poke (buf : List Byte) (i : Nat) (bs : List Byte) : Option (List Byte) :=
  if i + bs.length ≤ buf.length then some (buf.take i ++ bs ++ buf.drop (i + bs.length))
  else none

/-- One pass of the full-render loop of `hmzl_enc` on the blob `c`: a field entry followed
by " => ", a value entry, and ", " unless this is the last pass.  The state is `key->str`,
`offset` and `keyoff`; `none` when an entry is read outside the blob or a byte is written
outside `key->str`. -/
def hmzl_pair (env : Env) (c : List Byte) (last : Bool) (st : List Byte × Nat × Nat) :
    Option (List Byte × Nat × Nat) :=
  match get_zl_entry env (c.drop st.2.1) st.2.1 with
  | none => none
  | some e1 =>
    let a : Option (List Byte × Nat) :=
      match e1.1 with
      | none => some (st.1, st.2.2)
      | some tmp =>
        match poke st.1 st.2.2 (cstr tmp) with
        | none => none
        | some str =>
          let keyoff := (st.2.2 + (cstr tmp).length % U32) % U64
          match poke str keyoff (ascii " => ") with
          | none => none
          | some str => some (str, (keyoff + 4) % U64)
    match a with
    | none => none
    | some a =>
      match get_zl_entry env (c.drop e1.2) e1.2 with
      | none => none
      | some e2 =>
        let b : Option (List Byte × Nat) :=
          match e2.1 with
          | none => some (a.1, (a.2 + 1) % U64)
          | some tmp =>
            match poke a.1 a.2 (cstr tmp) with
            | none => none
            | some str => some (str, (a.2 + (cstr tmp).length % U32) % U64)
        match b with
        | none => none
        | some b =>
          if last then some (b.1, e2.2, b.2)
          else
            match poke b.1 b.2 (ascii ", ") with
            | none => none
            | some str => some (str, e2.2, (b.2 + 2) % U64)

/-- The loop `for(i=0;i<(num/2);i++)` of `hmzl_enc` with `n` passes left. -/
def hmzl_loop (env : Env) (c : List Byte) : Nat → List Byte × Nat × Nat →
    Option (List Byte × Nat × Nat)
  | 0, st => some st
  | n + 1, st =>
    match hmzl_pair env c (n == 0) st with
    | none => none
    | some st1 => hmzl_loop env c n st1

/-- Model of `hmzl_enc(fd)`.  The first component tells whether the error line for an odd
entry count was written to `stderr`; the second is the returned pointer and the stream, or
`none` when the call does not return: the blob pointer is `NULL` or the blob is shorter
than the 10 header bytes copied from it, an allocation that is dereferenced failed, or the
render loop left a block.  `junk i` is what cell `i` of the fresh block `key->str` holds
before it is written. -/
def hmzl_enc (env : Env) (junk : Nat → Byte) (aux : Bool) (fd : FILE) :
    Bool × Option (Option KI × FILE) :=
  match str_enc env aux fd with
  | none => (false, none)
  | some n =>
  match n.1 with
  | none => (false, some (none, n.2))
  | some ktmp =>
    match ktmp.str with
    | none => (false, none)
    | some c =>
      if c.length < 10 then (false, none)
      else
        let zlbytes := le (c.take 4)
        let num := le ((c.drop 8).take 2)
        let err : Bool := num % 2 ≠ 0
        if !env.canAlloc KI_SZ then (err, none)
        else if !env.canAlloc (zlbytes + 6 * num + 1) then (err, none)
        else
          let str0 := List.replicate (zlbytes + 6 * num / 2) 32
            ++ (List.range (6 * num - 6 * num / 2)).map
                 (fun i => junk (zlbytes + 6 * num / 2 + i))
            ++ [0]
          if env.full then
            match hmzl_loop env c (num / 2) (str0, 10, 0) with
            | none => (err, none)
            | some st => (err, some (some ⟨zlbytes, some st.1⟩, n.2))
          else (err, some (some ⟨zlbytes, some str0⟩, n.2))

/-- One pass of the full-render loop of `sszl_enc` on the blob `c`: an entry, then a comma
and a skipped cell, or the terminator on the last pass. -/
def sszl_step (env : Env) (c : List Byte) (last : Bool) (st : List Byte × Nat × Nat) :
    Option (List Byte × Nat × Nat) :=
  match get_zl_entry env (c.drop st.2.1) st.2.1 with
  | none => none
  | some e =>
    let a : Option (List Byte × Nat) :=
      match e.1 with
      | none => some (st.1, (st.2.2 + 1) % U64)
      | some tmp =>
        match poke st.1 st.2.2 (cstr tmp) with
        | none => none
        | some str => some (str, (st.2.2 + (cstr tmp).length % U32) % U64)
    match a with
    | none => none
    | some a =>
      if last then
        match poke a.1 a.2 [0] with
        | none => none
        | some str => some (str, e.2, a.2)
      else
        match poke a.1 a.2 [44] with
        | none => none
        | some str => some (str, e.2, (a.2 + 2) % U64)

/-- The loop `for(i=0;i<(num);i++)` of `sszl_enc` with `n` passes left. -/
def sszl_loop (env : Env) (c : List Byte) : Nat → List Byte × Nat × Nat →
    Option (List Byte × Nat × Nat)
  | 0, st => some st
  | n + 1, st =>
    match sszl_step env c (n == 0) st with
    | none => none
    | some st1 => sszl_loop env c n st1

/-- Model of `sszl_enc(fd)`, with the same conventions as `hmzl_enc`.  The function does
not test what `str_enc` returns, and its block `key->str` is not tested after `malloc` and
is taken to be allocated. -/
def sszl_enc (env : Env) (junk : Nat → Byte) (aux : Bool) (fd : FILE) :
    Bool × Option (Option KI × FILE) :=
  match str_enc env aux fd with
  | none => (false, none)
  | some n =>
  match n.1 with
  | none => (false, none)
  | some ktmp =>
    match ktmp.str with
    | none => (false, none)
    | some c =>
      if c.length < 10 then (false, none)
      else
        let num := le ((c.drop 8).take 2)
        let err : Bool := num % 2 ≠ 0
        if !env.canAlloc KI_SZ then (err, none)
        else
          let size := ktmp.size
          let str0 := (List.replicate (size + num * 3 * 8) 32 ++ [junk (size + num * 3 * 8)]).set
            (size + num * 3) 0
          if env.full then
            match sszl_loop env c num (str0, 10, 0) with
            | none => (err, none)
            | some st => (err, some (some ⟨size, some st.1⟩, n.2))
          else (err, some (some ⟨size, some str0⟩, n.2))

/-! ## List, set and hash decoders -/

/-- One pass of the loop of `list_enc`: the next element by `str_enc`, the size update, and
in full-render mode the text: either `"%s, %s"` by `asprintf`, or, when `key->str` is
`NULL`, a fresh block of `key->size + 1` cleared bytes into which `key->size` bytes are
copied from `tmp->str`.  The result is `none` when the pass does not complete: `str_enc`
returned `NULL`, which is dereferenced, or the copy reads outside the block of `tmp->str`. -/
def list_step (env : Env) (aux : Bool) (st : KI × FILE) : Option (KI × FILE) :=
  match str_enc env aux st.2 with
  | none => none
  | some t =>
  match t.1 with
  | none => none
  | some tmp =>
    let size := (st.1.size + tmp.size + 48) % U64
    if env.full then
      match st.1.str with
      | none =>
        match tmp.str with
        | none => none
        | some tb => if tb.length < size then none else some (⟨size, some (tb.take size ++ [0])⟩, t.2)
      | some ks =>
        some (⟨size, some (cstr ks ++ ascii ", " ++ fmt_s tmp.str ++ [0])⟩, t.2)
    else some (⟨size, st.1.str⟩, t.2)

/-- The loop `for(i=1;i<lsize;i++)` of `list_enc` with `n` passes left. -/
def list_loop (env : Env) (aux : Bool) : Nat → KI × FILE → Option (KI × FILE)
  | 0, st => some st
  | n + 1, st =>
    match list_step env aux st with
    | none => none
    | some st1 => list_loop env aux n st1

/-- Model of `list_enc(fd)`: the count by `get_length`, the first element by `str_enc` into
`key`, the other `lsize - 1` elements by the loop, and `LIST_OH`.  The result is `none` when
the call does not return (`key` is `NULL` and is dereferenced, or a pass of the loop does not
complete). -/
def list_enc (env : Env) (aux : Bool) (fd : FILE) : Option (Option KI × FILE) :=
  let r := fread fd 1
  let g := get_length ⟨r.1.headD 0, 0⟩ r.2
  match str_enc env aux g.2.2 with
  | none => none
  | some k =>
  match k.1 with
  | none => none
  | some key =>
    match list_loop env aux (g.1 - 1) (key, k.2) with
    | none => none
    | some st => some (some { st.1 with size := (st.1.size + (ULSZ + 5 * PTRSZ)) % U64 }, st.2)

/-- Model of `set_enc(fd)`, which calls `list_enc`. -/
def set_enc (env : Env) (aux : Bool) (fd : FILE) : Option (Option KI × FILE) :=
  list_enc env aux fd

/-- One pass of the loop of `hash_enc`: a field and a value by `str_enc`, 24 bytes of
overhead each, and in full-render mode the three `asprintf` texts `"%s =>"` or
`"%s, %s =>"`, then `"%s %s"`.  A `NULL` field is tolerated in size-only mode only; a `NULL`
value is dereferenced by `free(tmp->str)`. -/
def hash_pair (env : Env) (aux : Bool) (st : KI × FILE) : Option (KI × FILE) :=
  match str_enc env aux st.2 with
  | none => none
  | some t1 =>
  let size1 := match t1.1 with
    | none => st.1.size
    | some tmp => (st.1.size + tmp.size + 24) % U64
  let str1 : Option (Option (List Byte)) :=
    if env.full then
      match t1.1 with
      | none => none
      | some tmp =>
        match st.1.str with
        | none => some (some (fmt_s tmp.str ++ ascii " =>" ++ [0]))
        | some ks => some (some (cstr ks ++ ascii ", " ++ fmt_s tmp.str ++ ascii " =>" ++ [0]))
    else some st.1.str
  match str1 with
  | none => none
  | some str1 =>
    match str_enc env aux t1.2 with
    | none => none
    | some t2 =>
    match t2.1 with
    | none => none
    | some tmp =>
      some (⟨(size1 + tmp.size + 24) % U64,
             if env.full then some (fmt_s str1 ++ ascii " " ++ fmt_s tmp.str ++ [0]) else str1⟩,
            t2.2)

/-- The loop `for(i=0;i<hsize;i++)` of `hash_enc` with `n` passes left. -/
def hash_loop (env : Env) (aux : Bool) : Nat → KI × FILE → Option (KI × FILE)
  | 0, st => some st
  | n + 1, st =>
    match hash_pair env aux st with
    | none => none
    | some st1 => hash_loop env aux n st1

/-- Model of `hash_enc(fd)`.  `create_KI` is not tested: when it fails the call does not
return.  The overhead added at the end is `(56 + 32) * 6`. -/
def hash_enc (env : Env) (aux : Bool) (fd : FILE) : Option (Option KI × FILE) :=
  if !env.canAlloc KI_SZ then none
  else
    let r := fread fd 1
    let g := get_length ⟨r.1.headD 0, 0⟩ r.2
    match hash_loop env aux g.1 (⟨0, none⟩, g.2.2) with
    | none => none
    | some st => some (some { st.1 with size := (st.1.size + (56 + 32) * 6) % U64 }, st.2)

/-- The result of `n` successive calls of `str_enc` that all return a value: the values in
stream order and the stream after the last one. -/
def strings (env : Env) (aux : Bool) : Nat → FILE → Option (List KI × FILE)
  | 0, fd => some ([], fd)
  | n + 1, fd =>
    match str_enc env aux fd with
    | none => none
    | some t =>
      match t.1 with
      | none => none
      | some k =>
        match strings env aux n t.2 with
        | none => none
        | some r => some (k :: r.1, r.2)

/-- The texts `field => value` of a list of strings taken two by two. -/
def pair_texts : List (List Byte) → List (List Byte)
  | f :: v :: rest => (f ++ ascii " => " ++ v) :: pair_texts rest
  | _ => []

/-- Texts joined by a comma and a blank. -/
def join_comma : List (List Byte) → List Byte
  | [] => []
  | [t] => t
  | t :: ts => t ++ ascii ", " ++ join_comma ts

/-! ## The largest key -/

/-- The largest of the sizes of a list of records (size, name); 0 for no record. -/
def max_total (l : List (Nat × List Byte)) : Nat := (l.map Prod.fst).foldr max 0

/-- The largest key among the records `l`, stated directly: the first record in stream
order whose size is maximal, with that size; no key (a null name, size 0) while the
maximum is 0. -/
def first_max (l : List (Nat × List Byte)) : KI :=
  match l.find? (fun r => r.1 = max_total l) with
  | some r => if 0 < r.1 then ⟨r.1, some (r.2 ++ [0])⟩ else ⟨0, none⟩
  | none => ⟨0, none⟩

/-! ## Compact list, segmented list, sorted set with binary scores, integer set -/

/-- The loop of the full-render branch of `zl_enc` on the blob block `c` (`ktmp->str`), with
`size = ktmp->size`: the test reads `ktmp->str[offset]` and then compares `offset` with
`size`; each pass calls `get_zl_entry` and copies the text of a returned entry to
`key->str + keyoff`.  The state is `key->str`, `offset`, `keyoff`.  The result is `none`
when a byte outside the block `c` is read or a byte outside `key->str` is written.  Every
pass moves `offset` forward, so the `n` passes the caller allows (one more than the block
has bytes) are never used up by a run that stays inside the block. -/
def zl_loop (env : Env) (c : List Byte) (size : Nat) :
    Nat → List Byte × Nat × Nat → Option (List Byte × Nat × Nat)
  | 0, _ => none
  | n + 1, st =>
    match c.get? st.2.1 with
    | none => none
    | some b =>
      if b.val ≠ 0xFF ∧ st.2.1 < size then
        match get_zl_entry env (c.drop st.2.1) st.2.1 with
        | none => none
        | some e =>
          match e.1 with
          | none => zl_loop env c size n (st.1, e.2, st.2.2)
          | some tmp =>
            match poke st.1 st.2.2 (cstr tmp) with
            | none => none
            | some str =>
              zl_loop env c size n (str, e.2, (st.2.2 + (cstr tmp).length % U32) % U64)
      else some st

/-- Model of `zl_enc(fd)`: the blob by `str_enc`, whose size becomes the size of the value;
in full-render mode a block of `key->size` blanks closed by a NUL in its last cell, into which
the loop copies the entries from offset 10 on.  The result is `none` when the call does not
return: the blob pointer or its `str` is `NULL` and is dereferenced, `create_KI` (which is
not tested) fails, the size is 0 (the NUL is then stored in front of the block), or the loop
leaves a block.  The block `key->str` is not tested after `malloc` and is taken to be
allocated. -/
def zl_enc (env : Env) (aux : Bool) (fd : FILE) : Option (Option KI × FILE) :=
  match str_enc env aux fd with
  | none => none
  | some n =>
  match n.1 with
  | none => none
  | some ktmp =>
    if !env.canAlloc KI_SZ then none
    else if env.full then
      match ktmp.str with
      | none => none
      | some c =>
        if ktmp.size = 0 then none
        else
          match zl_loop env c ktmp.size (c.length + 1)
              (List.replicate (ktmp.size - 1) 32 ++ [0], 10, 0) with
          | none => none
          | some st => some (some ⟨ktmp.size, some st.1⟩, n.2)
    else some (some ⟨ktmp.size, none⟩, n.2)

/-- One pass of the loop of `ql_enc`: a segment by `zl_enc`, its text appended by `asprintf`
(`"%s"`, or `"%s | %s"` behind the text so far), and `QI_OH`, 48, added to the size. -/
def ql_step (env : Env) (aux : Bool) (st : KI × FILE) : Option (KI × FILE) :=
  match zl_enc env aux st.2 with
  | none => none
  | some z =>
    match z.1 with
    | none => none
    | some ktmp =>
      some (⟨(st.1.size + ((4 * 8) + 8 + (2 * 4))) % U64,
             match st.1.str with
             | none => some (fmt_s ktmp.str ++ [0])
             | some ks => some (cstr ks ++ ascii " | " ++ fmt_s ktmp.str ++ [0])⟩, z.2)

/-- The loop `for(i = 0; i < num; i++)` of `ql_enc` with `n` passes left. -/
def ql_loop (env : Env) (aux : Bool) : Nat → KI × FILE → Option (KI × FILE)
  | 0, st => some st
  | n + 1, st =>
    match ql_step env aux st with
    | none => none
    | some st1 => ql_loop env aux n st1

/-- Model of `ql_enc(fd)`: the number of segments by `get_length`, the loop, and `QL_OH`,
32.  `buffer0` is what the local `buffer`, which is not cleared, holds on entry.  The result
is `none` when the call does not return: `create_KI` (not tested) fails, a pass of the loop
does not complete, or the count does not fit the `int` counter `i`. -/
def ql_enc (env : Env) (buffer0 : Buffer) (aux : Bool) (fd : FILE) :
    Option (Option KI × FILE) :=
  let r := fread fd 1
  let g := get_length { buffer0 with b0 := r.1.headD buffer0.b0 } r.2
  if !env.canAlloc KI_SZ then none
  else if g.1 > 2147483647 then none
  else
    match ql_loop env aux g.1 (⟨0, none⟩, g.2.2) with
    | none => none
    | some st => some (some { st.1 with size := (st.1.size + ((3 * PTRSZ) + (2 * 4))) % U64 }, st.2)

/-- One pass of the loop of `sset64_enc`: a member by `str_enc`, then `fread(&score,1,8,fd)`
into the `score` that was cleared before, and the same text and size update as in
`sset_enc`, here with the value of the eight score bytes: `ktmp->size + DICT_OH + score`. -/
def sset64_member (env : Env) (aux : Bool) (st : KI × FILE) : Option (KI × FILE) :=
  match str_enc env aux st.2 with
  | none => none
  | some n =>
  match n.1 with
  | none => none
  | some ktmp =>
    let r := fread n.2 8
    let score := store 0 r.1
    some (sset_add env st.1 ktmp score, r.2)

/-- The loop `for(i=0;i<num;i++)` of `sset64_enc` with `n` passes left. -/
def sset64_loop (env : Env) (aux : Bool) : Nat → KI × FILE → Option (KI × FILE)
  | 0, st => some st
  | n + 1, st =>
    match sset64_member env aux st with
    | none => none
    | some st1 => sset64_loop env aux n st1

/-- Model of `sset64_enc(fd)`, with the conventions of `sset_enc`; `SSET_OH`, 56, is added at
the end. -/
def sset64_enc (env : Env) (buffer0 : Buffer) (aux : Bool) (fd : FILE) :
    Option (Option KI × FILE) :=
  let r := fread fd 1
  let g := get_length { buffer0 with b0 := r.1.headD buffer0.b0 } r.2
  if !env.canAlloc KI_SZ then none
  else
    match sset64_loop env aux g.1 (⟨0, none⟩, g.2.2) with
    | none => none
    | some st => some (some { st.1 with size := (st.1.size + 56) % U64 }, st.2)

/-- The text `key->str` of `is_enc` after one more integer `i`: `"%u"`, or `"%s, %u"` behind
the text so far. -/
def is_add (str : Option (List Byte)) (i : Nat) : Option (List Byte) :=
  match str with
  | none => some (fmt_u i ++ [0])
  | some ks => some (cstr ks ++ ascii ", " ++ fmt_u i ++ [0])

/-- The loop `while(offset < size)` of `is_enc` on the blob block `c` with the encoding
`type`; the state is `key->str` and the 32-bit `offset`.  In the branch of the encoding 8
the second `asprintf` stores its result in `key->str` itself, which is then freed and
replaced by the null `str`.  The result is `none` when an integer is read outside the block
or the loop does not end: each pass that stays inside the block moves `offset` forward, so
the `n` passes the caller allows (one more than the block has bytes) are used up only by a
loop that never ends. -/
def is_loop (c : List Byte) (type size : Nat) :
    Nat → Option (List Byte) × Nat → Option (Option (List Byte))
  | 0, _ => none
  | n + 1, st =>
    if st.2 < size then
      if type = 0x2 then
        match peek c st.2 2 with
        | none => none
        | some vb => is_loop c type size n (is_add st.1 (le vb), (st.2 + 2) % U32)
      else if type = 0x4 then
        match peek c st.2 4 with
        | none => none
        | some vb => is_loop c type size n (is_add st.1 (le vb), (st.2 + 4) % U32)
      else if type = 0x8 then
        match peek c st.2 8 with
        | none => none
        | some vb =>
          match st.1 with
          | none => is_loop c type size n (some (fmt_u (le vb) ++ [0]), (st.2 + 8) % U32)
          | some _ => is_loop c type size n (none, (st.2 + 8) % U32)
      else is_loop c type size n st
    else some st.1

/-- Model of `is_enc(fd)`: the blob by `str_enc`, the encoding from its bytes 0 to 3, and in
full-render mode the loop from offset 8 up to `size = tmp->size`.  The result is `none` when
the call does not return: the blob's `str` is `NULL` or shorter than the 8 bytes copied from
it, `create_KI` (not tested) fails, or the loop leaves the block or does not end. -/
def is_enc (env : Env) (aux : Bool) (fd : FILE) : Option (Option KI × FILE) :=
  match str_enc env aux fd with
  | none => none
  | some n =>
  match n.1 with
  | none => some (none, n.2)
  | some tmp =>
    match tmp.str with
    | none => none
    | some c =>
      if c.length < 8 then none
      else
        let type := le (c.take 4)
        if !env.canAlloc KI_SZ then none
        else if env.full then
          match is_loop c type tmp.size (c.length + 1) (none, 8) with
          | none => none
          | some str => some (some ⟨tmp.size, str⟩, n.2)
        else some (some ⟨tmp.size, none⟩, n.2)

end Dumpread

namespace Trie

open Dumpread (Byte FILE ascii U32 U64)

/-! ## The aggregator of `prefix.c`: text input -/

def BUFSIZE : Nat := 999
def KEY_CHAR : Nat := 66
def START_LETTER : Int := 65
def START_NUMBER : Int := 22
def START_SYM1 : Int := -3
def START_SYM2 : Int := 6
def START_SYM3 : Int := 31

/-- The characters `fgets` stores from the characters available: up to and including the
first newline. -/
def line_of : List Byte → List Byte
  | [] => []
  | b :: bs => if b.val = 10 then [b] else b :: line_of bs

/-- Model of `fgets(key, n, fd)`: the characters stored (at most `n - 1`, a newline ends
them) and the advanced stream; `none` for `NULL`, at the end of the file. -/
def fgets (fd : FILE) (n : Nat) : Option (List Byte × FILE) :=
  let line := line_of ((fd.data.drop fd.pos).take (n - 1))
  if line.isEmpty then none else some (line, { fd with pos := fd.pos + line.length })

/-- The array `key` after `memset(key,0,BUFSIZE)` and an `fgets` into it whose result is not
tested: the characters stored, all the cells after them being NUL (cell `i` is read as
`key.getD i 0`); on `NULL` the array stays cleared. -/
def read_line (fd : FILE) : List Byte × FILE :=
  match fgets fd BUFSIZE with
  | none => ([], fd)
  | some r => r

/-- Model of `toupper` on a `char` of the array, in the C locale.  A byte above 127 is a
negative `char`; it is given back as the byte's value here, which like the negative value
lies outside `'0'..'Z'`. -/
def toupper (c : Byte) : Int :=
  if 97 ≤ c.val ∧ c.val ≤ 122 then (c.val : Int) - 32 else (c.val : Int)

def isspace (b : Byte) : Bool := b.val = 32 || (9 ≤ b.val && b.val ≤ 13)

/-- The value of the leading run of decimal digits, after the digits `acc` stands for. -/
def atol_digits : List Byte → Nat → Nat
  | [], acc => acc
  | b :: bs, acc =>
    if 48 ≤ b.val ∧ b.val ≤ 57 then atol_digits bs (acc * 10 + (b.val - 48)) else acc

/-- Model of `atol` (glibc: `strtol` in base 10) on the characters of a C string: white
space, an optional sign, digits; a value outside `long` is clamped. -/
def atol (s : List Byte) : Int :=
  match s.dropWhile isspace with
  | [] => 0
  | b :: bs =>
    if b.val = 45 then
      if atol_digits bs 0 > 9223372036854775808 then -9223372036854775808
      else -(atol_digits bs 0 : Int)
    else if b.val = 43 then
      if atol_digits bs 0 ≥ 9223372036854775808 then 9223372036854775807
      else (atol_digits bs 0 : Int)
    else
      if atol_digits (b :: bs) 0 ≥ 9223372036854775808 then 9223372036854775807
      else (atol_digits (b :: bs) 0 : Int)

/-- A `long` converted to `uint64_t`. -/
def to_u64 (z : Int) : Nat := (z % 18446744073709551616).toNat

/-! ## The aggregator of `prefix.c`: the trie -/

/-- A `struct KT *`: the null pointer, a pointer cell that was never written and is not
null, or the address of a node with its fields `type`, `num`, `size`, `avgttl`, `bigttl`
and `next[]`. -/
inductive KT where
  | null : KT
  | wild : KT
  | node (type : Byte) (num size avgttl bigttl : Nat) (next : Nat → KT) : KT

/-- What `malloc` gives the `k`-th call of `create_KT`: whether it succeeds, and what the
fresh block holds in the cells `create_KT` does not write: the byte of `type`, and for a
slot `j` of `next[]` whether its pointer cell holds something other than null. -/
structure Alloc where
  ok : Nat → Bool
  type : Nat → Byte
  wild : Nat → Nat → Bool

/-- Model of `create_KT()`, the `k`-th call: `memset(tmp->next,0,KEY_CHAR)` clears 66 bytes,
that is the slots 0 to 7 (and two bytes of slot 8); `type` is not written. -/
def create_KT (mem : Alloc) (k : Nat) : KT :=
  if mem.ok k then
    .node (mem.type k) 0 0 0 0
      (fun j => if j < 8 then .null else if mem.wild k j then .wild else .null)
  else .null

/-- The `switch(upper)` on the second letter of the type label. -/
def type_code (upper : Int) : Byte :=
  if upper = 65 then 1
  else if upper = 69 then 2
  else if upper = 73 then 3
  else if upper = 78 then 4
  else if upper = 79 then 5
  else if upper = 84 then 6
  else if upper = 85 then 7
  else 0

/-- The node `tmp` after the branch of the loop that ends the key name: the count, then the
three lines that follow in the stream: the type (its letter at `key[8]`), the size and
the expiration (`atol(key+7)`). -/
def key_end (type : Byte) (num size avgttl bigttl : Nat) (next : Nat → KT) (fd : FILE) :
    KT × FILE :=
  let l1 := read_line fd
  let upper := toupper (l1.1.getD 8 0)
  let type1 : Byte :=
    if type.val ≠ 8 then
      if type.val ≠ 0 ∧ type ≠ type_code upper then 8 else type_code upper
    else type
  let l2 := read_line l1.2
  let size1 := (size + to_u64 (atol (l2.1.drop 7))) % U64
  let l3 := read_line l2.2
  let exp := to_u64 (atol (l3.1.drop 7))
  (.node type1 ((num + 1) % U32) size1 ((avgttl + exp) % U64)
      (if exp > bigttl then exp else bigttl) next, l3.2)

/-- The child slot the `else` branch of the loop computes from `upper`. -/
def key_slot (upper : Int) : Int :=
  if upper > 90 then upper - START_SYM3
  else if upper < 48 then upper - START_SYM1
  else if upper > 57 ∧ upper < 65 then upper - START_SYM2
  else if upper ≥ 48 ∧ upper ≤ 57 then upper - START_NUMBER
  else upper - START_LETTER

/-- The loop `for(i=7;i<BUFSIZE;i++)` of `main` from index `i` on, with the pointer `tmp`;
`n` bounds the passes that are left (the loop ends at `i = 16` at the latest).  `k` counts
the calls of `create_KT`.  The result is the node `tmp` pointed to as the loop leaves it,
the counter and the stream; `none` when a pointer that is not the address of a node is
dereferenced. -/
def key_loop (mem : Alloc) (key : List Byte) :
    Nat → Nat → KT → Nat → FILE → Option (KT × Nat × FILE)
  | 0, _, _, _, _ => none
  | n + 1, i, tmp, k, fd =>
    match tmp with
    | .null => none
    | .wild => none
    | .node type num size avgttl bigttl next =>
      let upper := toupper (key.getD i 0)
      if upper > 90 ∨ upper < 48 ∨ (upper > 57 ∧ upper < 65) ∨ i = 16 then
        let r := key_end type num size avgttl bigttl next fd
        some (r.1, k, r.2)
      else
        let slot := (key_slot upper).toNat
        match next slot with
        | .null =>
          if mem.ok k then
            match key_loop mem key n (i + 1) (create_KT mem k) (k + 1) fd with
            | none => none
            | some r =>
              some (.node type num size avgttl bigttl
                      (fun j => if j = slot then r.1 else next j), r.2.1, r.2.2)
          else some (.node type num size avgttl bigttl next, k + 1, fd)
        | child =>
          match key_loop mem key n (i + 1) child k fd with
          | none => none
          | some r =>
            some (.node type num size avgttl bigttl
                    (fun j => if j = slot then r.1 else next j), r.2.1, r.2.2)

/-- The loop `while(fgets(key,BUFSIZE,fd) != NULL)` of `main` on the trie `tr`.  The outer
`none` is a loop that has not ended after `fuel` lines, the inner one a run that does not
get to its end (see `key_loop`). -/
def main_loop (mem : Alloc) : Nat → KT → Nat → FILE → Option (Option (KT × Nat × FILE))
  | 0, _, _, _ => none
  | fuel + 1, tr, k, fd =>
    match fgets fd BUFSIZE with
    | none => some (some (tr, k, fd))
    | some l =>
      if l.1.getD 0 0 = 75 ∧ l.1.getD 1 0 = 101 ∧ l.1.getD 2 0 = 121 then
        match key_loop mem l.1 10 7 tr k l.2 with
        | none => some none
        | some r => main_loop mem fuel r.1 r.2.1 r.2.2
      else main_loop mem fuel tr k l.2

/-- The node reached from `t` along the child slots `path`; null when there is none. -/
def KT.get : KT → List Nat → KT
  | t, [] => t
  | .node _ _ _ _ _ next, s :: p => (next s).get p
  | _, _ :: _ => .null

/-- The counters of a node: count, total size, ttl sum, largest ttl; zeros for a pointer
that is not the address of a node. -/
def KT.stats : KT → Nat × Nat × Nat × Nat
  | .node _ num size avgttl bigttl _ => (num, size, avgttl, bigttl)
  | _ => (0, 0, 0, 0)

/-- The `type` field of a node. -/
def KT.type : KT → Option Byte
  | .node type _ _ _ _ _ => some type
  | _ => none

def KT.isWild : KT → Bool
  | .wild => true
  | _ => false

/-- The child slots the loop `for(i=7;i<BUFSIZE;i++)` follows from index `i` on for the
line `key`, until the character that ends the key name (`n` as in `key_loop`). -/
def key_path (key : List Byte) : Nat → Nat → List Nat
  | 0, _ => []
  | n + 1, i =>
    if toupper (key.getD i 0) > 90 ∨ toupper (key.getD i 0) < 48
        ∨ (toupper (key.getD i 0) > 57 ∧ toupper (key.getD i 0) < 65) ∨ i = 16 then []
    else (key_slot (toupper (key.getD i 0))).toNat :: key_path key n (i + 1)

/-- The type code `key_end` reads from the first of its three lines. -/
def rec_type (fd : FILE) : Byte := type_code (toupper ((read_line fd).1.getD 8 0))

/-- The size `key_end` reads from the second of its three lines. -/
def rec_size (fd : FILE) : Nat := to_u64 (atol ((read_line (read_line fd).2).1.drop 7))

/-- The expiration `key_end` reads from the third of its three lines. -/
def rec_exp (fd : FILE) : Nat :=
  to_u64 (atol ((read_line (read_line (read_line fd).2).2).1.drop 7))

/-- The stream after the three lines `key_end` reads. -/
def rec_fd (fd : FILE) : FILE := (read_line (read_line (read_line fd).2).2).2

/-- The `type` field after the type code `c` is merged into a node of type `old`. -/
def merge_type (old c : Byte) : Byte :=
  if old.val ≠ 8 then (if old.val ≠ 0 ∧ old ≠ c then 8 else c) else old

/-- The counters of a node after a record of size `s` and expiration `e` ended at it. -/
def bump (st : Nat × Nat × Nat × Nat) (s e : Nat) : Nat × Nat × Nat × Nat :=
  ((st.1 + 1) % U32, (st.2.1 + s) % U64, (st.2.2.1 + e) % U64,
    if e > st.2.2.2 then e else st.2.2.2)

/-! ## The terminal node of a key name, stated directly

`recognized` and `name_path` follow the words of the specification (the classification of
the 66-symbol alphabet); `letter_or_digit` and `alnum_path` state the path the key loop
follows, which `key_path` computes with the test of the source. -/

/-- A character code of the 66-symbol alphabet of the trie, after uppercasing: an upper-case
letter, a digit, or a punctuation character of one of the three bands `!`..`/`, `:`..`@`
and `[`..`\x60`. -/
def recognized (u : Int) : Bool :=
  (65 ≤ u && u ≤ 90) || (48 ≤ u && u ≤ 57) || (33 ≤ u && u ≤ 47) || (58 ≤ u && u ≤ 64)
    || (91 ≤ u && u ≤ 96)

/-- The path of the terminal node of a key name as the alphabet of the trie has it: the
child slots of the uppercased longest leading run of characters of the 66-symbol alphabet
of the name, cut to 9 characters. -/
def name_path (name : List Byte) : List Nat :=
  (((name.map toupper).takeWhile recognized).take 9).map (fun u => (key_slot u).toNat)

/-- A character code the key loop descends on: a digit or an upper-case letter. -/
def letter_or_digit (u : Int) : Bool := (48 ≤ u && u ≤ 57) || (65 ≤ u && u ≤ 90)

/-- The path of the uppercased longest leading run of letters and digits of a key name, cut
to 9 characters. -/
def alnum_path (name : List Byte) : List Nat :=
  (((name.map toupper).takeWhile letter_or_digit).take 9).map (fun u => (key_slot u).toNat)

/-! ## The aggregator of `prefix.c`: the table -/

def KT.isNull : KT → Bool
  | .null => true
  | _ => false

/-- The character `print_full_analysis` appends to the name for the child slot `i`. -/
def slot_char (i : Nat) : Byte :=
  if i > 25 ∧ i ≤ 35 then Fin.ofNat ((START_NUMBER + (i : Int)) % 256).toNat
  else if i > 35 ∧ i ≤ 51 then Fin.ofNat ((START_SYM1 + (i : Int)) % 256).toNat
  else if i > 51 ∧ i ≤ 59 then Fin.ofNat ((START_SYM2 + (i : Int)) % 256).toNat
  else if i > 59 then Fin.ofNat ((START_SYM3 + (i : Int)) % 256).toNat
  else Fin.ofNat ((START_LETTER + (i : Int)) % 256).toNat

/-- A field printed left-justified in at least `w` columns (`%-w`). -/
def pad_right (w : Nat) (s : List Byte) : List Byte := s ++ List.replicate (w - s.length) 32

/-- The type column of a line of the table (`pretty`), between its two bars. -/
def type_column (type : Byte) : List Byte :=
  if type.val = 1 then ascii "    Hash    "
  else if type.val = 2 then ascii "    Set     "
  else if type.val = 3 then ascii "    List    "
  else if type.val = 4 then ascii "   Intset   "
  else if type.val = 5 then ascii " Sorted Set "
  else if type.val = 6 then ascii "   String   "
  else if type.val = 7 then ascii " Quicklist  "
  else if type.val = 8 then ascii "   Multi    "
  else ascii "    N/A     "

/-- The type field of a line of the short output. -/
def type_word (type : Byte) : List Byte :=
  if type.val = 1 then ascii "Hash"
  else if type.val = 2 then ascii "Set"
  else if type.val = 3 then ascii "List"
  else if type.val = 4 then ascii "Intset"
  else if type.val = 5 then ascii "Sorted Set"
  else if type.val = 6 then ascii "String"
  else if type.val = 7 then ascii "Quicklist"
  else if type.val = 8 then ascii "Multi"
  else ascii "N/A"

/-- The line `print_full_analysis` prints for a node with `num > 0`: the nine `printf` of
each mode differ in the type field only.  `%-30.30s` prints at most 30 characters of the
name, left-justified in 30 columns; the average ttl is `avgttl/num`. -/
def analysis_line (pretty : Bool) (name : List Byte) (type : Byte)
    (num size avgttl bigttl : Nat) : List Byte :=
  if pretty then
    ascii "| " ++ pad_right 30 (name.take 30) ++ ascii " |" ++ type_column type ++ ascii "| "
      ++ pad_right 16 (Dumpread.fmt_u num) ++ ascii " | "
      ++ pad_right 18 (Dumpread.fmt_u size) ++ ascii " | "
      ++ pad_right 21 (Dumpread.fmt_u (avgttl / num)) ++ ascii " | "
      ++ pad_right 21 (Dumpread.fmt_u bigttl) ++ ascii " |\n"
  else
    name ++ ascii "," ++ type_word type ++ ascii "," ++ Dumpread.fmt_u num ++ ascii ","
      ++ Dumpread.fmt_u size ++ ascii "," ++ Dumpread.fmt_u (avgttl / num) ++ ascii ","
      ++ Dumpread.fmt_u bigttl ++ ascii "\n"

/-- Model of `print_full_analysis(tr, name, sz)`: the text it prints; `none` when a pointer
that is not the address of a node is dereferenced.  `name` is the text of the C string
(`none` for `NULL`), `sz` the size of its buffer; `snprintf(nn,sz+1,...)` stores at most
`sz` characters of the name and the character of the slot (no slot has the character
NUL).  The buffers `malloc` returns are taken to be there. -/
def print_full_analysis (pretty : Bool) : KT → Option (List Byte) → Nat → Option (List Byte)
  | .null, _, _ => none
  | .wild, _, _ => none
  | .node type num size avgttl bigttl next, name, sz =>
    let name1 : List Byte := match name with
      | none => []
      | some s => s
    let sz1 : Nat := match name with
      | none => 1
      | some _ => sz
    let line := if num > 0 then analysis_line pretty name1 type num size avgttl bigttl else []
    (List.range KEY_CHAR).foldl
      (fun acc i =>
        match acc with
        | none => none
        | some out =>
          if (next i).isNull then some out
          else
            match print_full_analysis pretty (next i)
                (some ((name1 ++ [slot_char i]).take sz1)) (sz1 + 1) with
            | none => none
            | some o => some (out ++ o))
      (some line)

/-- Sum of the counts of the nodes of a trie, over the 66 slots of each `next[]`. -/
def KT.count : KT → Nat
  | .node _ num _ _ _ next => num + ((List.range KEY_CHAR).map (fun j => (next j).count)).sum
  | _ => 0

/-- Sum of the total sizes of the nodes of a trie. -/
def KT.total : KT → Nat
  | .node _ _ size _ _ next => size + ((List.range KEY_CHAR).map (fun j => (next j).total)).sum
  | _ => 0

/-- The nodes of a trie in depth-first order, a node before its children and the children
in slot order, each with the string of the characters along its path behind `label`. -/
def KT.preorder : KT → List Byte → List (List Byte × Byte × Nat × Nat × Nat × Nat)
  | .node type num size avgttl bigttl next, label =>
    (label, type, num, size, avgttl, bigttl)
      :: ((List.range KEY_CHAR).map (fun i => (next i).preorder (label ++ [slot_char i]))).flatten
  | _, _ => []

/-! ## A report as a sequence of records, stated directly -/

/-- A record of the report: key name, type tag, total size, expiration, and the rendered
value full-render mode prints. -/
structure Record where
  name : List Byte
  type : Nat
  size : Nat
  exp : Nat
  value : List Byte

/-- The text of the records `rs`, one after the other. -/
def report (full : Bool) (rs : List Record) : List Byte :=
  (rs.map (fun r => Dumpread.report_record full r.name (Dumpread.type_label r.type) r.size
    r.exp r.value)).flatten

/-- A record whose fields are within what one line and one `atol` of the aggregator take:
a name without newline of at most 990 bytes, size and expiration below `2^63`, and in
full-render mode a value without newline of at most 990 bytes. -/
def Record.fits (full : Bool) (r : Record) : Prop :=
  (∀ x ∈ r.name, x.val ≠ 10) ∧ r.name.length ≤ 990 ∧ r.size < 9223372036854775808 ∧
  r.exp < 9223372036854775808 ∧
  (full = true → (∀ x ∈ r.value, x.val ≠ 10) ∧ r.value.length ≤ 990)

/-! ## The type code of a label -/

/-- The type code the aggregator takes from the `Type` line the report emitter writes for
the type tag `t`: the `switch` on the upper-case form of the second letter of the label. -/
def label_code (t : Nat) : Byte :=
  type_code (toupper ((ascii "Type : " ++ Dumpread.type_label t ++ [10]).getD 8 0))

end Trie

namespace Dumpread

/-! ## Auxiliary facts about masks, shifts and streams -/

theorem and_mask (x k : Nat) : x &&& (255 <<< k) = (x >>> k % 256) <<< k := by
  apply Nat.eq_of_testBit_eq
  intro i
  have h255 : (255 : Nat) = 2 ^ 8 - 1 := by norm_num
  have h256 : (256 : Nat) = 2 ^ 8 := by norm_num
  rw [h255, h256]
  simp only [Nat.testBit_and, Nat.testBit_shiftLeft, Nat.testBit_two_pow_sub_one,
    Nat.testBit_mod_two_pow, Nat.testBit_shiftRight]
  by_cases h : k ≤ i
  · have e : k + (i - k) = i := by omega
    simp [h, e, Bool.and_comm]
  · simp [h]

theorem or_eq_add (k a b : Nat) (h : b < 2 ^ k) : (a * 2 ^ k) ||| b = a * 2 ^ k + b := by
  rw [Nat.mul_comm]; exact (Nat.mul_add_lt_is_or h a).symm

theorem or_eq_lit (k a b m : Nat) (hm : m = 2 ^ k) (h : b < m) : (a * m) ||| b = a * m + b := by
  subst hm; exact or_eq_add k a b h

theorem mask_extract (lo x hi k m p : Nat) (hp : p = 2 ^ k) (hm : m = 255 * p) (hlo : lo < p)
    (hx : x < 256) : (lo + p * (x + 256 * hi)) &&& m = x * p := by
  subst hp hm
  have h1 : 255 * 2 ^ k = 255 <<< k := by rw [Nat.shiftLeft_eq]
  rw [h1, and_mask, Nat.shiftRight_eq_div_pow, Nat.shiftLeft_eq]
  have hpos : 0 < 2 ^ k := Nat.two_pow_pos k
  rw [Nat.add_mul_div_left _ _ hpos, Nat.div_eq_of_lt hlo, Nat.zero_add, Nat.add_mul_mod_self_left,
    Nat.mod_eq_of_lt hx]

theorem swap32_eq (a b c d : Nat) (ha : a < 256) (hb : b < 256) (hc : c < 256) (hd : d < 256) :
    swap32 (a + 256 * (b + 256 * (c + 256 * (d)))) = a * 16777216 + b * 65536 + c * 256 + d := by
  generalize hv : a + 256 * (b + 256 * (c + 256 * (d))) = v
  have m0 : v &&& 255 = a * 1 := by
    have hv2 : v = (0) + 1 * (a + 256 * (b + 256 * (c + 256 * (d)))) := by omega
    rw [hv2]; exact mask_extract _ a _ 0 _ _ (by norm_num) (by norm_num) (by omega) ha
  have m1 : v &&& 65280 = b * 256 := by
    have hv2 : v = (a * 1) + 256 * (b + 256 * (c + 256 * (d))) := by omega
    rw [hv2]; exact mask_extract _ b _ 8 _ _ (by norm_num) (by norm_num) (by omega) hb
  have m2 : v &&& 16711680 = c * 65536 := by
    have hv2 : v = (a * 1 + b * 256) + 65536 * (c + 256 * (d)) := by omega
    rw [hv2]; exact mask_extract _ c _ 16 _ _ (by norm_num) (by norm_num) (by omega) hc
  have m3 : v &&& 4278190080 = d * 16777216 := by
    have hv2 : v = (a * 1 + b * 256 + c * 65536) + 16777216 * (d + 256 * (0)) := by omega
    rw [hv2]; exact mask_extract _ d _ 24 _ _ (by norm_num) (by norm_num) (by omega) hd
  unfold swap32 U32
  simp only [m0, m1, m2, m3, Nat.shiftLeft_eq, Nat.shiftRight_eq_div_pow, Nat.zero_or, Nat.reducePow]
  clear hv m0 m1 m2 m3
  have e0 : a * 1 * 16777216 % 4294967296 = a * 16777216 := by omega
  have e1 : b * 256 * 256 % 4294967296 = b * 65536 := by omega
  have e2 : c * 65536 / 256 = c * 256 := by omega
  have e3 : d * 16777216 / 16777216 = d * 1 := by omega
  rw [e0, e1, e2, e3]
  clear e0 e1 e2 e3
  have f0 : a * 16777216 = (a * 1) * 16777216 := by omega
  rw [f0, or_eq_lit 24 _ (b * 65536) 16777216 (by norm_num) (by omega)]
  rw [← f0]; clear f0
  have f1 : a * 16777216 + b * 65536 = (a * 256 + b * 1) * 65536 := by omega
  rw [f1, or_eq_lit 16 _ (c * 256) 65536 (by norm_num) (by omega)]
  rw [← f1]; clear f1
  have f2 : a * 16777216 + b * 65536 + c * 256 = (a * 65536 + b * 256 + c * 1) * 256 := by omega
  rw [f2, or_eq_lit 8 _ (d * 1) 256 (by norm_num) (by omega)]
  rw [← f2]; clear f2
  omega

theorem swap64_eq (a b c d e f g h : Nat) (ha : a < 256) (hb : b < 256) (hc : c < 256) (hd : d < 256) (he : e < 256) (hf : f < 256) (hg : g < 256) (hh : h < 256) :
    swap64 (a + 256 * (b + 256 * (c + 256 * (d + 256 * (e + 256 * (f + 256 * (g + 256 * (h)))))))) = a * 72057594037927936 + b * 281474976710656 + c * 1099511627776 + d * 4294967296 + e * 16777216 + f * 65536 + g * 256 + h := by
  generalize hv : a + 256 * (b + 256 * (c + 256 * (d + 256 * (e + 256 * (f + 256 * (g + 256 * (h))))))) = v
  have m0 : v &&& 255 = a * 1 := by
    have hv2 : v = (0) + 1 * (a + 256 * (b + 256 * (c + 256 * (d + 256 * (e + 256 * (f + 256 * (g + 256 * (h)))))))) := by omega
    rw [hv2]; exact mask_extract _ a _ 0 _ _ (by norm_num) (by norm_num) (by omega) ha
  have m1 : v &&& 65280 = b * 256 := by
    have hv2 : v = (a * 1) + 256 * (b + 256 * (c + 256 * (d + 256 * (e + 256 * (f + 256 * (g + 256 * (h))))))) := by omega
    rw [hv2]; exact mask_extract _ b _ 8 _ _ (by norm_num) (by norm_num) (by omega) hb
  have m2 : v &&& 16711680 = c * 65536 := by
    have hv2 : v = (a * 1 + b * 256) + 65536 * (c + 256 * (d + 256 * (e + 256 * (f + 256 * (g + 256 * (h)))))) := by omega
    rw [hv2]; exact mask_extract _ c _ 16 _ _ (by norm_num) (by norm_num) (by omega) hc
  have m3 : v &&& 4278190080 = d * 16777216 := by
    have hv2 : v = (a * 1 + b * 256 + c * 65536) + 16777216 * (d + 256 * (e + 256 * (f + 256 * (g + 256 * (h))))) := by omega
    rw [hv2]; exact mask_extract _ d _ 24 _ _ (by norm_num) (by norm_num) (by omega) hd
  have m4 : v &&& 1095216660480 = e * 4294967296 := by
    have hv2 : v = (a * 1 + b * 256 + c * 65536 + d * 16777216) + 4294967296 * (e + 256 * (f + 256 * (g + 256 * (h)))) := by omega
    rw [hv2]; exact mask_extract _ e _ 32 _ _ (by norm_num) (by norm_num) (by omega) he
  have m5 : v &&& 280375465082880 = f * 1099511627776 := by
    have hv2 : v = (a * 1 + b * 256 + c * 65536 + d * 16777216 + e * 4294967296) + 1099511627776 * (f + 256 * (g + 256 * (h))) := by omega
    rw [hv2]; exact mask_extract _ f _ 40 _ _ (by norm_num) (by norm_num) (by omega) hf
  have m6 : v &&& 71776119061217280 = g * 281474976710656 := by
    have hv2 : v = (a * 1 + b * 256 + c * 65536 + d * 16777216 + e * 4294967296 + f * 1099511627776) + 281474976710656 * (g + 256 * (h)) := by omega
    rw [hv2]; exact mask_extract _ g _ 48 _ _ (by norm_num) (by norm_num) (by omega) hg
  have m7 : v &&& 18374686479671623680 = h * 72057594037927936 := by
    have hv2 : v = (a * 1 + b * 256 + c * 65536 + d * 16777216 + e * 4294967296 + f * 1099511627776 + g * 281474976710656) + 72057594037927936 * (h + 256 * (0)) := by omega
    rw [hv2]; exact mask_extract _ h _ 56 _ _ (by norm_num) (by norm_num) (by omega) hh
  unfold swap64 U64
  simp only [m0, m1, m2, m3, m4, m5, m6, m7, Nat.shiftLeft_eq, Nat.shiftRight_eq_div_pow, Nat.zero_or, Nat.reducePow]
  clear hv m0 m1 m2 m3 m4 m5 m6 m7
  have e0 : a * 1 * 72057594037927936 % 18446744073709551616 = a * 72057594037927936 := by omega
  have e1 : b * 256 * 1099511627776 % 18446744073709551616 = b * 281474976710656 := by omega
  have e2 : c * 65536 * 16777216 % 18446744073709551616 = c * 1099511627776 := by omega
  have e3 : d * 16777216 * 256 % 18446744073709551616 = d * 4294967296 := by omega
  have e4 : e * 4294967296 / 256 = e * 16777216 := by omega
  have e5 : f * 1099511627776 / 16777216 = f * 65536 := by omega
  have e6 : g * 281474976710656 / 1099511627776 = g * 256 := by omega
  have e7 : h * 72057594037927936 / 72057594037927936 = h * 1 := by omega
  rw [e0, e1, e2, e3, e4, e5, e6, e7]
  clear e0 e1 e2 e3 e4 e5 e6 e7
  have f0 : a * 72057594037927936 = (a * 1) * 72057594037927936 := by omega
  rw [f0, or_eq_lit 56 _ (b * 281474976710656) 72057594037927936 (by norm_num) (by omega)]
  rw [← f0]; clear f0
  have f1 : a * 72057594037927936 + b * 281474976710656 = (a * 256 + b * 1) * 281474976710656 := by omega
  rw [f1, or_eq_lit 48 _ (c * 1099511627776) 281474976710656 (by norm_num) (by omega)]
  rw [← f1]; clear f1
  have f2 : a * 72057594037927936 + b * 281474976710656 + c * 1099511627776 = (a * 65536 + b * 256 + c * 1) * 1099511627776 := by omega
  rw [f2, or_eq_lit 40 _ (d * 4294967296) 1099511627776 (by norm_num) (by omega)]
  rw [← f2]; clear f2
  have f3 : a * 72057594037927936 + b * 281474976710656 + c * 1099511627776 + d * 4294967296 = (a * 16777216 + b * 65536 + c * 256 + d * 1) * 4294967296 := by omega
  rw [f3, or_eq_lit 32 _ (e * 16777216) 4294967296 (by norm_num) (by omega)]
  rw [← f3]; clear f3
  have f4 : a * 72057594037927936 + b * 281474976710656 + c * 1099511627776 + d * 4294967296 + e * 16777216 = (a * 4294967296 + b * 16777216 + c * 65536 + d * 256 + e * 1) * 16777216 := by omega
  rw [f4, or_eq_lit 24 _ (f * 65536) 16777216 (by norm_num) (by omega)]
  rw [← f4]; clear f4
  have f5 : a * 72057594037927936 + b * 281474976710656 + c * 1099511627776 + d * 4294967296 + e * 16777216 + f * 65536 = (a * 1099511627776 + b * 4294967296 + c * 16777216 + d * 65536 + e * 256 + f * 1) * 65536 := by omega
  rw [f5, or_eq_lit 16 _ (g * 256) 65536 (by norm_num) (by omega)]
  rw [← f5]; clear f5
  have f6 : a * 72057594037927936 + b * 281474976710656 + c * 1099511627776 + d * 4294967296 + e * 16777216 + f * 65536 + g * 256 = (a * 281474976710656 + b * 1099511627776 + c * 4294967296 + d * 16777216 + e * 65536 + f * 256 + g * 1) * 256 := by omega
  rw [f6, or_eq_lit 8 _ (h * 1) 256 (by norm_num) (by omega)]
  rw [← f6]; clear f6
  omega

theorem fread_of_drop (fd : FILE) (n : Nat) (bs rest : List Byte)
    (h : fd.data.drop fd.pos = bs ++ rest) (hn : bs.length = n) :
    fread fd n = (bs, { fd with pos := fd.pos + n }) := by
  unfold fread
  simp only [h]
  subst hn
  simp

set_option maxRecDepth 100000 in
theorem top_bits_cases (b : Byte) :
    (b.val &&& 0xC0 = 0x00 → b.val ≠ 0x80 ∧ b.val ≠ 0x81) ∧
    (b.val &&& 0xC0 = 0x40 → b.val ≠ 0x80 ∧ b.val ≠ 0x81) ∧
    (b.val &&& 0xC0 = 0xC0 → b.val ≠ 0x80 ∧ b.val ≠ 0x81) := by
  revert b; decide

theorem le4 (p0 p1 p2 p3 : Byte) :
    le [p0, p1, p2, p3] = p0.val + 256 * (p1.val + 256 * (p2.val + 256 * p3.val)) := by
  simp [le]

theorem le8 (p0 p1 p2 p3 p4 p5 p6 p7 : Byte) :
    le [p0, p1, p2, p3, p4, p5, p6, p7] = p0.val + 256 * (p1.val + 256 * (p2.val + 256 *
      (p3.val + 256 * (p4.val + 256 * (p5.val + 256 * (p6.val + 256 * p7.val)))))) := by
  simp [le]

/-! ## The length codec -/

/-- C1: for a first byte `b` with top bits `00`, `get_length` returns `b & 0x3F` and leaves
the stream where it was; for a first byte with top bits `01` and next stream byte `c`, it
returns `((b & 0x3F) << 8) | c`, a value below 16384, and advances the stream by exactly
that one byte (which it also stores in `buffer[1]`). -/
theorem get_length_short_forms (b b1 : Byte) (fd : FILE) :
    (b.val &&& 0xC0 = 0x00 →
      get_length ⟨b, b1⟩ fd = (b.val &&& 0x3F, ⟨b, b1⟩, fd)) ∧
    (b.val &&& 0xC0 = 0x40 → ∀ (c : Byte) (rest : List Byte),
      fd.data.drop fd.pos = c :: rest →
      get_length ⟨b, b1⟩ fd
          = (((b.val &&& 0x3F) <<< 8) ||| c.val, ⟨b, c⟩, { fd with pos := fd.pos + 1 }) ∧
        ((b.val &&& 0x3F) <<< 8) ||| c.val < 16384) := by
  constructor
  · intro h
    obtain ⟨h80, h81⟩ := (top_bits_cases b).1 h
    simp [get_length, h80, h81, h, MASK]
  · intro h c rest hd
    obtain ⟨h80, h81⟩ := (top_bits_cases b).2.1 h
    have hr := fread_of_drop fd 1 [c] rest (by simpa using hd) rfl
    constructor
    · simp [get_length, h80, h81, h, MASK, hr]
    · have hx : b.val &&& 0x3F ≤ 63 := Nat.and_le_right
      rw [Nat.shiftLeft_eq, or_eq_add 8 _ _ (by have := c.isLt; omega)]
      have := c.isLt
      omega

/-- The theorem `get_length_short_forms` at the bytes `0x2A` and `0x41 0x02`. -/
theorem get_length_short_forms_witness :
    get_length ⟨0x2A, 0⟩ ⟨[0x2A, 7], 1⟩ = (42, ⟨0x2A, 0⟩, ⟨[0x2A, 7], 1⟩) ∧
    get_length ⟨0x41, 0⟩ ⟨[0x41, 2, 9], 1⟩ = (258, ⟨0x41, 2⟩, ⟨[0x41, 2, 9], 2⟩) :=
  ⟨(get_length_short_forms 0x2A 0 ⟨[0x2A, 7], 1⟩).1 (by decide),
   ((get_length_short_forms 0x41 0 ⟨[0x41, 2, 9], 1⟩).2 (by decide) 2 [9] (by decide)).1⟩

/-- C2: for a first byte `b` with top bits `10`: when `b = 0x81`, `get_length` returns the
next 8 stream bytes read as a big-endian unsigned 64-bit integer and advances the stream by
exactly 8 bytes; otherwise (`b = 0x80` included) it returns the next 4 stream bytes read as
a big-endian unsigned 32-bit integer and advances by exactly 4 bytes, a result in which the
low 6 bits of `b` do not occur.  The payloads 0, 1 and all-ones give 0, 1 and `2^32 - 1`
(resp. `2^64 - 1`). -/
theorem get_length_long_forms (b b1 : Byte) (fd : FILE) (hb : b.val &&& 0xC0 = 0x80) :
    (b.val = 0x81 → ∀ (p0 p1 p2 p3 p4 p5 p6 p7 : Byte) (rest : List Byte),
      fd.data.drop fd.pos = p0 :: p1 :: p2 :: p3 :: p4 :: p5 :: p6 :: p7 :: rest →
      get_length ⟨b, b1⟩ fd
        = (p0.val * 2 ^ 56 + p1.val * 2 ^ 48 + p2.val * 2 ^ 40 + p3.val * 2 ^ 32
            + p4.val * 2 ^ 24 + p5.val * 2 ^ 16 + p6.val * 2 ^ 8 + p7.val,
           ⟨b, b1⟩, { fd with pos := fd.pos + 8 })) ∧
    (b.val ≠ 0x81 → ∀ (p0 p1 p2 p3 : Byte) (rest : List Byte),
      fd.data.drop fd.pos = p0 :: p1 :: p2 :: p3 :: rest →
      get_length ⟨b, b1⟩ fd
        = (p0.val * 2 ^ 24 + p1.val * 2 ^ 16 + p2.val * 2 ^ 8 + p3.val,
           ⟨b, b1⟩, { fd with pos := fd.pos + 4 })) := by
  refine ⟨?_, ?_⟩
  · intro h81 p0 p1 p2 p3 p4 p5 p6 p7 rest hd
    have hr := fread_of_drop fd 8 [p0, p1, p2, p3, p4, p5, p6, p7] rest (by simpa using hd) rfl
    have h80 : b.val ≠ 0x80 := by omega
    have hs := swap64_eq p0.val p1.val p2.val p3.val p4.val p5.val p6.val p7.val
      p0.isLt p1.isLt p2.isLt p3.isLt p4.isLt p5.isLt p6.isLt p7.isLt
    simp only [get_length, h80, h81, if_true, if_false, hr, le8, hs]
    norm_num
  · intro h81 p0 p1 p2 p3 rest hd
    have hr := fread_of_drop fd 4 [p0, p1, p2, p3] rest (by simpa using hd) rfl
    have hs := swap32_eq p0.val p1.val p2.val p3.val p0.isLt p1.isLt p2.isLt p3.isLt
    by_cases h80 : b.val = 0x80
    · simp only [get_length, h80, if_true, hr, le4, hs]
      norm_num
    · simp only [get_length, h80, h81, hb, if_true, if_false, hr, le4, hs]
      norm_num

/-- The theorem `get_length_long_forms` at the escape bytes `0x80` and `0x81` (and at `0xBF`,
whose low six bits are all set) with the payloads 0, 1 and all-ones. -/
theorem get_length_long_forms_witness :
    get_length ⟨0x80, 0⟩ ⟨[0, 0, 0, 0], 0⟩ = (0, ⟨0x80, 0⟩, ⟨[0, 0, 0, 0], 4⟩) ∧
    get_length ⟨0x80, 0⟩ ⟨[0, 0, 0, 1], 0⟩ = (1, ⟨0x80, 0⟩, ⟨[0, 0, 0, 1], 4⟩) ∧
    get_length ⟨0x80, 0⟩ ⟨[255, 255, 255, 255], 0⟩
      = (2 ^ 32 - 1, ⟨0x80, 0⟩, ⟨[255, 255, 255, 255], 4⟩) ∧
    get_length ⟨0xBF, 0⟩ ⟨[0, 0, 1, 0, 7], 0⟩ = (256, ⟨0xBF, 0⟩, ⟨[0, 0, 1, 0, 7], 4⟩) ∧
    get_length ⟨0x81, 0⟩ ⟨[0, 0, 0, 0, 0, 0, 0, 0], 0⟩
      = (0, ⟨0x81, 0⟩, ⟨[0, 0, 0, 0, 0, 0, 0, 0], 8⟩) ∧
    get_length ⟨0x81, 0⟩ ⟨[0, 0, 0, 0, 0, 0, 0, 1], 0⟩
      = (1, ⟨0x81, 0⟩, ⟨[0, 0, 0, 0, 0, 0, 0, 1], 8⟩) ∧
    get_length ⟨0x81, 0⟩ ⟨[255, 255, 255, 255, 255, 255, 255, 255], 0⟩
      = (2 ^ 64 - 1, ⟨0x81, 0⟩, ⟨[255, 255, 255, 255, 255, 255, 255, 255], 8⟩) :=
  ⟨(get_length_long_forms 0x80 0 ⟨[0, 0, 0, 0], 0⟩ (by decide)).2 (by decide) 0 0 0 0 [] rfl,
   (get_length_long_forms 0x80 0 ⟨[0, 0, 0, 1], 0⟩ (by decide)).2 (by decide) 0 0 0 1 [] rfl,
   (get_length_long_forms 0x80 0 ⟨[255, 255, 255, 255], 0⟩ (by decide)).2 (by decide)
     255 255 255 255 [] rfl,
   (get_length_long_forms 0xBF 0 ⟨[0, 0, 1, 0, 7], 0⟩ (by decide)).2 (by decide) 0 0 1 0 [7] rfl,
   (get_length_long_forms 0x81 0 ⟨[0, 0, 0, 0, 0, 0, 0, 0], 0⟩ (by decide)).1 (by decide)
     0 0 0 0 0 0 0 0 [] rfl,
   (get_length_long_forms 0x81 0 ⟨[0, 0, 0, 0, 0, 0, 0, 1], 0⟩ (by decide)).1 (by decide)
     0 0 0 0 0 0 0 1 [] rfl,
   (get_length_long_forms 0x81 0 ⟨[255, 255, 255, 255, 255, 255, 255, 255], 0⟩ (by decide)).1
     (by decide) 255 255 255 255 255 255 255 255 [] rfl⟩

/-! ## Decimal text and C strings -/

theorem digit_ne_zero (n : Nat) : (Fin.ofNat (48 + n % 10) : Byte) ≠ 0 := by
  have h : n % 10 < 10 := Nat.mod_lt _ (by norm_num)
  intro hc
  have h2 := congrArg Fin.val hc
  simp [Fin.ofNat] at h2
  omega

theorem digitsAux_ne_zero (fuel : Nat) : ∀ (n : Nat) (acc : List Byte),
    (∀ x ∈ acc, x ≠ 0) → ∀ x ∈ digitsAux fuel n acc, x ≠ 0 := by
  induction fuel with
  | zero => intro n acc h x hx; exact h x (by simpa [digitsAux] using hx)
  | succ f ih =>
    intro n acc h x hx
    have hcons : ∀ y ∈ (Fin.ofNat (48 + n % 10) : Byte) :: acc, y ≠ 0 := by
      intro y hy
      rcases List.mem_cons.mp hy with rfl | hy
      · exact digit_ne_zero n
      · exact h y hy
    unfold digitsAux at hx
    split at hx
    · exact hcons x hx
    · exact ih _ _ hcons x hx

theorem fmt_u_ne_zero (n : Nat) : ∀ x ∈ fmt_u n, x ≠ 0 :=
  digitsAux_ne_zero _ _ _ (by simp)

theorem fmt_d_ne_zero (i : Int) : ∀ x ∈ fmt_d i, x ≠ 0 := by
  intro x hx
  unfold fmt_d at hx
  split at hx
  · rcases List.mem_cons.mp hx with rfl | hx
    · decide
    · exact fmt_u_ne_zero _ x hx
  · exact fmt_u_ne_zero _ x hx

theorem cstr_append_nul (t r : List Byte) (h : ∀ x ∈ t, x ≠ 0) : cstr (t ++ 0 :: r) = t := by
  induction t with
  | nil => simp [cstr]
  | cons a t ih =>
    have ha : a ≠ 0 := h a (by simp)
    have ht : ∀ x ∈ t, x ≠ 0 := fun x hx => h x (by simp [hx])
    have := ih ht
    simp only [cstr] at this ⊢
    rw [List.cons_append, List.takeWhile_cons]
    simp only [ha, ne_eq, not_false_eq_true, decide_True, if_true]
    rw [this]

/-- A text that fits its block with its terminator is stored, the rest of the block being
cleared. -/
theorem sprintf_into_fits (size : Nat) (text : List Byte) (h : text.length + 1 ≤ size) :
    sprintf_into size text
      = some (text ++ 0 :: List.replicate (size - (text.length + 1)) 0) := by
  unfold sprintf_into
  rw [if_pos h]

/-- A text that does not fit its block with its terminator is written past the block. -/
theorem sprintf_into_overrun (size : Nat) (text : List Byte) (h : size < text.length + 1) :
    sprintf_into size text = none := by
  unfold sprintf_into
  rw [if_neg (by omega)]

theorem sprintf_into_some (size : Nat) (text buf : List Byte)
    (h : sprintf_into size text = some buf) :
    text.length + 1 ≤ size ∧ buf = text ++ 0 :: List.replicate (size - (text.length + 1)) 0 := by
  unfold sprintf_into at h
  split at h
  · rename_i hle
    exact ⟨hle, (Option.some.inj h).symm⟩
  · cases h

theorem cstr_sprintf_d (size : Nat) (i : Int) (buf : List Byte)
    (h : sprintf_into size (fmt_d i) = some buf) : cstr buf = fmt_d i := by
  rw [(sprintf_into_some _ _ _ h).2]
  exact cstr_append_nul _ _ (fmt_d_ne_zero i)

theorem cstr_sprintf_u (size : Nat) (n : Nat) (buf : List Byte)
    (h : sprintf_into size (fmt_u n) = some buf) : cstr buf = fmt_u n := by
  rw [(sprintf_into_some _ _ _ h).2]
  exact cstr_append_nul _ _ (fmt_u_ne_zero n)

/-- The number of digits `printf` writes for a number below `10 ^ (k + 1)`. -/
theorem digits_length_le (k : Nat) : ∀ (fuel n : Nat) (acc : List Byte), n < 10 ^ (k + 1) →
    (digitsAux fuel n acc).length ≤ k + 1 + acc.length := by
  induction k with
  | zero =>
    intro fuel n acc h
    cases fuel with
    | zero => simp [digitsAux]
    | succ f =>
      have h0 : n / 10 = 0 := by omega
      rw [digitsAux, if_pos h0]
      simp only [List.length_cons]
      omega
  | succ k ih =>
    intro fuel n acc h
    cases fuel with
    | zero => simp [digitsAux]
    | succ f =>
      unfold digitsAux
      split
      · simp; omega
      · have hlt : n / 10 < 10 ^ (k + 1) := by
          rw [Nat.div_lt_iff_lt_mul (by decide)]
          calc n < 10 ^ (k + 1 + 1) := h
            _ = 10 ^ (k + 1) * 10 := by rw [pow_succ]
        have := ih f (n / 10) ((Fin.ofNat (48 + n % 10) : Byte) :: acc) hlt
        simp only [List.length_cons] at this
        omega

theorem digits_length_acc : ∀ (fuel n : Nat) (acc : List Byte),
    acc.length ≤ (digitsAux fuel n acc).length := by
  intro fuel
  induction fuel with
  | zero => intro n acc; simp [digitsAux]
  | succ f ih =>
    intro n acc
    unfold digitsAux
    split
    · simp
    · have := ih (n / 10) ((Fin.ofNat (48 + n % 10) : Byte) :: acc)
      simp only [List.length_cons] at this
      omega

/-- The number of digits `printf` writes for a number from `10 ^ k` on. -/
theorem digits_length_ge (k : Nat) : ∀ (fuel n : Nat) (acc : List Byte), 10 ^ k ≤ n →
    k < fuel → k + 1 + acc.length ≤ (digitsAux fuel n acc).length := by
  induction k with
  | zero =>
    intro fuel n acc _ hf
    cases fuel with
    | zero => omega
    | succ f =>
      unfold digitsAux
      split
      · simp only [List.length_cons]
        omega
      · have := digits_length_acc f (n / 10) ((Fin.ofNat (48 + n % 10) : Byte) :: acc)
        simp only [List.length_cons] at this
        omega
  | succ k ih =>
    intro fuel n acc h hf
    cases fuel with
    | zero => omega
    | succ f =>
      have h10 : 10 ^ (k + 1) = 10 ^ k * 10 := pow_succ 10 k
      have hk : 10 ^ k ≤ n / 10 := by
        rw [Nat.le_div_iff_mul_le (by decide)]
        omega
      have hpos : 0 < 10 ^ k := Nat.pow_pos (by decide)
      have hne : ¬ n / 10 = 0 := by omega
      rw [digitsAux, if_neg hne]
      have := ih f (n / 10) ((Fin.ofNat (48 + n % 10) : Byte) :: acc) hk (by omega)
      simp only [List.length_cons] at this
      omega

theorem fmt_u_length_le (k n : Nat) (h : n < 10 ^ (k + 1)) : (fmt_u n).length ≤ k + 1 := by
  have := digits_length_le k (n + 1) n [] h
  simpa [fmt_u] using this

theorem fmt_u_length_ge (k n : Nat) (h : 10 ^ k ≤ n) : k + 1 ≤ (fmt_u n).length := by
  have hk : k < n + 1 := by
    have : k < 10 ^ k := Nat.lt_pow_self (by decide) k
    omega
  have := digits_length_ge k (n + 1) n [] h hk
  simpa [fmt_u] using this

theorem get_length_data (buffer : Buffer) (fd : FILE) :
    (get_length buffer fd).2.2.data = fd.data := by
  unfold get_length
  split
  · simp [fread]
  · split
    · simp [fread]
    · simp only []
      split
      · rfl
      · split
        · simp [fread]
        · split
          · simp [fread]
          · split <;> rfl

/-! ## The scalar / string decoder -/

/-- C3 as stated fails at the one-byte stream `0x00`: the first byte has top bits `00` and
the decoded length is `n = 0`, yet `str_enc` returns estimated size 0 and not `0 + 16`. -/
theorem str_enc_zero_length_counterexample :
    (get_length ⟨0x00, 0⟩ ⟨[0x00], 1⟩).1 = 0 ∧
    (str_enc (testEnv true) false ⟨[0x00], 0⟩).map Prod.fst = some (some ⟨0, some [0]⟩) ∧
    (str_enc (testEnv true) false ⟨[0x00], 0⟩).map (fun r => r.1.map KI.size)
      ≠ some (some (0 + 16)) := by
  decide

theorem str_enc_of_length (env : Env) (aux : Bool) (fd : FILE) (b : Byte)
    (tail : List Byte) (hkey : env.canAlloc KI_SZ = true)
    (hfirst : fd.data.drop fd.pos = b :: tail) (hsz : fd.data.length < 2 ^ 63)
    (n : Nat) (buf : Buffer) (fd2 : FILE) (content rest : List Byte)
    (hlen : get_length ⟨b, 0⟩ { fd with pos := fd.pos + 1 } = (n, buf, fd2))
    (hn : n ≠ 0) (halloc : env.canAlloc (n + 1) = true)
    (hcontent : fd2.data.drop fd2.pos = content ++ rest) (hcl : content.length = n) :
    str_enc env aux fd
      = some (some ⟨n + 16, some (content ++ [0])⟩, { fd2 with pos := fd2.pos + n }) := by
  have hr := fread_of_drop fd 1 [b] tail (by simpa using hfirst) rfl
  have hdata : fd2.data = fd.data := by
    have := get_length_data ⟨b, 0⟩ { fd with pos := fd.pos + 1 }
    rw [hlen] at this
    simpa using this
  have hle : n < 9223372036854775808 := by
    have h1 := congrArg List.length hcontent
    rw [List.length_drop, List.length_append, hdata, hcl] at h1
    have h2 : fd.data.length < 9223372036854775808 := by
      have e : (2 : Nat) ^ 63 = 9223372036854775808 := by norm_num
      rw [e] at hsz; exact hsz
    omega
  have hmod1 : (n + SPACE_FOR_NULL) % U64 = n + 1 := by
    simp only [SPACE_FOR_NULL, U64]
    exact Nat.mod_eq_of_lt (by omega)
  have hmod2 : (n + STR_OH) % U64 = n + 16 := by
    simp only [STR_OH, PTRSZ, U64]
    exact Nat.mod_eq_of_lt (by omega)
  have hr2 := fread_of_drop fd2 n content rest hcontent hcl
  have hpos : n > 0 := Nat.pos_of_ne_zero hn
  simp only [str_enc, hkey, hr, hlen, hn, List.headD_cons, Bool.not_true, if_false,
    Bool.false_eq_true]
  simp only [str_enc_raw, hmod1, hmod2, halloc, hr2, hpos, Bool.not_true, if_true, if_false,
    hcl, Bool.false_eq_true]
  simp

theorem str_enc_of_marker (env : Env) (aux : Bool) (fd : FILE) (b : Byte) (tail : List Byte)
    (hkey : env.canAlloc KI_SZ = true) (hfirst : fd.data.drop fd.pos = b :: tail)
    (hb : b.val &&& 0xC0 = 0x00 ∨ b.val &&& 0xC0 = 0xC0) (hz : b.val &&& 0xC0 = 0x00 → b.val = 0) :
    str_enc env aux fd = str_enc_special env aux ⟨b, 0⟩ { fd with pos := fd.pos + 1 } := by
  have hr := fread_of_drop fd 1 [b] tail (by simpa using hfirst) rfl
  have hlen : get_length ⟨b, 0⟩ { fd with pos := fd.pos + 1 }
      = (0, ⟨b, 0⟩, { fd with pos := fd.pos + 1 }) := by
    rcases hb with hb | hb
    · obtain ⟨h80, h81⟩ := (top_bits_cases b).1 hb
      have h0 := hz hb
      have hm : b.val &&& MASK = 0 := by rw [h0]; rfl
      simp [get_length, h80, h81, hb, hm]
    · obtain ⟨h80, h81⟩ := (top_bits_cases b).2.2 hb
      simp [get_length, h80, h81, hb]
  simp only [str_enc, hkey, hr, hlen, List.headD_cons, Bool.not_true, if_true, if_false,
    Bool.false_eq_true]

theorem str_enc_zero_byte (env : Env) (aux : Bool) (fd : FILE) (b : Byte)
    (tail : List Byte) (hkey : env.canAlloc KI_SZ = true)
    (hfirst : fd.data.drop fd.pos = b :: tail) (hb : b = 0) :
    str_enc env aux fd
      = some (some ⟨0, if env.full || aux then some [0] else none⟩,
          { fd with pos := fd.pos + 1 }) := by
  have hb0 : b.val = 0 := by rw [hb]; rfl
  have hsel : b.val &&& MASK = 0 := by rw [hb0]; rfl
  rw [str_enc_of_marker env aux fd b tail hkey hfirst (Or.inl (by rw [hb0]; rfl)) (fun _ => hb0)]
  simp only [str_enc_special]
  rw [if_pos hsel, if_pos hb0]

/-- C3 (amended): when the length decoded after the first byte `b` is `n ≠ 0` (so the top two
bits of `b` are not `11`), the allocations succeed and the `n` bytes `content` follow the
length in the stream, `str_enc` advances the stream by exactly those `n` bytes, stores
exactly `content` followed by the terminator, and returns estimated size `n + 16`.  For the
single byte `0x00` it returns size 0, with the empty string stored in full-render or aux
mode and no string otherwise. -/
theorem str_enc_literal (env : Env) (aux : Bool) (fd : FILE) (b : Byte)
    (tail : List Byte) (hkey : env.canAlloc KI_SZ = true)
    (hfirst : fd.data.drop fd.pos = b :: tail) (hsz : fd.data.length < 2 ^ 63) :
    (∀ (n : Nat) (buf : Buffer) (fd2 : FILE) (content rest : List Byte),
      get_length ⟨b, 0⟩ { fd with pos := fd.pos + 1 } = (n, buf, fd2) →
      n ≠ 0 → env.canAlloc (n + 1) = true →
      fd2.data.drop fd2.pos = content ++ rest → content.length = n →
      str_enc env aux fd
        = some (some ⟨n + 16, some (content ++ [0])⟩, { fd2 with pos := fd2.pos + n })) ∧
    (b = 0 →
      str_enc env aux fd
        = some (some ⟨0, if env.full || aux then some [0] else none⟩,
            { fd with pos := fd.pos + 1 })) :=
  ⟨fun n buf fd2 content rest hlen hn halloc hcontent hcl =>
      str_enc_of_length env aux fd b tail hkey hfirst hsz n buf fd2 content rest hlen hn halloc
        hcontent hcl,
   str_enc_zero_byte env aux fd b tail hkey hfirst⟩

/-- The theorem `str_enc_literal` at the stream `03 'a' 'b' 'c' FF`. -/
theorem str_enc_literal_witness :
    str_enc (testEnv false) false ⟨[0x03, 97, 98, 99, 0xFF], 0⟩
      = some (some ⟨19, some [97, 98, 99, 0]⟩, ⟨[0x03, 97, 98, 99, 0xFF], 4⟩) :=
  (str_enc_literal (testEnv false) false ⟨[0x03, 97, 98, 99, 0xFF], 0⟩ 0x03 [97, 98, 99, 0xFF]
    rfl rfl (by decide)).1 3 ⟨0x03, 0⟩ ⟨[0x03, 97, 98, 99, 0xFF], 1⟩ [97, 98, 99] [0xFF]
    (by decide) (by decide) rfl rfl rfl

theorem store_zero (bs : List Byte) : store 0 bs = le bs := by
  simp [store]

theorem fmt_d_length (i : Int) :
    (fmt_d i).length = (fmt_u i.natAbs).length + (if i < 0 then 1 else 0) := by
  unfold fmt_d
  split <;> simp

theorem fmt_d_length_nonneg (k : Nat) (i : Int) (h0 : 0 ≤ i) (h : i.natAbs < 10 ^ (k + 1)) :
    (fmt_d i).length ≤ k + 1 := by
  rw [fmt_d_length, if_neg (by omega)]
  exact fmt_u_length_le k _ h

theorem fmt_d_length_neg (k : Nat) (i : Int) (h0 : i < 0) (h : i.natAbs < 10 ^ (k + 1)) :
    (fmt_d i).length ≤ k + 2 := by
  rw [fmt_d_length, if_pos h0]
  have := fmt_u_length_le k _ h
  omega

/-- The decimal text of an integer above `-10 ^ k` and below `10 ^ (k + 1)` has at most
`k + 1` characters, the sign included. -/
theorem fmt_d_fits (i : Int) (k : Nat) (hlo : -((10 : Int) ^ k) < i)
    (hhi : i < (10 : Int) ^ (k + 1)) : (fmt_d i).length ≤ k + 1 := by
  by_cases h0 : i < 0
  · cases k with
    | zero => simp at hlo; omega
    | succ k =>
      have : i.natAbs < 10 ^ (k + 1) := by
        zify
        rw [abs_of_neg h0]
        omega
      have := fmt_d_length_neg k i h0 this
      omega
  · have : i.natAbs < 10 ^ (k + 1) := by
      zify
      rw [abs_of_nonneg (by omega)]
      exact hhi
    exact fmt_d_length_nonneg k i (by omega) this

/-- The decimal text of an integer from `-10 ^ k` down has at least `k + 2` characters:
the sign and `k + 1` digits. -/
theorem fmt_d_long (i : Int) (k : Nat) (h : i ≤ -((10 : Int) ^ k)) :
    k + 2 ≤ (fmt_d i).length := by
  have hpos : (0 : Int) < 10 ^ k := by positivity
  have h0 : i < 0 := by omega
  rw [fmt_d_length, if_pos h0]
  have hn : 10 ^ k ≤ i.natAbs := by
    zify
    rw [abs_of_neg h0]
    omega
  have := fmt_u_length_ge k _ hn
  omega

theorem toSigned8_bounds (v : Nat) : -128 ≤ toSigned 8 v ∧ toSigned 8 v < 128 := by
  unfold toSigned
  have : v % 2 ^ 8 < 2 ^ 8 := Nat.mod_lt _ (by norm_num)
  norm_num at this ⊢
  split <;> omega

theorem toSigned16_bounds (v : Nat) : -32768 ≤ toSigned 16 v ∧ toSigned 16 v < 32768 := by
  unfold toSigned
  have : v % 2 ^ 16 < 2 ^ 16 := Nat.mod_lt _ (by norm_num)
  norm_num at this ⊢
  split <;> omega

theorem toSigned32_bounds (v : Nat) :
    -2147483648 ≤ toSigned 32 v ∧ toSigned 32 v < 2147483648 := by
  unfold toSigned
  have : v % 2 ^ 32 < 2 ^ 32 := Nat.mod_lt _ (by norm_num)
  norm_num at this ⊢
  split <;> omega

theorem toSigned64_bounds (v : Nat) :
    -9223372036854775808 ≤ toSigned 64 v ∧ toSigned 64 v < 9223372036854775808 := by
  unfold toSigned
  have : v % 2 ^ 64 < 2 ^ 64 := Nat.mod_lt _ (by norm_num)
  norm_num at this ⊢
  split <;> omega

/-- The block `sprintf` fills when the text and its terminator fit: its C string is the
text and it has the size of the block. -/
theorem sprintf_into_block (size : Nat) (text : List Byte) (h : text.length + 1 ≤ size)
    (hz : ∀ x ∈ text, x ≠ 0) :
    ∃ buf, sprintf_into size text = some buf ∧ cstr buf = text ∧ buf.length = size := by
  refine ⟨_, sprintf_into_fits size text h, cstr_append_nul _ _ hz, ?_⟩
  simp only [List.length_append, List.length_cons, List.length_replicate]
  omega

theorem str_enc_int_forms (env : Env) (aux : Bool) (fd : FILE)
    (hkey : env.canAlloc KI_SZ = true) :
    (∀ (x0 : Byte) (rest : List Byte), fd.data.drop fd.pos = 0xC0 :: x0 :: rest →
      str_enc env aux fd
        = if env.full || aux then
            (sprintf_into maxint (fmt_d (toSigned 8 x0.val))).map
              (fun str => (some ⟨1, some str⟩, { fd with pos := fd.pos + 2 }))
          else some (some ⟨1, none⟩, { fd with pos := fd.pos + 2 })) ∧
    (∀ (x0 x1 : Byte) (rest : List Byte), fd.data.drop fd.pos = 0xC1 :: x0 :: x1 :: rest →
      str_enc env aux fd
        = if env.full || aux then
            (sprintf_into maxint (fmt_d (toSigned 16 (x0.val + 256 * x1.val)))).map
              (fun str => (some ⟨2, some str⟩, { fd with pos := fd.pos + 3 }))
          else some (some ⟨2, none⟩, { fd with pos := fd.pos + 3 })) ∧
    (∀ (x0 x1 x2 x3 : Byte) (rest : List Byte),
      fd.data.drop fd.pos = 0xC2 :: x0 :: x1 :: x2 :: x3 :: rest →
      str_enc env aux fd
        = if env.full || aux then
            (sprintf_into maxint (fmt_d (toSigned 32
                (x0.val + 256 * (x1.val + 256 * (x2.val + 256 * x3.val)))))).map
              (fun str => (some ⟨4, some str⟩, { fd with pos := fd.pos + 5 }))
          else some (some ⟨4, none⟩, { fd with pos := fd.pos + 5 })) := by
  have hdrop : ∀ (b : Byte) (tl : List Byte), fd.data.drop fd.pos = b :: tl →
      ({ fd with pos := fd.pos + 1 } : FILE).data.drop ({ fd with pos := fd.pos + 1 } : FILE).pos
        = tl := by
    intro b tl h
    show fd.data.drop (fd.pos + 1) = tl
    rw [← List.drop_drop, h]
    rfl
  refine ⟨?_, ?_, ?_⟩
  · intro x0 rest hd
    have hm := str_enc_of_marker env aux fd 0xC0 (x0 :: rest) hkey hd (Or.inr (by decide))
      (by decide)
    have hr := fread_of_drop { fd with pos := fd.pos + 1 } 1 [x0] rest
      (by rw [hdrop _ _ hd]; rfl) rfl
    have h0 : (0xC0 : Byte).val &&& MASK = 0 := by decide
    have hne : (0xC0 : Byte).val ≠ 0x00 := by decide
    rw [hm]
    simp only [str_enc_special]
    rw [if_pos h0, if_neg hne]
    simp only [hr, store_zero]
    have hle : le [x0] = x0.val := by simp [le]
    rw [hle]
    split
    · cases sprintf_into maxint (fmt_d (toSigned 8 x0.val)) <;> rfl
    · rfl
  · intro x0 x1 rest hd
    have hm := str_enc_of_marker env aux fd 0xC1 (x0 :: x1 :: rest) hkey hd (Or.inr (by decide))
      (by decide)
    have hr := fread_of_drop { fd with pos := fd.pos + 1 } 2 [x0, x1] rest
      (by rw [hdrop _ _ hd]; rfl) rfl
    have h0 : ¬ (0xC1 : Byte).val &&& MASK = 0 := by decide
    have h1 : (0xC1 : Byte).val &&& MASK = 1 := by decide
    rw [hm]
    simp only [str_enc_special]
    rw [if_neg h0, if_pos h1]
    simp only [hr, store_zero]
    have hle : le [x0, x1] = x0.val + 256 * x1.val := by simp [le]
    rw [hle]
    split
    · cases sprintf_into maxint (fmt_d (toSigned 16 (x0.val + 256 * x1.val))) <;> rfl
    · rfl
  · intro x0 x1 x2 x3 rest hd
    have hm := str_enc_of_marker env aux fd 0xC2 (x0 :: x1 :: x2 :: x3 :: rest) hkey hd
      (Or.inr (by decide)) (by decide)
    have hr := fread_of_drop { fd with pos := fd.pos + 1 } 4 [x0, x1, x2, x3] rest
      (by rw [hdrop _ _ hd]; rfl) rfl
    have h0 : ¬ (0xC2 : Byte).val &&& MASK = 0 := by decide
    have h1 : ¬ (0xC2 : Byte).val &&& MASK = 1 := by decide
    have h2 : (0xC2 : Byte).val &&& MASK = 2 := by decide
    rw [hm]
    simp only [str_enc_special]
    rw [if_neg h0, if_neg h1, if_pos h2]
    simp only [hr, store_zero]
    have hle : le [x0, x1, x2, x3]
        = x0.val + 256 * (x1.val + 256 * (x2.val + 256 * x3.val)) := by simp [le]
    rw [hle]
    split
    · cases sprintf_into maxint (fmt_d (toSigned 32
        (x0.val + 256 * (x1.val + 256 * (x2.val + 256 * x3.val))))) <;> rfl
    · rfl

/-- The embedded integers of `str_enc`, branch by branch: without rendering the call
returns the size and a null `str`; with rendering it returns the block of `maxint` bytes
holding the decimal text when the text has at most 10 characters, which every 8-bit and
16-bit value has, and does not return when it has 11. -/
theorem str_enc_int_cases (env : Env) (aux : Bool) (fd fd1 : FILE) (n : Nat) (z : Int)
    (h : str_enc env aux fd
      = if env.full || aux then
          (sprintf_into maxint (fmt_d z)).map (fun str => (some ⟨n, some str⟩, fd1))
        else some (some ⟨n, none⟩, fd1)) :
    ((env.full || aux) = false → str_enc env aux fd = some (some ⟨n, none⟩, fd1)) ∧
    ((env.full || aux) = true → -1000000000 < z → z < 10000000000 →
      ∃ buf, str_enc env aux fd = some (some ⟨n, some buf⟩, fd1) ∧
        cstr buf = fmt_d z ∧ buf.length = maxint) ∧
    ((env.full || aux) = true → z ≤ -1000000000 →
      str_enc env aux fd = none ∧ maxint < (fmt_d z).length + 1) := by
  refine ⟨?_, ?_, ?_⟩
  · intro hm
    rw [h, hm]
    rfl
  · intro hm hlo hhi
    have hl := fmt_d_fits z 9 (by norm_num; exact hlo) (by norm_num; exact hhi)
    obtain ⟨buf, hb, hc, hlen⟩ := sprintf_into_block maxint (fmt_d z)
      (by simp only [maxint]; omega) (fmt_d_ne_zero z)
    refine ⟨buf, ?_, hc, hlen⟩
    rw [h, hm, if_pos rfl, hb]
    rfl
  · intro hm hlo
    have hl := fmt_d_long z 9 (by norm_num; exact hlo)
    have hov : maxint < (fmt_d z).length + 1 := by simp only [maxint]; omega
    refine ⟨?_, hov⟩
    rw [h, hm, if_pos rfl, sprintf_into_overrun _ _ hov]
    rfl

/-- C4: for the marker bytes `0xC0`, `0xC1` and `0xC2`, `str_enc` reads exactly the 1, 2 and
4 bytes that follow the marker as a signed little-endian integer `z`.  Without full-render
mode and aux flag it returns estimated size 1, 2 and 4 and no string, the stream being
behind those bytes.  With one of them set it returns the same and the block of `maxint`, 11,
bytes that holds the decimal text of `z`, for every 8-bit and 16-bit value and for the
32-bit values above -1000000000; for the 32-bit values from -1000000000 down the text has
11 characters and `sprintf` writes its terminator past the block: the call does not
return. -/
theorem str_enc_embedded_int (env : Env) (aux : Bool) (fd : FILE)
    (hkey : env.canAlloc KI_SZ = true) :
    (∀ (x0 : Byte) (rest : List Byte), fd.data.drop fd.pos = 0xC0 :: x0 :: rest →
      ((env.full || aux) = false →
        str_enc env aux fd = some (some ⟨1, none⟩, { fd with pos := fd.pos + 2 })) ∧
      ((env.full || aux) = true →
        ∃ buf, str_enc env aux fd = some (some ⟨1, some buf⟩, { fd with pos := fd.pos + 2 }) ∧
          cstr buf = fmt_d (toSigned 8 x0.val) ∧ buf.length = maxint)) ∧
    (∀ (x0 x1 : Byte) (rest : List Byte), fd.data.drop fd.pos = 0xC1 :: x0 :: x1 :: rest →
      ((env.full || aux) = false →
        str_enc env aux fd = some (some ⟨2, none⟩, { fd with pos := fd.pos + 3 })) ∧
      ((env.full || aux) = true →
        ∃ buf, str_enc env aux fd = some (some ⟨2, some buf⟩, { fd with pos := fd.pos + 3 }) ∧
          cstr buf = fmt_d (toSigned 16 (x0.val + 256 * x1.val)) ∧ buf.length = maxint)) ∧
    (∀ (x0 x1 x2 x3 : Byte) (rest : List Byte),
      fd.data.drop fd.pos = 0xC2 :: x0 :: x1 :: x2 :: x3 :: rest →
      ((env.full || aux) = false →
        str_enc env aux fd = some (some ⟨4, none⟩, { fd with pos := fd.pos + 5 })) ∧
      ((env.full || aux) = true →
        -1000000000 < toSigned 32 (x0.val + 256 * (x1.val + 256 * (x2.val + 256 * x3.val))) →
        ∃ buf, str_enc env aux fd = some (some ⟨4, some buf⟩, { fd with pos := fd.pos + 5 }) ∧
          cstr buf
            = fmt_d (toSigned 32 (x0.val + 256 * (x1.val + 256 * (x2.val + 256 * x3.val)))) ∧
          buf.length = maxint) ∧
      ((env.full || aux) = true →
        toSigned 32 (x0.val + 256 * (x1.val + 256 * (x2.val + 256 * x3.val))) ≤ -1000000000 →
        str_enc env aux fd = none ∧
          maxint < (fmt_d (toSigned 32
            (x0.val + 256 * (x1.val + 256 * (x2.val + 256 * x3.val))))).length + 1)) := by
  obtain ⟨f8, f16, f32⟩ := str_enc_int_forms env aux fd hkey
  refine ⟨?_, ?_, ?_⟩
  · intro x0 rest hd
    have hc := str_enc_int_cases env aux fd _ 1 _ (f8 x0 rest hd)
    have hb := toSigned8_bounds x0.val
    exact ⟨hc.1, fun hm => hc.2.1 hm (by omega) (by omega)⟩
  · intro x0 x1 rest hd
    have hc := str_enc_int_cases env aux fd _ 2 _ (f16 x0 x1 rest hd)
    have hb := toSigned16_bounds (x0.val + 256 * x1.val)
    exact ⟨hc.1, fun hm => hc.2.1 hm (by omega) (by omega)⟩
  · intro x0 x1 x2 x3 rest hd
    have hc := str_enc_int_cases env aux fd _ 4 _ (f32 x0 x1 x2 x3 rest hd)
    have hb := toSigned32_bounds (x0.val + 256 * (x1.val + 256 * (x2.val + 256 * x3.val)))
    exact ⟨hc.1, fun hm hlo => hc.2.1 hm hlo (by omega), hc.2.2⟩

set_option maxRecDepth 100000 in
/-- The theorem `str_enc_embedded_int` at the streams `C0 FF` (full-render mode: the text
`-1`), `C1 00 80 09` (size-only mode) and `C2 00 00 00 80` (full-render mode: the integer
-2147483648, whose text of 11 characters does not fit the block with its terminator). -/
theorem str_enc_embedded_int_witness :
    (∃ buf, str_enc (testEnv true) false ⟨[0xC0, 0xFF], 0⟩
        = some (some ⟨1, some buf⟩, ⟨[0xC0, 0xFF], 2⟩) ∧
      cstr buf = fmt_d (toSigned 8 0xFF) ∧ buf.length = maxint) ∧
    str_enc (testEnv false) false ⟨[0xC1, 0x00, 0x80, 0x09], 0⟩
      = some (some ⟨2, none⟩, ⟨[0xC1, 0x00, 0x80, 0x09], 3⟩) ∧
    (str_enc (testEnv true) false ⟨[0xC2, 0x00, 0x00, 0x00, 0x80], 0⟩ = none ∧
      maxint < (fmt_d (toSigned 32 (0 + 256 * (0 + 256 * (0 + 256 * 128))))).length + 1) :=
  ⟨((str_enc_embedded_int (testEnv true) false ⟨[0xC0, 0xFF], 0⟩ rfl).1 0xFF [] rfl).2 rfl,
   ((str_enc_embedded_int (testEnv false) false ⟨[0xC1, 0x00, 0x80, 0x09], 0⟩ rfl).2.1
     0x00 0x80 [0x09] rfl).1 rfl,
   ((str_enc_embedded_int (testEnv true) false ⟨[0xC2, 0x00, 0x00, 0x00, 0x80], 0⟩ rfl).2.2
     0x00 0x00 0x00 0x80 [] rfl).2.2 rfl (by decide)⟩

/-! ## The compact-entry codec -/

theorem land_mask (t : Nat) : t &&& MASK = t % 64 := by
  have h := Nat.and_pow_two_sub_one_eq_mod t 6
  simpa [MASK] using h

theorem land_ff (t : Nat) : t &&& 0x000000FF = t % 256 := by
  have h := Nat.and_pow_two_sub_one_eq_mod t 8
  simpa using h

theorem land_0f (t : Nat) : t &&& 0x0F = t % 16 := by
  have h := Nat.and_pow_two_sub_one_eq_mod t 4
  simpa using h

theorem peek_mid (pre mid rest : List Byte) :
    peek (pre ++ mid ++ rest) pre.length mid.length = some mid := by
  unfold peek
  simp

theorem peek_cons (t : Byte) (mid rest : List Byte) (n : Nat) (h : mid.length = n) :
    peek (t :: (mid ++ rest)) 1 n = some mid := by
  subst h
  have := peek_mid [t] mid rest
  simpa using this

theorem zl_at_str6 (env : Env) (t : Byte) (payload rest : List Byte) (offset : Nat)
    (ht : t.val < 64) (hl : payload.length = t.val % 64)
    (halloc : env.canAlloc (t.val % 64 + 1) = true) :
    zl_entry_at env (t :: (payload ++ rest)) offset
      = some (if t.val % 64 > 0 then some (payload ++ [0]) else none,
              (offset + (t.val % 64 + 1)) % U64) := by
  have hs : (0 ||| (t.val &&& MASK)) % 256 = t.val % 64 := by
    rw [Nat.zero_or, land_mask]; omega
  have hp := peek_cons t payload rest (t.val % 64) hl
  simp only [zl_entry_at, List.head?_cons, ht, if_true, hs, SPACE_FOR_NULL, halloc, hp,
    Bool.not_true, Bool.false_eq_true, if_false]
  split <;> rfl

theorem zl_at_str14 (env : Env) (t l1 : Byte) (payload rest : List Byte) (offset : Nat)
    (ht : 64 ≤ t.val ∧ t.val < 128) (hl : payload.length = t.val % 64 * 256 + l1.val)
    (halloc : env.canAlloc (t.val % 64 * 256 + l1.val + 1) = true) :
    zl_entry_at env (t :: l1 :: (payload ++ rest)) offset
      = some (some (payload ++ [0]), (offset + (2 + (t.val % 64 * 256 + l1.val))) % U64) := by
  have h1 : ¬ t.val < 64 := by omega
  have h2 : t.val > 63 ∧ t.val < 128 := by omega
  have hs : ((0 ||| ((t.val &&& MASK) <<< 8)) % 65536 ||| (l1.val &&& 0x000000FF)) % 65536
      = t.val % 64 * 256 + l1.val := by
    rw [Nat.zero_or, land_mask, land_ff, Nat.shiftLeft_eq]
    have hl1 := l1.isLt
    have e1 : t.val % 64 * 2 ^ 8 % 65536 = t.val % 64 * 2 ^ 8 := Nat.mod_eq_of_lt (by omega)
    have e2 : l1.val % 256 = l1.val := Nat.mod_eq_of_lt hl1
    rw [e1, e2, or_eq_add 8 _ _ (by omega)]
    omega
  have hp : peek (t :: l1 :: (payload ++ rest)) 2 (t.val % 64 * 256 + l1.val) = some payload := by
    have := peek_mid [t, l1] payload rest
    rw [← hl]
    simpa using this
  simp only [zl_entry_at, List.head?_cons, h1, h2, if_true, if_false, List.get?_cons_succ,
    List.get?_cons_zero, hs, SPACE_FOR_NULL, halloc, hp, Bool.not_true, Bool.false_eq_true,
    and_self]

theorem zl_at_str32 (env : Env) (t a b c d : Byte) (payload rest : List Byte) (offset : Nat)
    (ht : 128 ≤ t.val ∧ t.val < 192)
    (hl : payload.length = a.val * 2 ^ 24 + b.val * 2 ^ 16 + c.val * 2 ^ 8 + d.val)
    (halloc : env.canAlloc (a.val * 2 ^ 24 + b.val * 2 ^ 16 + c.val * 2 ^ 8 + d.val + 1) = true) :
    zl_entry_at env (t :: a :: b :: c :: d :: (payload ++ rest)) offset
      = some (some (payload ++ [0]),
          (offset + (5 + (a.val * 2 ^ 24 + b.val * 2 ^ 16 + c.val * 2 ^ 8 + d.val)) % U32) % U64) := by
  have h1 : ¬ t.val < 64 := by omega
  have h2 : ¬ (t.val > 63 ∧ t.val < 128) := by omega
  have h3 : t.val > 127 ∧ t.val < 192 := by omega
  have hv : peek (t :: a :: b :: c :: d :: (payload ++ rest)) 1 4 = some [a, b, c, d] := by
    have := peek_mid [t] [a, b, c, d] (payload ++ rest)
    simpa using this
  have hs := swap32_eq a.val b.val c.val d.val a.isLt b.isLt c.isLt d.isLt
  have hs2 : swap32 (le [a, b, c, d])
      = a.val * 2 ^ 24 + b.val * 2 ^ 16 + c.val * 2 ^ 8 + d.val := by
    rw [le4, hs]; norm_num
  have hp : peek (t :: a :: b :: c :: d :: (payload ++ rest)) 5
      (a.val * 2 ^ 24 + b.val * 2 ^ 16 + c.val * 2 ^ 8 + d.val) = some payload := by
    have := peek_mid [t, a, b, c, d] payload rest
    rw [← hl]
    simpa using this
  simp only [zl_entry_at, List.head?_cons, h1, h2, h3, if_true, if_false, hv, hs2,
    SPACE_FOR_NULL, halloc, hp, Bool.not_true, Bool.false_eq_true, and_self]

theorem zl_at_int16 (env : Env) (t x0 x1 : Byte) (rest : List Byte) (offset : Nat)
    (ht : 192 ≤ t.val ∧ t.val < 208) :
    zl_entry_at env (t :: x0 :: x1 :: rest) offset
      = (sprintf_into 6 (fmt_d (toSigned 16 (le [x0, x1])))).map
          (fun entry => (some entry, (offset + 3) % U64)) := by
  have h1 : ¬ t.val < 64 := by omega
  have h2 : ¬ (t.val > 63 ∧ t.val < 128) := by omega
  have h3 : ¬ (t.val > 127 ∧ t.val < 192) := by omega
  have h4 : t.val > 191 ∧ t.val < 208 := by omega
  have hv : peek (t :: x0 :: x1 :: rest) 1 2 = some [x0, x1] := by
    have := peek_mid [t] [x0, x1] rest
    simpa using this
  simp only [zl_entry_at, List.head?_cons, h1, h2, h3, h4, if_true, if_false, hv,
    SPACE_FOR_NULL, and_self]
  simp only [Nat.reduceAdd]
  cases sprintf_into 6 (fmt_d (toSigned 16 (le [x0, x1]))) <;> rfl

theorem zl_at_int32 (env : Env) (t x0 x1 x2 x3 : Byte) (rest : List Byte) (offset : Nat)
    (ht : 208 ≤ t.val ∧ t.val < 224) :
    zl_entry_at env (t :: x0 :: x1 :: x2 :: x3 :: rest) offset
      = (sprintf_into 12 (fmt_d (toSigned 32 (le [x0, x1, x2, x3])))).map
          (fun entry => (some entry, (offset + 5) % U64)) := by
  have h1 : ¬ t.val < 64 := by omega
  have h2 : ¬ (t.val > 63 ∧ t.val < 128) := by omega
  have h3 : ¬ (t.val > 127 ∧ t.val < 192) := by omega
  have h4 : ¬ (t.val > 191 ∧ t.val < 208) := by omega
  have h5 : t.val > 207 ∧ t.val < 224 := by omega
  have hv : peek (t :: x0 :: x1 :: x2 :: x3 :: rest) 1 4 = some [x0, x1, x2, x3] := by
    have := peek_mid [t] [x0, x1, x2, x3] rest
    simpa using this
  simp only [zl_entry_at, List.head?_cons, h1, h2, h3, h4, h5, if_true, if_false, hv,
    SPACE_FOR_NULL, and_self]
  simp only [Nat.reduceAdd]
  cases sprintf_into 12 (fmt_d (toSigned 32 (le [x0, x1, x2, x3]))) <;> rfl

theorem zl_at_int64 (env : Env) (t x0 x1 x2 x3 x4 x5 x6 x7 : Byte) (rest : List Byte)
    (offset : Nat) (ht : 224 ≤ t.val ∧ t.val < 240) :
    zl_entry_at env (t :: x0 :: x1 :: x2 :: x3 :: x4 :: x5 :: x6 :: x7 :: rest) offset
      = (sprintf_into 21 (fmt_d (toSigned 64 (le [x0, x1, x2, x3, x4, x5, x6, x7])))).map
          (fun entry => (some entry, (offset + 9) % U64)) := by
  have h1 : ¬ t.val < 64 := by omega
  have h2 : ¬ (t.val > 63 ∧ t.val < 128) := by omega
  have h3 : ¬ (t.val > 127 ∧ t.val < 192) := by omega
  have h4 : ¬ (t.val > 191 ∧ t.val < 208) := by omega
  have h5 : ¬ (t.val > 207 ∧ t.val < 224) := by omega
  have h6 : t.val > 223 ∧ t.val < 240 := by omega
  have hv : peek (t :: x0 :: x1 :: x2 :: x3 :: x4 :: x5 :: x6 :: x7 :: rest) 1 8
      = some [x0, x1, x2, x3, x4, x5, x6, x7] := by
    have := peek_mid [t] [x0, x1, x2, x3, x4, x5, x6, x7] rest
    simpa using this
  generalize hX : fmt_d (toSigned 64 (le [x0, x1, x2, x3, x4, x5, x6, x7])) = X
  simp only [zl_entry_at, List.head?_cons, h1, h2, h3, h4, h5, h6, if_true, if_false, hv,
    SPACE_FOR_NULL, and_self, hX]
  simp only [Nat.reduceAdd]
  generalize sprintf_into 21 X = o
  cases o <;> rfl

theorem zl_at_imm4 (env : Env) (t : Byte) (rest : List Byte) (offset : Nat)
    (ht : 241 ≤ t.val ∧ t.val < 254) :
    zl_entry_at env (t :: rest) offset
      = (sprintf_into 4 (fmt_u (t.val % 16 - 1))).map
          (fun entry => (some entry, (offset + 1) % U64)) := by
  have h1 : ¬ t.val < 64 := by omega
  have h2 : ¬ (t.val > 63 ∧ t.val < 128) := by omega
  have h3 : ¬ (t.val > 127 ∧ t.val < 192) := by omega
  have h4 : ¬ (t.val > 191 ∧ t.val < 208) := by omega
  have h5 : ¬ (t.val > 207 ∧ t.val < 224) := by omega
  have h6 : ¬ (t.val > 223 ∧ t.val < 240) := by omega
  have h7 : t.val > 240 ∧ t.val < 254 := by omega
  have hi : ((t.val &&& 0x0F) + 256 - 1) % 256 = t.val % 16 - 1 := by
    rw [land_0f]; omega
  simp only [zl_entry_at, List.head?_cons, h1, h2, h3, h4, h5, h6, h7, if_true, if_false, hi,
    SPACE_FOR_NULL, and_self]
  simp only [Nat.reduceAdd]
  cases sprintf_into 4 (fmt_u (t.val % 16 - 1)) <;> rfl

theorem zl_at_int8 (env : Env) (t x0 : Byte) (rest : List Byte) (offset : Nat)
    (ht : t.val = 254) :
    zl_entry_at env (t :: x0 :: rest) offset
      = (sprintf_into 4 (fmt_d (toSigned 8 (le [x0])))).map
          (fun entry => (some entry, (offset + 2) % U64)) := by
  have hv : peek (t :: x0 :: rest) 1 1 = some [x0] := by
    have := peek_mid [t] [x0] rest
    simpa using this
  simp only [zl_entry_at, List.head?_cons, ht, hv, SPACE_FOR_NULL]
  simp only [Nat.reduceLT, Nat.reduceAdd, gt_iff_lt, and_false, and_true, if_false, if_true,
    lt_self_iff_false, false_and, Nat.lt_irrefl, and_self, Nat.reduceEqDiff]
  cases sprintf_into 4 (fmt_d (toSigned 8 (le [x0]))) <;> rfl

theorem get_zl_entry_short (env : Env) (p : Byte) (c : List Byte) (offset : Nat)
    (hp : p.val ≠ 254) :
    get_zl_entry env (p :: c) offset = zl_entry_at env c ((offset + 1) % U64) := by
  simp [get_zl_entry, hp]

theorem get_zl_entry_long (env : Env) (p a b d e : Byte) (c : List Byte) (offset : Nat)
    (hp : p.val = 254) :
    get_zl_entry env (p :: a :: b :: d :: e :: c) offset
      = zl_entry_at env c (((offset + 4) % U64 + 1) % U64) := by
  simp [get_zl_entry, hp]

theorem text32_fits (v : Nat) : (fmt_d (toSigned 32 v)).length + 1 ≤ 12 := by
  have hb := toSigned32_bounds v
  have := fmt_d_fits (toSigned 32 v) 10 (by norm_num; omega) (by norm_num; omega)
  omega

theorem text64_fits (v : Nat) : (fmt_d (toSigned 64 v)).length + 1 ≤ 21 := by
  have hb := toSigned64_bounds v
  have := fmt_d_fits (toSigned 64 v) 19 (by norm_num; omega) (by norm_num; omega)
  omega

theorem text_imm_fits (n : Nat) (h : n ≤ 12) : (fmt_u n).length + 1 ≤ 4 := by
  have := fmt_u_length_le 1 n (by norm_num; omega)
  omega

theorem text16_fits (v : Nat) (h : -10000 < toSigned 16 v) :
    (fmt_d (toSigned 16 v)).length + 1 ≤ 6 := by
  have hb := toSigned16_bounds v
  have := fmt_d_fits (toSigned 16 v) 4 (by norm_num; omega) (by norm_num; omega)
  omega

theorem text16_long (v : Nat) (h : toSigned 16 v ≤ -10000) :
    6 < (fmt_d (toSigned 16 v)).length + 1 := by
  have := fmt_d_long (toSigned 16 v) 4 (by norm_num; omega)
  omega

theorem text8_fits (v : Nat) (h : -100 < toSigned 8 v) :
    (fmt_d (toSigned 8 v)).length + 1 ≤ 4 := by
  have hb := toSigned8_bounds v
  have := fmt_d_fits (toSigned 8 v) 2 (by norm_num; omega) (by norm_num; omega)
  omega

theorem text8_long (v : Nat) (h : toSigned 8 v ≤ -100) :
    4 < (fmt_d (toSigned 8 v)).length + 1 := by
  have := fmt_d_long (toSigned 8 v) 2 (by norm_num; omega)
  omega

theorem get_zl_entry_after_prevlen (env : Env) (pre d : List Byte) (offset : Nat)
    (hpre : zl_prevlen_field pre = true) :
    get_zl_entry env (pre ++ d) offset = zl_entry_at env d ((offset + pre.length) % U64) := by
  rcases pre with _ | ⟨p, _ | ⟨a, _ | ⟨b, _ | ⟨c, _ | ⟨e, _ | ⟨f, r⟩⟩⟩⟩⟩⟩ <;>
    simp [zl_prevlen_field] at hpre
  · rw [show [p] ++ d = p :: d from rfl, get_zl_entry_short env p d offset hpre]
    rfl
  · rw [show [p, a, b, c, e] ++ d = p :: a :: b :: c :: e :: d from rfl,
      get_zl_entry_long env p a b c e d offset hpre]
    congr 1
    simp only [U64, List.length_cons, List.length_nil]
    omega

/-- C6 as stated fails at the entry `00 | 00` (tag byte 0, so `L = 0`): `get_zl_entry`
returns `NULL`, not the empty string. -/
theorem get_zl_entry_empty_counterexample :
    get_zl_entry (testEnv true) [0x00, 0x00, 0xFF] 10 = some (none, 12) ∧
    get_zl_entry (testEnv true) [0x00, 0x00, 0xFF] 10 ≠ some (some [0], 12) := by
  decide

/-- C6 (amended): with allocations succeeding, for an entry whose tag byte `t` is in 0-63,
64-127 or 128-191 and whose `L` payload bytes follow the header, where `L = t & 0x3F`,
`L = ((t & 0x3F) << 8) | next byte`, or `L` = the next 4 bytes read big-endian,
`get_zl_entry` returns the string made of exactly those `L` bytes (and its terminator) -
for every such `L`, the empty string of the 14-bit and 32-bit classes included - except
for tag byte 0 (`L = 0` in the 6-bit class), where it returns `NULL`. -/
theorem get_zl_entry_string (env : Env) (pre : List Byte) (offset : Nat)
    (hpre : zl_prevlen_field pre = true) (halloc : ∀ n, env.canAlloc n = true) :
    (∀ (t : Byte) (payload rest : List Byte), t.val < 64 →
      payload.length = t.val &&& 0x3F →
      (get_zl_entry env (pre ++ t :: (payload ++ rest)) offset).map Prod.fst
        = some (if t.val = 0 then none else some (payload ++ [0]))) ∧
    (∀ (t l1 : Byte) (payload rest : List Byte), 64 ≤ t.val → t.val < 128 →
      payload.length = ((t.val &&& 0x3F) <<< 8) ||| l1.val →
      (get_zl_entry env (pre ++ t :: l1 :: (payload ++ rest)) offset).map Prod.fst
        = some (some (payload ++ [0]))) ∧
    (∀ (t a b c d : Byte) (payload rest : List Byte), 128 ≤ t.val → t.val < 192 →
      payload.length = a.val * 2 ^ 24 + b.val * 2 ^ 16 + c.val * 2 ^ 8 + d.val →
      (get_zl_entry env (pre ++ t :: a :: b :: c :: d :: (payload ++ rest)) offset).map Prod.fst
        = some (some (payload ++ [0]))) := by
  have hm : ∀ x : Nat, x &&& 0x3F = x % 64 := fun x => land_mask x
  refine ⟨?_, ?_, ?_⟩
  · intro t payload rest ht hl
    rw [hm] at hl
    rw [get_zl_entry_after_prevlen env pre _ offset hpre,
      zl_at_str6 env t payload rest _ ht hl (halloc _)]
    simp only [Option.map_some']
    by_cases h0 : t.val = 0
    · simp [h0]
    · have : t.val % 64 > 0 := by omega
      simp [h0, this]
  · intro t l1 payload rest h1 h2 hl
    have hL : ((t.val &&& 0x3F) <<< 8) ||| l1.val = t.val % 64 * 256 + l1.val := by
      rw [hm, Nat.shiftLeft_eq, or_eq_add 8 _ _ (by have := l1.isLt; omega)]
      norm_num
    rw [hL] at hl
    rw [get_zl_entry_after_prevlen env pre _ offset hpre,
      zl_at_str14 env t l1 payload rest _ ⟨h1, h2⟩ hl (halloc _)]
    rfl
  · intro t a b c d payload rest h1 h2 hl
    rw [get_zl_entry_after_prevlen env pre _ offset hpre,
      zl_at_str32 env t a b c d payload rest _ ⟨h1, h2⟩ hl (halloc _)]
    rfl

/-- The theorem `get_zl_entry_string` at the entries `00 | 02 | 'h' 'i'` and
`00 | 40 00` (an empty string of the 14-bit class). -/
theorem get_zl_entry_string_witness :
    (get_zl_entry (testEnv true) [0x00, 0x02, 104, 105, 0xFF] 10).map Prod.fst
      = some (some [104, 105, 0]) ∧
    (get_zl_entry (testEnv true) [0x00, 0x40, 0x00, 0xFF] 10).map Prod.fst
      = some (some [0]) :=
  ⟨(get_zl_entry_string (testEnv true) [0x00] 10 rfl (fun _ => rfl)).1
      0x02 [104, 105] [0xFF] (by decide) (by decide),
   (get_zl_entry_string (testEnv true) [0x00] 10 rfl (fun _ => rfl)).2.1
      0x40 0x00 [] [0xFF] (by decide) (by decide) (by decide)⟩


/-- A text that fits its block: the entry returned holds the text. -/
theorem entry_text (size : Nat) (text : List Byte) (off : Nat)
    (h : text.length + 1 ≤ size) (hz : ∀ x ∈ text, x ≠ 0) :
    ∃ buf, ((sprintf_into size text).map
          (fun entry => ((some entry : Option (List Byte)), off))).map Prod.fst
        = some (some buf) ∧
      cstr buf = text := by
  obtain ⟨buf, hb, hc, _⟩ := sprintf_into_block size text h hz
  exact ⟨buf, by rw [hb]; rfl, hc⟩

/-- C7: for tag bytes 208-223 and 224-239, `get_zl_entry` returns a buffer holding the
decimal text of the following 4 and 8 payload bytes read as a signed little-endian integer;
for tag bytes 241-253 it returns the decimal text of `(tag & 0x0F) - 1`, a value in 0..12.
For tag bytes 192-207 and 254 it returns the decimal text of the following 2 and 1 payload
bytes read as a signed little-endian integer when that integer is above -10000 and above
-100; from -10000 and from -100 down the text needs 7 and 5 bytes with its terminator,
`sprintf` writes past the block of `5+1` and `3+1` bytes, and the call does not return. -/
theorem get_zl_entry_integer (env : Env) (pre : List Byte) (offset : Nat)
    (hpre : zl_prevlen_field pre = true) :
    (∀ (t x0 x1 : Byte) (rest : List Byte), 192 ≤ t.val → t.val ≤ 207 →
      (-10000 < toSigned 16 (le [x0, x1]) →
        ∃ buf, (get_zl_entry env (pre ++ t :: x0 :: x1 :: rest) offset).map Prod.fst
            = some (some buf) ∧
          cstr buf = fmt_d (toSigned 16 (le [x0, x1]))) ∧
      (toSigned 16 (le [x0, x1]) ≤ -10000 →
        get_zl_entry env (pre ++ t :: x0 :: x1 :: rest) offset = none ∧
          5 + 1 < (fmt_d (toSigned 16 (le [x0, x1]))).length + 1)) ∧
    (∀ (t x0 x1 x2 x3 : Byte) (rest : List Byte), 208 ≤ t.val → t.val ≤ 223 →
      ∃ buf, (get_zl_entry env (pre ++ t :: x0 :: x1 :: x2 :: x3 :: rest) offset).map Prod.fst
          = some (some buf) ∧
        cstr buf = fmt_d (toSigned 32 (le [x0, x1, x2, x3]))) ∧
    (∀ (t x0 x1 x2 x3 x4 x5 x6 x7 : Byte) (rest : List Byte), 224 ≤ t.val → t.val ≤ 239 →
      ∃ buf, (get_zl_entry env
            (pre ++ t :: x0 :: x1 :: x2 :: x3 :: x4 :: x5 :: x6 :: x7 :: rest) offset).map Prod.fst
          = some (some buf) ∧
        cstr buf = fmt_d (toSigned 64 (le [x0, x1, x2, x3, x4, x5, x6, x7]))) ∧
    (∀ (t x0 : Byte) (rest : List Byte), t.val = 254 →
      (-100 < toSigned 8 (le [x0]) →
        ∃ buf, (get_zl_entry env (pre ++ t :: x0 :: rest) offset).map Prod.fst
            = some (some buf) ∧
          cstr buf = fmt_d (toSigned 8 (le [x0]))) ∧
      (toSigned 8 (le [x0]) ≤ -100 →
        get_zl_entry env (pre ++ t :: x0 :: rest) offset = none ∧
          3 + 1 < (fmt_d (toSigned 8 (le [x0]))).length + 1)) ∧
    (∀ (t : Byte) (rest : List Byte), 241 ≤ t.val → t.val ≤ 253 →
      ∃ buf, (get_zl_entry env (pre ++ t :: rest) offset).map Prod.fst = some (some buf) ∧
        cstr buf = fmt_u ((t.val &&& 0x0F) - 1) ∧ (t.val &&& 0x0F) - 1 ≤ 12) := by
  refine ⟨?_, ?_, ?_, ?_, ?_⟩
  · intro t x0 x1 rest h1 h2
    rw [get_zl_entry_after_prevlen env pre _ offset hpre,
      zl_at_int16 env t x0 x1 rest _ ⟨h1, by omega⟩]
    refine ⟨fun hfit => entry_text 6 _ _ (text16_fits _ hfit) (fmt_d_ne_zero _),
      fun hlong => ⟨?_, text16_long _ hlong⟩⟩
    rw [sprintf_into_overrun _ _ (text16_long _ hlong)]
    rfl
  · intro t x0 x1 x2 x3 rest h1 h2
    rw [get_zl_entry_after_prevlen env pre _ offset hpre,
      zl_at_int32 env t x0 x1 x2 x3 rest _ ⟨h1, by omega⟩]
    exact entry_text 12 _ _ (text32_fits _) (fmt_d_ne_zero _)
  · intro t x0 x1 x2 x3 x4 x5 x6 x7 rest h1 h2
    rw [get_zl_entry_after_prevlen env pre _ offset hpre,
      zl_at_int64 env t x0 x1 x2 x3 x4 x5 x6 x7 rest _ ⟨h1, by omega⟩]
    exact entry_text 21 _ _ (text64_fits _) (fmt_d_ne_zero _)
  · intro t x0 rest h1
    rw [get_zl_entry_after_prevlen env pre _ offset hpre, zl_at_int8 env t x0 rest _ h1]
    refine ⟨fun hfit => entry_text 4 _ _ (text8_fits _ hfit) (fmt_d_ne_zero _),
      fun hlong => ⟨?_, text8_long _ hlong⟩⟩
    rw [sprintf_into_overrun _ _ (text8_long _ hlong)]
    rfl
  · intro t rest h1 h2
    rw [get_zl_entry_after_prevlen env pre _ offset hpre,
      zl_at_imm4 env t rest _ ⟨h1, by omega⟩, land_0f]
    obtain ⟨buf, hb, hc⟩ := entry_text 4 (fmt_u (t.val % 16 - 1))
      (((offset + pre.length) % U64 + 1) % U64) (text_imm_fits _ (by omega)) (fmt_u_ne_zero _)
    exact ⟨buf, hb, hc, by omega⟩

set_option maxRecDepth 100000 in
/-- The theorem `get_zl_entry_integer` at the entries `00 | C0 | FE FF` (the 16-bit
integer -2), `00 | F5` (the immediate 4), `00 | FE | 80` (the 8-bit integer -128) and
`00 | C0 | 00 80` (the 16-bit integer -32768). -/
theorem get_zl_entry_integer_witness :
    (∃ buf, (get_zl_entry (testEnv true) [0x00, 0xC0, 0xFE, 0xFF, 0xFF] 10).map Prod.fst
        = some (some buf) ∧ cstr buf = fmt_d (toSigned 16 (le [0xFE, 0xFF]))) ∧
    (∃ buf, (get_zl_entry (testEnv true) [0x00, 0xF5, 0xFF] 10).map Prod.fst
        = some (some buf) ∧ cstr buf = fmt_u ((0xF5 &&& 0x0F) - 1) ∧ (0xF5 &&& 0x0F) - 1 ≤ 12) ∧
    (get_zl_entry (testEnv true) [0x00, 0xFE, 0x80, 0xFF] 10 = none ∧
      3 + 1 < (fmt_d (toSigned 8 (le [0x80]))).length + 1) ∧
    (get_zl_entry (testEnv true) [0x00, 0xC0, 0x00, 0x80, 0xFF] 10 = none ∧
      5 + 1 < (fmt_d (toSigned 16 (le [0x00, 0x80]))).length + 1) :=
  ⟨((get_zl_entry_integer (testEnv true) [0x00] 10 rfl).1 0xC0 0xFE 0xFF [0xFF]
      (by decide) (by decide)).1 (by decide),
   (get_zl_entry_integer (testEnv true) [0x00] 10 rfl).2.2.2.2 0xF5 [0xFF]
      (by decide) (by decide),
   ((get_zl_entry_integer (testEnv true) [0x00] 10 rfl).2.2.2.1 0xFE 0x80 [0xFF]
      (by decide)).2 (by decide),
   ((get_zl_entry_integer (testEnv true) [0x00] 10 rfl).1 0xC0 0x00 0x80 [0xFF]
      (by decide) (by decide)).2 (by decide)⟩

/-- C8 fails on the code: at the entry `00 | F0 | FF FF FF` the three payload bytes are the
24-bit two's-complement pattern of -1, yet `get_zl_entry` renders `16777215`, a value
outside -8388608..8388607. -/
theorem get_zl_entry_int24_not_signed :
    toSigned 24 (le [0xFF, 0xFF, 0xFF]) = -1 ∧
    (get_zl_entry (testEnv true) [0x00, 0xF0, 0xFF, 0xFF, 0xFF] 0).map
        (fun r => (r.1.map cstr, r.2))
      = some (some (ascii "16777215"), 5) := by
  decide


/-! ## The report emitter and the walker -/

theorem type_line_eq (type : Nat) :
    type_line type = ascii "Type : " ++ type_label type ++ ascii "\n" := by
  by_cases h0 : type = 0
  · subst h0; rfl
  by_cases h1 : type = 1
  · subst h1; rfl
  by_cases h2 : type = 2
  · subst h2; rfl
  by_cases h3 : type = 3
  · subst h3; rfl
  by_cases h4 : type = 4
  · subst h4; rfl
  by_cases h9 : type = 9
  · subst h9; rfl
  by_cases h10 : type = 10
  · subst h10; rfl
  by_cases h11 : type = 11
  · subst h11; rfl
  by_cases h12 : type = 12
  · subst h12; rfl
  by_cases h13 : type = 13
  · subst h13; rfl
  by_cases h14 : type = 14
  · subst h14; rfl
  unfold type_line type_label
  rw [if_neg h0, if_neg h1, if_neg h2, if_neg h3, if_neg h4, if_neg h9, if_neg h10, if_neg h11, if_neg h12, if_neg h13, if_neg h14, if_neg h0, if_neg h1, if_neg h2, if_neg h3, if_neg h4, if_neg h9, if_neg h10, if_neg h11, if_neg h12, if_neg h13, if_neg h14]
  rfl

theorem print_key_info_eq (env : Env) (name value : KI) (type exp : Nat) (fo : List Byte) :
    print_key_info env (some name) (some value) type exp fo
      = fo ++ report_record env.full (fmt_s name.str) (type_label type)
          ((name.size + value.size + 16) % U64) exp (fmt_s value.str) := by
  simp only [print_key_info, report_record, type_line_eq, ROBJ_OH, PTRSZ]
  cases env.full <;> simp [List.append_assoc]

theorem main_record_emits (env : Env) (s : Walk) (name value : KI) (r : Nat)
    (hc : main_ctime s name (some value) = some r) :
    ∃ s', main_record env s (some name) (some value) = .again s' ∧
      s'.fo = s.fo ++ report_record env.full (fmt_s name.str) (type_label s.type.val)
        ((name.size + (if s.exp = 0 then 0 else 32) + value.size + 16) % U64)
        (if s.exp = 0 then 0 else (((s.exp : Int) - (r : Int)) % (2 ^ 64 : Int)).toNat)
        (fmt_s value.str) := by
  by_cases h0 : s.exp = 0
  · have hgt : ¬ s.exp > 0 := by omega
    simp only [main_record, hc, hgt, if_false, h0, if_true, print_key_info_eq]
    exact ⟨_, rfl, rfl⟩
  · have hgt : s.exp > 0 := by omega
    have hsz : ((name.size + EXP_OH) % U64 + value.size + 16) % U64
        = (name.size + 32 + value.size + 16) % U64 := by
      simp only [EXP_OH, PTRSZ, U64]
      omega
    simp only [main_record, hc, hgt, if_true, h0, if_false, print_key_info_eq, hsz]
    refine ⟨_, rfl, ?_⟩
    simp only [U64]
    norm_num


/-- C9: for a record with decoded name and value, the `Size` field `print_key_info` writes
is name size + value size + 16, and in the walker the name size it is handed is the decoded
name size plus 32 exactly when the raw expiration in seconds is non-zero; all sizes being
64-bit unsigned, the sum is taken modulo `2^64`. -/
theorem main_record_size (env : Env) (s : Walk) (name value : KI) (r : Nat)
    (hc : main_ctime s name (some value) = some r) :
    (∀ (type exp : Nat) (fo : List Byte),
      print_key_info env (some name) (some value) type exp fo
        = fo ++ report_record env.full (fmt_s name.str) (type_label type)
            ((name.size + value.size + 16) % 2 ^ 64) exp (fmt_s value.str)) ∧
    (∃ s', main_record env s (some name) (some value) = .again s' ∧
      s'.fo = s.fo ++ report_record env.full (fmt_s name.str) (type_label s.type.val)
        ((name.size + (if s.exp = 0 then 0 else 32) + value.size + 16) % 2 ^ 64)
        (if s.exp = 0 then 0 else (((s.exp : Int) - (r : Int)) % (2 ^ 64 : Int)).toNat)
        (fmt_s value.str)) := by
  have e64 : (2 : Nat) ^ 64 = U64 := by simp only [U64]; norm_num
  rw [e64]
  exact ⟨fun type exp fo => print_key_info_eq env name value type exp fo,
    main_record_emits env s name value r hc⟩

set_option maxRecDepth 100000 in
/-- The theorem `main_record_size` at a record `k` = `v` of type String (sizes 17 and 17)
whose raw expiration is 5 seconds: the Size is 17 + 32 + 17 + 16 = 82. -/
theorem main_record_size_witness :
    ∃ s', main_record (testEnv false) { main_locals ⟨[], 0⟩ [] with exp := 5 }
        (some ⟨17, some [107, 0]⟩) (some ⟨17, some [118, 0]⟩) = .again s' ∧
      s'.fo = ascii "Key  : k\nType : String\nSize : 82\nExp  : 5\n\n" :=
  (main_record_size (testEnv false) { main_locals ⟨[], 0⟩ [] with exp := 5 }
    ⟨17, some [107, 0]⟩ ⟨17, some [118, 0]⟩ 0 rfl).2


set_option maxRecDepth 100000 in
/-- C10 as stated fails when the expiration value is 0: on the stream
`FD 00 00 00 00 | 00 | 01 'k' | 01 'v'` with creation timestamp 100 the emitted `Exp` is 0,
whereas `e - ctime` in unsigned 64-bit arithmetic is `2^64 - 100`. -/
theorem main_iter_zero_expiration_counterexample :
    (main_iter (testEnv false) (fun _ aux fd => str_enc (testEnv false) aux fd)
        { main_locals ⟨[0xFD, 0, 0, 0, 0, 0x00, 0x01, 107, 0x01, 118, 0xFF], 1⟩ [] with
          buffer := ⟨0xFD, 0⟩, rdbtime := 100 }).out
      = some (ascii "Key  : k\nType : String\nSize : 50\nExp  : 0\n\n") ∧
    ((((le [0, 0, 0, 0] : Nat) : Int) - 100) % (2 ^ 64 : Int)).toNat = 18446744073709551516 := by
  constructor
  · rfl
  · decide

theorem drop_add_of_drop (l : List Byte) (p : Nat) (pre rest : List Byte)
    (h : l.drop p = pre ++ rest) : l.drop (p + pre.length) = rest := by
  rw [← List.drop_drop, h]
  simp

theorem main_switch_seconds (env : Env) (s : Walk) (e0 e1 e2 e3 t : Byte) (rest : List Byte)
    (hop : s.buffer.b0.val = 0xFD) (hexp : s.exp = 0)
    (hd : s.fd.data.drop s.fd.pos = e0 :: e1 :: e2 :: e3 :: t :: rest) (ht : t.val ≤ 14) :
    main_switch env s
      = .entry { s with fd := { s.fd with pos := s.fd.pos + 5 },
                        exp := le [e0, e1, e2, e3], type := t, buffer := ⟨0, 0⟩ } := by
  have hr1 := fread_of_drop s.fd 4 [e0, e1, e2, e3] (t :: rest) (by simpa using hd) rfl
  have hd2 : s.fd.data.drop (s.fd.pos + 4) = [t] ++ rest :=
    drop_add_of_drop s.fd.data s.fd.pos [e0, e1, e2, e3] (t :: rest) (by simpa using hd)
  have hr2 : fread ⟨s.fd.data, s.fd.pos + 4⟩ 1 = ([t], ⟨s.fd.data, s.fd.pos + 5⟩) :=
    fread_of_drop ⟨s.fd.data, s.fd.pos + 4⟩ 1 [t] rest hd2 rfl
  have h14 : ¬ t.val > 14 := by omega
  simp only [main_switch, hop, hr1, hexp, store_zero]
  simp [hr2, h14]

theorem main_switch_millis (env : Env) (s : Walk) (m0 m1 m2 m3 m4 m5 m6 m7 t : Byte)
    (rest : List Byte) (hop : s.buffer.b0.val = 0xFC) (hexp : s.exp = 0)
    (hd : s.fd.data.drop s.fd.pos = m0 :: m1 :: m2 :: m3 :: m4 :: m5 :: m6 :: m7 :: t :: rest)
    (ht : t.val ≤ 14) :
    main_switch env s
      = .entry { s with fd := { s.fd with pos := s.fd.pos + 9 },
                        exp := le [m0, m1, m2, m3, m4, m5, m6, m7] / 1000, type := t,
                        buffer := ⟨0, 0⟩ } := by
  have hr1 := fread_of_drop s.fd 8 [m0, m1, m2, m3, m4, m5, m6, m7] (t :: rest)
    (by simpa using hd) rfl
  have hd2 : s.fd.data.drop (s.fd.pos + 8) = [t] ++ rest :=
    drop_add_of_drop s.fd.data s.fd.pos [m0, m1, m2, m3, m4, m5, m6, m7] (t :: rest) (by simpa using hd)
  have hr2 : fread ⟨s.fd.data, s.fd.pos + 8⟩ 1 = ([t], ⟨s.fd.data, s.fd.pos + 9⟩) :=
    fread_of_drop ⟨s.fd.data, s.fd.pos + 8⟩ 1 [t] rest hd2 rfl
  have h14 : ¬ t.val > 14 := by omega
  simp only [main_switch, hop, hr1, hexp, store_zero]
  simp [hr2, h14]

theorem main_switch_plain (env : Env) (s : Walk) (hop : s.buffer.b0.val ≤ 14) :
    main_switch env s = .entry { s with exp := 0, type := s.buffer.b0, buffer := ⟨0, 0⟩ } := by
  have h1 : ¬ s.buffer.b0.val = 0xFB := by omega
  have h2 : ¬ s.buffer.b0.val = 0xFE := by omega
  have h3 : ¬ s.buffer.b0.val = 0xFF := by omega
  have h4 : ¬ s.buffer.b0.val = 0xFA := by omega
  have h5 : ¬ s.buffer.b0.val = 0xFC := by omega
  have h6 : ¬ s.buffer.b0.val = 0xFD := by omega
  have h14 : ¬ s.buffer.b0.val > 14 := by omega
  simp only [main_switch, h1, h2, h3, h4, h5, h6, if_false, or_self, h14]

theorem main_switch_aux (env : Env) (s : Walk) (hop : s.buffer.b0.val = 0xFA) :
    main_switch env s
      = .entry { s with aux := true, exp := 0, type := 0, buffer := ⟨0, 0⟩ } := by
  simp [main_switch, hop]

theorem main_iter_of_entry (env : Env) (fptr : Nat → Decoder) (s s1 s2 : Walk)
    (name value : KI) (r : Nat) (hs : main_switch env s = .entry s1)
    (hfo : s1.fo = s.fo)
    (hdec : main_decode env fptr s1 = some (some name, some value, s2))
    (hc : main_ctime s2 name (some value) = some r) :
    ∃ s3, main_iter env fptr s = .again s3 ∧
      s3.fo = s.fo ++ report_record env.full (fmt_s name.str) (type_label s1.type.val)
        ((name.size + (if s1.exp = 0 then 0 else 32) + value.size + 16) % U64)
        (if s1.exp = 0 then 0 else (((s1.exp : Int) - (r : Int)) % (2 ^ 64 : Int)).toNat)
        (fmt_s value.str) := by
  have h2 : s2 = { s1 with fd := s2.fd, keyper := s2.keyper } := by
    simp only [main_decode] at hdec
    split at hdec
    · exact absurd hdec (by simp)
    · split at hdec
      · exact absurd hdec (by simp)
      · have := congrArg (fun x => x.2.2) (Option.some.inj hdec)
        simp only at this
        rw [← this]
  have hfo2 : s2.fo = s.fo := by rw [h2]; exact hfo
  have hty : s2.type = s1.type := by rw [h2]
  have hex : s2.exp = s1.exp := by rw [h2]
  obtain ⟨s3, h3, h4⟩ := main_record_emits env s2 name value r hc
  refine ⟨s3, ?_, ?_⟩
  · simp only [main_iter, hs, hdec]
    exact h3
  · rw [h4, hfo2, hty, hex]


/-- C10 (amended): let the expiration register be 0 when the opcode is read, as it is when
`main` enters its loop and after every emitted record.  For a record preceded by the opcode
`0xFD` with 4-byte (little-endian) value `e`, the emitted `Exp` is `e - ctime` when `e ≠ 0`
and 0 when `e = 0`; for a record preceded by `0xFC` with 8-byte value `m`, it is
`floor(m / 1000) - ctime` when `floor(m / 1000) ≠ 0` and 0 otherwise; the subtraction is
taken in unsigned 64-bit arithmetic and `ctime` is the creation timestamp seen so far, this
record's own `ctime` value included.  A record with no expiration opcode (the opcode byte
is itself a type tag 0-14, or is the aux marker `0xFA`) has `Exp` 0. -/
theorem main_iter_expiration (env : Env) (fptr : Nat → Decoder) (s : Walk)
    (hexp : s.exp = 0) :
    (∀ (e0 e1 e2 e3 t : Byte) (rest : List Byte) (name value : KI) (s2 : Walk) (r : Nat),
      s.buffer.b0.val = 0xFD →
      s.fd.data.drop s.fd.pos = e0 :: e1 :: e2 :: e3 :: t :: rest → t.val ≤ 14 →
      main_decode env fptr { s with fd := { s.fd with pos := s.fd.pos + 5 },
                                    exp := le [e0, e1, e2, e3], type := t, buffer := ⟨0, 0⟩ }
        = some (some name, some value, s2) →
      main_ctime s2 name (some value) = some r →
      ∃ s3, main_iter env fptr s = .again s3 ∧
        s3.fo = s.fo ++ report_record env.full (fmt_s name.str) (type_label t.val)
          ((name.size + (if le [e0, e1, e2, e3] = 0 then 0 else 32) + value.size + 16) % 2 ^ 64)
          (if le [e0, e1, e2, e3] = 0 then 0
           else ((((le [e0, e1, e2, e3] : Nat) : Int) - (r : Int)) % (2 ^ 64 : Int)).toNat)
          (fmt_s value.str)) ∧
    (∀ (m0 m1 m2 m3 m4 m5 m6 m7 t : Byte) (rest : List Byte) (name value : KI) (s2 : Walk)
      (r : Nat), s.buffer.b0.val = 0xFC →
      s.fd.data.drop s.fd.pos = m0 :: m1 :: m2 :: m3 :: m4 :: m5 :: m6 :: m7 :: t :: rest →
      t.val ≤ 14 →
      main_decode env fptr { s with fd := { s.fd with pos := s.fd.pos + 9 },
                                    exp := le [m0, m1, m2, m3, m4, m5, m6, m7] / 1000,
                                    type := t, buffer := ⟨0, 0⟩ }
        = some (some name, some value, s2) →
      main_ctime s2 name (some value) = some r →
      ∃ s3, main_iter env fptr s = .again s3 ∧
        s3.fo = s.fo ++ report_record env.full (fmt_s name.str) (type_label t.val)
          ((name.size + (if le [m0, m1, m2, m3, m4, m5, m6, m7] / 1000 = 0 then 0 else 32)
            + value.size + 16) % 2 ^ 64)
          (if le [m0, m1, m2, m3, m4, m5, m6, m7] / 1000 = 0 then 0
           else ((((le [m0, m1, m2, m3, m4, m5, m6, m7] / 1000 : Nat) : Int) - (r : Int))
                  % (2 ^ 64 : Int)).toNat)
          (fmt_s value.str)) ∧
    (∀ (name value : KI) (s2 : Walk) (r : Nat), s.buffer.b0.val ≤ 14 →
      main_decode env fptr { s with exp := 0, type := s.buffer.b0, buffer := ⟨0, 0⟩ }
        = some (some name, some value, s2) →
      main_ctime s2 name (some value) = some r →
      ∃ s3, main_iter env fptr s = .again s3 ∧
        s3.fo = s.fo ++ report_record env.full (fmt_s name.str) (type_label s.buffer.b0.val)
          ((name.size + value.size + 16) % 2 ^ 64) 0 (fmt_s value.str)) ∧
    (∀ (name value : KI) (s2 : Walk) (r : Nat), s.buffer.b0.val = 0xFA →
      main_decode env fptr { s with aux := true, exp := 0, type := 0, buffer := ⟨0, 0⟩ }
        = some (some name, some value, s2) →
      main_ctime s2 name (some value) = some r →
      ∃ s3, main_iter env fptr s = .again s3 ∧
        s3.fo = s.fo ++ report_record env.full (fmt_s name.str) (type_label 0)
          ((name.size + value.size + 16) % 2 ^ 64) 0 (fmt_s value.str)) := by
  have e64 : (2 : Nat) ^ 64 = U64 := by simp only [U64]; norm_num
  rw [e64]
  refine ⟨?_, ?_, ?_, ?_⟩
  · intro e0 e1 e2 e3 t rest name value s2 r hop hd ht hdec hc
    have h := main_iter_of_entry env fptr s _ s2 name value r
      (main_switch_seconds env s e0 e1 e2 e3 t rest hop hexp hd ht) rfl hdec hc
    exact h
  · intro m0 m1 m2 m3 m4 m5 m6 m7 t rest name value s2 r hop hd ht hdec hc
    have h := main_iter_of_entry env fptr s _ s2 name value r
      (main_switch_millis env s m0 m1 m2 m3 m4 m5 m6 m7 t rest hop hexp hd ht) rfl hdec hc
    exact h
  · intro name value s2 r hop hdec hc
    have h := main_iter_of_entry env fptr s _ s2 name value r
      (main_switch_plain env s hop) rfl hdec hc
    simpa using h
  · intro name value s2 r hop hdec hc
    have h := main_iter_of_entry env fptr s _ s2 name value r
      (main_switch_aux env s hop) rfl hdec hc
    simpa using h

set_option maxRecDepth 100000 in
/-- The theorem `main_iter_expiration` at the stream `FD 0A 00 00 00 | 00 | 01 'k' | 01 'v'`
with creation timestamp 3: the emitted `Exp` is 10 - 3 = 7. -/
theorem main_iter_expiration_witness :
    ∃ s3, main_iter (testEnv false) (fun _ aux fd => str_enc (testEnv false) aux fd)
        { main_locals ⟨[0xFD, 10, 0, 0, 0, 0x00, 0x01, 107, 0x01, 118, 0xFF], 1⟩ [] with
          buffer := ⟨0xFD, 0⟩, rdbtime := 3 } = .again s3 ∧
      s3.fo = ascii "Key  : k\nType : String\nSize : 82\nExp  : 7\n\n" :=
  (main_iter_expiration (testEnv false) (fun _ aux fd => str_enc (testEnv false) aux fd)
    { main_locals ⟨[0xFD, 10, 0, 0, 0, 0x00, 0x01, 107, 0x01, 118, 0xFF], 1⟩ [] with
      buffer := ⟨0xFD, 0⟩, rdbtime := 3 } rfl).1
    10 0 0 0 0x00 [0x01, 107, 0x01, 118, 0xFF] ⟨17, some [107, 0]⟩ ⟨17, some [118, 0]⟩
    { main_locals ⟨[0xFD, 10, 0, 0, 0, 0x00, 0x01, 107, 0x01, 118, 0xFF], 10⟩ [] with
      buffer := ⟨0, 0⟩, rdbtime := 3, exp := 10, type := 0,
      keyper := [1, 0, 0, 0, 0, 0, 0, 0, 0, 0, 0] }
    3 rfl rfl (by decide) rfl rfl


/-! ## The whole run -/

theorem check_rdb_version_rc (buffer : List Byte) (fd : FILE) :
    (check_rdb_version buffer fd).1 = 3 := by
  simp only [check_rdb_version]
  by_cases h : List.take 4 (overlay (fread fd 4).1 buffer) = [0x30, 0x30, 0x30, 0x37]
  · have h2 : List.take 4 (overlay (fread fd 4).1 buffer) ≠ [0x30, 0x30, 0x30, 0x38] := by
      rw [h]; decide
    simp [h2]
  · simp [h]

/-- C12 fails on the code: on the well-formed dump `REDIS0007` followed by the end marker
`0xFF` the run writes its summary and returns 3, not 0.  The run is one
whose store behind `keyper` hits spare bytes (`Behind.spare`). -/
theorem main_returns_3_on_minimal_dump :
    main (testEnv false) (fun _ aux fd => str_enc (testEnv false) aux fd)
        (List.replicate 10 0) .spare 1 (ascii "REDIS0007" ++ [0xFF])
      = some (.exit 3 (ascii "Total number of keys: 0\nLargest key: (null) with size 0 bytes\n")) := by
  rfl

/-- C13 fails on the code: for the version fields `0007` and `0008`, as for every other
content of the stream and of the local array, `check_rdb_version` returns 3. -/
theorem check_rdb_version_never_accepts :
    (check_rdb_version (List.replicate 10 0) ⟨ascii "0007", 0⟩).1 = 3 ∧
    (check_rdb_version (List.replicate 10 0) ⟨ascii "0008", 0⟩).1 = 3 ∧
    ∀ (buffer : List Byte) (fd : FILE), (check_rdb_version buffer fd).1 = 3 :=
  ⟨check_rdb_version_rc _ _, check_rdb_version_rc _ _, check_rdb_version_rc⟩


set_option maxRecDepth 100000 in
theorem top_bits_div (b : Byte) :
    (b.val / 64 = 0 → b.val &&& 0xC0 = 0x00) ∧ (b.val / 64 = 1 → b.val &&& 0xC0 = 0x40) ∧
    (b.val / 64 = 2 → b.val &&& 0xC0 = 0x80) ∧ (b.val / 64 = 3 → b.val &&& 0xC0 = 0xC0) := by
  revert b; decide

theorem get_length_of_header (h : List Byte) (n : Nat) (data : List Byte) (pos : Nat)
    (rest : List Byte) (hh : len_header h n = true) (hd : data.drop pos = h ++ rest) :
    ∃ (b : Byte) (tl : List Byte) (buf : Buffer), h = b :: tl ∧
      get_length ⟨b, 0⟩ ⟨data, pos + 1⟩ = (n, buf, ⟨data, pos + h.length⟩) := by
  rcases h with _ | ⟨b, tl⟩
  · simp [len_header] at hh
  refine ⟨b, tl, ?_⟩
  have hd1 : data.drop (pos + 1) = tl ++ rest := by
    have := drop_add_of_drop data pos [b] (tl ++ rest) (by simpa using hd)
    simpa using this
  rcases tl with _ | ⟨c, tl⟩
  · simp only [len_header, Bool.and_eq_true, decide_eq_true_eq] at hh
    obtain ⟨h0, hn⟩ := hh
    have hb := (top_bits_div b).1 h0
    obtain ⟨h80, h81⟩ := (top_bits_cases b).1 hb
    have hm : b.val &&& MASK = b.val := by rw [land_mask]; omega
    refine ⟨⟨b, 0⟩, rfl, ?_⟩
    simp [get_length, h80, h81, hb, hm, hn]
  rcases tl with _ | ⟨p1, tl⟩
  · simp only [len_header, Bool.and_eq_true, decide_eq_true_eq] at hh
    obtain ⟨h0, hn⟩ := hh
    have hb := (top_bits_div b).2.1 h0
    obtain ⟨h80, h81⟩ := (top_bits_cases b).2.1 hb
    have hr := fread_of_drop ⟨data, pos + 1⟩ 1 [c] rest (by simpa using hd1) rfl
    have hv : ((b.val &&& MASK) <<< 8) ||| c.val = b.val % 64 * 256 + c.val := by
      rw [land_mask, Nat.shiftLeft_eq, or_eq_add 8 _ _ (by have := c.isLt; omega)]
      norm_num
    refine ⟨⟨b, c⟩, rfl, ?_⟩
    simp only [get_length, h80, h81, hb, if_false, hr, List.headD_cons, hv, hn]
    simp
  rcases tl with _ | ⟨p2, tl⟩
  · simp [len_header] at hh
  rcases tl with _ | ⟨p3, tl⟩
  · simp [len_header] at hh
  rcases tl with _ | ⟨p4, tl⟩
  · simp only [len_header, Bool.and_eq_true, decide_eq_true_eq] at hh
    obtain ⟨⟨h0, h81⟩, hn⟩ := hh
    have hb := (top_bits_div b).2.2.1 h0
    have hr := fread_of_drop ⟨data, pos + 1⟩ 4 [c, p1, p2, p3] rest (by simpa using hd1) rfl
    have hs := swap32_eq c.val p1.val p2.val p3.val c.isLt p1.isLt p2.isLt p3.isLt
    have h81b : ¬ b.val = 0x81 := by simpa using h81
    refine ⟨⟨b, 0⟩, rfl, ?_⟩
    by_cases h80 : b.val = 0x80
    · simp only [get_length, h80, if_true, hr, le4, hs, hn]
      norm_num
    · simp only [get_length, h80, h81b, hb, if_true, if_false, hr, le4, hs, hn]
      norm_num
  rcases tl with _ | ⟨p5, tl⟩
  · simp [len_header] at hh
  rcases tl with _ | ⟨p6, tl⟩
  · simp [len_header] at hh
  rcases tl with _ | ⟨p7, tl⟩
  · simp [len_header] at hh
  rcases tl with _ | ⟨p8, tl⟩
  · simp only [len_header, Bool.and_eq_true, decide_eq_true_eq] at hh
    obtain ⟨h81, hn⟩ := hh
    have h80 : b.val ≠ 0x80 := by omega
    have hr := fread_of_drop ⟨data, pos + 1⟩ 8 [c, p1, p2, p3, p4, p5, p6, p7] rest
      (by simpa using hd1) rfl
    have hs := swap64_eq c.val p1.val p2.val p3.val p4.val p5.val p6.val p7.val
      c.isLt p1.isLt p2.isLt p3.isLt p4.isLt p5.isLt p6.isLt p7.isLt
    refine ⟨⟨b, 0⟩, rfl, ?_⟩
    simp only [get_length, h80, h81, if_true, if_false, hr, le8, hs, hn]
    norm_num
  · simp [len_header] at hh

theorem str_enc_literal_at (env : Env) (aux : Bool) (data : List Byte) (pos : Nat)
    (h content rest : List Byte) (n : Nat) (hkey : env.canAlloc KI_SZ = true)
    (halloc : env.canAlloc (n + 1) = true) (hh : len_header h n = true) (hn : n ≠ 0)
    (hcl : content.length = n) (hd : data.drop pos = h ++ (content ++ rest))
    (hsz : data.length < 2 ^ 63) :
    str_enc env aux ⟨data, pos⟩
      = some (some ⟨n + 16, some (content ++ [0])⟩, ⟨data, pos + h.length + n⟩) := by
  obtain ⟨b, tl, buf, hb, hg⟩ := get_length_of_header h n data pos (content ++ rest) hh hd
  have hfirst : (⟨data, pos⟩ : FILE).data.drop (⟨data, pos⟩ : FILE).pos
      = b :: (tl ++ (content ++ rest)) := by
    rw [hb] at hd; simpa using hd
  have hc : (⟨data, pos + h.length⟩ : FILE).data.drop (⟨data, pos + h.length⟩ : FILE).pos
      = content ++ rest := drop_add_of_drop data pos h (content ++ rest) hd
  exact str_enc_of_length env aux ⟨data, pos⟩ b _ hkey hfirst hsz n buf ⟨data, pos + h.length⟩
    content rest hg hn halloc hc hcl


theorem main_record_plain (env : Env) (s : Walk) (name value : KI) (r : Nat)
    (hexp : s.exp = 0) (hc : main_ctime s name (some value) = some r) :
    main_record env s (some name) (some value)
      = .again { s with
          fo := s.fo ++ report_record env.full (fmt_s name.str) (type_label s.type.val)
                  ((name.size + value.size + 16) % U64) 0 (fmt_s value.str),
          rdbtime := r,
          big := if (name.size + value.size) % U64 > s.big.size then
                   match name.str with
                   | none => s.big
                   | some nb =>
                     ⟨(name.size + value.size) % U64,
                      some ((cstr nb).take ((cstr nb).length % U32) ++ [0])⟩
                 else s.big,
          type := 255, exp := 0, aux := false, keycount := (s.keycount + 1) % U64 } := by
  simp only [main_record, hc, hexp, gt_iff_lt, Nat.lt_irrefl, if_false, print_key_info_eq]

theorem main_ctime_some (s : Walk) (name value : KI) (vb : List Byte)
    (hv : value.str = some vb) :
    main_ctime s name (some value)
      = some (match name.str with
              | none => s.rdbtime
              | some nb =>
                if s.type.val = 0 ∧ nb.take 5 = ascii "ctime" then strtou64 vb 0
                else s.rdbtime) := by
  unfold main_ctime
  cases hn : name.str with
  | none => rfl
  | some nb =>
    simp only [hv]
    split <;> rfl

theorem main_iter_string (env : Env) (fptr : Nat → Decoder) (s : Walk)
    (data : List Byte) (pos : Nat) (hk k hv v rest : List Byte)
    (halloc : ∀ n, env.canAlloc n = true)
    (hf0 : ∀ aux fd, fptr 0 aux fd = str_enc env aux fd)
    (hop : s.buffer.b0 = 0) (hfd : s.fd = ⟨data, pos⟩)
    (hkh : len_header hk k.length = true) (hvh : len_header hv v.length = true)
    (hk0 : k ≠ []) (hv0 : v ≠ [])
    (hd : data.drop pos = hk ++ (k ++ (hv ++ (v ++ rest))))
    (hsz : data.length < 2 ^ 63) :
    main_iter env fptr s
      = .again { s with
          fd := ⟨data, pos + hk.length + k.length + hv.length + v.length⟩,
          buffer := ⟨0, 0⟩,
          keyper := s.keyper.set 0 ((s.keyper.getD 0 0 + 1) % U64),
          fo := s.fo ++ report_record env.full (cstr (k ++ [0])) (type_label 0)
                  ((k.length + 16 + (v.length + 16) + 16) % U64) 0 (cstr (v ++ [0])),
          rdbtime := if (k ++ [0]).take 5 = ascii "ctime" then strtou64 (v ++ [0]) 0
                     else s.rdbtime,
          big := if (k.length + 16 + (v.length + 16)) % U64 > s.big.size then
                   ⟨(k.length + 16 + (v.length + 16)) % U64,
                    some ((cstr (k ++ [0])).take ((cstr (k ++ [0])).length % U32) ++ [0])⟩
                 else s.big,
          type := 255, exp := 0, aux := false, keycount := (s.keycount + 1) % U64 } := by
  have hop' : s.buffer.b0.val ≤ 14 := by rw [hop]; decide
  have hsw := main_switch_plain env s hop'
  have hkn : k.length ≠ 0 := by simpa using hk0
  have hvn : v.length ≠ 0 := by simpa using hv0
  have hname := str_enc_literal_at env s.aux data pos hk k (hv ++ (v ++ rest)) k.length
    (halloc _) (halloc _) hkh hkn rfl hd hsz
  have hd2 : data.drop (pos + hk.length + k.length) = hv ++ (v ++ rest) := by
    have h1 := drop_add_of_drop data pos hk _ hd
    exact drop_add_of_drop data (pos + hk.length) k _ h1
  have hval := str_enc_literal_at env s.aux data (pos + hk.length + k.length) hv v rest
    v.length (halloc _) (halloc _) hvh hvn rfl hd2 hsz
  have hdec : main_decode env fptr { s with exp := 0, type := s.buffer.b0, buffer := ⟨0, 0⟩ }
      = some (some ⟨k.length + 16, some (k ++ [0])⟩, some ⟨v.length + 16, some (v ++ [0])⟩,
          { s with exp := 0, type := s.buffer.b0, buffer := ⟨0, 0⟩,
                   fd := ⟨data, pos + hk.length + k.length + hv.length + v.length⟩,
                   keyper := s.keyper.set 0 ((s.keyper.getD 0 0 + 1) % U64) }) := by
    have h0 : (0 : Byte).val = 0 := rfl
    have h9 : (0 : Nat) < 9 := by decide
    simp only [main_decode, hfd, hname, hop, h0, h9, if_true, hf0, hval]
  simp only [main_iter, hsw, hdec]
  rw [main_record_plain env _ _ _ _ rfl (main_ctime_some _ _ _ (v ++ [0]) rfl)]
  have h0 : (0 : Byte).val = 0 := rfl
  simp only [hop, fmt_s, h0, true_and]


theorem cstr_ne_zero (buf : List Byte) : ∀ x ∈ cstr buf, x ≠ 0 := by
  intro x hx
  have := List.mem_takeWhile_imp hx
  simpa using this

theorem cstr_idem (buf r : List Byte) : cstr (cstr buf ++ 0 :: r) = cstr buf :=
  cstr_append_nul _ _ (cstr_ne_zero buf)

theorem cstr_text (t r : List Byte) (h : ∀ x ∈ t, x ≠ 0) : cstr (t ++ 0 :: r) = t :=
  cstr_append_nul t r h

theorem cstr_length_le (k r : List Byte) : (cstr (k ++ 0 :: r)).length ≤ k.length := by
  induction k with
  | nil => simp [cstr]
  | cons a k ih =>
    by_cases ha : a = 0
    · simp [cstr, ha]
    · have : cstr (a :: k ++ 0 :: r) = a :: cstr (k ++ 0 :: r) := by
        simp [cstr, List.takeWhile_cons, ha]
      rw [this, List.length_cons, List.length_cons]
      omega

theorem cstr_copy (buf : List Byte) (h : (cstr buf).length < 4294967296) :
    (cstr buf).take ((cstr buf).length % U32) = cstr buf := by
  have hm : (cstr buf).length % U32 = (cstr buf).length :=
    Nat.mod_eq_of_lt (by simp only [U32]; exact h)
  rw [hm, List.take_length]

theorem main_iter_end (env : Env) (fptr : Nat → Decoder) (s : Walk)
    (hop : s.buffer.b0.val = 0xFF) :
    main_iter env fptr s
      = .finish { s with
          fo := s.fo ++ (ascii "Total number of keys: " ++ fmt_u s.keycount ++ ascii "\n")
                  ++ (ascii "Largest key: " ++ fmt_s s.big.str ++ ascii " with size "
                      ++ fmt_u s.big.size ++ ascii " bytes\n") } := by
  simp [main_iter, main_switch, hop]

theorem main_prologue (env : Env) (fptr : Nat → Decoder) (stack : List Byte)
    (behind : Behind) (fuel : Nat) (ver rest : List Byte) (hver : ver.length = 4) :
    main env fptr stack behind fuel ([0x52, 0x45, 0x44, 0x49, 0x53] ++ (ver ++ rest))
      = match main_init behind ⟨[0x52, 0x45, 0x44, 0x49, 0x53] ++ (ver ++ rest), 9⟩ [] with
        | none => none
        | some none => some .crash
        | some (some s0) =>
          match main_loop env fptr fuel s0 with
          | none => none
          | some none => some .crash
          | some (some s) => some (.exit (if behind = .code then 0 else 3) s.fo) := by
  have hr1 : fread ⟨[0x52, 0x45, 0x44, 0x49, 0x53] ++ (ver ++ rest), 0⟩ 5
      = ([0x52, 0x45, 0x44, 0x49, 0x53], ⟨[0x52, 0x45, 0x44, 0x49, 0x53] ++ (ver ++ rest), 5⟩) :=
    fread_of_drop ⟨_, 0⟩ 5 [0x52, 0x45, 0x44, 0x49, 0x53] (ver ++ rest) rfl rfl
  have hr2 : fread ⟨[0x52, 0x45, 0x44, 0x49, 0x53] ++ (ver ++ rest), 5⟩ 4
      = (ver, ⟨[0x52, 0x45, 0x44, 0x49, 0x53] ++ (ver ++ rest), 9⟩) :=
    fread_of_drop ⟨_, 5⟩ 4 ver rest rfl hver
  have hm : check_magic stack ⟨[0x52, 0x45, 0x44, 0x49, 0x53] ++ (ver ++ rest), 0⟩
      = (0, ⟨[0x52, 0x45, 0x44, 0x49, 0x53] ++ (ver ++ rest), 5⟩) := by
    simp only [check_magic, hr1, overlay]
    simp
  have hv : (check_rdb_version stack ⟨[0x52, 0x45, 0x44, 0x49, 0x53] ++ (ver ++ rest), 5⟩).2
      = ⟨[0x52, 0x45, 0x44, 0x49, 0x53] ++ (ver ++ rest), 9⟩ := by
    simp only [check_rdb_version, hr2]
  simp only [main, hm, hv, check_rdb_version_rc]
  simp

/-- The run of `main` on the dump of one String entry when the store behind `keyper` does
no harm to the loop. -/
theorem main_single_string_run (env : Env) (fptr : Nat → Decoder) (stack : List Byte)
    (behind : Behind) (fuel : Nat) (ver hk k hv v data : List Byte)
    (hfull : env.full = false) (halloc : ∀ n, env.canAlloc n = true)
    (hf0 : ∀ aux fd, fptr 0 aux fd = str_enc env aux fd)
    (hver : ver.length = 4)
    (hkh : len_header hk k.length = true) (hvh : len_header hv v.length = true)
    (hk0 : k ≠ []) (hv0 : v ≠ []) (hfuel : 2 ≤ fuel)
    (hdata : data = [0x52, 0x45, 0x44, 0x49, 0x53]
                      ++ (ver ++ (0x00 :: (hk ++ (k ++ (hv ++ (v ++ [0xFF])))))))
    (hsz : data.length < 2 ^ 63) (hk32 : k.length < 4294967296)
    (hb : main_init behind ⟨data, 9⟩ [] = some (some (main_locals ⟨data, 9⟩ []))) :
    main env fptr stack behind fuel data
      = some (.exit (if behind = .code then 0 else 3)
          (report_record false (cstr (k ++ [0])) (ascii "String")
              (k.length + v.length + 48) 0 (cstr (v ++ [0]))
            ++ (ascii "Total number of keys: " ++ fmt_u 1 ++ ascii "\n")
            ++ (ascii "Largest key: " ++ cstr (k ++ [0]) ++ ascii " with size "
                ++ fmt_u (k.length + v.length + 32) ++ ascii " bytes\n"))) := by
  obtain ⟨f, rfl⟩ : ∃ f, fuel = f + 2 := ⟨fuel - 2, by omega⟩
  have hlen : data.length = 5 + (4 + (1 + (hk.length + (k.length + (hv.length
      + (v.length + 1)))))) := by
    rw [hdata]; simp [hver]; omega
  have e63 : (2 : Nat) ^ 63 = 9223372036854775808 := by norm_num
  have hsz' := hsz
  rw [e63, hlen] at hsz'
  have hd9 : data.drop 9 = [0x00] ++ (hk ++ (k ++ (hv ++ (v ++ [0xFF])))) := by
    rw [hdata]
    have := drop_add_of_drop ([0x52, 0x45, 0x44, 0x49, 0x53]
      ++ (ver ++ (0x00 :: (hk ++ (k ++ (hv ++ (v ++ [0xFF]))))))) 5 ver _ rfl
    rw [hver] at this
    exact this
  have hr0 : fread ⟨data, 9⟩ 1 = ([0x00], ⟨data, 10⟩) :=
    fread_of_drop ⟨data, 9⟩ 1 [0x00] _ hd9 rfl
  have hd10 : data.drop 10 = hk ++ (k ++ (hv ++ (v ++ [0xFF]))) :=
    drop_add_of_drop data 9 [0x00] _ hd9
  have hit := main_iter_string env fptr
    { main_locals ⟨data, 9⟩ [] with fd := ⟨data, 10⟩, buffer := ⟨0, 0⟩ }
    data 10 hk k hv v [0xFF] halloc hf0 rfl rfl hkh hvh hk0 hv0 hd10 hsz
  have hdE : data.drop (10 + hk.length + k.length + hv.length + v.length) = [0xFF] ++ [] := by
    have h1 := drop_add_of_drop data 10 hk _ hd10
    have h2 := drop_add_of_drop data (10 + hk.length) k _ h1
    have h3 := drop_add_of_drop data (10 + hk.length + k.length) hv _ h2
    exact drop_add_of_drop data (10 + hk.length + k.length + hv.length) v _ h3
  have hrE : fread ⟨data, 10 + hk.length + k.length + hv.length + v.length⟩ 1
      = ([0xFF], ⟨data, 10 + hk.length + k.length + hv.length + v.length + 1⟩) :=
    fread_of_drop ⟨data, _⟩ 1 [0xFF] [] hdE rfl
  have hm1 : (k.length + 16 + (v.length + 16) + 16) % U64 = k.length + v.length + 48 := by
    simp only [U64]; omega
  have hm2 : (k.length + 16 + (v.length + 16)) % U64 = k.length + v.length + 32 := by
    simp only [U64]; omega
  have hpos : k.length + v.length + 32 > 0 := by omega
  have hkc : ((0 : Nat) + 1) % U64 = 1 := by simp [U64]
  have hcp : (cstr (k ++ [0])).take ((cstr (k ++ [0])).length % U32) = cstr (k ++ [0]) :=
    cstr_copy _ (lt_of_le_of_lt (cstr_length_le k []) hk32)
  simp only [main_locals] at hit
  rw [hdata, main_prologue env fptr stack behind (f + 2) ver _ hver, ← hdata, hb]
  simp only [main_loop, main_locals, hr0, List.head?_cons, hit, hrE]
  rw [main_iter_end env fptr _ rfl]
  simp only [hm1, hm2, hpos, if_true, hfull, hkc, fmt_s, hcp, cstr_idem, type_label,
    List.nil_append]

/-- C11: for every stream made of the 5-byte magic, a 4-byte version field, one String-type
entry (type byte `0x00`) with a non-empty literal key `k` and a non-empty literal value
`v`, each behind a length field in any of the four forms, and the end marker `0xFF`, in
size-only mode (allocations succeeding, two rounds of the loop allowed, the key shorter than
`2^32` bytes).  Before its loop `main` clears `keyper[0]` to `keyper[11]`, one cell more than
the array has.  When that store hits spare bytes or the return code, the run ends normally
with an output file that holds exactly one record - Key the C string of `k`, which is `k`
itself when `k` has no NUL byte, Type String, Size `|k| + |v| + 48`, Exp 0 - followed by
the summary with total key count 1.  When it hits a pointer of the frame, the run ends in a
fault, and when it hits the counter of the clearing loop, the run never ends, whatever the
fuel: in both cases no record is emitted. -/
theorem main_single_string (env : Env) (fptr : Nat → Decoder) (stack : List Byte)
    (fuel : Nat) (ver hk k hv v data : List Byte)
    (hfull : env.full = false) (halloc : ∀ n, env.canAlloc n = true)
    (hf0 : ∀ aux fd, fptr 0 aux fd = str_enc env aux fd)
    (hver : ver.length = 4)
    (hkh : len_header hk k.length = true) (hvh : len_header hv v.length = true)
    (hk0 : k ≠ []) (hv0 : v ≠ []) (hfuel : 2 ≤ fuel)
    (hdata : data = [0x52, 0x45, 0x44, 0x49, 0x53]
                      ++ (ver ++ (0x00 :: (hk ++ (k ++ (hv ++ (v ++ [0xFF])))))))
    (hsz : data.length < 2 ^ 63) (hk32 : k.length < 4294967296) :
    (∀ behind, behind = Behind.spare ∨ behind = Behind.code →
      ∃ rc, main env fptr stack behind fuel data
        = some (.exit rc
            (report_record false (cstr (k ++ [0])) (ascii "String")
                (k.length + v.length + 48) 0 (cstr (v ++ [0]))
              ++ (ascii "Total number of keys: " ++ fmt_u 1 ++ ascii "\n")
              ++ (ascii "Largest key: " ++ cstr (k ++ [0]) ++ ascii " with size "
                  ++ fmt_u (k.length + v.length + 32) ++ ascii " bytes\n")))) ∧
    main env fptr stack Behind.pointer fuel data = some .crash ∧
    (∀ fuel1, main env fptr stack Behind.counter fuel1 data = none) ∧
    ((∀ x ∈ k, x ≠ 0) → cstr (k ++ [0]) = k) := by
  refine ⟨?_, ?_, ?_, fun h => cstr_text k [] h⟩
  · intro behind hb
    refine ⟨_, main_single_string_run env fptr stack behind fuel ver hk k hv v data hfull halloc
      hf0 hver hkh hvh hk0 hv0 hfuel hdata hsz hk32 ?_⟩
    rcases hb with hb | hb <;> subst hb <;> rfl
  · rw [hdata, main_prologue env fptr stack Behind.pointer fuel ver _ hver]
    rfl
  · intro fuel1
    rw [hdata, main_prologue env fptr stack Behind.counter fuel1 ver _ hver]
    rfl

/-- Witness for C11: the dump with version "0007" holding the String entry "k" -> "v" gives
one record of Size 50 and the summary for one key when the store behind `keyper` hits spare
bytes, and no output when it hits a pointer or the counter. -/
theorem main_single_string_witness :
    (∀ behind, behind = Behind.spare ∨ behind = Behind.code →
      ∃ rc, main (testEnv false) (fun _ aux fd => str_enc (testEnv false) aux fd)
          (List.replicate 10 0) behind 2
          (ascii "REDIS0007" ++ [0x00, 0x01, 0x6B, 0x01, 0x76, 0xFF])
        = some (.exit rc
            (report_record false (cstr ([0x6B] ++ [0])) (ascii "String")
                (1 + 1 + 48) 0 (cstr ([0x76] ++ [0]))
              ++ (ascii "Total number of keys: " ++ fmt_u 1 ++ ascii "\n")
              ++ (ascii "Largest key: " ++ cstr ([0x6B] ++ [0]) ++ ascii " with size "
                  ++ fmt_u (1 + 1 + 32) ++ ascii " bytes\n")))) ∧
    main (testEnv false) (fun _ aux fd => str_enc (testEnv false) aux fd)
        (List.replicate 10 0) Behind.pointer 2
        (ascii "REDIS0007" ++ [0x00, 0x01, 0x6B, 0x01, 0x76, 0xFF]) = some .crash ∧
    (∀ fuel1, main (testEnv false) (fun _ aux fd => str_enc (testEnv false) aux fd)
        (List.replicate 10 0) Behind.counter fuel1
        (ascii "REDIS0007" ++ [0x00, 0x01, 0x6B, 0x01, 0x76, 0xFF]) = none) ∧
    ((∀ x ∈ ([0x6B] : List Byte), x ≠ 0) → cstr (([0x6B] : List Byte) ++ [0]) = [0x6B]) :=
  main_single_string (testEnv false) (fun _ aux fd => str_enc (testEnv false) aux fd)
    (List.replicate 10 0) 2 (ascii "0007") [0x01] [0x6B] [0x01] [0x76]
    (ascii "REDIS0007" ++ [0x00, 0x01, 0x6B, 0x01, 0x76, 0xFF])
    rfl (fun _ => rfl) (fun _ _ => rfl) rfl rfl rfl (by decide) (by decide) (le_refl 2)
    rfl (by simp [ascii]) (by decide)

/-! ## Out-of-range type tags -/

/-- Counterexample for C14: in the dump "REDIS0007", 0x0F, then the String entry "k" -> "v",
then 0xFF, the opcode 0x0F is a type tag outside 0-14, and the run does not stop there: the
entry after it is still emitted as a record and counted.  The run is one
whose store behind `keyper` hits spare bytes (`Behind.spare`). -/
theorem main_continues_after_bad_tag_counterexample :
    main (testEnv false) (fun _ aux fd => str_enc (testEnv false) aux fd)
        (List.replicate 10 0) .spare 3
        (ascii "REDIS0007" ++ [0x0F, 0x00, 0x01, 0x6B, 0x01, 0x76, 0xFF])
      = some (.exit 3 (ascii ("Key  : k\nType : String\nSize : 50\nExp  : 0\n\n"
          ++ "Total number of keys: 1\nLargest key: k with size 34 bytes\n"))) := by
  rfl

/-- C14 (amended): when the walker meets a type tag outside 0-14, the iteration ends there
and the walk goes on with the next byte of the stream as the next opcode: nothing is written
to the output file, no name or value is decoded and no counter changes.  For an opcode in
15..249 the stream is left where it is; after the opcode 0xFD (0xFC) the stream is past the
4 (8) expiration bytes and the type byte, and the expiration just read stays in `exp`. -/
theorem main_iter_skips_bad_tag (env : Env) (fptr : Nat → Decoder) (s : Walk) :
    (15 ≤ s.buffer.b0.val ∧ s.buffer.b0.val ≤ 249 →
      main_iter env fptr s = .again { s with exp := 0, type := s.buffer.b0 }) ∧
    (∀ (e0 e1 e2 e3 t : Byte) (rest : List Byte), s.buffer.b0.val = 0xFD →
      s.fd.data.drop s.fd.pos = e0 :: e1 :: e2 :: e3 :: t :: rest → 14 < t.val →
      main_iter env fptr s
        = .again { s with fd := { s.fd with pos := s.fd.pos + 5 },
                          exp := store s.exp [e0, e1, e2, e3], type := t }) ∧
    (∀ (m0 m1 m2 m3 m4 m5 m6 m7 t : Byte) (rest : List Byte), s.buffer.b0.val = 0xFC →
      s.fd.data.drop s.fd.pos = m0 :: m1 :: m2 :: m3 :: m4 :: m5 :: m6 :: m7 :: t :: rest →
      14 < t.val →
      main_iter env fptr s
        = .again { s with fd := { s.fd with pos := s.fd.pos + 9 },
                          exp := store s.exp [m0, m1, m2, m3, m4, m5, m6, m7] / 1000,
                          type := t }) := by
  refine ⟨?_, ?_, ?_⟩
  · rintro ⟨hlo, hhi⟩
    have h1 : ¬ s.buffer.b0.val = 0xFB := by omega
    have h2 : ¬ s.buffer.b0.val = 0xFE := by omega
    have h3 : ¬ s.buffer.b0.val = 0xFF := by omega
    have h4 : ¬ s.buffer.b0.val = 0xFA := by omega
    have h5 : ¬ s.buffer.b0.val = 0xFC := by omega
    have h6 : ¬ s.buffer.b0.val = 0xFD := by omega
    have h14 : s.buffer.b0.val > 14 := by omega
    simp only [main_iter, main_switch, h1, h2, h3, h4, h5, h6, if_false, or_self, h14,
      if_true]
  · intro e0 e1 e2 e3 t rest hop hd ht
    have hr1 := fread_of_drop s.fd 4 [e0, e1, e2, e3] (t :: rest) (by simpa using hd) rfl
    have hd2 : s.fd.data.drop (s.fd.pos + 4) = [t] ++ rest :=
      drop_add_of_drop s.fd.data s.fd.pos [e0, e1, e2, e3] (t :: rest) (by simpa using hd)
    have hr2 : fread ⟨s.fd.data, s.fd.pos + 4⟩ 1 = ([t], ⟨s.fd.data, s.fd.pos + 5⟩) :=
      fread_of_drop ⟨s.fd.data, s.fd.pos + 4⟩ 1 [t] rest hd2 rfl
    have h14 : t.val > 14 := ht
    simp only [main_iter, main_switch, hop, hr1]
    simp [hr2, h14]
  · intro m0 m1 m2 m3 m4 m5 m6 m7 t rest hop hd ht
    have hr1 := fread_of_drop s.fd 8 [m0, m1, m2, m3, m4, m5, m6, m7] (t :: rest)
      (by simpa using hd) rfl
    have hd2 : s.fd.data.drop (s.fd.pos + 8) = [t] ++ rest :=
      drop_add_of_drop s.fd.data s.fd.pos [m0, m1, m2, m3, m4, m5, m6, m7] (t :: rest)
        (by simpa using hd)
    have hr2 : fread ⟨s.fd.data, s.fd.pos + 8⟩ 1 = ([t], ⟨s.fd.data, s.fd.pos + 9⟩) :=
      fread_of_drop ⟨s.fd.data, s.fd.pos + 8⟩ 1 [t] rest hd2 rfl
    have h14 : t.val > 14 := ht
    simp only [main_iter, main_switch, hop, hr1]
    simp [hr2, h14]

/-- Witness for C14 (amended): the opcode 0x0F, and the type byte 0x0F after a 4-byte and
after an 8-byte expiration, on a walker just initialised. -/
theorem main_iter_skips_bad_tag_witness :
    main_iter (testEnv false) (fun _ aux fd => str_enc (testEnv false) aux fd)
        { main_locals ⟨[0x0F, 0x00], 1⟩ [] with buffer := ⟨0x0F, 0⟩ }
      = .again { main_locals ⟨[0x0F, 0x00], 1⟩ [] with buffer := ⟨0x0F, 0⟩, type := 0x0F } ∧
    main_iter (testEnv false) (fun _ aux fd => str_enc (testEnv false) aux fd)
        { main_locals ⟨[0xFD, 5, 0, 0, 0, 0x0F, 0x00], 1⟩ [] with buffer := ⟨0xFD, 0⟩ }
      = .again { main_locals ⟨[0xFD, 5, 0, 0, 0, 0x0F, 0x00], 6⟩ [] with
                   buffer := ⟨0xFD, 0⟩, exp := 5, type := 0x0F } ∧
    main_iter (testEnv false) (fun _ aux fd => str_enc (testEnv false) aux fd)
        { main_locals ⟨[0xFC, 0x88, 0x13, 0, 0, 0, 0, 0, 0, 0x0F, 0x00], 1⟩ [] with
            buffer := ⟨0xFC, 0⟩ }
      = .again { main_locals ⟨[0xFC, 0x88, 0x13, 0, 0, 0, 0, 0, 0, 0x0F, 0x00], 10⟩ [] with
                   buffer := ⟨0xFC, 0⟩, exp := 5, type := 0x0F } :=
  ⟨(main_iter_skips_bad_tag (testEnv false)
      (fun _ aux fd => str_enc (testEnv false) aux fd)
      { main_locals ⟨[0x0F, 0x00], 1⟩ [] with buffer := ⟨0x0F, 0⟩ }).1 ⟨by decide, by decide⟩,
   (main_iter_skips_bad_tag (testEnv false)
      (fun _ aux fd => str_enc (testEnv false) aux fd)
      { main_locals ⟨[0xFD, 5, 0, 0, 0, 0x0F, 0x00], 1⟩ [] with buffer := ⟨0xFD, 0⟩ }).2.1
      5 0 0 0 0x0F [0x00] rfl rfl (by decide),
   (main_iter_skips_bad_tag (testEnv false)
      (fun _ aux fd => str_enc (testEnv false) aux fd)
      { main_locals ⟨[0xFC, 0x88, 0x13, 0, 0, 0, 0, 0, 0, 0x0F, 0x00], 1⟩ [] with
          buffer := ⟨0xFC, 0⟩ }).2.2
      0x88 0x13 0 0 0 0 0 0 0x0F [0x00] rfl rfl (by decide)⟩

/-! ## Compressed strings and the name on the `Key` line -/

theorem str_enc_marker_c3 (env : Env) (aux : Bool) (fd : FILE) (tail : List Byte)
    (hkey : env.canAlloc KI_SZ = true) (hfirst : fd.data.drop fd.pos = 0xC3 :: tail) :
    str_enc env aux fd = some (str_enc_compressed env aux { fd with pos := fd.pos + 1 }) := by
  have h0 : ¬ (0xC3 : Byte).val &&& MASK = 0 := by decide
  have h1 : ¬ (0xC3 : Byte).val &&& MASK = 1 := by decide
  have h2 : ¬ (0xC3 : Byte).val &&& MASK = 2 := by decide
  have h3 : (0xC3 : Byte).val &&& MASK = 3 := by decide
  rw [str_enc_of_marker env aux fd 0xC3 tail hkey hfirst (Or.inr (by decide)) (by decide)]
  simp only [str_enc_special]
  rw [if_neg h0, if_neg h1, if_neg h2, if_pos h3]

theorem str_enc_compressed_some (env : Env) (aux : Bool) (fd : FILE) (k : KI)
    (hmode : (env.full || aux) = true) (h : (str_enc_compressed env aux fd).1 = some k) :
    ∃ c size unlen, (env.lzf_decompress c size unlen).1 ≠ 0 ∧
      k = ⟨unlen, some (env.lzf_decompress c size unlen).2⟩ := by
  simp only [str_enc_compressed, hmode, if_true] at h
  split_ifs at h with h1 h2
  exact ⟨_, _, _, h2, (Option.some.inj h).symm⟩

theorem str_enc_compressed_skip (env : Env) (aux : Bool) (fd : FILE)
    (hmode : (env.full || aux) = false) :
    ∃ k, (str_enc_compressed env aux fd).1 = some k ∧ fmt_s k.str = [] := by
  simp only [str_enc_compressed, hmode]
  refine ⟨_, rfl, ?_⟩
  simp [fmt_s, cstr, List.replicate_succ]

/-- Counterexample for C15: in full-render mode, on the compressed string `C3 01 01 AA`
(compressed length 1, declared uncompressed length 1) with a codec that reports failure,
`str_enc` returns `NULL`, not a value of size 1; and a run over a dump whose only entry has
this value does not reach the end marker.  The run is one
whose store behind `keyper` hits spare bytes (`Behind.spare`). -/
theorem str_enc_codec_failure_counterexample :
    ((testEnv true).lzf_decompress [0xAA] 1 1).1 = 0 ∧
    (str_enc (testEnv true) false ⟨[0xC3, 0x01, 0x01, 0xAA], 0⟩).map Prod.fst = some none ∧
    main (testEnv true) (fun _ aux fd => str_enc (testEnv true) aux fd)
        (List.replicate 10 0) .spare 3
        (ascii "REDIS0007" ++ [0x00, 0x01, 0x6B, 0xC3, 0x01, 0x01, 0xAA, 0xFF])
      = some .crash := by
  refine ⟨rfl, rfl, rfl⟩

/-- C15 (amended): when the decompression codec reports failure (returns 0) for a compressed
string (marker 0xC3) in full-render mode, or while the aux flag is set, `str_enc` yields no
value: it returns `NULL`. -/
theorem str_enc_codec_failure (env : Env) (aux : Bool) (fd : FILE) (tail : List Byte)
    (hkey : env.canAlloc KI_SZ = true) (hmode : (env.full || aux) = true)
    (hfirst : fd.data.drop fd.pos = 0xC3 :: tail)
    (hfail : ∀ c size unlen, (env.lzf_decompress c size unlen).1 = 0) :
    (str_enc env aux fd).map Prod.fst = some none := by
  rw [str_enc_marker_c3 env aux fd tail hkey hfirst]
  simp only [str_enc_compressed, hmode, if_true, hfail, Option.map_some']
  split_ifs <;> rfl

/-- Witness for C15 (amended): the stream `C3 01 01 AA` in full-render mode with the codec
of `testEnv`, which reports failure. -/
theorem str_enc_codec_failure_witness :
    (str_enc (testEnv true) false ⟨[0xC3, 0x01, 0x01, 0xAA], 0⟩).map Prod.fst = some none :=
  str_enc_codec_failure (testEnv true) false ⟨[0xC3, 0x01, 0x01, 0xAA], 0⟩ [0x01, 0x01, 0xAA]
    rfl rfl rfl (fun _ _ _ => rfl)

theorem print_key_info_key (env : Env) (name value : KI) (type exp : Nat) (fo : List Byte) :
    ∃ tl, print_key_info env (some name) (some value) type exp fo
      = fo ++ (ascii "Key  : " ++ fmt_s name.str ++ ascii "\n") ++ tl := by
  simp only [print_key_info]
  cases env.full
  · exact ⟨_, by simp only [List.append_assoc, Bool.false_eq_true, if_false]; rfl⟩
  · exact ⟨_, by simp only [List.append_assoc, if_true]; rfl⟩

/-- Counterexample for C18: in size-only mode the dump "REDIS0007" with the one String
entry whose name is stored as the embedded 8-bit integer 5 (`C0 05`) and whose value is "v"
gives a record whose `Key` line does not carry the name "5": `str_enc` left the name
pointer `NULL`.  The run is one
whose store behind `keyper` hits spare bytes (`Behind.spare`). -/
theorem key_line_int_name_counterexample :
    (str_enc (testEnv false) false ⟨[0xC0, 0x05, 0x01, 0x76, 0xFF], 0⟩).map Prod.fst
      = some (some ⟨1, none⟩) ∧
    main (testEnv false) (fun _ aux fd => str_enc (testEnv false) aux fd)
        (List.replicate 10 0) .spare 2
        (ascii "REDIS0007" ++ [0x00, 0xC0, 0x05, 0x01, 0x76, 0xFF])
      = some (.exit 3 (ascii ("Key  : (null)\nType : String\nSize : 34\nExp  : 0\n\n"
          ++ "Total number of keys: 1\nLargest key: (null) with size 0 bytes\n"))) := by
  refine ⟨rfl, rfl⟩

/-- C18 (amended): the `Key  : ` line of a record carries the key's name in size-only mode
as well as in full-render mode when the name is stored as a non-empty literal string (the
name up to its first NUL byte, the whole name when it has none).  A name stored as the
empty literal (the byte `0x00`), as an embedded 8/16/32-bit integer or compressed is carried
in full-render mode or while the aux flag is set (the integer in decimal, for every 8-bit
and 16-bit integer and for the 32-bit integers above -1000000000, whose text fits the block
of 11 bytes; for a compressed name that `str_enc` returns, the text the codec wrote); in
size-only mode without the aux flag `str_enc` leaves the name pointer of an empty or
integer name `NULL` and the name buffer of a compressed name empty. -/
theorem key_line_of_name (env : Env) (aux : Bool) (value : KI) (type exp : Nat)
    (fo : List Byte) (hkey : env.canAlloc KI_SZ = true) :
    (∀ (data : List Byte) (pos : Nat) (h content rest : List Byte),
      env.canAlloc (content.length + 1) = true → len_header h content.length = true →
      content ≠ [] → data.drop pos = h ++ (content ++ rest) → data.length < 2 ^ 63 →
      (∃ name fd1, str_enc env aux ⟨data, pos⟩ = some (some name, fd1) ∧
        ∃ tl, print_key_info env (some name) (some value) type exp fo
          = fo ++ (ascii "Key  : " ++ cstr (content ++ [0]) ++ ascii "\n") ++ tl) ∧
      ((∀ x ∈ content, x ≠ 0) → cstr (content ++ [0]) = content)) ∧
    ((env.full || aux) = true → ∀ fd : FILE,
      (∀ (rest : List Byte), fd.data.drop fd.pos = 0x00 :: rest →
        ∃ name fd1, str_enc env aux fd = some (some name, fd1) ∧
          ∃ tl, print_key_info env (some name) (some value) type exp fo
            = fo ++ (ascii "Key  : " ++ [] ++ ascii "\n") ++ tl) ∧
      (∀ (x0 : Byte) (rest : List Byte), fd.data.drop fd.pos = 0xC0 :: x0 :: rest →
        ∃ name fd1, str_enc env aux fd = some (some name, fd1) ∧
          ∃ tl, print_key_info env (some name) (some value) type exp fo
            = fo ++ (ascii "Key  : " ++ fmt_d (toSigned 8 x0.val) ++ ascii "\n") ++ tl) ∧
      (∀ (x0 x1 : Byte) (rest : List Byte), fd.data.drop fd.pos = 0xC1 :: x0 :: x1 :: rest →
        ∃ name fd1, str_enc env aux fd = some (some name, fd1) ∧
          ∃ tl, print_key_info env (some name) (some value) type exp fo
            = fo ++ (ascii "Key  : " ++ fmt_d (toSigned 16 (x0.val + 256 * x1.val))
                      ++ ascii "\n") ++ tl) ∧
      (∀ (x0 x1 x2 x3 : Byte) (rest : List Byte),
        fd.data.drop fd.pos = 0xC2 :: x0 :: x1 :: x2 :: x3 :: rest →
        -1000000000 < toSigned 32 (x0.val + 256 * (x1.val + 256 * (x2.val + 256 * x3.val))) →
        ∃ name fd1, str_enc env aux fd = some (some name, fd1) ∧
          ∃ tl, print_key_info env (some name) (some value) type exp fo
            = fo ++ (ascii "Key  : " ++ fmt_d (toSigned 32
                      (x0.val + 256 * (x1.val + 256 * (x2.val + 256 * x3.val))))
                      ++ ascii "\n") ++ tl) ∧
      (∀ (tail : List Byte) (k : KI) (fd1 : FILE), fd.data.drop fd.pos = 0xC3 :: tail →
        str_enc env aux fd = some (some k, fd1) →
        ∃ c size unlen tl, (env.lzf_decompress c size unlen).1 ≠ 0 ∧
          print_key_info env (some k) (some value) type exp fo
            = fo ++ (ascii "Key  : " ++ cstr (env.lzf_decompress c size unlen).2
                      ++ ascii "\n") ++ tl)) ∧
    ((env.full || aux) = false → ∀ fd : FILE,
      (∀ (rest : List Byte), fd.data.drop fd.pos = 0x00 :: rest →
        (str_enc env aux fd).map Prod.fst = some (some ⟨0, none⟩)) ∧
      (∀ (x0 : Byte) (rest : List Byte), fd.data.drop fd.pos = 0xC0 :: x0 :: rest →
        (str_enc env aux fd).map Prod.fst = some (some ⟨1, none⟩)) ∧
      (∀ (x0 x1 : Byte) (rest : List Byte), fd.data.drop fd.pos = 0xC1 :: x0 :: x1 :: rest →
        (str_enc env aux fd).map Prod.fst = some (some ⟨2, none⟩)) ∧
      (∀ (x0 x1 x2 x3 : Byte) (rest : List Byte),
        fd.data.drop fd.pos = 0xC2 :: x0 :: x1 :: x2 :: x3 :: rest →
        (str_enc env aux fd).map Prod.fst = some (some ⟨4, none⟩)) ∧
      (∀ (tail : List Byte), fd.data.drop fd.pos = 0xC3 :: tail →
        ∃ k, (str_enc env aux fd).map Prod.fst = some (some k) ∧ fmt_s k.str = [])) := by
  have hint : ∀ (fd fd1 : FILE) (n : Nat) (buf : List Byte) (z : Int),
      str_enc env aux fd = some (some ⟨n, some buf⟩, fd1) → cstr buf = fmt_d z →
      ∃ name fd1, str_enc env aux fd = some (some name, fd1) ∧
        ∃ tl, print_key_info env (some name) (some value) type exp fo
          = fo ++ (ascii "Key  : " ++ fmt_d z ++ ascii "\n") ++ tl := by
    intro fd fd1 n buf z hs hc
    refine ⟨_, _, hs, ?_⟩
    have h := print_key_info_key env ⟨n, some buf⟩ value type exp fo
    simp only [fmt_s, hc] at h
    exact h
  refine ⟨?_, ?_, ?_⟩
  · intro data pos h content rest halloc hh hne hd hsz
    refine ⟨?_, fun hz => cstr_text content [] hz⟩
    have hl := str_enc_literal_at env aux data pos h content rest content.length hkey halloc hh
      (by simpa using hne) rfl hd hsz
    exact ⟨_, _, hl, print_key_info_key env _ value type exp fo⟩
  · intro hmode fd
    obtain ⟨f8, f16, f32⟩ := str_enc_int_forms env aux fd hkey
    refine ⟨?_, ?_, ?_, ?_, ?_⟩
    · intro rest hd
      have hz := str_enc_zero_byte env aux fd 0x00 rest hkey hd rfl
      rw [hmode, if_pos rfl] at hz
      exact ⟨_, _, hz, print_key_info_key env _ value type exp fo⟩
    · intro x0 rest hd
      have hb := toSigned8_bounds x0.val
      obtain ⟨buf, hs, hc, _⟩ := (str_enc_int_cases env aux fd _ 1 _ (f8 x0 rest hd)).2.1
        hmode (by omega) (by omega)
      exact hint fd _ 1 buf _ hs hc
    · intro x0 x1 rest hd
      have hb := toSigned16_bounds (x0.val + 256 * x1.val)
      obtain ⟨buf, hs, hc, _⟩ := (str_enc_int_cases env aux fd _ 2 _ (f16 x0 x1 rest hd)).2.1
        hmode (by omega) (by omega)
      exact hint fd _ 2 buf _ hs hc
    · intro x0 x1 x2 x3 rest hd hlo
      have hb := toSigned32_bounds (x0.val + 256 * (x1.val + 256 * (x2.val + 256 * x3.val)))
      obtain ⟨buf, hs, hc, _⟩ :=
        (str_enc_int_cases env aux fd _ 4 _ (f32 x0 x1 x2 x3 rest hd)).2.1
          hmode hlo (by omega)
      exact hint fd _ 4 buf _ hs hc
    · intro tail k fd1 hd hk
      rw [str_enc_marker_c3 env aux fd tail hkey hd] at hk
      have hk1 : (str_enc_compressed env aux { fd with pos := fd.pos + 1 }).1 = some k := by
        rw [Option.some.inj hk]
      obtain ⟨c, size, unlen, hne, hkk⟩ := str_enc_compressed_some env aux _ k hmode hk1
      obtain ⟨tl, htl⟩ := print_key_info_key env k value type exp fo
      refine ⟨c, size, unlen, tl, hne, ?_⟩
      rw [htl, hkk]
      rfl
  · intro hmode fd
    obtain ⟨f8, f16, f32⟩ := str_enc_int_forms env aux fd hkey
    refine ⟨?_, ?_, ?_, ?_, ?_⟩
    · intro rest hd
      have hz := str_enc_zero_byte env aux fd 0x00 rest hkey hd rfl
      rw [hmode] at hz
      rw [hz]
      rfl
    · intro x0 rest hd
      rw [(str_enc_int_cases env aux fd _ 1 _ (f8 x0 rest hd)).1 hmode]
      rfl
    · intro x0 x1 rest hd
      rw [(str_enc_int_cases env aux fd _ 2 _ (f16 x0 x1 rest hd)).1 hmode]
      rfl
    · intro x0 x1 x2 x3 rest hd
      rw [(str_enc_int_cases env aux fd _ 4 _ (f32 x0 x1 x2 x3 rest hd)).1 hmode]
      rfl
    · intro tail hd
      rw [str_enc_marker_c3 env aux fd tail hkey hd]
      obtain ⟨k, hk, hf⟩ := str_enc_compressed_skip env aux { fd with pos := fd.pos + 1 } hmode
      exact ⟨k, by rw [Option.map_some', hk], hf⟩

set_option maxRecDepth 100000 in
/-- Witness for C18 (amended): the literal name "k" in size-only mode, the integer name 5
in full-render mode and in size-only mode, the empty name in size-only mode, and the
compressed name `C3 01 01 6B` in full-render mode with a codec that copies its input. -/
theorem key_line_of_name_witness :
    (∃ name fd1, str_enc (testEnv false) false ⟨[0x01, 0x6B], 0⟩ = some (some name, fd1) ∧
      ∃ tl, print_key_info (testEnv false) (some name) (some ⟨17, none⟩) 0 0 []
        = [] ++ (ascii "Key  : " ++ cstr ([0x6B] ++ [0]) ++ ascii "\n") ++ tl) ∧
    (∃ name fd1, str_enc (testEnv true) false ⟨[0xC0, 0x05], 0⟩ = some (some name, fd1) ∧
      ∃ tl, print_key_info (testEnv true) (some name) (some ⟨17, none⟩) 0 0 []
        = [] ++ (ascii "Key  : " ++ fmt_d (toSigned 8 (5 : Byte).val) ++ ascii "\n") ++ tl) ∧
    (str_enc (testEnv false) false ⟨[0xC0, 0x05], 0⟩).map Prod.fst = some (some ⟨1, none⟩) ∧
    (str_enc (testEnv false) false ⟨[0x00], 0⟩).map Prod.fst = some (some ⟨0, none⟩) ∧
    (∃ (c : List Byte) (_ : Nat) (unlen : Nat) (tl : List Byte), unlen ≠ 0 ∧
      print_key_info ⟨fun _ => true, fun c _ unlen => (unlen, c ++ [0]), true⟩
          (some ⟨1, some [0x6B, 0]⟩) (some ⟨17, none⟩) 0 0 []
        = [] ++ (ascii "Key  : " ++ cstr (c ++ [0]) ++ ascii "\n") ++ tl) :=
  ⟨((key_line_of_name (testEnv false) false ⟨17, none⟩ 0 0 [] rfl).1
      [0x01, 0x6B] 0 [0x01] [0x6B] [] rfl rfl (by decide) rfl (by simp)).1,
   ((key_line_of_name (testEnv true) false ⟨17, none⟩ 0 0 [] rfl).2.1 rfl
      ⟨[0xC0, 0x05], 0⟩).2.1 5 [] rfl,
   ((key_line_of_name (testEnv false) false ⟨17, none⟩ 0 0 [] rfl).2.2 rfl
      ⟨[0xC0, 0x05], 0⟩).2.1 5 [] rfl,
   ((key_line_of_name (testEnv false) false ⟨17, none⟩ 0 0 [] rfl).2.2 rfl
      ⟨[0x00], 0⟩).1 [] rfl,
   ((key_line_of_name ⟨fun _ => true, fun c _ unlen => (unlen, c ++ [0]), true⟩ false
      ⟨17, none⟩ 0 0 [] rfl).2.1 rfl ⟨[0xC3, 0x01, 0x01, 0x6B], 0⟩).2.2.2.2
      [0x01, 0x01, 0x6B] ⟨1, some [0x6B, 0]⟩ ⟨[0xC3, 0x01, 0x01, 0x6B], 4⟩ rfl rfl⟩

/-! ## The sorted-set decoder -/

theorem get_length_top11 (buffer : Buffer) (fd : FILE) (h : 192 ≤ buffer.b0.val) :
    get_length buffer fd = (0, buffer, fd) := by
  have hlt := buffer.b0.isLt
  have hc0 : buffer.b0.val &&& 0xC0 = 0xC0 :=
    (top_bits_div buffer.b0).2.2.2 (by omega)
  obtain ⟨h80, h81⟩ := (top_bits_cases buffer.b0).2.2 hc0
  simp [get_length, h80, h81, hc0]

/-- C17: in `sset_enc`, for a member whose score-length byte `b` is 253, 254 or 255, the
pass of the loop completes and consumes no byte of the stream for the score: the stream is
left at the byte immediately after `b`, where the next member or the next opcode starts;
the member adds its name size and 24 to the estimated size. -/
theorem sset_member_sentinel (env : Env) (aux : Bool) (s : SSet) (ktmp : KI)
    (data : List Byte) (pos : Nat) (b : Byte) (rest : List Byte)
    (hname : str_enc env aux s.fd = some (some ktmp, ⟨data, pos⟩))
    (hd : data.drop pos = b :: rest)
    (hb : b.val = 253 ∨ b.val = 254 ∨ b.val = 255) :
    ∃ s1, sset_member env aux s = some s1 ∧ s1.fd = ⟨data, pos + 1⟩ ∧
      s1.key.size = (s.key.size + ktmp.size + 24) % U64 := by
  have hr : fread ⟨data, pos⟩ 1 = ([b], ⟨data, pos + 1⟩) :=
    fread_of_drop ⟨data, pos⟩ 1 [b] rest (by simpa using hd) rfl
  have hg : get_length { s.buffer with b0 := b } ⟨data, pos + 1⟩
      = (0, { s.buffer with b0 := b }, ⟨data, pos + 1⟩) :=
    get_length_top11 _ _ (by show 192 ≤ b.val; omega)
  have hf : fread ⟨data, pos + 1⟩ 0 = ([], ⟨data, pos + 1⟩) := by
    simp [fread]
  simp only [sset_member, hname, hr, List.headD_cons, hg]
  have h3 : ¬ ((0 : Nat) = 253 ∨ (0 : Nat) = 254 ∨ (0 : Nat) = 255) := by decide
  rw [if_neg h3]
  simp only [hf]
  refine ⟨_, rfl, rfl, ?_⟩
  simp [sset_add]

/-- Witness for C17: a sorted set whose first member "a" has score-length byte 253; the
stream `01 61 FD 01 62 FE` is left at offset 3, on the next member. -/
theorem sset_member_sentinel_witness :
    ∃ s1, sset_member (testEnv false) false ⟨⟨0, none⟩, ⟨2, 0⟩,
        ⟨[0x01, 0x61, 0xFD, 0x01, 0x62, 0xFE], 0⟩, false⟩ = some s1 ∧
      s1.fd = ⟨[0x01, 0x61, 0xFD, 0x01, 0x62, 0xFE], 2 + 1⟩ ∧
      s1.key.size = (0 + 17 + 24) % U64 :=
  sset_member_sentinel (testEnv false) false
    ⟨⟨0, none⟩, ⟨2, 0⟩, ⟨[0x01, 0x61, 0xFD, 0x01, 0x62, 0xFE], 0⟩, false⟩
    ⟨17, some [0x61, 0]⟩ [0x01, 0x61, 0xFD, 0x01, 0x62, 0xFE] 2 0xFD [0x01, 0x62, 0xFE]
    rfl rfl (Or.inl rfl)

/-! ## The compact map and compact sorted set decoders -/

/-- C27: for every first byte `b` whose top two bits are 11, `get_length` returns 0, reads
nothing from the stream and leaves the buffer as it is, so that the caller finds the
sub-format selector in the low 6 bits of `b`: `str_enc` hands `b` to its special-format
switch on `b & 0x3F` with the stream just after `b`. -/
theorem get_length_selector (b b1 : Byte) (fd : FILE) (hb : b.val / 64 = 3) :
    get_length ⟨b, b1⟩ fd = (0, ⟨b, b1⟩, fd) ∧
    b.val &&& MASK = b.val - 192 ∧
    (∀ (env : Env) (aux : Bool) (data : List Byte) (pos : Nat) (tail : List Byte),
      env.canAlloc KI_SZ = true → data.drop pos = b :: tail →
      str_enc env aux ⟨data, pos⟩ = str_enc_special env aux ⟨b, 0⟩ ⟨data, pos + 1⟩) := by
  have hlt := b.isLt
  refine ⟨get_length_top11 ⟨b, b1⟩ fd (by show 192 ≤ b.val; omega), ?_, ?_⟩
  · rw [land_mask]; omega
  · intro env aux data pos tail hkey hd
    exact str_enc_of_marker env aux ⟨data, pos⟩ b tail hkey hd
      (Or.inr ((top_bits_div b).2.2.2 hb)) (fun h => by
        have := (top_bits_div b).2.2.2 hb
        rw [this] at h
        exact absurd h (by decide))

/-- Witness for C27: the bytes `0xC3` (selector 3) and `0xFF` (selector 63). -/
theorem get_length_selector_witness :
    (get_length ⟨0xC3, 0⟩ ⟨[0x01, 0x02], 0⟩ = (0, ⟨0xC3, 0⟩, ⟨[0x01, 0x02], 0⟩) ∧
      (0xC3 : Byte).val &&& MASK = (0xC3 : Byte).val - 192) ∧
    (get_length ⟨0xFF, 7⟩ ⟨[0x01, 0x02], 1⟩ = (0, ⟨0xFF, 7⟩, ⟨[0x01, 0x02], 1⟩) ∧
      (0xFF : Byte).val &&& MASK = (0xFF : Byte).val - 192) :=
  ⟨⟨(get_length_selector 0xC3 0 ⟨[0x01, 0x02], 0⟩ (by decide)).1,
    (get_length_selector 0xC3 0 ⟨[0x01, 0x02], 0⟩ (by decide)).2.1⟩,
   ⟨(get_length_selector 0xFF 7 ⟨[0x01, 0x02], 1⟩ (by decide)).1,
    (get_length_selector 0xFF 7 ⟨[0x01, 0x02], 1⟩ (by decide)).2.1⟩⟩


set_option maxRecDepth 100000 in
theorem ascii_seps_ne_zero :
    (∀ x ∈ ascii ", ", x ≠ 0) ∧ (∀ x ∈ ascii " =>", x ≠ 0) ∧ (∀ x ∈ ascii " => ", x ≠ 0) ∧
    (∀ x ∈ ascii "(null)", x ≠ 0) ∧ (∀ x ∈ ascii " ", x ≠ 0) := by
  refine ⟨?_, ?_, ?_, ?_, ?_⟩ <;> decide

theorem fmt_s_ne_zero (o : Option (List Byte)) : ∀ x ∈ fmt_s o, x ≠ 0 := by
  cases o with
  | none => exact ascii_seps_ne_zero.2.2.2.1
  | some b => exact cstr_ne_zero b

theorem ne_zero_append (a b : List Byte) (ha : ∀ x ∈ a, x ≠ 0) (hb : ∀ x ∈ b, x ≠ 0) :
    ∀ x ∈ a ++ b, x ≠ 0 := by
  intro x hx
  rcases List.mem_append.mp hx with h | h
  · exact ha x h
  · exact hb x h

theorem join_comma_ne_zero (ts : List (List Byte)) (h : ∀ t ∈ ts, ∀ x ∈ t, x ≠ 0) :
    ∀ x ∈ join_comma ts, x ≠ 0 := by
  induction ts with
  | nil => simp [join_comma]
  | cons t ts ih =>
    have ht := h t (List.mem_cons_self _ _)
    have hts : ∀ t1 ∈ ts, ∀ x ∈ t1, x ≠ 0 := fun t1 h1 => h t1 (List.mem_cons_of_mem _ h1)
    cases ts with
    | nil => simpa [join_comma] using ht
    | cons t2 ts2 =>
      show ∀ x ∈ t ++ ascii ", " ++ join_comma (t2 :: ts2), x ≠ 0
      exact ne_zero_append _ _ (ne_zero_append _ _ ht ascii_seps_ne_zero.1) (ih hts)

theorem join_comma_snoc (pre : List (List Byte)) (t : List Byte) :
    join_comma (pre ++ [t])
      = if pre = [] then t else join_comma pre ++ ascii ", " ++ t := by
  induction pre with
  | nil => rfl
  | cons a pre ih =>
    rw [if_neg (by simp)]
    cases pre with
    | nil => rfl
    | cons b pre2 =>
      rw [if_neg (by simp)] at ih
      show a ++ ascii ", " ++ join_comma ((b :: pre2) ++ [t]) = _
      rw [ih]
      show _ = a ++ ascii ", " ++ join_comma (b :: pre2) ++ ascii ", " ++ t
      simp only [List.append_assoc]

/-- A run of `n + 1` strings starts with a string that `str_enc` returns. -/
theorem strings_succ (env : Env) (aux : Bool) (n : Nat) (fd fd1 : FILE) (ks : List KI)
    (h : strings env aux (n + 1) fd = some (ks, fd1)) :
    ∃ k fdA ks1, str_enc env aux fd = some (some k, fdA) ∧
      strings env aux n fdA = some (ks1, fd1) ∧ ks = k :: ks1 := by
  rw [strings] at h
  cases h1 : str_enc env aux fd with
  | none => simp [h1] at h
  | some t =>
    obtain ⟨k0, fdA⟩ := t
    simp only [h1] at h
    cases k0 with
    | none => simp at h
    | some k =>
      simp only at h
      cases h3 : strings env aux n fdA with
      | none => simp [h3] at h
      | some r =>
        simp only [h3, Option.some.injEq, Prod.mk.injEq] at h
        exact ⟨k, fdA, r.1, rfl, by rw [← h.2, h3], h.1.symm⟩

theorem hash_pair_spec (env : Env) (aux : Bool) (key k1 k2 : KI) (fd fdA fdB : FILE)
    (pre : List (List Byte)) (hpre : ∀ t ∈ pre, ∀ x ∈ t, x ≠ 0)
    (hstr : env.full = true →
      key.str = if pre = [] then none else some (join_comma pre ++ [0]))
    (h1 : str_enc env aux fd = some (some k1, fdA))
    (h2 : str_enc env aux fdA = some (some k2, fdB)) :
    ∃ key1, hash_pair env aux (key, fd) = some (key1, fdB) ∧
      (env.full = true →
        key1.str = some (join_comma (pre ++ [fmt_s k1.str ++ ascii " => " ++ fmt_s k2.str])
                          ++ [0])) ∧
      (env.full = false → key1.str = key.str) := by
  cases hfull : env.full with
  | false =>
    simp only [hash_pair, h1, h2, hfull, Bool.false_eq_true, if_false]
    exact ⟨_, rfl, fun h => absurd h (by simp), fun _ => rfl⟩
  | true =>
    have hk := hstr hfull
    have hf1 := fmt_s_ne_zero k1.str
    have hsp : ascii " =>" ++ ascii " " = ascii " => " := rfl
    by_cases hp : pre = []
    · rw [if_pos hp] at hk
      have hc : fmt_s (some (fmt_s k1.str ++ ascii " =>" ++ [0])) = fmt_s k1.str ++ ascii " =>" :=
        cstr_text _ [] (ne_zero_append _ _ hf1 ascii_seps_ne_zero.2.1)
      simp only [hash_pair, h1, h2, hfull, if_true, hk, hc]
      refine ⟨_, rfl, fun _ => ?_, fun h => absurd h (by simp)⟩
      rw [hp, List.nil_append]
      simp only [join_comma, List.append_assoc]
      rw [← List.append_assoc (ascii " =>"), hsp]
    · rw [if_neg hp] at hk
      have hj := join_comma_ne_zero pre hpre
      have hcj : cstr (join_comma pre ++ [0]) = join_comma pre := cstr_text _ [] hj
      have hc : fmt_s (some (join_comma pre ++ ascii ", " ++ fmt_s k1.str ++ ascii " =>" ++ [0]))
          = join_comma pre ++ ascii ", " ++ fmt_s k1.str ++ ascii " =>" :=
        cstr_text _ []
          (ne_zero_append _ _ (ne_zero_append _ _ (ne_zero_append _ _ hj
            ascii_seps_ne_zero.1) hf1) ascii_seps_ne_zero.2.1)
      simp only [hash_pair, h1, h2, hfull, if_true, hk, hcj, hc]
      refine ⟨_, rfl, fun _ => ?_, fun h => absurd h (by simp)⟩
      rw [join_comma_snoc, if_neg hp]
      simp only [List.append_assoc]
      rw [← List.append_assoc (ascii " =>"), hsp]

theorem hash_loop_spec (env : Env) (aux : Bool) :
    ∀ (n : Nat) (key : KI) (fd fd1 : FILE) (ks : List KI) (pre : List (List Byte)),
      (∀ t ∈ pre, ∀ x ∈ t, x ≠ 0) →
      (env.full = true → key.str = if pre = [] then none else some (join_comma pre ++ [0])) →
      strings env aux (2 * n) fd = some (ks, fd1) →
      ∃ key1, hash_loop env aux n (key, fd) = some (key1, fd1) ∧
        (env.full = true →
          key1.str = if pre ++ pair_texts (ks.map (fun k => fmt_s k.str)) = [] then none
            else some (join_comma (pre ++ pair_texts (ks.map (fun k => fmt_s k.str))) ++ [0])) ∧
        (env.full = false → key1.str = key.str) := by
  intro n
  induction n with
  | zero =>
    intro key fd fd1 ks pre hpre hstr hs
    simp only [Nat.mul_zero, strings, Option.some.injEq, Prod.mk.injEq] at hs
    obtain ⟨rfl, rfl⟩ := hs
    refine ⟨key, rfl, fun hf => ?_, fun _ => rfl⟩
    simpa [pair_texts] using hstr hf
  | succ n ih =>
    intro key fd fd1 ks pre hpre hstr hs
    have e : 2 * (n + 1) = (2 * n + 1) + 1 := by omega
    rw [e] at hs
    obtain ⟨k1, fdA, ksA, h1, hsA, hksA⟩ := strings_succ env aux _ fd fd1 ks hs
    obtain ⟨k2, fdB, ksB, h2, h3, hksB⟩ := strings_succ env aux _ fdA fd1 ksA hsA
    have hks : k1 :: k2 :: ksB = ks := by rw [hksA, hksB]
    obtain ⟨key1, hp, hpf, hps⟩ :=
      hash_pair_spec env aux key k1 k2 fd fdA fdB pre hpre hstr h1 h2
    have hpre1 : ∀ t ∈ pre ++ [fmt_s k1.str ++ ascii " => " ++ fmt_s k2.str],
        ∀ x ∈ t, x ≠ 0 := by
      intro t ht
      rcases List.mem_append.mp ht with h | h
      · exact hpre t h
      · rw [List.mem_singleton] at h
        rw [h]
        exact ne_zero_append _ _
          (ne_zero_append _ _ (fmt_s_ne_zero _) ascii_seps_ne_zero.2.2.1)
          (fmt_s_ne_zero _)
    have hstr1 : env.full = true → key1.str
        = if pre ++ [fmt_s k1.str ++ ascii " => " ++ fmt_s k2.str] = [] then none
          else some (join_comma (pre ++ [fmt_s k1.str ++ ascii " => " ++ fmt_s k2.str])
                ++ [0]) := by
      intro hf
      rw [if_neg (by simp)]
      exact hpf hf
    obtain ⟨key2, hl, hlf, hls⟩ := ih key1 fdB fd1 ksB
      (pre ++ [fmt_s k1.str ++ ascii " => " ++ fmt_s k2.str]) hpre1 hstr1 h3
    refine ⟨key2, ?_, ?_, ?_⟩
    · rw [hash_loop, hp]
      simp only []
      rw [hl]
    · intro hf
      rw [hlf hf, ← hks]
      simp only [List.map_cons, pair_texts, List.append_assoc, List.singleton_append]
    · intro hf
      rw [hls hf, hps hf]


/-- C29 fails on the code for the count 0: `list_enc` calls `str_enc` once before its loop
whatever the count is, so on the stream `00 01 61 FF` (count 0) it consumes the string "a"
and ends at offset 3, as it does for the count 1; and in the dump with the empty list `k`
the end marker `0xFF` itself is consumed as a string, so that the run ends without its
summary.  The run is one
whose store behind `keyper` hits spare bytes (`Behind.spare`). -/
theorem list_enc_zero_count :
    (list_enc (testEnv false) false ⟨[0x00, 0x01, 0x61, 0xFF], 0⟩).map (fun r => r.2.pos)
      = some 3 ∧
    (list_enc (testEnv false) false ⟨[0x01, 0x01, 0x61, 0xFF], 0⟩).map (fun r => r.2.pos)
      = some 3 ∧
    main (testEnv false)
        (fun i => if i = 1 then list_enc (testEnv false)
                  else fun aux fd => str_enc (testEnv false) aux fd)
        (List.replicate 10 0) .spare 5 (ascii "REDIS0007" ++ [0x01, 0x01, 0x6B, 0x00, 0xFF])
      = some (.exit 3 (ascii "Key  : k\nType : List\nSize : 81\nExp  : 0\n\n")) := by
  refine ⟨?_, ?_, ?_⟩ <;> rfl

/-- C30: for every pair count `n` decoded from the leading length, when the `2n` strings
that follow decode, `hash_enc` returns with the stream exactly after these `2n` strings;
in full-render mode its text is the pairs in stream order, field and value joined by
" => " and the pairs by ", " (for `n = 0` there is no text: the pointer stays `NULL`), and
in size-only mode it has no text. -/
theorem hash_enc_pairs (env : Env) (aux : Bool) (data : List Byte) (pos : Nat)
    (h rest : List Byte) (n : Nat) (ks : List KI) (fd1 : FILE)
    (hkey : env.canAlloc KI_SZ = true) (hh : len_header h n = true)
    (hd : data.drop pos = h ++ rest)
    (hs : strings env aux (2 * n) ⟨data, pos + h.length⟩ = some (ks, fd1)) :
    ∃ key, hash_enc env aux ⟨data, pos⟩ = some (some key, fd1) ∧
      (env.full = true →
        key.str = if n = 0 then none
          else some (join_comma (pair_texts (ks.map (fun k => fmt_s k.str))) ++ [0])) ∧
      (env.full = false → key.str = none) := by
  obtain ⟨b, tl, buf, hb, hg⟩ := get_length_of_header h n data pos rest hh hd
  have hr : fread ⟨data, pos⟩ 1 = ([b], ⟨data, pos + 1⟩) :=
    fread_of_drop ⟨data, pos⟩ 1 [b] (tl ++ rest) (by rw [hd, hb]; rfl) rfl
  obtain ⟨key1, hl, hf, hso⟩ := hash_loop_spec env aux n ⟨0, none⟩ _ fd1 ks []
    (by simp) (fun _ => by simp) hs
  have hlen : ∀ m (fd fd2 : FILE) (l : List KI), strings env aux m fd = some (l, fd2) →
      l.length = m := by
    intro m
    induction m with
    | zero =>
      intro fd fd2 l hl
      simp only [strings, Option.some.injEq, Prod.mk.injEq] at hl
      rw [← hl.1]; rfl
    | succ m ih =>
      intro fd fd2 l hl
      obtain ⟨k, fdA, ks1, _, h3, rfl⟩ := strings_succ env aux m fd fd2 l hl
      rw [List.length_cons, ih _ _ _ h3]
  refine ⟨{ key1 with size := (key1.size + (56 + 32) * 6) % U64 }, ?_, ?_, ?_⟩
  · simp only [hash_enc, hkey, Bool.not_true, Bool.false_eq_true, if_false, hr,
      List.headD_cons, hg, hl]
  · intro hfull
    have := hf hfull
    simp only [List.nil_append] at this
    show key1.str = _
    rw [this]
    have hkl := hlen _ _ _ _ hs
    by_cases hn : n = 0
    · subst hn
      have : ks = [] := List.length_eq_zero.mp (by rw [hkl])
      subst this
      simp [pair_texts]
    · rw [if_neg hn]
      obtain ⟨k1, k2, ks2, rfl⟩ : ∃ k1 k2 ks2, ks = k1 :: k2 :: ks2 := by
        match ks, hkl with
        | [], h => simp at h; omega
        | [_], h => simp at h; omega
        | k1 :: k2 :: ks2, _ => exact ⟨k1, k2, ks2, rfl⟩
      rw [if_neg (by simp [pair_texts])]
  · intro hfull
    show key1.str = none
    rw [hso hfull]

/-- Witness for C30: the hash with the two pairs "a" -> "b" and "cd" -> 5, in full-render
mode: the text is "a => b, cd => 5" and the stream is left at offset 10. -/
theorem hash_enc_pairs_witness :
    ∃ key, hash_enc (testEnv true) false
        ⟨[0x02, 0x01, 0x61, 0x01, 0x62, 0x02, 0x63, 0x64, 0xC0, 0x05, 0xFF], 0⟩
        = some (some key,
            ⟨[0x02, 0x01, 0x61, 0x01, 0x62, 0x02, 0x63, 0x64, 0xC0, 0x05, 0xFF], 10⟩) ∧
      ((testEnv true).full = true → key.str = some (ascii "a => b, cd => 5" ++ [0])) ∧
      ((testEnv true).full = false → key.str = none) :=
  hash_enc_pairs (testEnv true) false
    [0x02, 0x01, 0x61, 0x01, 0x62, 0x02, 0x63, 0x64, 0xC0, 0x05, 0xFF] 0 [0x02]
    [0x01, 0x61, 0x01, 0x62, 0x02, 0x63, 0x64, 0xC0, 0x05, 0xFF] 2
    [⟨17, some [0x61, 0]⟩, ⟨17, some [0x62, 0]⟩, ⟨18, some [0x63, 0x64, 0]⟩,
      ⟨1, some (ascii "5" ++ List.replicate 10 0)⟩]
    ⟨[0x02, 0x01, 0x61, 0x01, 0x62, 0x02, 0x63, 0x64, 0xC0, 0x05, 0xFF], 10⟩
    rfl rfl rfl rfl

/-! ## The largest key -/

theorem max_total_snoc (l : List (Nat × List Byte)) (x : Nat × List Byte) :
    max_total (l ++ [x]) = max (max_total l) x.1 := by
  induction l with
  | nil => simp [max_total]
  | cons a l ih =>
    simp only [max_total, List.cons_append, List.map_cons, List.foldr_cons] at ih ⊢
    rw [ih]
    omega

theorem le_max_total (l : List (Nat × List Byte)) : ∀ r ∈ l, r.1 ≤ max_total l := by
  induction l with
  | nil => intro r hr; simp at hr
  | cons a l ih =>
    intro r hr
    simp only [max_total, List.map_cons, List.foldr_cons]
    rcases List.mem_cons.mp hr with rfl | h
    · omega
    · have := ih r h
      simp only [max_total] at this
      omega

theorem max_total_attained (l : List (Nat × List Byte)) (h : 0 < max_total l) :
    ∃ r ∈ l, r.1 = max_total l := by
  induction l with
  | nil => simp [max_total] at h
  | cons a l ih =>
    simp only [max_total, List.map_cons, List.foldr_cons] at h ⊢
    by_cases hc : (List.map Prod.fst l).foldr max 0 ≤ a.1
    · exact ⟨a, List.mem_cons_self _ _, by omega⟩
    · obtain ⟨r, hr, he⟩ := ih (by simp only [max_total]; omega)
      simp only [max_total] at he
      exact ⟨r, List.mem_cons_of_mem _ hr, by omega⟩

theorem first_max_size (l : List (Nat × List Byte)) : (first_max l).size = max_total l := by
  unfold first_max
  cases hf : l.find? (fun r => r.1 = max_total l) with
  | none =>
    by_cases h0 : 0 < max_total l
    · obtain ⟨r, hr, he⟩ := max_total_attained l h0
      have := List.find?_eq_none.mp hf r hr
      simp [he] at this
    · show 0 = max_total l
      omega
  | some r =>
    have hr := List.find?_some hf
    simp only [decide_eq_true_eq] at hr
    by_cases h0 : 0 < r.1
    · simp only [if_pos h0]
      exact hr
    · simp only [if_neg h0]
      show 0 = max_total l
      omega

theorem first_max_snoc (l : List (Nat × List Byte)) (x : Nat × List Byte) :
    first_max (l ++ [x])
      = if x.1 > (first_max l).size then ⟨x.1, some (x.2 ++ [0])⟩ else first_max l := by
  rw [first_max_size]
  by_cases hx : x.1 > max_total l
  · rw [if_pos hx]
    have hm : max_total (l ++ [x]) = x.1 := by rw [max_total_snoc]; omega
    have hnone : l.find? (fun r => decide (r.1 = x.1)) = none := by
      rw [List.find?_eq_none]
      intro r hr
      have := le_max_total l r hr
      simp only [decide_eq_true_eq]
      omega
    have h0 : 0 < x.1 := by omega
    simp only [first_max, hm, List.find?_append, hnone, Option.none_or, List.find?_cons,
      decide_True, if_pos h0]
  · rw [if_neg hx]
    have hm : max_total (l ++ [x]) = max_total l := by rw [max_total_snoc]; omega
    by_cases h0 : 0 < max_total l
    · obtain ⟨r, hr, he⟩ := max_total_attained l h0
      have hsome : (l.find? (fun r => decide (r.1 = max_total l))).isSome = true := by
        rw [List.find?_isSome]
        exact ⟨r, hr, by simp [he]⟩
      obtain ⟨r1, hr1⟩ := Option.isSome_iff_exists.mp hsome
      simp only [first_max, hm, List.find?_append, hr1]
      rfl
    · have hz : max_total l = 0 := by omega
      have hxz : x.1 = 0 := by omega
      have hall : ∀ (o : Option (Nat × List Byte)), (∀ r, o = some r → r.1 = 0) →
          (match o with
            | some r => if 0 < r.1 then (⟨r.1, some (r.2 ++ [0])⟩ : KI) else ⟨0, none⟩
            | none => ⟨0, none⟩) = ⟨0, none⟩ := by
        intro o ho
        cases o with
        | none => rfl
        | some r =>
          have := ho r rfl
          simp [this]
      have h1 : first_max l = ⟨0, none⟩ :=
        hall (l.find? (fun r => decide (r.1 = max_total l))) (by
          intro r hr
          have := List.find?_some hr
          simp only [decide_eq_true_eq] at this
          omega)
      have h2 : first_max (l ++ [x]) = ⟨0, none⟩ :=
        hall ((l ++ [x]).find? (fun r => decide (r.1 = max_total (l ++ [x])))) (by
          intro r hr
          have := List.find?_some hr
          simp only [decide_eq_true_eq] at this
          omega)
      rw [h1, h2]


theorem main_switch_big (env : Env) (s : Walk) :
    match main_switch env s with
    | .again s1 => s1.big = s.big
    | .entry s1 => s1.big = s.big
    | .finish s1 => s1.big = s.big := by
  unfold main_switch
  simp only []
  split_ifs <;> rfl


theorem main_decode_big (env : Env) (fptr : Nat → Decoder) (s : Walk)
    (d : Option KI × Option KI × Walk) (h : main_decode env fptr s = some d) :
    d.2.2.big = s.big := by
  unfold main_decode at h
  simp only [] at h
  split at h
  · exact absurd h (by simp)
  · split at h
    · exact absurd h (by simp)
    · rw [← Option.some.inj h]

theorem main_record_big (env : Env) (s : Walk) (name value : KI) (r : Nat)
    (hc : main_ctime s name (some value) = some r) :
    ∃ s1, main_record env s (some name) (some value) = .again s1 ∧
      s1.big =
        if ((if s.exp > 0 then (name.size + EXP_OH) % U64 else name.size) + value.size) % U64
            > s.big.size then
          match name.str with
          | none => s.big
          | some nb =>
            ⟨((if s.exp > 0 then (name.size + EXP_OH) % U64 else name.size) + value.size) % U64,
             some ((cstr nb).take ((cstr nb).length % U32) ++ [0])⟩
        else s.big := by
  simp only [main_record, hc]
  refine ⟨_, rfl, ?_⟩
  by_cases he : s.exp > 0
  · simp only [he, if_true]
  · simp only [he, if_false]

/-- Counterexample for C26: in full-render mode the dump whose only record is the String
entry with the empty key and the empty value (both stored as the length byte 0) has a
rendered name (the `Key` line holds the empty name) and the largest name size + value
size, 0; the record is not tracked: the summary names no key.  The run is one
whose store behind `keyper` hits spare bytes (`Behind.spare`). -/
theorem largest_key_zero_counterexample :
    main (testEnv true) (fun _ aux fd => str_enc (testEnv true) aux fd)
        (List.replicate 10 0) .spare 5 (ascii "REDIS0007" ++ [0x00, 0x00, 0x00, 0xFF])
      = some (.exit 3 (ascii ("Key  : \nType : String\nSize : 16\nExp  : 0\nValue: \n\n"
          ++ "Total number of keys: 1\nLargest key: (null) with size 0 bytes\n"))) := by
  rfl

/-- C26 (amended): the tracked largest key is the first record in stream order whose name
size + value size is maximal among all records with a rendered name, with that size,
provided that maximum is not 0 (while it is 0 no key is tracked): `first_max seen` for the
records `seen` so far.  The walker starts with it for no record; the opcode switch and
the decoding of name and value leave it alone; a record with decoded name and value brings
it to `first_max` of the list with this record added when its name is rendered, and leaves
it alone when the name pointer is `NULL`, and changes it only if the size of the record is
strictly greater than the tracked size; and at the end marker the summary prints its name
and size.  The size of a record is taken after the 32 bytes added for an expiration, modulo
`2^64`, and the name is copied with its length taken as an `unsigned int`. -/
theorem largest_key_tracked (env : Env) (fptr : Nat → Decoder) (s : Walk) (name value : KI)
    (r : Nat) (seen : List (Nat × List Byte))
    (hinv : s.big = first_max seen)
    (hc : main_ctime s name (some value) = some r) :
    (∀ fd fo, (main_locals fd fo).big = first_max []) ∧
    (match main_switch env s with
      | .again s1 => s1.big = first_max seen
      | .entry s1 => s1.big = first_max seen
      | .finish s1 => s1.big = first_max seen) ∧
    (∀ d, main_decode env fptr s = some d → d.2.2.big = first_max seen) ∧
    (∃ s1, main_record env s (some name) (some value) = .again s1 ∧
      s1.big = first_max (seen ++
        match name.str with
        | none => []
        | some nb =>
          [(((if s.exp > 0 then (name.size + EXP_OH) % U64 else name.size) + value.size) % U64,
            (cstr nb).take ((cstr nb).length % U32))]) ∧
      (s1.big ≠ s.big →
        s.big.size
          < ((if s.exp > 0 then (name.size + EXP_OH) % U64 else name.size) + value.size) % U64)) ∧
    (s.buffer.b0.val = 0xFF →
      main_iter env fptr s
        = .finish { s with
            fo := s.fo ++ (ascii "Total number of keys: " ++ fmt_u s.keycount ++ ascii "\n")
                    ++ (ascii "Largest key: " ++ fmt_s (first_max seen).str
                        ++ ascii " with size " ++ fmt_u (first_max seen).size
                        ++ ascii " bytes\n") }) := by
  refine ⟨fun _ _ => rfl, ?_, ?_, ?_, ?_⟩
  · have h := main_switch_big env s
    rw [hinv] at h
    exact h
  · intro d hd
    rw [main_decode_big env fptr s d hd, hinv]
  · obtain ⟨s1, h1, h2⟩ := main_record_big env s name value r hc
    refine ⟨s1, h1, ?_, ?_⟩
    · rw [h2]
      cases hn : name.str with
      | none =>
        rw [List.append_nil, ← hinv]
        exact ite_self _
      | some nb =>
        rw [first_max_snoc, ← hinv]
    · intro hne
      by_contra hlt
      apply hne
      rw [h2, if_neg hlt]
  · intro hop
    rw [main_iter_end env fptr s hop, hinv]

/-- Witness for C26 (amended): with the key "bb" of size 40 tracked, a record "a" of size
17 + 17 leaves it, and a record of size 17 + 30 replaces it. -/
theorem largest_key_tracked_witness :
    (∃ s1, main_record (testEnv false)
        { main_locals ⟨[], 0⟩ [] with big := ⟨40, some [0x62, 0x62, 0]⟩ }
        (some ⟨17, some [0x61, 0]⟩) (some ⟨17, none⟩) = .again s1 ∧
      s1.big = first_max ([(40, [0x62, 0x62])] ++ [((17 + 17) % U64, [0x61])])) ∧
    (∃ s1, main_record (testEnv false)
        { main_locals ⟨[], 0⟩ [] with big := ⟨40, some [0x62, 0x62, 0]⟩ }
        (some ⟨17, some [0x61, 0]⟩) (some ⟨30, none⟩) = .again s1 ∧
      s1.big = first_max ([(40, [0x62, 0x62])] ++ [((17 + 30) % U64, [0x61])])) :=
  ⟨(largest_key_tracked (testEnv false) (fun _ aux fd => str_enc (testEnv false) aux fd)
      { main_locals ⟨[], 0⟩ [] with big := ⟨40, some [0x62, 0x62, 0]⟩ }
      ⟨17, some [0x61, 0]⟩ ⟨17, none⟩ 0 [(40, [0x62, 0x62])] rfl rfl).2.2.2.1.imp (fun _ h => ⟨h.1, h.2.1⟩),
   (largest_key_tracked (testEnv false) (fun _ aux fd => str_enc (testEnv false) aux fd)
      { main_locals ⟨[], 0⟩ [] with big := ⟨40, some [0x62, 0x62, 0]⟩ }
      ⟨17, some [0x61, 0]⟩ ⟨30, none⟩ 0 [(40, [0x62, 0x62])] rfl rfl).2.2.2.1.imp (fun _ h => ⟨h.1, h.2.1⟩)⟩

/-! ## Sizes and buffers of the remaining decoders -/

set_option maxRecDepth 1000000 in
/-- C31 fails on the code: `ql_enc` adds `QI_OH` (48) for each segment and `QL_OH` (32), and
never the size `zl_enc` returned for the segment.  In size-only mode, a segmented list of one
segment whose blob has 11 bytes (`zl_enc` returns the size 27) and one whose blob has 15
bytes (size 31) both get the size 80, not 107 and 111; and two segments get 128 in
full-render mode. -/
theorem ql_enc_ignores_segment_sizes :
    (zl_enc (testEnv false) false
        ⟨[0x0B, 0x0B, 0, 0, 0, 0x0A, 0, 0, 0, 0, 0, 0xFF], 0⟩).map
      (fun r => r.1.map KI.size) = some (some 27) ∧
    (ql_enc (testEnv false) ⟨0, 0⟩ false
        ⟨[0x01, 0x0B, 0x0B, 0, 0, 0, 0x0A, 0, 0, 0, 0, 0, 0xFF], 0⟩).map
      (fun r => (r.1.map KI.size, r.2.pos)) = some (some 80, 13) ∧
    (zl_enc (testEnv false) false
        ⟨[0x0F, 0x0F, 0, 0, 0, 0x0A, 0, 0, 0, 1, 0, 0x00, 0x02, 0x61, 0x62, 0xFF], 0⟩).map
      (fun r => r.1.map KI.size) = some (some 31) ∧
    (ql_enc (testEnv false) ⟨0, 0⟩ false
        ⟨[0x01, 0x0F, 0x0F, 0, 0, 0, 0x0A, 0, 0, 0, 1, 0, 0x00, 0x02, 0x61, 0x62, 0xFF], 0⟩).map
      (fun r => (r.1.map KI.size, r.2.pos)) = some (some 80, 17) ∧
    (ql_enc (testEnv true) ⟨0, 0⟩ false
        ⟨[0x02, 0x0F, 0x0F, 0, 0, 0, 0x0A, 0, 0, 0, 1, 0, 0x00, 0x02, 0x61, 0x62, 0xFF,
          0x0B, 0x0B, 0, 0, 0, 0x0A, 0, 0, 0, 0, 0, 0xFF], 0⟩).map
      (fun r => (r.1.map KI.size, r.2.pos)) = some (some 128, 29) := by
  refine ⟨?_, ?_, ?_, ?_, ?_⟩ <;> rfl

set_option maxRecDepth 1000000 in
/-- C32 fails on the code in its second part: `sset64_enc` consumes the member and 8 score
bytes (both streams are left at offset 11), but it adds the value of these 8 bytes to the
estimated size.  The sorted set with the one member "a" gets the size 97 with the score
bytes of `0.0` and 97 + 4607182418800017408 with the score bytes of `1.0`. -/
theorem sset64_enc_size_has_score :
    (sset64_enc (testEnv false) ⟨0, 0⟩ false
        ⟨[0x01, 0x01, 0x61, 0, 0, 0, 0, 0, 0, 0, 0], 0⟩).map
      (fun r => (r.1.map KI.size, r.2.pos)) = some (some 97, 11) ∧
    (sset64_enc (testEnv false) ⟨0, 0⟩ false
        ⟨[0x01, 0x01, 0x61, 0, 0, 0, 0, 0, 0, 0xF0, 0x3F], 0⟩).map
      (fun r => (r.1.map KI.size, r.2.pos)) = some (some 4607182418800017505, 11) := by
  refine ⟨?_, ?_⟩ <;> rfl

set_option maxRecDepth 1000000 in
/-- C34 fails on the code in size-only mode: on the opcode `0xFE` the walker reads one byte,
and calls `get_length` for the rest of the length only in full-render mode.  With the
selector `40 05` (the database 5 in the two-byte form) behind the opcode, the stream is left
at offset 1 in size-only mode and at offset 2 in full-render mode, where the line
"Database selected: 5" is written and no key record. -/
theorem main_switch_selector_modes :
    (match main_switch (testEnv false)
        { main_locals ⟨[0x40, 0x05, 0xFF], 0⟩ [] with buffer := ⟨0xFE, 0⟩ } with
      | .again s1 => some (s1.fd.pos, s1.fo, s1.keycount)
      | _ => none) = some (1, [], 0) ∧
    (match main_switch (testEnv true)
        { main_locals ⟨[0x40, 0x05, 0xFF], 0⟩ [] with buffer := ⟨0xFE, 0⟩ } with
      | .again s1 => some (s1.fd.pos, s1.fo, s1.keycount)
      | _ => none) = some (2, ascii "Database selected: 5\n", 0) := by
  refine ⟨?_, ?_⟩ <;> rfl

set_option maxRecDepth 1000000 in
/-- C35 fails on the code.  `hmzl_enc` and `sszl_enc` call the entry codec as often as the
declared count says, without a look at the terminator or at the length of the blob: for the
blob of 11 bytes with the count 2 and the terminator `FF` at offset 10, the codec is called
at offset 10, on the terminator, moves the offset to 12, and the next call reads outside the
block of the blob (12 bytes with its NUL).  `zl_enc` reads the byte at `offset` before it
compares `offset`, and compares it with the blob's size plus `STR_OH`: for the blob of 10
bytes without terminator the codec is called at offset 10, the length of the blob, and reads
outside the block. -/
theorem zl_decoders_leave_the_blob :
    get_zl_entry (testEnv true)
        (([0x0B, 0, 0, 0, 0x0A, 0, 0, 0, 2, 0, 0xFF, 0] : List Byte).drop 10) 10
      = some (none, 12) ∧
    hmzl_enc (testEnv true) (fun _ => 0) false
        ⟨[0x0B, 0x0B, 0, 0, 0, 0x0A, 0, 0, 0, 2, 0, 0xFF], 0⟩ = (false, none) ∧
    sszl_enc (testEnv true) (fun _ => 0) false
        ⟨[0x0B, 0x0B, 0, 0, 0, 0x0A, 0, 0, 0, 2, 0, 0xFF], 0⟩ = (false, none) ∧
    (str_enc (testEnv true) false ⟨[0x0A, 0x0A, 0, 0, 0, 0x0A, 0, 0, 0, 0, 0], 0⟩).map Prod.fst
      = some (some ⟨26, some [0x0A, 0, 0, 0, 0x0A, 0, 0, 0, 0, 0, 0]⟩) ∧
    zl_enc (testEnv true) false ⟨[0x0A, 0x0A, 0, 0, 0, 0x0A, 0, 0, 0, 0, 0], 0⟩ = none := by
  refine ⟨?_, ?_, ?_, ?_, ?_⟩ <;> rfl

set_option maxRecDepth 1000000 in
/-- C38 fails on the code: the record prints `name->size + value->size + ROBJ_OH`, the
summary prints `big->size`, which is `name->size + value->size`.  For the dump with the one
String key "k" of value "v" the record says `Size : 50` and the summary says that the same
key has the size 34.  The run is one
whose store behind `keyper` hits spare bytes (`Behind.spare`). -/
theorem largest_key_size_differs :
    main (testEnv false) (fun _ aux fd => str_enc (testEnv false) aux fd)
        (List.replicate 10 0) .spare 5 (ascii "REDIS0007" ++ [0x00, 0x01, 0x6B, 0x01, 0x76, 0xFF])
      = some (.exit 3 (ascii ("Key  : k\nType : String\nSize : 50\nExp  : 0\n\n"
          ++ "Total number of keys: 1\nLargest key: k with size 34 bytes\n"))) := by
  rfl

set_option maxRecDepth 1000000 in
/-- C39 fails on the code for the negative values with the most digits: the buffers of the
8-bit and 16-bit integers of `get_zl_entry` and the buffer `maxint` of `str_enc` have no cell
for the sign.  The text of the 8-bit entry `-128` with its NUL takes 5 bytes (block of 4),
that of the 16-bit entry `-32768` takes 7 bytes (block of 6), and in `str_enc` that of the
32-bit integer `-2147483648` takes 12 bytes (block of `maxint`, 11): `sprintf` writes past
the end of the block, and the call does not return. -/
theorem integer_text_overruns :
    zl_entry_at (testEnv true) [0xFE, 0x80] 0 = none ∧
    fmt_d (toSigned 8 (le [0x80])) = ascii "-128" ∧
    (ascii "-128" ++ [0]).length = 5 ∧ 3 + SPACE_FOR_NULL = 4 ∧
    sprintf_into (3 + SPACE_FOR_NULL) (ascii "-128") = none ∧
    zl_entry_at (testEnv true) [0xC0, 0x00, 0x80] 0 = none ∧
    fmt_d (toSigned 16 (le [0x00, 0x80])) = ascii "-32768" ∧
    (ascii "-32768" ++ [0]).length = 7 ∧ 5 + SPACE_FOR_NULL = 6 ∧
    sprintf_into (5 + SPACE_FOR_NULL) (ascii "-32768") = none ∧
    str_enc (testEnv true) false ⟨[0xC2, 0x00, 0x00, 0x00, 0x80], 0⟩ = none ∧
    fmt_d (toSigned 32 (store 0 [0x00, 0x00, 0x00, 0x80])) = ascii "-2147483648" ∧
    (ascii "-2147483648" ++ [0]).length = 12 ∧ maxint = 11 ∧
    sprintf_into maxint (ascii "-2147483648") = none ∧
    (str_enc (testEnv false) false ⟨[0xC2, 0x00, 0x00, 0x00, 0x80], 0⟩).map Prod.fst
      = some (some ⟨4, none⟩) := by
  refine ⟨?_, ?_, ?_, ?_, ?_, ?_, ?_, ?_, ?_, ?_, ?_, ?_, ?_, ?_, ?_, ?_⟩ <;> rfl

set_option maxRecDepth 1000000 in
/-- C40 fails on the code.  For a literal blob `str_enc` returns the size of the blob plus
`STR_OH` (16), and the loop of `is_enc` runs while `offset` is below that size: for the
intset blob of 10 bytes with the encoding 2 and the one entry 5 the size is 26, the loop
goes on behind the entry and reads outside the block of the blob (11 bytes with its NUL);
were the 16 bytes behind the blob readable zeros, the text would be the entry and eight more
integers.  And in the branch of the encoding 8 the text is lost on every second entry: for
two entries 7 and 9 within the size the result is the null pointer. -/
theorem is_enc_leaves_the_blob :
    is_enc (testEnv false) false ⟨[0x0A, 2, 0, 0, 0, 1, 0, 0, 0, 5, 0], 0⟩
      = some (some ⟨26, none⟩, ⟨[0x0A, 2, 0, 0, 0, 1, 0, 0, 0, 5, 0], 11⟩) ∧
    is_enc (testEnv true) false ⟨[0x0A, 2, 0, 0, 0, 1, 0, 0, 0, 5, 0], 0⟩ = none ∧
    is_loop ([2, 0, 0, 0, 1, 0, 0, 0, 5, 0] ++ List.replicate 17 0) 2 26 28 (none, 8)
      = some (some (ascii "5, 0, 0, 0, 0, 0, 0, 0, 0" ++ [0])) ∧
    is_loop [8, 0, 0, 0, 2, 0, 0, 0, 7, 0, 0, 0, 0, 0, 0, 0, 9, 0, 0, 0, 0, 0, 0, 0, 0] 8 24 26
        (none, 8) = some none := by
  refine ⟨?_, ?_, ?_, ?_⟩ <;> rfl

/-! ## The size of a list -/

/-- In full-render mode a value `str_enc` returns has a text. -/
theorem str_enc_full_str (env : Env) (aux : Bool) (fd fd1 : FILE) (k : KI)
    (hfull : env.full = true) (h : str_enc env aux fd = some (some k, fd1)) :
    ∃ b, k.str = some b := by
  have hk : ∀ (o : Option (Option KI × FILE)), o = some (some k, fd1) →
      (∀ r, o = some r → ∀ k1, r.1 = some k1 → ∃ b, k1.str = some b) → ∃ b, k.str = some b :=
    fun o ho hall => hall _ ho k rfl
  refine hk _ h ?_
  intro r hr k1 hk1
  unfold str_enc at hr
  split at hr
  · rw [← Option.some.inj hr] at hk1; simp at hk1
  · simp only [] at hr
    split at hr
    · unfold str_enc_special at hr
      simp only [hfull, Bool.true_or, if_true] at hr
      split at hr
      · split at hr
        · rw [← Option.some.inj hr] at hk1
          rw [← Option.some.inj hk1]; exact ⟨_, rfl⟩
        · split at hr
          · simp at hr
          · rw [← Option.some.inj hr] at hk1
            rw [← Option.some.inj hk1]; exact ⟨_, rfl⟩
      · split at hr
        · split at hr
          · simp at hr
          · rw [← Option.some.inj hr] at hk1
            rw [← Option.some.inj hk1]; exact ⟨_, rfl⟩
        · split at hr
          · split at hr
            · simp at hr
            · rw [← Option.some.inj hr] at hk1
              rw [← Option.some.inj hk1]; exact ⟨_, rfl⟩
          · split at hr
            · rw [← Option.some.inj hr] at hk1
              unfold str_enc_compressed at hk1
              simp only [hfull, Bool.true_or, if_true] at hk1
              split at hk1
              · simp at hk1
              · split at hk1
                · simp at hk1
                · rw [← Option.some.inj hk1]; exact ⟨_, rfl⟩
            · rw [← Option.some.inj hr] at hk1
              rw [← Option.some.inj hk1]; exact ⟨_, rfl⟩
    · rw [← Option.some.inj hr] at hk1
      unfold str_enc_raw at hk1
      split at hk1
      · simp at hk1
      · rw [← Option.some.inj hk1]; exact ⟨_, rfl⟩

/-- The loop of `list_enc` over `m` elements that decode: it completes, with the sizes of the
elements and 48 for each of them added to the size. -/
theorem list_loop_size (env : Env) (aux : Bool) :
    ∀ (m : Nat) (key : KI) (fd fd1 : FILE) (ks : List KI),
      (env.full = true → ∃ b, key.str = some b) →
      strings env aux m fd = some (ks, fd1) →
      ∃ key1, list_loop env aux m (key, fd) = some (key1, fd1) ∧
        key1.size % U64 = (key.size + (ks.map KI.size).sum + 48 * m) % U64 ∧
        (env.full = true → ∃ b, key1.str = some b) := by
  intro m
  induction m with
  | zero =>
    intro key fd fd1 ks hstr hs
    simp only [strings, Option.some.injEq, Prod.mk.injEq] at hs
    obtain ⟨rfl, rfl⟩ := hs
    exact ⟨key, rfl, rfl, hstr⟩
  | succ m ih =>
    intro key fd fd1 ks hstr hs
    obtain ⟨k, fdA, ks1, h1, h3, rfl⟩ := strings_succ env aux m fd fd1 ks hs
    have hstep : ∃ key0, list_step env aux (key, fd) = some (key0, fdA) ∧
        key0.size = (key.size + k.size + 48) % U64 ∧
        (env.full = true → ∃ b, key0.str = some b) := by
      cases hf : env.full with
      | false =>
        refine ⟨⟨(key.size + k.size + 48) % U64, key.str⟩, ?_, rfl, fun h => absurd h (by simp)⟩
        simp only [list_step, h1, hf, Bool.false_eq_true, if_false]
      | true =>
        obtain ⟨b, hb⟩ := hstr hf
        refine ⟨⟨(key.size + k.size + 48) % U64,
          some (cstr b ++ ascii ", " ++ fmt_s k.str ++ [0])⟩, ?_, rfl, fun _ => ⟨_, rfl⟩⟩
        simp only [list_step, h1, hf, if_true, hb]
    obtain ⟨key0, hs0, hsz0, hstr0⟩ := hstep
    obtain ⟨key1, hl, hsz, hstr1⟩ := ih key0 _ fd1 ks1 hstr0 h3
    refine ⟨key1, ?_, ?_, hstr1⟩
    · rw [list_loop]
      simp only [hs0, hl]
    · rw [hsz, hsz0, List.map_cons, List.sum_cons]
      simp only [U64]
      omega

/-- C37: for every count `n >= 1` decoded from the leading length, when the `n` strings that
follow decode, with the sizes `s1..sn`, `list_enc` (and `set_enc`, which calls it) returns,
with the stream exactly after these strings, the estimated size `s1 + ... + sn + 48*n` in
unsigned 64-bit arithmetic: 48 for each element after the first and the 48 bytes of
`LIST_OH`. -/
theorem list_enc_size (env : Env) (aux : Bool) (data : List Byte) (pos : Nat)
    (h rest : List Byte) (n : Nat) (ks : List KI) (fd1 : FILE)
    (hh : len_header h n = true) (hn : 1 ≤ n)
    (hd : data.drop pos = h ++ rest)
    (hs : strings env aux n ⟨data, pos + h.length⟩ = some (ks, fd1)) :
    ∃ key, list_enc env aux ⟨data, pos⟩ = some (some key, fd1) ∧
      set_enc env aux ⟨data, pos⟩ = some (some key, fd1) ∧
      key.size = ((ks.map KI.size).sum + 48 * n) % U64 ∧
      ULSZ + 5 * PTRSZ = 48 := by
  obtain ⟨b, tl, buf, hb, hg⟩ := get_length_of_header h n data pos rest hh hd
  have hr : fread ⟨data, pos⟩ 1 = ([b], ⟨data, pos + 1⟩) :=
    fread_of_drop ⟨data, pos⟩ 1 [b] (tl ++ rest) (by rw [hd, hb]; rfl) rfl
  obtain ⟨m, rfl⟩ : ∃ m, n = m + 1 := ⟨n - 1, by omega⟩
  obtain ⟨k, fdA, ks1, h1, h3, rfl⟩ := strings_succ env aux m _ fd1 ks hs
  obtain ⟨key1, hl, hsz, _⟩ := list_loop_size env aux m k fdA fd1 ks1
    (fun hf => str_enc_full_str env aux _ fdA k hf h1) h3
  have hle : list_enc env aux ⟨data, pos⟩
      = some (some { key1 with size := (key1.size + (ULSZ + 5 * PTRSZ)) % U64 }, fd1) := by
    simp only [list_enc, hr, List.headD_cons, hg, h1, Nat.add_sub_cancel, hl]
  refine ⟨{ key1 with size := (key1.size + (ULSZ + 5 * PTRSZ)) % U64 }, hle, hle, ?_, rfl⟩
  show (key1.size + (ULSZ + 5 * PTRSZ)) % U64 = _
  rw [List.map_cons, List.sum_cons]
  have e48 : ULSZ + 5 * PTRSZ = 48 := rfl
  rw [e48]
  simp only [U64] at hsz ⊢
  omega

/-- Witness for C37: the list of the three elements "a", "bc" and the integer 5 has the size
17 + 18 + 1 + 48 * 3 = 180, and the stream is left at offset 8. -/
theorem list_enc_size_witness :
    ∃ key, list_enc (testEnv false) false
        ⟨[0x03, 0x01, 0x61, 0x02, 0x62, 0x63, 0xC0, 0x05, 0xFF], 0⟩
        = some (some key, ⟨[0x03, 0x01, 0x61, 0x02, 0x62, 0x63, 0xC0, 0x05, 0xFF], 8⟩) ∧
      key.size = 180 :=
  (list_enc_size (testEnv false) false
    [0x03, 0x01, 0x61, 0x02, 0x62, 0x63, 0xC0, 0x05, 0xFF] 0 [0x03]
    [0x01, 0x61, 0x02, 0x62, 0x63, 0xC0, 0x05, 0xFF] 3
    [⟨17, some [0x61, 0]⟩, ⟨18, some [0x62, 0x63, 0]⟩, ⟨1, none⟩]
    ⟨[0x03, 0x01, 0x61, 0x02, 0x62, 0x63, 0xC0, 0x05, 0xFF], 8⟩
    rfl (by decide) rfl rfl).imp (fun _ h => ⟨h.1, h.2.2.1⟩)

/-! ## The creation timestamp -/

set_option maxRecDepth 1000000 in
theorem strtou64_digit_test (b : Byte) :
    ((toSigned 8 b.val - 48) % (U32 : Int)).toNat < 10 ↔ (48 ≤ b.val ∧ b.val ≤ 57) := by
  revert b
  decide

theorem digit_byte_val (n : Nat) : (Fin.ofNat (48 + n % 10) : Byte).val = 48 + n % 10 := by
  have h : n % 10 < 10 := Nat.mod_lt _ (by decide)
  show (48 + n % 10) % 256 = 48 + n % 10
  omega

theorem strtou64_digitsAux (fuel : Nat) : ∀ (n : Nat) (acc : List Byte), n < fuel →
    n < 18446744073709551616 →
    strtou64 (digitsAux fuel n acc) 0 = strtou64 acc n := by
  induction fuel with
  | zero => intro n acc h; omega
  | succ f ih =>
    intro n acc h h64
    have hd := digit_byte_val n
    have h1 : ((toSigned 8 (Fin.ofNat (48 + n % 10) : Byte).val - 48) % (U32 : Int)).toNat < 10 :=
      (strtou64_digit_test _).mpr (by rw [hd]; omega)
    unfold digitsAux
    split
    · rename_i h0
      rw [strtou64, if_pos h1, hd]
      congr 1
      simp only [U64]
      omega
    · rename_i h0
      rw [ih (n / 10) _ (by omega) (by omega), strtou64, if_pos h1, hd]
      congr 1
      simp only [U64]
      omega

theorem digitsAux_append (t : List Byte) : ∀ (fuel m : Nat) (acc : List Byte),
    digitsAux fuel m acc ++ t = digitsAux fuel m (acc ++ t) := by
  intro fuel
  induction fuel with
  | zero => intro m acc; rfl
  | succ f ih =>
    intro m acc
    unfold digitsAux
    split
    · rfl
    · rw [ih]; rfl

/-- The value `strtou64` reads from the decimal text of `n`, closed by a NUL. -/
theorem strtou64_fmt_u (n : Nat) (pad : List Byte) (hn : n < 18446744073709551616) :
    strtou64 (fmt_u n ++ 0 :: pad) 0 = n := by
  have h0 : ¬ ((toSigned 8 (0 : Byte).val - 48) % (U32 : Int)).toNat < 10 := by
    rw [strtou64_digit_test]
    decide
  rw [fmt_u, digitsAux_append, List.nil_append, strtou64_digitsAux _ _ _ (by omega) hn, strtou64,
    if_neg h0]

/-- A text without NUL stands at the head of a block exactly when it stands at the head of
the C string of the block. -/
theorem take_cstr_iff : ∀ (t nb : List Byte), (∀ x ∈ t, x ≠ 0) →
    (nb.take t.length = t ↔ (cstr nb).take t.length = t) := by
  intro t
  induction t with
  | nil => intro nb _; simp
  | cons a t ih =>
    intro nb ht
    have ha : a ≠ 0 := ht a (List.mem_cons_self _ _)
    have ht1 : ∀ x ∈ t, x ≠ 0 := fun x hx => ht x (List.mem_cons_of_mem _ hx)
    cases nb with
    | nil => simp [cstr]
    | cons b nb =>
      by_cases hb : b = 0
      · subst hb
        simp only [cstr, List.length_cons, List.take_succ_cons, List.cons.injEq, ne_eq,
          not_true_eq_false, decide_False, List.takeWhile_cons, Bool.false_eq_true, if_false,
          List.take_nil]
        constructor
        · intro h; exact absurd h.1.symm ha
        · intro h; simp at h
      · have hc : cstr (b :: nb) = b :: cstr nb := by
          simp [cstr, List.takeWhile_cons, hb]
        rw [hc]
        simp only [List.length_cons, List.take_succ_cons, List.cons.injEq]
        rw [ih nb ht1]

set_option maxRecDepth 100000 in
theorem ctime_ne_zero : ∀ x ∈ ascii "ctime", x ≠ 0 := by decide

/-- The creation timestamp after a record with decoded name and value. -/
theorem main_record_rdbtime (env : Env) (s : Walk) (name value : KI) (r : Nat)
    (hc : main_ctime s name (some value) = some r) :
    ∃ s1, main_record env s (some name) (some value) = .again s1 ∧ s1.rdbtime = r := by
  simp only [main_record, hc]
  exact ⟨_, rfl, rfl⟩

set_option maxRecDepth 1000000 in
/-- Counterexample for C33: with the creation timestamp 7, (1) a record whose key name is
exactly "ctime" but whose type is List (tag 1), with the text "123", leaves the timestamp
at 7; (2) the String record with the key name "ctime2" and the value "99" sets it to 99. -/
theorem ctime_counterexample :
    (match main_record (testEnv false)
        { main_locals ⟨[], 0⟩ [] with rdbtime := 7, type := 1 }
        (some ⟨21, some (ascii "ctime" ++ [0])⟩) (some ⟨19, some (ascii "123" ++ [0])⟩) with
      | .again s1 => some s1.rdbtime
      | _ => none) = some 7 ∧
    (match main_record (testEnv false)
        { main_locals ⟨[], 0⟩ [] with rdbtime := 7, type := 0 }
        (some ⟨22, some (ascii "ctime2" ++ [0])⟩) (some ⟨18, some (ascii "99" ++ [0])⟩) with
      | .again s1 => some s1.rdbtime
      | _ => none) = some 99 := by
  refine ⟨?_, ?_⟩ <;> rfl

/-- C33 (amended): after a record with decoded name and value, the creation timestamp has
changed only if the record is a String (type tag 0) and its key name begins with "ctime"; a
record that is not a String, or whose key name does not begin with "ctime", leaves the
creation timestamp unchanged; a String record whose key name is exactly "ctime" and whose
value has a text sets it to what `strtou64` reads from that text, which for the decimal text
of a number below `2^64` is that number. -/
theorem ctime_sets_rdbtime (env : Env) (s : Walk) (name value : KI) :
    (∀ s1, main_record env s (some name) (some value) = .again s1 →
      s1.rdbtime ≠ s.rdbtime →
      s.type.val = 0 ∧ ∃ nb, name.str = some nb ∧ (cstr nb).take 5 = ascii "ctime") ∧
    ((s.type.val ≠ 0 ∨ ∀ nb, name.str = some nb → (cstr nb).take 5 ≠ ascii "ctime") →
      ∃ s1, main_record env s (some name) (some value) = .again s1 ∧
        s1.rdbtime = s.rdbtime) ∧
    (∀ pad vb, s.type.val = 0 → name.str = some (ascii "ctime" ++ 0 :: pad) →
      value.str = some vb →
      ∃ s1, main_record env s (some name) (some value) = .again s1 ∧
        s1.rdbtime = strtou64 vb 0) ∧
    (∀ n pad, n < 18446744073709551616 → strtou64 (fmt_u n ++ 0 :: pad) 0 = n) := by
  have hiff : ∀ nb : List Byte, nb.take 5 = ascii "ctime" ↔ (cstr nb).take 5 = ascii "ctime" :=
    fun nb => take_cstr_iff (ascii "ctime") nb ctime_ne_zero
  have hframe : (s.type.val ≠ 0 ∨ ∀ nb, name.str = some nb → (cstr nb).take 5 ≠ ascii "ctime") →
      main_ctime s name (some value) = some s.rdbtime := by
    intro h
    unfold main_ctime
    cases hn : name.str with
    | none => rfl
    | some nb =>
      have hg : ¬ (s.type.val = 0 ∧ nb.take 5 = ascii "ctime") := by
        rintro ⟨h0, h5⟩
        rcases h with h | h
        · exact h h0
        · exact h nb hn ((hiff nb).mp h5)
      simp only [if_neg hg]
  refine ⟨?_, ?_, ?_, fun n pad hn => strtou64_fmt_u n pad hn⟩
  · intro s1 hrun hne
    by_contra hcon
    have hfr : s.type.val ≠ 0 ∨ ∀ nb, name.str = some nb → (cstr nb).take 5 ≠ ascii "ctime" := by
      by_cases h0 : s.type.val = 0
      · right
        intro nb hn h5
        exact hcon ⟨h0, nb, hn, h5⟩
      · exact Or.inl h0
    obtain ⟨s2, h2, hr⟩ := main_record_rdbtime env s name value _ (hframe hfr)
    rw [hrun] at h2
    have : s1 = s2 := by
      injection h2
    rw [this] at hne
    exact hne hr
  · intro h
    exact main_record_rdbtime env s name value _ (hframe h)
  · intro pad vb h0 hn hv
    have hc : main_ctime s name (some value) = some (strtou64 vb 0) := by
      rw [main_ctime_some s name value vb hv, hn]
      have hg : s.type.val = 0 ∧ (ascii "ctime" ++ 0 :: pad).take 5 = ascii "ctime" :=
        ⟨h0, rfl⟩
      simp only [if_pos hg]
    exact main_record_rdbtime env s name value _ hc

set_option maxRecDepth 1000000 in
/-- Witness for C33 (amended): the String record "ctime" with the value "1500000000" sets the
creation timestamp to 1500000000, and the String record "other" leaves it at 7. -/
theorem ctime_sets_rdbtime_witness :
    (∃ s1, main_record (testEnv false) { main_locals ⟨[], 0⟩ [] with rdbtime := 7 }
        (some ⟨21, some (ascii "ctime" ++ [0])⟩)
        (some ⟨26, some (ascii "1500000000" ++ [0])⟩) = .again s1 ∧
      s1.rdbtime = 1500000000) ∧
    (∃ s1, main_record (testEnv false) { main_locals ⟨[], 0⟩ [] with rdbtime := 7 }
        (some ⟨21, some (ascii "other" ++ [0])⟩)
        (some ⟨26, some (ascii "1500000000" ++ [0])⟩) = .again s1 ∧
      s1.rdbtime = 7) :=
  ⟨(ctime_sets_rdbtime (testEnv false) { main_locals ⟨[], 0⟩ [] with rdbtime := 7 }
      ⟨21, some (ascii "ctime" ++ [0])⟩ ⟨26, some (ascii "1500000000" ++ [0])⟩).2.2.1
      [] (ascii "1500000000" ++ [0]) rfl rfl rfl,
   (ctime_sets_rdbtime (testEnv false) { main_locals ⟨[], 0⟩ [] with rdbtime := 7 }
      ⟨21, some (ascii "other" ++ [0])⟩ ⟨26, some (ascii "1500000000" ++ [0])⟩).2.1
      (Or.inr (fun nb hn => by
        simp only [Option.some.injEq] at hn
        rw [← hn]
        decide))⟩

end Dumpread

namespace Trie

open Dumpread (Byte FILE ascii U32 U64 fmt_u digitsAux)

/-! ## Lines and numbers of the report text -/

theorem line_of_line (line rest : List Byte) (m : Nat) (hnl : ∀ x ∈ line, x.val ≠ 10) :
    line_of ((line ++ 10 :: rest).take (line.length + 1 + m)) = line ++ [10] := by
  induction line with
  | nil =>
    have e : ([] : List Byte).length + 1 + m = m + 1 := by simp; omega
    have h10 : (10 : Byte).val = 10 := rfl
    rw [e, List.nil_append, List.take_succ_cons, line_of, if_pos h10]
    rfl
  | cons a l ih =>
    have ha : a.val ≠ 10 := hnl a (List.mem_cons_self _ _)
    have hl : ∀ x ∈ l, x.val ≠ 10 := fun x hx => hnl x (List.mem_cons_of_mem _ hx)
    have e : (a :: l).length + 1 + m = (l.length + 1 + m) + 1 := by simp; omega
    rw [e, List.cons_append, List.take_succ_cons, line_of, if_neg ha, ih hl]
    rfl

theorem fgets_line (fd : FILE) (line rest : List Byte)
    (hd : fd.data.drop fd.pos = line ++ 10 :: rest) (hnl : ∀ x ∈ line, x.val ≠ 10)
    (hlen : line.length ≤ 997) :
    fgets fd BUFSIZE = some (line ++ [10], { fd with pos := fd.pos + (line.length + 1) }) := by
  obtain ⟨m, hm⟩ : ∃ m, BUFSIZE - 1 = line.length + 1 + m :=
    ⟨997 - line.length, by simp only [BUFSIZE]; omega⟩
  simp only [fgets, hd, hm, line_of_line line rest m hnl]
  simp

theorem read_line_line (fd : FILE) (line rest : List Byte)
    (hd : fd.data.drop fd.pos = line ++ 10 :: rest) (hnl : ∀ x ∈ line, x.val ≠ 10)
    (hlen : line.length ≤ 997) :
    read_line fd = (line ++ [10], { fd with pos := fd.pos + (line.length + 1) }) := by
  simp only [read_line, fgets_line fd line rest hd hnl hlen]

theorem digit_val (n : Nat) : (Fin.ofNat (48 + n % 10) : Byte).val = 48 + n % 10 := by
  have h : n % 10 < 10 := Nat.mod_lt _ (by decide)
  show (48 + n % 10) % 256 = 48 + n % 10
  omega

theorem atol_digits_digitsAux (fuel : Nat) : ∀ (n : Nat) (acc : List Byte), n < fuel →
    atol_digits (digitsAux fuel n acc) 0 = atol_digits acc n := by
  induction fuel with
  | zero => intro n acc h; omega
  | succ f ih =>
    intro n acc h
    have hd := digit_val n
    have h1 : 48 ≤ (Fin.ofNat (48 + n % 10) : Byte).val ∧
        (Fin.ofNat (48 + n % 10) : Byte).val ≤ 57 := by
      rw [hd]; omega
    unfold digitsAux
    split
    · rename_i h0
      rw [atol_digits, if_pos h1, hd]
      congr 1
      omega
    · rename_i h0
      rw [ih (n / 10) _ (by omega), atol_digits, if_pos h1, hd]
      congr 1
      omega

theorem digitsAux_head (fuel : Nat) : ∀ (n : Nat) (acc : List Byte),
    ∃ d ds, digitsAux (fuel + 1) n acc = d :: ds ∧ 48 ≤ d.val ∧ d.val ≤ 57 := by
  induction fuel with
  | zero =>
    intro n acc
    have hd := digit_val n
    unfold digitsAux
    split
    · exact ⟨_, _, rfl, by rw [hd]; omega, by rw [hd]; omega⟩
    · exact ⟨_, _, rfl, by rw [hd]; omega, by rw [hd]; omega⟩
  | succ f ih =>
    intro n acc
    have hd := digit_val n
    unfold digitsAux
    split
    · exact ⟨_, _, rfl, by rw [hd]; omega, by rw [hd]; omega⟩
    · exact ih _ _

theorem atol_fmt_u (n : Nat) (r : List Byte) (hn : n < 9223372036854775808) :
    atol (fmt_u n ++ 10 :: r) = (n : Int) := by
  obtain ⟨d, ds, hds, h48, h57⟩ := digitsAux_head n n []
  have hval : atol_digits (fmt_u n ++ 10 :: r) 0 = n := by
    have h := atol_digits_digitsAux (n + 1) n (10 :: r) (by omega)
    have happ : ∀ (fuel m : Nat) (acc t : List Byte),
        digitsAux fuel m acc ++ t = digitsAux fuel m (acc ++ t) := by
      intro fuel
      induction fuel with
      | zero => intro m acc t; rfl
      | succ f ih =>
        intro m acc t
        unfold digitsAux
        split
        · rfl
        · rw [ih]; rfl
    have h10 : ¬ (48 ≤ (10 : Byte).val ∧ (10 : Byte).val ≤ 57) := by decide
    rw [fmt_u, happ, List.nil_append, h, atol_digits, if_neg h10]
  have hsp : isspace d = false := by
    simp only [isspace, Bool.or_eq_false_iff, decide_eq_false_iff_not, Bool.and_eq_false_iff]
    constructor
    · omega
    · right; simp; omega
  have h45 : ¬ d.val = 45 := by omega
  have h43 : ¬ d.val = 43 := by omega
  have hge : ¬ n ≥ 9223372036854775808 := by omega
  have hfm : fmt_u n = d :: ds := hds
  rw [hfm] at hval ⊢
  simp only [atol, List.cons_append, List.dropWhile_cons, hsp, Bool.false_eq_true, if_false]
  rw [if_neg h45, if_neg h43]
  rw [List.cons_append] at hval
  rw [hval, if_neg hge]

theorem to_u64_nat (n : Nat) (hn : n < 9223372036854775808) : to_u64 (n : Int) = n := by
  simp only [to_u64]
  omega

/-! ## One record in the trie -/

theorem get_null (q : List Nat) : KT.null.get q = KT.null := by
  cases q <;> rfl

theorem get_wild_cons (s : Nat) (q : List Nat) : KT.wild.get (s :: q) = KT.null := rfl

theorem get_node_cons (type : Byte) (num size avgttl bigttl : Nat) (next : Nat → KT)
    (s : Nat) (q : List Nat) :
    (KT.node type num size avgttl bigttl next).get (s :: q) = (next s).get q := rfl

theorem create_KT_get (mem : Alloc) (k : Nat) (hw : ∀ k j, mem.wild k j = false)
    (s : Nat) (q : List Nat) : ((create_KT mem k).get (s :: q)) = KT.null := by
  unfold create_KT
  split
  · rw [get_node_cons]
    split
    · exact get_null q
    · rw [hw]; exact get_null q
  · rfl

theorem create_KT_stats (mem : Alloc) (k : Nat) (hw : ∀ k j, mem.wild k j = false)
    (q : List Nat) : ((create_KT mem k).get q).stats = (0, 0, 0, 0) := by
  cases q with
  | nil =>
    unfold create_KT
    split <;> rfl
  | cons s q => rw [create_KT_get mem k hw]; rfl

theorem create_KT_isWild (mem : Alloc) (k : Nat) (hw : ∀ k j, mem.wild k j = false)
    (q : List Nat) : ((create_KT mem k).get q).isWild = false := by
  cases q with
  | nil =>
    unfold create_KT
    split <;> rfl
  | cons s q => rw [create_KT_get mem k hw]; rfl

theorem key_end_eq (type : Byte) (num size avgttl bigttl : Nat) (next : Nat → KT) (fd : FILE) :
    key_end type num size avgttl bigttl next fd
      = (.node (merge_type type (rec_type fd)) ((num + 1) % U32) ((size + rec_size fd) % U64)
          ((avgttl + rec_exp fd) % U64)
          (if rec_exp fd > bigttl then rec_exp fd else bigttl) next, rec_fd fd) := rfl

/-- What one pass through `key_loop` does to a trie without uninitialised pointers when
every allocation succeeds. -/
theorem key_loop_spec (mem : Alloc) (key : List Byte) (fd : FILE)
    (hok : ∀ k, mem.ok k = true) (hw : ∀ k j, mem.wild k j = false) :
    ∀ (n i : Nat) (tmp : KT) (k : Nat), i + n = 17 → i ≤ 16 →
      (∃ ty, tmp.type = some ty) → (∀ q, (tmp.get q).isWild = false) →
      ∃ tmp1 k1, key_loop mem key n i tmp k fd = some (tmp1, k1, rec_fd fd) ∧
        (tmp1.get (key_path key n i)).stats
          = bump (tmp.get (key_path key n i)).stats (rec_size fd) (rec_exp fd) ∧
        (∀ q, q ≠ key_path key n i → (tmp1.get q).stats = (tmp.get q).stats) ∧
        (∀ q, (tmp1.get q).isWild = false) ∧
        (∃ ty, tmp1.type = some ty) ∧
        (∀ ty, (tmp.get (key_path key n i)).type = some ty →
          (tmp1.get (key_path key n i)).type = some (merge_type ty (rec_type fd))) ∧
        ((tmp.get (key_path key n i)).type = none →
          ∃ j, (tmp1.get (key_path key n i)).type
            = some (merge_type (mem.type j) (rec_type fd))) ∧
        (∀ q ty, q ≠ key_path key n i → (tmp.get q).type = some ty →
          (tmp1.get q).type = some ty) := by
  intro n
  induction n with
  | zero => intro i tmp k h1 h2; omega
  | succ n ih =>
    intro i tmp k hin hi hnode hnw
    obtain ⟨ty0, hty0⟩ := hnode
    cases tmp with
    | null => simp [KT.type] at hty0
    | wild => simp [KT.type] at hty0
    | node type num size avgttl bigttl next =>
      by_cases hterm : toupper (key.getD i 0) > 90 ∨ toupper (key.getD i 0) < 48
          ∨ (toupper (key.getD i 0) > 57 ∧ toupper (key.getD i 0) < 65) ∨ i = 16
      · have hp : key_path key (n + 1) i = [] := by
          rw [key_path, if_pos hterm]
        rw [hp]
        refine ⟨.node (merge_type type (rec_type fd)) ((num + 1) % U32)
          ((size + rec_size fd) % U64) ((avgttl + rec_exp fd) % U64)
          (if rec_exp fd > bigttl then rec_exp fd else bigttl) next, k, ?_, ?_, ?_, ?_, ?_, ?_,
          ?_, ?_⟩
        · rw [key_loop]
          simp only [if_pos hterm, key_end_eq]
        · rfl
        · intro q hq
          cases q with
          | nil => exact absurd rfl hq
          | cons s q => rfl
        · intro q
          cases q with
          | nil => rfl
          | cons s q => exact hnw (s :: q)
        · exact ⟨_, rfl⟩
        · intro ty h
          simp only [KT.get, KT.type, Option.some.injEq] at h
          subst h
          rfl
        · intro h
          simp [KT.get, KT.type] at h
        · intro q ty hq h
          cases q with
          | nil => exact absurd rfl hq
          | cons s q => exact h
      · have hi1 : i + 1 ≤ 16 := by
          have : i ≠ 16 := fun h => hterm (Or.inr (Or.inr (Or.inr h)))
          omega
        have hp : key_path key (n + 1) i
            = (key_slot (toupper (key.getD i 0))).toNat :: key_path key n (i + 1) := by
          rw [key_path, if_neg hterm]
        rw [hp]
        generalize hslot : (key_slot (toupper (key.getD i 0))).toNat = slot
        generalize hpp : key_path key n (i + 1) = p
        have hkl : key_loop mem key (n + 1) i (.node type num size avgttl bigttl next) k fd
            = match next slot with
              | .null =>
                if mem.ok k then
                  match key_loop mem key n (i + 1) (create_KT mem k) (k + 1) fd with
                  | none => none
                  | some r =>
                    some (.node type num size avgttl bigttl
                            (fun j => if j = slot then r.1 else next j), r.2.1, r.2.2)
                else some (.node type num size avgttl bigttl next, k + 1, fd)
              | child =>
                match key_loop mem key n (i + 1) child k fd with
                | none => none
                | some r =>
                  some (.node type num size avgttl bigttl
                          (fun j => if j = slot then r.1 else next j), r.2.1, r.2.2) := by
          rw [key_loop]
          simp only [if_neg hterm, hslot]
        -- the child the loop goes on with, and what the induction gives for it
        have hstep : ∀ (child : KT) (k0 : Nat), (∃ ty, child.type = some ty) →
            (∀ q, (child.get q).isWild = false) →
            (∀ q, (child.get q).stats = ((next slot).get q).stats) →
            (∀ q ty, ((next slot).get q).type = some ty → (child.get q).type = some ty) →
            (∀ q ty, ((next slot).get q).type = none → (child.get q).type = some ty →
              ∃ j, ty = mem.type j) →
            key_loop mem key (n + 1) i (.node type num size avgttl bigttl next) k fd
              = (match key_loop mem key n (i + 1) child k0 fd with
                | none => none
                | some r =>
                  some (.node type num size avgttl bigttl
                          (fun j => if j = slot then r.1 else next j), r.2.1, r.2.2)) →
            ∃ tmp1 k1, key_loop mem key (n + 1) i (.node type num size avgttl bigttl next) k fd
                = some (tmp1, k1, rec_fd fd) ∧
              (tmp1.get (slot :: p)).stats
                = bump ((KT.node type num size avgttl bigttl next).get (slot :: p)).stats
                    (rec_size fd) (rec_exp fd) ∧
              (∀ q, q ≠ slot :: p →
                (tmp1.get q).stats = ((KT.node type num size avgttl bigttl next).get q).stats) ∧
              (∀ q, (tmp1.get q).isWild = false) ∧
              (∃ ty, tmp1.type = some ty) ∧
              (∀ ty, ((KT.node type num size avgttl bigttl next).get (slot :: p)).type = some ty →
                (tmp1.get (slot :: p)).type = some (merge_type ty (rec_type fd))) ∧
              (((KT.node type num size avgttl bigttl next).get (slot :: p)).type = none →
                ∃ j, (tmp1.get (slot :: p)).type
                  = some (merge_type (mem.type j) (rec_type fd))) ∧
              (∀ q ty, q ≠ slot :: p →
                ((KT.node type num size avgttl bigttl next).get q).type = some ty →
                (tmp1.get q).type = some ty) := by
          intro child k0 hcn hcw hcs hct hcf hrun
          obtain ⟨c1, k1, hk, hs, hfr, hw1, hn1, ht1, ht2, ht3⟩ :=
            ih (i + 1) child k0 (by omega) hi1 hcn hcw
          rw [hpp] at hs hfr ht1 ht2 ht3
          rw [hk] at hrun
          refine ⟨.node type num size avgttl bigttl (fun j => if j = slot then c1 else next j),
            k1, hrun, ?_, ?_, ?_, ⟨_, rfl⟩, ?_, ?_, ?_⟩
          · simp only [get_node_cons, if_true]
            rw [hs, hcs]
          · intro q hq
            cases q with
            | nil => rfl
            | cons s q =>
              simp only [get_node_cons]
              by_cases hsl : s = slot
              · subst hsl
                have hq1 : q ≠ p := fun h => hq (by rw [h])
                simp only [if_true]
                rw [hfr q hq1, hcs]
              · simp only [if_neg hsl]
          · intro q
            cases q with
            | nil => rfl
            | cons s q =>
              simp only [get_node_cons]
              by_cases hsl : s = slot
              · subst hsl
                simp only [if_true]
                exact hw1 q
              · simp only [if_neg hsl]
                exact hnw (s :: q)
          · intro ty h
            simp only [get_node_cons, if_true] at h ⊢
            exact ht1 ty (hct p ty h)
          · intro h
            simp only [get_node_cons, if_true] at h ⊢
            cases hc : (child.get p).type with
            | none => exact ht2 hc
            | some ty =>
              obtain ⟨j, hj⟩ := hcf p ty h hc
              exact ⟨j, by rw [← hj]; exact ht1 ty hc⟩
          · intro q ty hq h
            cases q with
            | nil => exact h
            | cons s q =>
              simp only [get_node_cons] at h ⊢
              by_cases hsl : s = slot
              · subst hsl
                have hq1 : q ≠ p := fun h => hq (by rw [h])
                simp only [if_true]
                exact ht3 q ty hq1 (hct q ty h)
              · simp only [if_neg hsl]
                exact h
        cases hc : next slot with
        | null =>
          rw [hc] at hkl hstep
          simp only [hok, if_true] at hkl
          refine hstep (create_KT mem k) (k + 1) ?_ (create_KT_isWild mem k hw) ?_ ?_ ?_ hkl
          · unfold create_KT
            rw [hok]
            exact ⟨_, rfl⟩
          · intro q
            rw [create_KT_stats mem k hw, get_null]
            rfl
          · intro q ty h
            rw [get_null] at h
            simp [KT.type] at h
          · intro q ty _ h
            cases q with
            | nil =>
              refine ⟨k, ?_⟩
              unfold create_KT at h
              rw [hok] at h
              simp only [if_true, KT.get, KT.type, Option.some.injEq] at h
              exact h.symm
            | cons s q =>
              rw [create_KT_get mem k hw] at h
              simp [KT.type] at h
        | wild =>
          have := hnw [slot]
          rw [get_node_cons, hc] at this
          simp [KT.get, KT.isWild] at this
        | node t2 n2 s2 a2 b2 nx2 =>
          rw [hc] at hkl hstep
          refine hstep (.node t2 n2 s2 a2 b2 nx2) k ⟨_, rfl⟩ ?_ (fun q => rfl) (fun q ty h => h)
            (fun q ty h1 h2 => by rw [h1] at h2; simp at h2) hkl
          intro q
          have := hnw (slot :: q)
          rw [get_node_cons, hc] at this
          exact this

theorem digitsAux_digits (fuel : Nat) : ∀ (n : Nat) (acc : List Byte),
    (∀ x ∈ acc, 48 ≤ x.val ∧ x.val ≤ 57) →
    ∀ x ∈ digitsAux fuel n acc, 48 ≤ x.val ∧ x.val ≤ 57 := by
  induction fuel with
  | zero => intro n acc h x hx; exact h x (by simpa [digitsAux] using hx)
  | succ f ih =>
    intro n acc h x hx
    have hd := digit_val n
    have hcons : ∀ y ∈ (Fin.ofNat (48 + n % 10) : Byte) :: acc, 48 ≤ y.val ∧ y.val ≤ 57 := by
      intro y hy
      rcases List.mem_cons.mp hy with rfl | hy
      · rw [hd]; omega
      · exact h y hy
    unfold digitsAux at hx
    split at hx
    · exact hcons x hx
    · exact ih _ _ hcons x hx

theorem fmt_u_no_newline (n : Nat) : ∀ x ∈ fmt_u n, x.val ≠ 10 := by
  intro x hx
  have := digitsAux_digits (n + 1) n [] (by simp) x hx
  omega

theorem digitsAux_length (k : Nat) : ∀ (fuel n : Nat) (acc : List Byte), n < 10 ^ (k + 1) →
    (digitsAux fuel n acc).length ≤ k + 1 + acc.length := by
  induction k with
  | zero =>
    intro fuel n acc h
    cases fuel with
    | zero => simp [digitsAux]
    | succ f =>
      have h0 : n / 10 = 0 := by omega
      rw [digitsAux, if_pos h0]
      simp only [List.length_cons]
      omega
  | succ k ih =>
    intro fuel n acc h
    cases fuel with
    | zero => simp [digitsAux]
    | succ f =>
      unfold digitsAux
      split
      · simp; omega
      · have hlt : n / 10 < 10 ^ (k + 1) := by
          rw [Nat.div_lt_iff_lt_mul (by decide)]
          calc n < 10 ^ (k + 1 + 1) := h
            _ = 10 ^ (k + 1) * 10 := by rw [pow_succ]
        have := ih f (n / 10) ((Fin.ofNat (48 + n % 10) : Byte) :: acc) hlt
        simp only [List.length_cons] at this
        omega

theorem fmt_u_length (n : Nat) (hn : n < 9223372036854775808) : (fmt_u n).length ≤ 19 := by
  have e19 : (10 : Nat) ^ 19 = 10000000000000000000 := by norm_num
  have h := digitsAux_length 18 (n + 1) n [] (by show n < 10 ^ 19; rw [e19]; omega)
  simpa [fmt_u] using h

set_option maxRecDepth 100000 in
theorem ascii_no_newline7 :
    (∀ x ∈ ascii "Key  : ", x.val ≠ 10) ∧ (∀ x ∈ ascii "Type : ", x.val ≠ 10) ∧
    (∀ x ∈ ascii "Size : ", x.val ≠ 10) ∧ (∀ x ∈ ascii "Exp  : ", x.val ≠ 10) ∧
    (∀ x ∈ ascii "Value: ", x.val ≠ 10) := by
  refine ⟨?_, ?_, ?_, ?_, ?_⟩ <;> decide

theorem no_newline_append (a b : List Byte) (ha : ∀ x ∈ a, x.val ≠ 10)
    (hb : ∀ x ∈ b, x.val ≠ 10) : ∀ x ∈ a ++ b, x.val ≠ 10 := by
  intro x hx
  rcases List.mem_append.mp hx with h | h
  · exact ha x h
  · exact hb x h

/-- One record of the report at the head of the stream: the loop of `main` takes its four
lines in one pass and goes on behind them with the trie changed at the node of the key. -/
theorem main_loop_record (mem : Alloc) (tr : KT) (k f : Nat) (data : List Byte) (pos : Nat)
    (name label rest : List Byte) (s e : Nat)
    (hok : ∀ k, mem.ok k = true) (hw : ∀ k j, mem.wild k j = false)
    (hnode : ∃ ty, tr.type = some ty) (hnw : ∀ q, (tr.get q).isWild = false)
    (hname : ∀ x ∈ name, x.val ≠ 10) (hnlen : name.length ≤ 990)
    (hlabel : ∀ x ∈ label, x.val ≠ 10) (hllen : label.length ≤ 990)
    (hs : s < 9223372036854775808) (he : e < 9223372036854775808)
    (hd : data.drop pos = (ascii "Key  : " ++ name) ++ 10 :: ((ascii "Type : " ++ label)
            ++ 10 :: ((ascii "Size : " ++ fmt_u s) ++ 10 :: ((ascii "Exp  : " ++ fmt_u e)
            ++ 10 :: rest)))) :
    ∃ tr1 k1,
      main_loop mem (f + 1) tr k ⟨data, pos⟩
        = main_loop mem f tr1 k1
            ⟨data, pos + (7 + name.length + 1) + (7 + label.length + 1)
                    + (7 + (fmt_u s).length + 1) + (7 + (fmt_u e).length + 1)⟩ ∧
      data.drop (pos + (7 + name.length + 1) + (7 + label.length + 1)
                    + (7 + (fmt_u s).length + 1) + (7 + (fmt_u e).length + 1)) = rest ∧
      (tr1.get (key_path (ascii "Key  : " ++ name ++ [10]) 10 7)).stats
        = bump (tr.get (key_path (ascii "Key  : " ++ name ++ [10]) 10 7)).stats s e ∧
      (∀ q, q ≠ key_path (ascii "Key  : " ++ name ++ [10]) 10 7 →
        (tr1.get q).stats = (tr.get q).stats) ∧
      (∀ q, (tr1.get q).isWild = false) ∧
      (∃ ty, tr1.type = some ty) ∧
      (∀ ty, (tr.get (key_path (ascii "Key  : " ++ name ++ [10]) 10 7)).type = some ty →
        (tr1.get (key_path (ascii "Key  : " ++ name ++ [10]) 10 7)).type
          = some (merge_type ty
              (type_code (toupper ((ascii "Type : " ++ label ++ [10]).getD 8 0))))) ∧
      ((tr.get (key_path (ascii "Key  : " ++ name ++ [10]) 10 7)).type = none →
        ∃ ty, (tr1.get (key_path (ascii "Key  : " ++ name ++ [10]) 10 7)).type
          = some (merge_type ty
              (type_code (toupper ((ascii "Type : " ++ label ++ [10]).getD 8 0))))) ∧
      (∀ q ty, q ≠ key_path (ascii "Key  : " ++ name ++ [10]) 10 7 →
        (tr.get q).type = some ty → (tr1.get q).type = some ty) := by
  have h7 : ∀ t : String, t.length = 7 → (ascii t).length = 7 := by
    intro t ht; simp [ascii, ht]
  have hK : (ascii "Key  : ").length = 7 := rfl
  have hT : (ascii "Type : ").length = 7 := rfl
  have hS : (ascii "Size : ").length = 7 := rfl
  have hE : (ascii "Exp  : ").length = 7 := rfl
  have hsl := fmt_u_length s hs
  have hel := fmt_u_length e he
  -- the four lines
  have hl0 : (ascii "Key  : " ++ name).length = 7 + name.length := by
    rw [List.length_append, hK]
  have hl1 : (ascii "Type : " ++ label).length = 7 + label.length := by
    rw [List.length_append, hT]
  have hl2 : (ascii "Size : " ++ fmt_u s).length = 7 + (fmt_u s).length := by
    rw [List.length_append, hS]
  have hl3 : (ascii "Exp  : " ++ fmt_u e).length = 7 + (fmt_u e).length := by
    rw [List.length_append, hE]
  have hg0 := fgets_line ⟨data, pos⟩ (ascii "Key  : " ++ name) _ hd
    (no_newline_append _ _ ascii_no_newline7.1 hname) (by rw [hl0]; omega)
  have hd1 := Dumpread.drop_add_of_drop data pos ((ascii "Key  : " ++ name) ++ [10])
    ((ascii "Type : " ++ label) ++ 10 :: ((ascii "Size : " ++ fmt_u s) ++ 10 :: ((ascii "Exp  : " ++ fmt_u e) ++ 10 :: rest)))
    (by rw [hd]; simp)
  rw [List.length_append, hl0] at hd1
  have hr1 := read_line_line ⟨data, pos + (7 + name.length + [(10 : Byte)].length)⟩
    (ascii "Type : " ++ label) _ hd1
    (no_newline_append _ _ ascii_no_newline7.2.1 hlabel) (by rw [hl1]; omega)
  have hd2 := Dumpread.drop_add_of_drop data _ ((ascii "Type : " ++ label) ++ [10])
    ((ascii "Size : " ++ fmt_u s) ++ 10 :: ((ascii "Exp  : " ++ fmt_u e) ++ 10 :: rest))
    (by rw [hd1]; simp)
  rw [List.length_append, hl1] at hd2
  have hr2 := read_line_line
    ⟨data, pos + (7 + name.length + [(10 : Byte)].length)
      + (7 + label.length + [(10 : Byte)].length)⟩
    (ascii "Size : " ++ fmt_u s) _ hd2
    (no_newline_append _ _ ascii_no_newline7.2.2.1 (fmt_u_no_newline s)) (by rw [hl2]; omega)
  have hd3 := Dumpread.drop_add_of_drop data _ ((ascii "Size : " ++ fmt_u s) ++ [10])
    ((ascii "Exp  : " ++ fmt_u e) ++ 10 :: rest)
    (by rw [hd2]; simp)
  rw [List.length_append, hl2] at hd3
  have hr3 := read_line_line
    ⟨data, pos + (7 + name.length + [(10 : Byte)].length)
      + (7 + label.length + [(10 : Byte)].length)
      + (7 + (fmt_u s).length + [(10 : Byte)].length)⟩
    (ascii "Exp  : " ++ fmt_u e) _ hd3
    (no_newline_append _ _ ascii_no_newline7.2.2.2.1 (fmt_u_no_newline e)) (by rw [hl3]; omega)
  have hd4 := Dumpread.drop_add_of_drop data _ ((ascii "Exp  : " ++ fmt_u e) ++ [10]) rest
    (by rw [hd3]; simp)
  rw [List.length_append, hl3] at hd4
  simp only [List.length_singleton] at hr1 hr2 hr3 hd4
  rw [hl1] at hr1
  rw [hl2] at hr2
  rw [hl3] at hr3
  -- what `key_end` reads
  have hdrop7 : ∀ (t : String) (x : List Byte), (ascii t).length = 7 →
      (ascii t ++ x ++ [10]).drop 7 = x ++ [10] := by
    intro t x ht
    rw [List.append_assoc, ← ht, List.drop_left]
  have hsize : rec_size ⟨data, pos + (7 + name.length + 1)⟩ = s := by
    simp only [rec_size, hr1, hr2]
    rw [hdrop7 "Size : " (fmt_u s) hS, atol_fmt_u s [] hs, to_u64_nat s hs]
  have hexp : rec_exp ⟨data, pos + (7 + name.length + 1)⟩ = e := by
    simp only [rec_exp, hr1, hr2, hr3]
    rw [hdrop7 "Exp  : " (fmt_u e) hE, atol_fmt_u e [] he, to_u64_nat e he]
  have htype : rec_type ⟨data, pos + (7 + name.length + 1)⟩
      = type_code (toupper ((ascii "Type : " ++ label ++ [10]).getD 8 0)) := by
    simp only [rec_type, hr1]
  have hfd : rec_fd ⟨data, pos + (7 + name.length + 1)⟩
      = ⟨data, pos + (7 + name.length + 1) + (7 + label.length + 1)
                    + (7 + (fmt_u s).length + 1) + (7 + (fmt_u e).length + 1)⟩ := by
    simp only [rec_fd, hr1, hr2, hr3]
  obtain ⟨tr1, k1, hk, h1, h2, h3, h4, h5, h6, h7⟩ :=
    key_loop_spec mem (ascii "Key  : " ++ name ++ [10]) ⟨data, pos + (7 + name.length + 1)⟩
      hok hw 10 7 tr k rfl (by decide) hnode hnw
  rw [hsize, hexp] at h1
  rw [htype] at h5 h6
  rw [hfd] at hk
  refine ⟨tr1, k1, ?_, hd4, h1, h2, h3, h4, h5,
    fun h => (h6 h).elim (fun j hj => ⟨mem.type j, hj⟩), h7⟩
  rw [main_loop]
  simp only [hg0, hl0]
  have hkey : (ascii "Key  : " ++ name ++ [10]).getD 0 0 = 75
      ∧ (ascii "Key  : " ++ name ++ [10]).getD 1 0 = 101
      ∧ (ascii "Key  : " ++ name ++ [10]).getD 2 0 = 121 := ⟨rfl, rfl, rfl⟩
  rw [if_pos hkey, hk]

/-! ## The report read back by the aggregator -/

theorem main_loop_skip (mem : Alloc) (tr : KT) (k f : Nat) (data : List Byte) (pos : Nat)
    (line rest : List Byte) (hd : data.drop pos = line ++ 10 :: rest)
    (hnl : ∀ x ∈ line, x.val ≠ 10) (hlen : line.length ≤ 997)
    (hkey : ¬ ((line ++ [10]).getD 0 0 = 75 ∧ (line ++ [10]).getD 1 0 = 101
              ∧ (line ++ [10]).getD 2 0 = 121)) :
    main_loop mem (f + 1) tr k ⟨data, pos⟩
      = main_loop mem f tr k ⟨data, pos + (line.length + 1)⟩ := by
  rw [main_loop]
  simp only [fgets_line ⟨data, pos⟩ line rest hd hnl hlen]
  rw [if_neg hkey]

theorem main_loop_eof (mem : Alloc) (tr : KT) (k f : Nat) (data : List Byte) (pos : Nat)
    (h : data.drop pos = []) :
    main_loop mem (f + 1) tr k ⟨data, pos⟩ = some (some (tr, k, ⟨data, pos⟩)) := by
  rw [main_loop]
  simp [fgets, h, line_of]

set_option maxRecDepth 100000 in
theorem type_label_line (type : Nat) :
    (∀ x ∈ Dumpread.type_label type, x.val ≠ 10) ∧ (Dumpread.type_label type).length ≤ 990 := by
  by_cases h0 : type = 0
  · subst h0; exact ⟨by decide, by decide⟩
  by_cases h1 : type = 1
  · subst h1; exact ⟨by decide, by decide⟩
  by_cases h2 : type = 2
  · subst h2; exact ⟨by decide, by decide⟩
  by_cases h3 : type = 3
  · subst h3; exact ⟨by decide, by decide⟩
  by_cases h4 : type = 4
  · subst h4; exact ⟨by decide, by decide⟩
  by_cases h9 : type = 9
  · subst h9; exact ⟨by decide, by decide⟩
  by_cases h10 : type = 10
  · subst h10; exact ⟨by decide, by decide⟩
  by_cases h11 : type = 11
  · subst h11; exact ⟨by decide, by decide⟩
  by_cases h12 : type = 12
  · subst h12; exact ⟨by decide, by decide⟩
  by_cases h13 : type = 13
  · subst h13; exact ⟨by decide, by decide⟩
  by_cases h14 : type = 14
  · subst h14; exact ⟨by decide, by decide⟩
  unfold Dumpread.type_label
  rw [if_neg h0, if_neg h1, if_neg h2, if_neg h3, if_neg h4, if_neg h9, if_neg h10, if_neg h11, if_neg h12, if_neg h13, if_neg h14]
  exact ⟨by decide, by decide⟩


theorem main_loop_tail (mem : Alloc) (tr : KT) (k f : Nat) (data : List Byte) (pos : Nat)
    (hd : data.drop pos = [10]) :
    main_loop mem (f + 2) tr k ⟨data, pos⟩ = some (some (tr, k, ⟨data, pos + 1⟩)) := by
  have h0 : ¬ ((([] : List Byte) ++ [10]).getD 0 0 = 75 ∧ (([] : List Byte) ++ [10]).getD 1 0 = 101
      ∧ (([] : List Byte) ++ [10]).getD 2 0 = 121) := by decide
  rw [main_loop_skip mem tr k (f + 1) data pos [] [] (by rw [hd]; rfl) (by simp) (by simp) h0]
  exact main_loop_eof mem tr k f data _
    (Dumpread.drop_add_of_drop data pos [10] [] (by rw [hd]; rfl))

theorem report_record_lines (full : Bool) (name label value : List Byte) (s e : Nat) :
    Dumpread.report_record full name label s e value
      = (ascii "Key  : " ++ name) ++ 10 :: ((ascii "Type : " ++ label)
          ++ 10 :: ((ascii "Size : " ++ fmt_u s) ++ 10 :: ((ascii "Exp  : " ++ fmt_u e)
          ++ 10 :: (if full then (ascii "Value: " ++ value) ++ 10 :: [10] else [10])))) := by
  have hnl : ascii "\n" = [10] := rfl
  cases full <;>
    simp only [Dumpread.report_record, hnl, List.append_assoc, List.cons_append,
      List.nil_append, List.singleton_append, if_true, if_false, Bool.false_eq_true]

/-- C19 (amended): round trip across the text contract.  For every record written by
`print_key_info`, in size-only or in full-render mode, whose name has no newline and at most
990 bytes, whose total size `s` and expiration `e` are below `2^63`, and, in full-render
mode, whose rendered value has no newline and at most 990 bytes: the aggregator reading
that text, with its allocations succeeding on a trie without uninitialised pointers, ends
the run with the counters of exactly one node changed, the node of the key: count plus one
(32 bits), total size plus `s` and ttl sum plus `e` (64 bits), largest ttl `max(old, e)`. -/
theorem aggregate_record (mem : Alloc) (env : Dumpread.Env) (nm v : Dumpread.KI)
    (type exp : Nat) (tr : KT) (k f : Nat)
    (hok : ∀ k, mem.ok k = true) (hw : ∀ k j, mem.wild k j = false)
    (hnode : ∃ ty, tr.type = some ty) (hnw : ∀ q, (tr.get q).isWild = false)
    (hname : ∀ x ∈ Dumpread.fmt_s nm.str, x.val ≠ 10)
    (hnlen : (Dumpread.fmt_s nm.str).length ≤ 990)
    (hval : env.full = true → (∀ x ∈ Dumpread.fmt_s v.str, x.val ≠ 10)
              ∧ (Dumpread.fmt_s v.str).length ≤ 990)
    (hs : (nm.size + v.size + 16) % U64 < 9223372036854775808)
    (he : exp < 9223372036854775808) :
    ∃ tr1 k1 fd1,
      main_loop mem (f + 4) tr k
          ⟨Dumpread.print_key_info env (some nm) (some v) type exp [], 0⟩
        = some (some (tr1, k1, fd1)) ∧
      (tr1.get (key_path (ascii "Key  : " ++ Dumpread.fmt_s nm.str ++ [10]) 10 7)).stats
        = bump (tr.get (key_path (ascii "Key  : " ++ Dumpread.fmt_s nm.str ++ [10]) 10 7)).stats
            ((nm.size + v.size + 16) % U64) exp ∧
      (∀ q, q ≠ key_path (ascii "Key  : " ++ Dumpread.fmt_s nm.str ++ [10]) 10 7 →
        (tr1.get q).stats = (tr.get q).stats) := by
  have htext : Dumpread.print_key_info env (some nm) (some v) type exp []
      = Dumpread.report_record env.full (Dumpread.fmt_s nm.str) (Dumpread.type_label type)
          ((nm.size + v.size + 16) % U64) exp (Dumpread.fmt_s v.str) := by
    rw [Dumpread.print_key_info_eq, List.nil_append]
  rw [htext, report_record_lines]
  generalize hdata : ((ascii "Key  : " ++ Dumpread.fmt_s nm.str) ++ 10 ::
    ((ascii "Type : " ++ Dumpread.type_label type) ++ 10 ::
    ((ascii "Size : " ++ fmt_u ((nm.size + v.size + 16) % U64)) ++ 10 ::
    ((ascii "Exp  : " ++ fmt_u exp) ++ 10 ::
    (if env.full then (ascii "Value: " ++ Dumpread.fmt_s v.str) ++ 10 :: [10] else [10])))))
    = data
  obtain ⟨tr1, k1, hrun, hrest, hst, hfr, hw1, -, -, -, -⟩ :=
    main_loop_record mem tr k (f + 3) data 0 (Dumpread.fmt_s nm.str) (Dumpread.type_label type)
      (if env.full then (ascii "Value: " ++ Dumpread.fmt_s v.str) ++ 10 :: [10] else [10])
      ((nm.size + v.size + 16) % U64) exp hok hw hnode hnw hname hnlen
      (type_label_line type).1 (type_label_line type).2 hs he (by rw [← hdata]; rfl)
  generalize hP : 0 + (7 + (Dumpread.fmt_s nm.str).length + 1)
      + (7 + (Dumpread.type_label type).length + 1)
      + (7 + (fmt_u ((nm.size + v.size + 16) % U64)).length + 1)
      + (7 + (fmt_u exp).length + 1) = P at hrun hrest
  rw [hrun]
  cases hfull : env.full with
  | false =>
    rw [hfull] at hrest
    simp only [Bool.false_eq_true, if_false] at hrest
    have h := main_loop_tail mem tr1 k1 (f + 1) data P hrest
    exact ⟨tr1, k1, _, h, hst, hfr⟩
  | true =>
    rw [hfull] at hrest
    simp only [if_true] at hrest
    obtain ⟨hv1, hv2⟩ := hval hfull
    have hV : (ascii "Value: ").length = 7 := rfl
    have hlen : (ascii "Value: " ++ Dumpread.fmt_s v.str).length ≤ 997 := by
      rw [List.length_append, hV]; omega
    have hkey : ¬ ((ascii "Value: " ++ Dumpread.fmt_s v.str ++ [10]).getD 0 0 = 75
        ∧ (ascii "Value: " ++ Dumpread.fmt_s v.str ++ [10]).getD 1 0 = 101
        ∧ (ascii "Value: " ++ Dumpread.fmt_s v.str ++ [10]).getD 2 0 = 121) := by
      intro h
      have h86 : (ascii "Value: " ++ Dumpread.fmt_s v.str ++ [10]).getD 0 0 = 86 := rfl
      rw [h86] at h
      exact absurd h.1 (by decide)
    have hskip := main_loop_skip mem tr1 k1 (f + 2) data P
      (ascii "Value: " ++ Dumpread.fmt_s v.str) [10] hrest
      (no_newline_append _ _ ascii_no_newline7.2.2.2.2 hv1) hlen hkey
    have hd2 := Dumpread.drop_add_of_drop data P
      ((ascii "Value: " ++ Dumpread.fmt_s v.str) ++ [10]) [10] (by rw [hrest]; simp)
    have h := main_loop_tail mem tr1 k1 f data _ hd2
    rw [List.length_append] at h
    rw [hskip]
    exact ⟨tr1, k1, _, h, hst, hfr⟩


set_option maxRecDepth 100000 in
/-- Witness for C19 (amended): the record of the key "k" (size 50, expiration 7) read on an
empty trie changes the node K alone. -/
theorem aggregate_record_witness :
    ∃ tr1 k1 fd1,
      main_loop ⟨fun _ => true, fun _ => 0, fun _ _ => false⟩ 4
          (create_KT ⟨fun _ => true, fun _ => 0, fun _ _ => false⟩ 0) 1
          ⟨Dumpread.print_key_info (Dumpread.testEnv false) (some ⟨17, some [0x6B, 0]⟩)
            (some ⟨17, none⟩) 0 7 [], 0⟩
        = some (some (tr1, k1, fd1)) ∧
      (tr1.get [10]).stats = (1, 50, 7, 7) ∧
      (∀ q, q ≠ [10] → (tr1.get q).stats
        = ((create_KT ⟨fun _ => true, fun _ => 0, fun _ _ => false⟩ 0).get q).stats) :=
  aggregate_record ⟨fun _ => true, fun _ => 0, fun _ _ => false⟩ (Dumpread.testEnv false)
    ⟨17, some [0x6B, 0]⟩ ⟨17, none⟩ 0 7
    (create_KT ⟨fun _ => true, fun _ => 0, fun _ _ => false⟩ 0) 1 0
    (fun _ => rfl) (fun _ _ => rfl) ⟨0, rfl⟩
    (create_KT_isWild ⟨fun _ => true, fun _ => 0, fun _ _ => false⟩ 0 (fun _ _ => rfl))
    (by decide) (by decide) (fun h => absurd h (by decide)) (by decide) (by decide)

set_option maxRecDepth 1000000 in
/-- Counterexample for C19: (1) in size-only mode, the record of a key name of 992 letters
`a` (size 1041, expiration 7): the `Key` line does not fit one `fgets`, the node `AAAAAAAAA`
gets count 1 but size 0 and ttl sum 1041; (2) in full-render mode, the record of the key
"k" whose value holds a line starting with `Key`: two nodes get a count. -/
theorem aggregate_record_counterexample :
    (main_loop ⟨fun _ => true, fun _ => 0, fun _ _ => false⟩ 8
        (create_KT ⟨fun _ => true, fun _ => 0, fun _ _ => false⟩ 0) 1
        ⟨Dumpread.print_key_info (Dumpread.testEnv false)
          (some ⟨1008, some (List.replicate 992 0x61 ++ [0])⟩) (some ⟨17, none⟩) 0 7 [], 0⟩).map
      (Option.map (fun r => (r.1.get [0, 0, 0, 0, 0, 0, 0, 0, 0]).stats))
      = some (some (1, 0, 1041, 1041)) ∧
    (main_loop ⟨fun _ => true, fun _ => 0, fun _ _ => false⟩ 8
        (create_KT ⟨fun _ => true, fun _ => 0, fun _ _ => false⟩ 0) 1
        ⟨Dumpread.print_key_info (Dumpread.testEnv true) (some ⟨17, some [0x6B, 0]⟩)
          (some ⟨27, some (ascii "x\nKey  : zz" ++ [0])⟩) 0 7 [], 0⟩).map
      (Option.map (fun r => ((r.1.get [10]).stats, (r.1.get [25, 25]).stats)))
      = some (some ((1, 60, 7, 7), (1, 0, 0, 0))) := by
  refine ⟨?_, ?_⟩
  · rfl
  · rfl


set_option maxRecDepth 100000 in
theorem merge_type_twice (ty : Byte) : merge_type (merge_type ty 6) 1 = 8 := by
  revert ty
  decide

set_option maxRecDepth 1000000 in
/-- Counterexample for C20: after the two records on an empty trie there is no node for
"user:" (the child of the node USER in the slot of `:`, slot 52, is null and counts
nothing); the counters and the type Multi are at the node USER. -/
theorem two_records_counterexample :
    ([0x75, 0x73, 0x65, 0x72, 0x3A].map (fun c => (key_slot (toupper c)).toNat)
      = [20, 18, 4, 17, 52]) ∧
    (main_loop ⟨fun _ => true, fun _ => 0, fun _ _ => false⟩ 12
        (create_KT ⟨fun _ => true, fun _ => 0, fun _ _ => false⟩ 0) 1
        ⟨Dumpread.report_record false (ascii "user:1") (ascii "String") 10 5 []
          ++ Dumpread.report_record false (ascii "user:2") (ascii "Hash") 20 15 [], 0⟩).map
      (Option.map (fun r => ((r.1.get [20, 18, 4, 17, 52]).stats,
        (r.1.get [20, 18, 4, 17, 52]).type, (r.1.get [20, 18, 4, 17]).stats,
        (r.1.get [20, 18, 4, 17]).type)))
      = some (some ((0, 0, 0, 0), none, (2, 30, 20, 15), some 8)) := by
  refine ⟨?_, ?_⟩
  · rfl
  · rfl

set_option maxRecDepth 100000 in
/-- C20 (amended): after the aggregator processes the two records {name "user:1", type
String, size 10, ttl 5} and {name "user:2", type Hash, size 20, ttl 15} on an empty trie
(allocations succeeding, fresh nodes without uninitialised pointers, whatever their
uninitialised `type` byte holds), the node at the prefix "USER" (slots 20, 18, 4, 17) has
count 2, total size 30, ttl sum 20, max ttl 15 and type Multi (8). -/
theorem two_records_node (mem : Alloc) (f : Nat)
    (hok : ∀ k, mem.ok k = true) (hw : ∀ k j, mem.wild k j = false) :
    ∃ tr2 k2 fd2,
      main_loop mem (f + 5) (create_KT mem 0) 1
          ⟨Dumpread.report_record false (ascii "user:1") (ascii "String") 10 5 []
            ++ Dumpread.report_record false (ascii "user:2") (ascii "Hash") 20 15 [], 0⟩
        = some (some (tr2, k2, fd2)) ∧
      (tr2.get [20, 18, 4, 17]).stats = (2, 30, 20, 15) ∧
      (tr2.get [20, 18, 4, 17]).type = some 8 := by
  generalize hdata : Dumpread.report_record false (ascii "user:1") (ascii "String") 10 5 []
      ++ Dumpread.report_record false (ascii "user:2") (ascii "Hash") 20 15 [] = data
  have hroot : ∃ ty, (create_KT mem 0).type = some ty := by
    unfold create_KT
    rw [hok]
    exact ⟨_, rfl⟩
  -- first record
  obtain ⟨tr1, k1, hrun1, hrest1, hst1, -, hw1, hn1, -, hty1, -⟩ :=
    main_loop_record mem (create_KT mem 0) 1 (f + 4) data 0 (ascii "user:1") (ascii "String")
      (10 :: Dumpread.report_record false (ascii "user:2") (ascii "Hash") 20 15 [])
      10 5 hok hw hroot (create_KT_isWild mem 0 hw) (by decide) (by decide) (by decide)
      (by decide) (by decide) (by decide) (by rw [← hdata]; rfl)
  have hp1 : key_path (ascii "Key  : " ++ ascii "user:1" ++ [10]) 10 7 = [20, 18, 4, 17] := rfl
  rw [hp1] at hst1 hty1
  rw [create_KT_stats mem 0 hw] at hst1
  have hnone : ((create_KT mem 0).get [20, 18, 4, 17]).type = none := by
    rw [create_KT_get mem 0 hw]
    rfl
  obtain ⟨ty, hty⟩ := hty1 hnone
  have hc1 : type_code (toupper ((ascii "Type : " ++ ascii "String" ++ [10]).getD 8 0)) = 6 :=
    rfl
  rw [hc1] at hty
  generalize hP1 : 0 + (7 + (ascii "user:1").length + 1) + (7 + (ascii "String").length + 1)
      + (7 + (fmt_u 10).length + 1) + (7 + (fmt_u 5).length + 1) = P1 at hrun1 hrest1
  -- the blank line
  have h0 : ¬ ((([] : List Byte) ++ [10]).getD 0 0 = 75 ∧ (([] : List Byte) ++ [10]).getD 1 0 = 101
      ∧ (([] : List Byte) ++ [10]).getD 2 0 = 121) := by decide
  have hskip := main_loop_skip mem tr1 k1 (f + 3) data P1 []
    (Dumpread.report_record false (ascii "user:2") (ascii "Hash") 20 15 [])
    (by rw [hrest1]; rfl) (by simp) (by simp) h0
  have hd2 := Dumpread.drop_add_of_drop data P1 [10]
    (Dumpread.report_record false (ascii "user:2") (ascii "Hash") 20 15 [])
    (by rw [hrest1]; rfl)
  -- second record
  obtain ⟨tr2, k2, hrun2, hrest2, hst2, -, -, -, hty2, -, -⟩ :=
    main_loop_record mem tr1 k1 (f + 2) data (P1 + [(10 : Byte)].length) (ascii "user:2")
      (ascii "Hash") [10] 20 15 hok hw hn1 hw1 (by decide) (by decide) (by decide)
      (by decide) (by decide) (by decide) (by rw [hd2]; rfl)
  have hp2 : key_path (ascii "Key  : " ++ ascii "user:2" ++ [10]) 10 7 = [20, 18, 4, 17] := rfl
  rw [hp2] at hst2 hty2
  have hc2 : type_code (toupper ((ascii "Type : " ++ ascii "Hash" ++ [10]).getD 8 0)) = 1 :=
    rfl
  rw [hc2] at hty2
  have htail := main_loop_tail mem tr2 k2 f data _ hrest2
  have hfin := hrun1.trans (hskip.trans (hrun2.trans htail))
  have hs : (tr2.get [20, 18, 4, 17]).stats = (2, 30, 20, 15) := by
    rw [hst2, hst1]
    rfl
  have ht : (tr2.get [20, 18, 4, 17]).type = some 8 := by
    rw [hty2 _ hty, merge_type_twice]
  exact ⟨tr2, k2, _, hfin, hs, ht⟩

/-- Witness for C20 (amended): fresh blocks whose `type` byte holds 0. -/
theorem two_records_node_witness :
    ∃ tr2 k2 fd2,
      main_loop ⟨fun _ => true, fun _ => 0, fun _ _ => false⟩ 5
          (create_KT ⟨fun _ => true, fun _ => 0, fun _ _ => false⟩ 0) 1
          ⟨Dumpread.report_record false (ascii "user:1") (ascii "String") 10 5 []
            ++ Dumpread.report_record false (ascii "user:2") (ascii "Hash") 20 15 [], 0⟩
        = some (some (tr2, k2, fd2)) ∧
      (tr2.get [20, 18, 4, 17]).stats = (2, 30, 20, 15) ∧
      (tr2.get [20, 18, 4, 17]).type = some 8 :=
  two_records_node ⟨fun _ => true, fun _ => 0, fun _ _ => false⟩ 0 (fun _ => rfl)
    (fun _ _ => rfl)

/-! ## The type of a node -/

set_option maxRecDepth 100000 in
theorem merge_type_cases (ty c : Byte) :
    (ty.val = 0 → merge_type ty c = c) ∧ (ty = c → merge_type ty c = ty) ∧
    (ty.val ≠ 0 → ty ≠ c → merge_type ty c = 8) ∧ (ty.val = 8 → merge_type ty c = 8) := by
  unfold merge_type
  refine ⟨?_, ?_, ?_, ?_⟩
  · intro h0
    have h8 : ty.val ≠ 8 := by omega
    rw [if_pos h8, if_neg (fun h => h.1 h0)]
  · intro h
    subst h
    by_cases h8 : ty.val ≠ 8
    · rw [if_pos h8, if_neg (fun h => h.2 rfl)]
    · rw [if_neg h8]
  · intro h0 hc
    by_cases h8 : ty.val ≠ 8
    · rw [if_pos h8, if_pos ⟨h0, hc⟩]
    · rw [if_neg h8]
      have : ty.val = 8 := by omega
      exact Fin.ext this
  · intro h8
    rw [if_neg (fun h => h h8)]
    exact Fin.ext h8

/-- The node a record ends at when the record creates it: with the `type` byte of fresh
blocks 0 its type is the type of the record. -/
theorem key_loop_fresh (mem : Alloc) (key : List Byte) (fd : FILE)
    (hok : ∀ k, mem.ok k = true) (hw : ∀ k j, mem.wild k j = false)
    (h0 : ∀ k, mem.type k = 0) :
    ∀ (n i : Nat) (tmp : KT) (k : Nat) (r : KT × Nat × FILE), i + n = 17 → i ≤ 16 →
      (∀ q, (tmp.get q).isWild = false) →
      (tmp.get (key_path key n i)).type = none →
      key_loop mem key n i tmp k fd = some r →
      (r.1.get (key_path key n i)).type = some (rec_type fd) := by
  intro n
  induction n with
  | zero => intro i tmp k r h1 h2; omega
  | succ n ih =>
    intro i tmp k r hin hi hnw hnone hrun
    cases tmp with
    | null => simp [key_loop] at hrun
    | wild => simp [key_loop] at hrun
    | node type num size avgttl bigttl next =>
      by_cases hterm : toupper (key.getD i 0) > 90 ∨ toupper (key.getD i 0) < 48
          ∨ (toupper (key.getD i 0) > 57 ∧ toupper (key.getD i 0) < 65) ∨ i = 16
      · have hp : key_path key (n + 1) i = [] := by
          rw [key_path, if_pos hterm]
        rw [hp] at hnone
        simp [KT.get, KT.type] at hnone
      · have hi1 : i + 1 ≤ 16 := by
          have : i ≠ 16 := fun h => hterm (Or.inr (Or.inr (Or.inr h)))
          omega
        have hp : key_path key (n + 1) i
            = (key_slot (toupper (key.getD i 0))).toNat :: key_path key n (i + 1) := by
          rw [key_path, if_neg hterm]
        rw [hp] at hnone ⊢
        generalize hslot : (key_slot (toupper (key.getD i 0))).toNat = slot at hnone ⊢
        have hkl : key_loop mem key (n + 1) i (.node type num size avgttl bigttl next) k fd
            = match next slot with
              | .null =>
                if mem.ok k then
                  match key_loop mem key n (i + 1) (create_KT mem k) (k + 1) fd with
                  | none => none
                  | some r =>
                    some (.node type num size avgttl bigttl
                            (fun j => if j = slot then r.1 else next j), r.2.1, r.2.2)
                else some (.node type num size avgttl bigttl next, k + 1, fd)
              | child =>
                match key_loop mem key n (i + 1) child k fd with
                | none => none
                | some r =>
                  some (.node type num size avgttl bigttl
                          (fun j => if j = slot then r.1 else next j), r.2.1, r.2.2) := by
          rw [key_loop]
          simp only [if_neg hterm, hslot]
        rw [hkl] at hrun
        rw [get_node_cons] at hnone
        cases hc : next slot with
        | null =>
          rw [hc] at hrun
          simp only [hok, if_true] at hrun
          cases hr : key_loop mem key n (i + 1) (create_KT mem k) (k + 1) fd with
          | none => rw [hr] at hrun; simp at hrun
          | some r1 =>
            rw [hr] at hrun
            simp only [Option.some.injEq] at hrun
            rw [← hrun]
            simp only [get_node_cons, if_true]
            cases hcp : ((create_KT mem k).get (key_path key n (i + 1))).type with
            | none =>
              exact ih (i + 1) (create_KT mem k) (k + 1) r1 (by omega) hi1
                (create_KT_isWild mem k hw) hcp hr
            | some ty =>
              have hnode : ∃ t, (create_KT mem k).type = some t := by
                unfold create_KT
                rw [hok]
                exact ⟨_, rfl⟩
              obtain ⟨c1, k1, hk, _, _, _, _, ht1, _, _⟩ :=
                key_loop_spec mem key fd hok hw n (i + 1) (create_KT mem k) (k + 1) (by omega) hi1
                  hnode (create_KT_isWild mem k hw)
              rw [hk] at hr
              simp only [Option.some.injEq] at hr
              rw [← hr]
              rw [ht1 ty hcp]
              have hty : ty = 0 := by
                cases hq : key_path key n (i + 1) with
                | nil =>
                  rw [hq] at hcp
                  unfold create_KT at hcp
                  rw [hok] at hcp
                  simp only [KT.get, KT.type, if_true, Option.some.injEq] at hcp
                  rw [← hcp, h0]
                | cons s q =>
                  rw [hq, create_KT_get mem k hw] at hcp
                  simp [KT.type] at hcp
              rw [hty]
              exact congrArg some ((merge_type_cases 0 (rec_type fd)).1 rfl)
        | wild =>
          have := hnw [slot]
          rw [get_node_cons, hc] at this
          simp [KT.get, KT.isWild] at this
        | node t2 n2 s2 a2 b2 nx2 =>
          rw [hc] at hrun hnone
          simp only [] at hrun
          cases hr : key_loop mem key n (i + 1) (.node t2 n2 s2 a2 b2 nx2) k fd with
          | none => rw [hr] at hrun; simp at hrun
          | some r1 =>
            rw [hr] at hrun
            simp only [Option.some.injEq] at hrun
            rw [← hrun]
            simp only [get_node_cons, if_true]
            refine ih (i + 1) (.node t2 n2 s2 a2 b2 nx2) k r1 (by omega) hi1 ?_ hnone hr
            intro q
            have := hnw (slot :: q)
            rw [get_node_cons, hc] at this
            exact this

set_option maxRecDepth 1000000 in
/-- Counterexample for C21: two records of the key "k", the first with the label "N/A"
(dumpread's label of a type tag 5 to 8), the second a String, on an empty trie in zeroed
memory.  The first record leaves the node K with the type 0; merging the different type
String (6) then sets the node's type to 6, not to Multi (8). -/
theorem type_merge_counterexample :
    Dumpread.type_label 5 = ascii "N/A" ∧
    (main_loop ⟨fun _ => true, fun _ => 0, fun _ _ => false⟩ 12
        (create_KT ⟨fun _ => true, fun _ => 0, fun _ _ => false⟩ 0) 1
        ⟨Dumpread.report_record false (ascii "k") (Dumpread.type_label 5) 10 0 [], 0⟩).map
      (Option.map (fun r => ((r.1.get [10]).stats, (r.1.get [10]).type)))
      = some (some ((1, 10, 0, 0), some 0)) ∧
    (main_loop ⟨fun _ => true, fun _ => 0, fun _ _ => false⟩ 12
        (create_KT ⟨fun _ => true, fun _ => 0, fun _ _ => false⟩ 0) 1
        ⟨Dumpread.report_record false (ascii "k") (Dumpread.type_label 5) 10 0 []
          ++ Dumpread.report_record false (ascii "k") (Dumpread.type_label 0) 20 0 [], 0⟩).map
      (Option.map (fun r => ((r.1.get [10]).stats, (r.1.get [10]).type)))
      = some (some ((2, 30, 0, 0), some 6)) := by
  refine ⟨?_, ?_, ?_⟩
  · rfl
  · rfl
  · rfl

/-- C21 (amended): type merge at the node a record ends at (every allocation succeeding, on
a trie without uninitialised pointers, the `type` byte of a fresh block being 0): the pass
of the key loop returns, and the type of the record sets the type of a node that the
record creates and of a node whose type is 0 (no type yet, or the type of a record with
none of the seven known labels); merging a type equal to the node's type leaves it
unchanged; merging a different type into a node whose type is not 0 sets the node's type
to Multi (8); and a node whose type is Multi stays Multi, also after any further merges. -/
theorem type_merge (mem : Alloc) (key : List Byte) (fd : FILE) (tmp : KT) (k : Nat)
    (hok : ∀ k, mem.ok k = true) (hw : ∀ k j, mem.wild k j = false)
    (h0 : ∀ k, mem.type k = 0)
    (hnode : ∃ ty, tmp.type = some ty) (hnw : ∀ q, (tmp.get q).isWild = false) :
    (∃ tmp1 k1, key_loop mem key 10 7 tmp k fd = some (tmp1, k1, rec_fd fd) ∧
      ((tmp.get (key_path key 10 7)).type = none →
        (tmp1.get (key_path key 10 7)).type = some (rec_type fd)) ∧
      (∀ ty, (tmp.get (key_path key 10 7)).type = some ty →
        (ty.val = 0 → (tmp1.get (key_path key 10 7)).type = some (rec_type fd)) ∧
        (ty = rec_type fd → (tmp1.get (key_path key 10 7)).type = some ty) ∧
        (ty.val ≠ 0 → ty ≠ rec_type fd → (tmp1.get (key_path key 10 7)).type = some 8) ∧
        (ty.val = 8 → (tmp1.get (key_path key 10 7)).type = some 8))) ∧
    (∀ cs : List Byte, cs.foldl merge_type 8 = 8) := by
  constructor
  · obtain ⟨tmp1, k1, hk, _, _, _, _, ht1, _, _⟩ :=
      key_loop_spec mem key fd hok hw 10 7 tmp k (by omega) (by omega) hnode hnw
    refine ⟨tmp1, k1, hk, ?_, ?_⟩
    · intro hnone
      exact key_loop_fresh mem key fd hok hw h0 10 7 tmp k _ (by omega) (by omega) hnw hnone hk
    · intro ty hty
      have hm := merge_type_cases ty (rec_type fd)
      have ht := ht1 ty hty
      refine ⟨?_, ?_, ?_, ?_⟩
      · intro h; rw [ht, hm.1 h]
      · intro h; rw [ht, hm.2.1 h]
      · intro h1 h2; rw [ht, hm.2.2.1 h1 h2]
      · intro h; rw [ht, hm.2.2.2 h]
  · intro cs
    induction cs with
    | nil => rfl
    | cons c cs ih =>
      rw [List.foldl_cons, (merge_type_cases 8 c).2.2.2 rfl]
      exact ih

set_option maxRecDepth 1000000 in
/-- Witness for C21 (amended): on the empty trie in zeroed memory the record of a String
with the key "k" creates the node K with the type String (6). -/
theorem type_merge_witness :
    ∃ tmp1 k1, key_loop ⟨fun _ => true, fun _ => 0, fun _ _ => false⟩ (ascii "Key  : k\n") 10 7
        (create_KT ⟨fun _ => true, fun _ => 0, fun _ _ => false⟩ 0) 1
        ⟨ascii "Type : String\nSize : 17\nExp  : 0\n", 0⟩
        = some (tmp1, k1, rec_fd ⟨ascii "Type : String\nSize : 17\nExp  : 0\n", 0⟩) ∧
      (tmp1.get (key_path (ascii "Key  : k\n") 10 7)).type = some 6 :=
  (type_merge ⟨fun _ => true, fun _ => 0, fun _ _ => false⟩ (ascii "Key  : k\n")
    ⟨ascii "Type : String\nSize : 17\nExp  : 0\n", 0⟩
    (create_KT ⟨fun _ => true, fun _ => 0, fun _ _ => false⟩ 0) 1
    (fun _ => rfl) (fun _ _ => rfl) (fun _ => rfl) ⟨0, rfl⟩
    (create_KT_isWild _ 0 (fun _ _ => rfl))).1.imp
    (fun _ h => h.imp (fun _ h1 => ⟨h1.1, h1.2.1 rfl⟩))

/-! ## The alphabet of the trie -/

set_option maxRecDepth 1000000 in
/-- Counterexample for C24: the record of the key "a:b" read on an empty trie.  The `:`
(a symbol of the band `:`..`@`, whose slot would be 52) ends the prefix: the record is
counted at the node A, and no node is made below it, neither in the slot of `:` nor for
the `b` behind it. -/
theorem alphabet_descent_counterexample :
    (key_slot (toupper 0x3A)).toNat = 52 ∧
    (main_loop ⟨fun _ => true, fun _ => 0, fun _ _ => false⟩ 6
        (create_KT ⟨fun _ => true, fun _ => 0, fun _ _ => false⟩ 0) 1
        ⟨Dumpread.report_record false (ascii "a:b") (ascii "String") 19 0 [], 0⟩).map
      (Option.map (fun r => ((r.1.get [0]).stats, (r.1.get [0, 52]).type,
        (r.1.get [0, 52, 1]).type, (r.1.get [0, 1]).type)))
      = some (some ((1, 19, 0, 0), none, none, none)) := by
  refine ⟨?_, ?_⟩
  · rfl
  · rfl

/-- C24 (amended): for the character `u = toupper(key[i])` the key loop looks at, on a
node: a letter (uppercased) or a digit is mapped to a child slot, letters to 0..25 and
digits to 26..35, and descended into rather than ending the prefix, unless the maximum
depth is reached (`i = 16`); a punctuation character of the three bands `!`..`/`,
`:`..`@` and `[`..`\x60` ends the prefix at this node and is not descended into; and the
slot computation maps every symbol of the alphabet (letters, digits and the three bands:
the codes 33 to 96) to a slot in 0..65, two distinct symbols to two distinct slots. -/
theorem alphabet_slots (mem : Alloc) (key : List Byte) (n i : Nat) (type : Byte)
    (num size avgttl bigttl : Nat) (next : Nat → KT) (k : Nat) (fd : FILE) (u : Int)
    (hu : u = toupper (key.getD i 0)) :
    ((65 ≤ u ∧ u ≤ 90 → key_slot u = u - 65) ∧ (48 ≤ u ∧ u ≤ 57 → key_slot u = u - 22)) ∧
    ((65 ≤ u ∧ u ≤ 90 ∨ 48 ≤ u ∧ u ≤ 57) → i ≠ 16 →
      key_loop mem key (n + 1) i (.node type num size avgttl bigttl next) k fd
        = match next (key_slot u).toNat with
          | .null =>
            if mem.ok k then
              match key_loop mem key n (i + 1) (create_KT mem k) (k + 1) fd with
              | none => none
              | some r =>
                some (.node type num size avgttl bigttl
                        (fun j => if j = (key_slot u).toNat then r.1 else next j), r.2.1, r.2.2)
            else some (.node type num size avgttl bigttl next, k + 1, fd)
          | child =>
            match key_loop mem key n (i + 1) child k fd with
            | none => none
            | some r =>
              some (.node type num size avgttl bigttl
                      (fun j => if j = (key_slot u).toNat then r.1 else next j), r.2.1, r.2.2)) ∧
    ((33 ≤ u ∧ u ≤ 47 ∨ 58 ≤ u ∧ u ≤ 64 ∨ 91 ≤ u ∧ u ≤ 96) →
      key_loop mem key (n + 1) i (.node type num size avgttl bigttl next) k fd
        = some ((key_end type num size avgttl bigttl next fd).1, k,
                (key_end type num size avgttl bigttl next fd).2)) ∧
    (∀ a : Int, 33 ≤ a ∧ a ≤ 96 → 0 ≤ key_slot a ∧ key_slot a ≤ 65) ∧
    (∀ a b : Int, 33 ≤ a ∧ a ≤ 96 → 33 ≤ b ∧ b ≤ 96 → a ≠ b → key_slot a ≠ key_slot b) := by
  have hslot : ∀ a : Int, 33 ≤ a ∧ a ≤ 96 →
      (a < 48 → key_slot a = a + 3) ∧ (48 ≤ a ∧ a ≤ 57 → key_slot a = a - 22) ∧
      (57 < a ∧ a < 65 → key_slot a = a - 6) ∧ (65 ≤ a ∧ a ≤ 90 → key_slot a = a - 65) ∧
      (90 < a → key_slot a = a - 31) := by
    intro a ha
    unfold key_slot START_SYM1 START_SYM2 START_SYM3 START_NUMBER START_LETTER
    refine ⟨?_, ?_, ?_, ?_, ?_⟩ <;> intro h <;> split_ifs <;> omega
  refine ⟨⟨?_, ?_⟩, ?_, ?_, ?_, ?_⟩
  · intro h
    exact (hslot u (by omega)).2.2.2.1 h
  · intro h
    exact (hslot u (by omega)).2.1 h
  · intro hrec hi
    have hterm : ¬ (toupper (key.getD i 0) > 90 ∨ toupper (key.getD i 0) < 48
        ∨ (toupper (key.getD i 0) > 57 ∧ toupper (key.getD i 0) < 65) ∨ i = 16) := by
      rw [← hu]
      omega
    subst hu
    rw [key_loop]
    simp only [if_neg hterm]
  · intro hsym
    have hterm : toupper (key.getD i 0) > 90 ∨ toupper (key.getD i 0) < 48
        ∨ (toupper (key.getD i 0) > 57 ∧ toupper (key.getD i 0) < 65) ∨ i = 16 := by
      rw [← hu]
      omega
    subst hu
    rw [key_loop]
    simp only [if_pos hterm]
  · intro a ha
    have h := hslot a ha
    by_cases h1 : a < 48
    · rw [h.1 h1]; omega
    by_cases h2 : a ≤ 57
    · rw [h.2.1 ⟨by omega, h2⟩]; omega
    by_cases h3 : a < 65
    · rw [h.2.2.1 ⟨by omega, h3⟩]; omega
    by_cases h4 : a ≤ 90
    · rw [h.2.2.2.1 ⟨by omega, h4⟩]; omega
    · rw [h.2.2.2.2 (by omega)]; omega
  · intro a b ha hb hab
    have h := hslot a ha
    have g := hslot b hb
    have ea : key_slot a = if a < 48 then a + 3 else if a ≤ 57 then a - 22
        else if a < 65 then a - 6 else if a ≤ 90 then a - 65 else a - 31 := by
      split_ifs with h1 h2 h3 h4
      · exact h.1 h1
      · exact h.2.1 ⟨by omega, h2⟩
      · exact h.2.2.1 ⟨by omega, h3⟩
      · exact h.2.2.2.1 ⟨by omega, h4⟩
      · exact h.2.2.2.2 (by omega)
    have eb : key_slot b = if b < 48 then b + 3 else if b ≤ 57 then b - 22
        else if b < 65 then b - 6 else if b ≤ 90 then b - 65 else b - 31 := by
      split_ifs with h1 h2 h3 h4
      · exact g.1 h1
      · exact g.2.1 ⟨by omega, h2⟩
      · exact g.2.2.1 ⟨by omega, h3⟩
      · exact g.2.2.2.1 ⟨by omega, h4⟩
      · exact g.2.2.2.2 (by omega)
    rw [ea, eb]
    split_ifs <;> omega

set_option maxRecDepth 1000000 in
/-- Witness for C24 (amended): in the line of the key "a:b" the letter `a` at index 7 is
mapped to the slot 0, and the `:` at index 8 ends the prefix. -/
theorem alphabet_slots_witness :
    key_slot 65 = 65 - 65 ∧
    key_loop ⟨fun _ => true, fun _ => 0, fun _ _ => false⟩ (ascii "Key  : a:b\n") (8 + 1) 8
        (.node 0 0 0 0 0 (fun _ => .null)) 2 ⟨ascii "Type : String\nSize : 19\nExp  : 0\n", 0⟩
      = some ((key_end 0 0 0 0 0 (fun _ => .null)
                ⟨ascii "Type : String\nSize : 19\nExp  : 0\n", 0⟩).1, 2,
              (key_end 0 0 0 0 0 (fun _ => .null)
                ⟨ascii "Type : String\nSize : 19\nExp  : 0\n", 0⟩).2) :=
  ⟨(alphabet_slots ⟨fun _ => true, fun _ => 0, fun _ _ => false⟩ (ascii "Key  : a:b\n") 9 7
      0 0 0 0 0 (fun _ => .null) 1 ⟨[], 0⟩ 65 rfl).1.1 (by decide),
   (alphabet_slots ⟨fun _ => true, fun _ => 0, fun _ _ => false⟩ (ascii "Key  : a:b\n") 8 8
      0 0 0 0 0 (fun _ => .null) 2 ⟨ascii "Type : String\nSize : 19\nExp  : 0\n", 0⟩ 58
      rfl).2.2.1 (by decide)⟩

/-! ## The terminal node of a key name -/

theorem line_of_append (hd t : List Byte) (hnl : ∀ x ∈ hd, x.val ≠ 10) :
    line_of (hd ++ t) = hd ++ line_of t := by
  induction hd with
  | nil => rfl
  | cons a l ih =>
    have ha : a.val ≠ 10 := hnl a (List.mem_cons_self _ _)
    have hl : ∀ x ∈ l, x.val ≠ 10 := fun x hx => hnl x (List.mem_cons_of_mem _ hx)
    rw [List.cons_append, line_of, if_neg ha, ih hl]
    rfl

/-- The character `fgets` stores behind a start of the line without newline. -/
theorem line_getD (hd tl : List Byte) (c : Byte) (hnl : ∀ x ∈ hd, x.val ≠ 10)
    (hlen : hd.length ≤ 997) :
    (line_of ((hd ++ c :: tl).take 998)).getD hd.length 0 = c := by
  obtain ⟨m, hm⟩ : ∃ m, 998 - hd.length = m + 1 := ⟨997 - hd.length, by omega⟩
  rw [List.take_append_eq_append_take, List.take_of_length_le (by omega), hm,
    List.take_succ_cons, line_of_append _ _ hnl, List.getD_append_right _ _ _ _ (le_refl _),
    Nat.sub_self, line_of]
  split <;> rfl

theorem letter_or_digit_iff (u : Int) (i : Nat) :
    (u > 90 ∨ u < 48 ∨ (u > 57 ∧ u < 65) ∨ i = 16) ↔ (letter_or_digit u = false ∨ i = 16) := by
  simp only [letter_or_digit, Bool.or_eq_false_iff, Bool.and_eq_false_iff, decide_eq_false_iff_not]
  omega

theorem toupper_newline (c : Byte) (h : letter_or_digit (toupper c) = true) : c.val ≠ 10 := by
  intro h10
  have : toupper c = 10 := by
    unfold toupper
    rw [if_neg (by omega), h10]
    rfl
  rw [this] at h
  exact absurd h (by decide)

/-- The path the key loop follows in the line `fgets` stores from the text of a key line:
the letters and digits at the head of the name, up to the index 16. -/
theorem key_path_name (rest : List Byte) :
    ∀ (name hd : List Byte) (n i : Nat), hd.length = i → i + n = 17 → i ≤ 16 →
      (∀ x ∈ hd, x.val ≠ 10) →
      key_path (line_of ((hd ++ (name ++ 10 :: rest)).take 998)) n i
        = (((name.map toupper).takeWhile letter_or_digit).take (16 - i)).map
            (fun u => (key_slot u).toNat) := by
  intro name
  induction name with
  | nil =>
    intro hd n i hi hin hi16 hnl
    obtain ⟨n1, rfl⟩ : ∃ n1, n = n1 + 1 := ⟨n - 1, by omega⟩
    have hc := line_getD hd rest 10 hnl (by omega)
    rw [hi] at hc
    rw [List.nil_append, key_path, hc]
    have hterm : toupper 10 > 90 ∨ toupper 10 < 48 ∨ (toupper 10 > 57 ∧ toupper 10 < 65)
        ∨ i = 16 := Or.inr (Or.inl (by decide))
    rw [if_pos hterm]
    simp
  | cons c cs ih =>
    intro hd n i hi hin hi16 hnl
    obtain ⟨n1, rfl⟩ : ∃ n1, n = n1 + 1 := ⟨n - 1, by omega⟩
    have hc := line_getD hd (cs ++ 10 :: rest) c hnl (by omega)
    rw [hi] at hc
    rw [List.cons_append, key_path, hc]
    by_cases hterm : toupper c > 90 ∨ toupper c < 48 ∨ (toupper c > 57 ∧ toupper c < 65)
        ∨ i = 16
    · rw [if_pos hterm]
      rcases (letter_or_digit_iff (toupper c) i).mp hterm with h | h
      · rw [List.map_cons, List.takeWhile_cons, h]
        simp
      · rw [h]
        simp
    · rw [if_neg hterm]
      have hrec : letter_or_digit (toupper c) = true := by
        cases hr : letter_or_digit (toupper c) with
        | true => rfl
        | false => exact absurd ((letter_or_digit_iff (toupper c) i).mpr (Or.inl hr)) hterm
      have hi1 : i ≠ 16 := fun h => hterm (Or.inr (Or.inr (Or.inr h)))
      have hnl1 : ∀ x ∈ hd ++ [c], x.val ≠ 10 := by
        intro x hx
        rcases List.mem_append.mp hx with h | h
        · exact hnl x h
        · rw [List.mem_singleton.mp h]
          exact toupper_newline c hrec
      have hih := ih (hd ++ [c]) n1 (i + 1) (by rw [List.length_append, hi]; rfl) (by omega)
        (by omega) hnl1
      rw [List.append_assoc, List.singleton_append] at hih
      obtain ⟨m, hm⟩ : ∃ m, 16 - i = m + 1 := ⟨15 - i, by omega⟩
      have hm1 : 16 - (i + 1) = m := by omega
      rw [hih, List.map_cons, List.takeWhile_cons, hrec, hm, hm1]
      rfl

theorem create_KT_get_type (mem : Alloc) (k s : Nat) (q : List Nat) :
    ((create_KT mem k).get (s :: q)).type = none := by
  unfold create_KT
  split
  · rw [get_node_cons]
    split
    · rw [get_null]; rfl
    · split
      · cases q <;> rfl
      · rw [get_null]; rfl
  · rfl

/-- A pass of the key loop from the index `i` makes no node deeper than `16 - i` below the
node it starts at. -/
theorem key_loop_depth (mem : Alloc) (key : List Byte) (fd : FILE) :
    ∀ (n i : Nat) (tmp : KT) (k : Nat) (r : KT × Nat × FILE), i + n = 17 → i ≤ 16 →
      (∀ q : List Nat, 16 - i < q.length → (tmp.get q).type = none) →
      key_loop mem key n i tmp k fd = some r →
      ∀ q : List Nat, 16 - i < q.length → (r.1.get q).type = none := by
  intro n
  induction n with
  | zero => intro i tmp k r h1 h2; omega
  | succ n ih =>
    intro i tmp k r hin hi hD hrun q hq
    cases tmp with
    | null => simp [key_loop] at hrun
    | wild => simp [key_loop] at hrun
    | node type num size avgttl bigttl next =>
      cases q with
      | nil => simp at hq
      | cons s q =>
      by_cases hterm : toupper (key.getD i 0) > 90 ∨ toupper (key.getD i 0) < 48
          ∨ (toupper (key.getD i 0) > 57 ∧ toupper (key.getD i 0) < 65) ∨ i = 16
      · rw [key_loop] at hrun
        simp only [if_pos hterm, key_end_eq, Option.some.injEq] at hrun
        rw [← hrun]
        exact hD (s :: q) hq
      · have hi1 : i + 1 ≤ 16 := by
          have : i ≠ 16 := fun h => hterm (Or.inr (Or.inr (Or.inr h)))
          omega
        generalize hslot : (key_slot (toupper (key.getD i 0))).toNat = slot
        have hkl : key_loop mem key (n + 1) i (.node type num size avgttl bigttl next) k fd
            = match next slot with
              | .null =>
                if mem.ok k then
                  match key_loop mem key n (i + 1) (create_KT mem k) (k + 1) fd with
                  | none => none
                  | some r =>
                    some (.node type num size avgttl bigttl
                            (fun j => if j = slot then r.1 else next j), r.2.1, r.2.2)
                else some (.node type num size avgttl bigttl next, k + 1, fd)
              | child =>
                match key_loop mem key n (i + 1) child k fd with
                | none => none
                | some r =>
                  some (.node type num size avgttl bigttl
                          (fun j => if j = slot then r.1 else next j), r.2.1, r.2.2) := by
          rw [key_loop]
          simp only [if_neg hterm, hslot]
        rw [hkl] at hrun
        have hq1 : 16 - (i + 1) < q.length := by
          simp only [List.length_cons] at hq
          omega
        have hchild : ∀ (child : KT) (k0 : Nat) (r1 : KT × Nat × FILE),
            (∀ q : List Nat, 16 - (i + 1) < q.length → (child.get q).type = none) →
            key_loop mem key n (i + 1) child k0 fd = some r1 →
            ((KT.node type num size avgttl bigttl
                (fun j => if j = slot then r1.1 else next j)).get (s :: q)).type = none := by
          intro child k0 r1 hDc hr
          rw [get_node_cons]
          by_cases hs : s = slot
          · rw [if_pos hs]
            exact ih (i + 1) child k0 r1 (by omega) hi1 hDc hr q hq1
          · rw [if_neg hs]
            exact hD (s :: q) hq
        cases hc : next slot with
        | null =>
          rw [hc] at hrun
          simp only [] at hrun
          by_cases hok : mem.ok k = true
          · rw [if_pos hok] at hrun
            cases hr : key_loop mem key n (i + 1) (create_KT mem k) (k + 1) fd with
            | none => rw [hr] at hrun; simp at hrun
            | some r1 =>
              rw [hr] at hrun
              simp only [Option.some.injEq] at hrun
              rw [← hrun]
              refine hchild (create_KT mem k) (k + 1) r1 ?_ hr
              intro q2 hq2
              cases q2 with
              | nil => simp at hq2
              | cons s2 q2 => exact create_KT_get_type mem k s2 q2
          · rw [if_neg hok] at hrun
            simp only [Option.some.injEq] at hrun
            rw [← hrun]
            exact hD (s :: q) hq
        | wild =>
          rw [hc] at hrun
          simp only [] at hrun
          have hnone : key_loop mem key n (i + 1) KT.wild k fd = none := by
            cases n with
            | zero => rfl
            | succ n2 => rfl
          rw [hnone] at hrun
          simp at hrun
        | node t2 n2 s2 a2 b2 nx2 =>
          rw [hc] at hrun
          simp only [] at hrun
          cases hr : key_loop mem key n (i + 1) (.node t2 n2 s2 a2 b2 nx2) k fd with
          | none => rw [hr] at hrun; simp at hrun
          | some r1 =>
            rw [hr] at hrun
            simp only [Option.some.injEq] at hrun
            rw [← hrun]
            refine hchild (.node t2 n2 s2 a2 b2 nx2) k r1 ?_ hr
            intro q2 hq2
            have := hD (slot :: q2) (by simp only [List.length_cons]; omega)
            rw [get_node_cons, hc] at this
            exact this

/-- No run of the loop of `main` makes a node deeper than 9 below the root. -/
theorem main_loop_depth (mem : Alloc) :
    ∀ (fuel : Nat) (tr : KT) (k : Nat) (fd : FILE) (r : KT × Nat × FILE),
      (∀ q : List Nat, 9 < q.length → (tr.get q).type = none) →
      main_loop mem fuel tr k fd = some (some r) →
      ∀ q : List Nat, 9 < q.length → (r.1.get q).type = none := by
  intro fuel
  induction fuel with
  | zero => intro tr k fd r _ h; simp [main_loop] at h
  | succ f ih =>
    intro tr k fd r hD hrun
    rw [main_loop] at hrun
    cases hg : fgets fd BUFSIZE with
    | none =>
      rw [hg] at hrun
      simp only [Option.some.injEq] at hrun
      rw [← hrun]
      exact hD
    | some l =>
      rw [hg] at hrun
      simp only [] at hrun
      by_cases hkey : l.1.getD 0 0 = 75 ∧ l.1.getD 1 0 = 101 ∧ l.1.getD 2 0 = 121
      · rw [if_pos hkey] at hrun
        cases hr : key_loop mem l.1 10 7 tr k l.2 with
        | none => rw [hr] at hrun; simp at hrun
        | some r1 =>
          rw [hr] at hrun
          simp only [] at hrun
          exact ih r1.1 r1.2.1 r1.2.2 r
            (key_loop_depth mem l.1 l.2 10 7 tr k r1 (by omega) (by omega) hD hr) hrun
      · rw [if_neg hkey] at hrun
        exact ih tr k l.2 r hD hrun

set_option maxRecDepth 1000000 in
/-- Counterexample for C23: the record of the key "user:1" read on an empty trie.  The
uppercased longest leading run of characters of the alphabet of the trie is the whole name
(the `:` is a symbol of the band `:`..`@`), with the path of the slots 20, 18, 4, 17, 52,
27; the key loop follows the slots 20, 18, 4, 17 only: the record is counted at the node
USER, and there is no node at the path of the whole name, nor in the slot of the `:`. -/
theorem terminal_node_counterexample :
    (ascii "user:1").map toupper = [85, 83, 69, 82, 58, 49] ∧
    ((ascii "user:1").map toupper).takeWhile recognized = [85, 83, 69, 82, 58, 49] ∧
    name_path (ascii "user:1") = [20, 18, 4, 17, 52, 27] ∧
    (fgets ⟨Dumpread.report_record false (ascii "user:1") (ascii "String") 19 0 [], 0⟩
        BUFSIZE).map (fun r => key_path r.1 10 7) = some [20, 18, 4, 17] ∧
    (main_loop ⟨fun _ => true, fun _ => 0, fun _ _ => false⟩ 6
        (create_KT ⟨fun _ => true, fun _ => 0, fun _ _ => false⟩ 0) 1
        ⟨Dumpread.report_record false (ascii "user:1") (ascii "String") 19 0 [], 0⟩).map
      (Option.map (fun r => ((r.1.get [20, 18, 4, 17]).stats,
        (r.1.get [20, 18, 4, 17, 52]).type, (r.1.get [20, 18, 4, 17, 52, 27]).type)))
      = some (some ((1, 19, 0, 0), none, none)) := by
  refine ⟨?_, ?_, ?_, ?_, ?_⟩ <;> rfl

/-- C23 (amended): for every key name, in the line `fgets` stores from the text "Key  : ",
the name and a newline, the key loop follows the path `alnum_path name`: the child slots
of the uppercased longest leading run of letters and digits of the name (a punctuation
character, also one of the three bands of the alphabet, ends the run), cut to 9 characters;
on a trie without uninitialised pointers, the allocations succeeding, the pass returns and
the record's terminal node, the one node whose counters change, is the node of that path.
Consequently no run of the aggregator makes a node at a depth greater than 9, and names
that differ only in letter case have one terminal node. -/
theorem terminal_node (mem : Alloc) (name rest data : List Byte) (pos : Nat) (tr : KT)
    (k : Nat)
    (hok : ∀ k, mem.ok k = true) (hw : ∀ k j, mem.wild k j = false)
    (hnode : ∃ ty, tr.type = some ty) (hnw : ∀ q, (tr.get q).isWild = false)
    (hd : data.drop pos = ascii "Key  : " ++ (name ++ 10 :: rest)) :
    (∃ L fd1, fgets ⟨data, pos⟩ BUFSIZE = some (L, fd1) ∧
      (L.getD 0 0 = 75 ∧ L.getD 1 0 = 101 ∧ L.getD 2 0 = 121) ∧
      key_path L 10 7 = alnum_path name ∧
      ∃ tmp1 k1, key_loop mem L 10 7 tr k fd1 = some (tmp1, k1, rec_fd fd1) ∧
        (tmp1.get (alnum_path name)).stats
          = bump (tr.get (alnum_path name)).stats (rec_size fd1) (rec_exp fd1) ∧
        (∀ q, q ≠ alnum_path name → (tmp1.get q).stats = (tr.get q).stats)) ∧
    (alnum_path name).length ≤ 9 ∧
    (∀ (fuel : Nat) (fd : FILE) (r : KT × Nat × FILE),
      main_loop mem fuel (create_KT mem 0) 1 fd = some (some r) →
      ∀ q : List Nat, 9 < q.length → (r.1.get q).type = none) ∧
    (∀ name2 : List Byte, name2.map toupper = name.map toupper →
      alnum_path name2 = alnum_path name) := by
  have hK : ∀ x ∈ ascii "Key  : ", x.val ≠ 10 := ascii_no_newline7.1
  have hpath := key_path_name rest name (ascii "Key  : ") 10 7 rfl rfl (by omega) hK
  have hL : line_of ((ascii "Key  : " ++ (name ++ 10 :: rest)).take 998)
      = ascii "Key  : " ++ line_of ((name ++ 10 :: rest).take 991) := by
    rw [List.take_append_eq_append_take, List.take_of_length_le (by decide),
      line_of_append _ _ hK]
    rfl
  refine ⟨?_, ?_, ?_, ?_⟩
  · refine ⟨line_of ((ascii "Key  : " ++ (name ++ 10 :: rest)).take 998),
      ⟨data, pos + (line_of ((ascii "Key  : " ++ (name ++ 10 :: rest)).take 998)).length⟩,
      ?_, ?_, hpath, ?_⟩
    · simp only [fgets, hd, BUFSIZE]
      rw [hL]
      rfl
    · rw [hL]
      exact ⟨rfl, rfl, rfl⟩
    · obtain ⟨tmp1, k1, hk, h1, h2, _⟩ :=
        key_loop_spec mem (line_of ((ascii "Key  : " ++ (name ++ 10 :: rest)).take 998))
          ⟨data, pos + (line_of ((ascii "Key  : " ++ (name ++ 10 :: rest)).take 998)).length⟩
          hok hw 10 7 tr k rfl (by decide) hnode hnw
      rw [hpath] at h1 h2
      exact ⟨tmp1, k1, hk, h1, h2⟩
  · simp only [alnum_path, List.length_map, List.length_take]
    omega
  · intro fuel fd r hrun
    refine main_loop_depth mem fuel (create_KT mem 0) 1 fd r ?_ hrun
    intro q hq
    cases q with
    | nil => simp at hq
    | cons s q => exact create_KT_get_type mem 0 s q
  · intro name2 h
    simp only [alnum_path, h]

set_option maxRecDepth 1000000 in
/-- Witness for C23: the key "ab-cdefghijkl" has the terminal node AB (slots 0, 1), as has
"AB" itself. -/
theorem terminal_node_witness :
    (∃ L fd1, fgets ⟨ascii "Key  : ab-cdefghijkl\nType : String\nSize : 19\nExp  : 0\n\n", 0⟩
        BUFSIZE = some (L, fd1) ∧
      (L.getD 0 0 = 75 ∧ L.getD 1 0 = 101 ∧ L.getD 2 0 = 121) ∧
      key_path L 10 7 = alnum_path (ascii "ab-cdefghijkl")) ∧
    alnum_path (ascii "ab-cdefghijkl") = [0, 1] ∧
    alnum_path (ascii "AB") = alnum_path (ascii "ab") :=
  ⟨(terminal_node ⟨fun _ => true, fun _ => 0, fun _ _ => false⟩ (ascii "ab-cdefghijkl")
      (ascii "Type : String\nSize : 19\nExp  : 0\n\n")
      (ascii "Key  : ab-cdefghijkl\nType : String\nSize : 19\nExp  : 0\n\n") 0
      (create_KT ⟨fun _ => true, fun _ => 0, fun _ _ => false⟩ 0) 1
      (fun _ => rfl) (fun _ _ => rfl) ⟨0, rfl⟩
      (create_KT_isWild _ 0 (fun _ _ => rfl)) rfl).1.imp
      (fun _ h => h.imp (fun _ h1 => ⟨h1.1, h1.2.1, h1.2.2.1⟩)),
   rfl,
   (terminal_node ⟨fun _ => true, fun _ => 0, fun _ _ => false⟩ (ascii "ab")
      [] (ascii "Key  : ab\n") 0
      (create_KT ⟨fun _ => true, fun _ => 0, fun _ _ => false⟩ 0) 1
      (fun _ => rfl) (fun _ _ => rfl) ⟨0, rfl⟩
      (create_KT_isWild _ 0 (fun _ _ => rfl)) rfl).2.2.2 (ascii "AB") rfl⟩

/-! ## The table of the aggregator -/

/-- What `print_full_analysis` prints for an entry of the depth-first list of nodes: a line
for a node with a count above 0, nothing for a count 0. -/
theorem lines_filter (pretty : Bool) (l : List (List Byte × Byte × Nat × Nat × Nat × Nat)) :
    ((l.filter (fun e => decide (0 < e.2.2.1))).map
        (fun e => analysis_line pretty e.1 e.2.1 e.2.2.1 e.2.2.2.1 e.2.2.2.2.1
          e.2.2.2.2.2)).flatten
      = (l.map (fun e => if 0 < e.2.2.1
          then analysis_line pretty e.1 e.2.1 e.2.2.1 e.2.2.2.1 e.2.2.2.2.1 e.2.2.2.2.2
          else [])).flatten := by
  induction l with
  | nil => rfl
  | cons e l ih =>
    by_cases h : 0 < e.2.2.1
    · simp only [List.filter_cons, h, decide_True, if_true, List.map_cons, List.flatten_cons, ih]
    · simp only [List.filter_cons, h, decide_False, if_false, List.map_cons, List.flatten_cons,
        ih, List.nil_append, Bool.false_eq_true]

theorem flatten_map_flatten {α : Type} (f : α → List Byte) (ls : List (List α)) :
    (ls.flatten.map f).flatten = (ls.map (fun l => (l.map f).flatten)).flatten := by
  induction ls with
  | nil => rfl
  | cons l ls ih =>
    simp only [List.flatten_cons, List.map_append, List.flatten_append, List.map_cons, ih]

theorem print_full_analysis_null (pretty : Bool) (type : Byte)
    (num size avgttl bigttl : Nat) (next : Nat → KT) (sz : Nat) :
    print_full_analysis pretty (.node type num size avgttl bigttl next) none sz
      = print_full_analysis pretty (.node type num size avgttl bigttl next) (some []) 1 := by
  rw [print_full_analysis, print_full_analysis]

/-- The text `print_full_analysis` prints for a trie without uninitialised pointers, called
with a name that fills its buffer: the lines of its nodes in depth-first order. -/
theorem print_full_analysis_spec (pretty : Bool) (t : KT) :
    ∀ (name : List Byte) (sz : Nat), (∃ ty, t.type = some ty) →
      (∀ q, (t.get q).isWild = false) → name.length + 1 = sz →
      print_full_analysis pretty t (some name) sz
        = some (((t.preorder name).map (fun e => if 0 < e.2.2.1
            then analysis_line pretty e.1 e.2.1 e.2.2.1 e.2.2.2.1 e.2.2.2.2.1 e.2.2.2.2.2
            else [])).flatten) := by
  induction t with
  | null => intro name sz h; simp [KT.type] at h
  | wild => intro name sz h; simp [KT.type] at h
  | node type num size avgttl bigttl next ih =>
    intro name sz _ hnw hsz
    have hstep : ∀ (l : List Nat) (out : List Byte),
        l.foldl
          (fun acc i =>
            match acc with
            | none => none
            | some out =>
              if (next i).isNull then some out
              else
                match print_full_analysis pretty (next i)
                    (some ((name ++ [slot_char i]).take sz)) (sz + 1) with
                | none => none
                | some o => some (out ++ o))
          (some out)
        = some (out ++ (l.map (fun i => (((next i).preorder (name ++ [slot_char i])).map
            (fun e => if 0 < e.2.2.1
              then analysis_line pretty e.1 e.2.1 e.2.2.1 e.2.2.2.1 e.2.2.2.2.1 e.2.2.2.2.2
              else [])).flatten)).flatten) := by
      intro l
      induction l with
      | nil => intro out; simp
      | cons i l ihl =>
        intro out
        rw [List.foldl_cons]
        simp only []
        have htake : (name ++ [slot_char i]).take sz = name ++ [slot_char i] := by
          apply List.take_of_length_le
          rw [List.length_append, List.length_singleton]
          omega
        cases hc : next i with
        | null =>
          rw [if_pos (show KT.null.isNull = true from rfl), ihl out]
          simp only [List.map_cons, List.flatten_cons, hc, KT.preorder, List.map_nil,
            List.flatten_nil, List.nil_append]
        | wild =>
          have := hnw [i]
          rw [get_node_cons, hc] at this
          simp [KT.get, KT.isWild] at this
        | node t2 n2 s2 a2 b2 nx2 =>
          have hrec := ih i (name ++ [slot_char i]) (sz + 1) (by rw [hc]; exact ⟨_, rfl⟩)
            (by
              intro q
              have := hnw (i :: q)
              rw [get_node_cons] at this
              exact this)
            (by rw [List.length_append, List.length_singleton]; omega)
          rw [hc] at hrec
          rw [if_neg (show ¬ ((KT.node t2 n2 s2 a2 b2 nx2).isNull = true) from by simp [KT.isNull]),
            htake, hrec]
          simp only []
          rw [ihl]
          simp only [List.map_cons, List.flatten_cons, List.append_assoc, hc]
    rw [print_full_analysis]
    refine (hstep _ _).trans ?_
    rw [KT.preorder, List.map_cons, List.flatten_cons, flatten_map_flatten, List.map_map]
    rfl

set_option maxRecDepth 100000 in
theorem slot_char_letters_digits (u : Int) (h : letter_or_digit u = true) :
    ((slot_char (key_slot u).toNat).val : Int) = u := by
  simp only [letter_or_digit, Bool.or_eq_true, Bool.and_eq_true, decide_eq_true_eq] at h
  rcases h with h | h
  · have : ∃ d : Nat, d < 10 ∧ u = 48 + (d : Int) := ⟨(u - 48).toNat, by omega, by omega⟩
    obtain ⟨d, hd, rfl⟩ := this
    interval_cases d <;> rfl
  · have : ∃ d : Nat, d < 26 ∧ u = 65 + (d : Int) := ⟨(u - 65).toNat, by omega, by omega⟩
    obtain ⟨d, hd, rfl⟩ := this
    interval_cases d <;> rfl

/-- C25: on a trie without uninitialised pointers `print_full_analysis(tr,0,0)` returns,
and its output is exactly one line for every node with count above 0, none for a node with
count 0, in depth-first order (a node before its children, the children in slot order);
the label of a line is the string of the characters along the node's path, where the
character printed for the slot of a letter or digit `c` is `toupper(c)` (the table prints
the label in a column of 30, the short output as it is); and the average ttl printed is the
ttl sum divided by the count (integer division). -/
theorem print_full_analysis_lines (pretty : Bool) (tr : KT)
    (hnode : ∃ ty, tr.type = some ty) (hnw : ∀ q, (tr.get q).isWild = false) :
    print_full_analysis pretty tr none 0
      = some ((((tr.preorder []).filter (fun e => decide (0 < e.2.2.1))).map
          (fun e => analysis_line pretty e.1 e.2.1 e.2.2.1 e.2.2.2.1 e.2.2.2.2.1
            e.2.2.2.2.2)).flatten) ∧
    (∀ c : Byte, letter_or_digit (toupper c) = true →
      ((slot_char (key_slot (toupper c)).toNat).val : Int) = toupper c) ∧
    (∀ (name : List Byte) (type : Byte) (num size avgttl bigttl : Nat),
      analysis_line false name type num size avgttl bigttl
        = name ++ ascii "," ++ type_word type ++ ascii "," ++ fmt_u num ++ ascii ","
            ++ fmt_u size ++ ascii "," ++ fmt_u (avgttl / num) ++ ascii ","
            ++ fmt_u bigttl ++ ascii "\n" ∧
      analysis_line true name type num size avgttl bigttl
        = ascii "| " ++ pad_right 30 (name.take 30) ++ ascii " |" ++ type_column type
            ++ ascii "| " ++ pad_right 16 (fmt_u num) ++ ascii " | "
            ++ pad_right 18 (fmt_u size) ++ ascii " | "
            ++ pad_right 21 (fmt_u (avgttl / num)) ++ ascii " | "
            ++ pad_right 21 (fmt_u bigttl) ++ ascii " |\n") := by
  refine ⟨?_, fun c h => slot_char_letters_digits _ h, fun _ _ _ _ _ _ => ⟨rfl, rfl⟩⟩
  rw [lines_filter]
  obtain ⟨ty, hty⟩ := hnode
  cases tr with
  | null => simp [KT.type] at hty
  | wild => simp [KT.type] at hty
  | node type num size avgttl bigttl next =>
    rw [print_full_analysis_null]
    exact print_full_analysis_spec pretty _ [] 1 ⟨_, rfl⟩ hnw rfl

set_option maxRecDepth 1000000 in
/-- Witness for C25: the short output for the trie with the two nodes A (count 2, ttl sum
7) and A1 (count 0) under a root without count is the one line of A. -/
theorem print_full_analysis_lines_witness :
    print_full_analysis false
        (.node 0 0 0 0 0 (fun i => if i = 0 then
          .node 6 2 40 7 5 (fun j => if j = 27 then .node 1 0 0 0 0 (fun _ => .null) else .null)
          else .null)) none 0
      = some (ascii "A,String,2,40,3,5\n") :=
  (print_full_analysis_lines false
    (.node 0 0 0 0 0 (fun i => if i = 0 then
      .node 6 2 40 7 5 (fun j => if j = 27 then .node 1 0 0 0 0 (fun _ => .null) else .null)
      else .null)) ⟨0, rfl⟩
    (by
      intro q
      cases q with
      | nil => rfl
      | cons a q =>
        rw [get_node_cons]
        by_cases ha : a = 0
        · rw [if_pos ha]
          cases q with
          | nil => rfl
          | cons b q =>
            rw [get_node_cons]
            by_cases hb : b = 27
            · rw [if_pos hb]
              cases q with
              | nil => rfl
              | cons c q => rw [get_node_cons, get_null]; rfl
            · rw [if_neg hb, get_null]; rfl
        · rw [if_neg ha, get_null]; rfl)).1.trans (by rfl)

/-! ## The totals of the trie -/

theorem sum_range_update (f : Nat → Nat) (a s : Nat) : ∀ m : Nat, s < m →
    ((List.range m).map (fun j => if j = s then a else f j)).sum + f s
      = ((List.range m).map f).sum + a := by
  intro m
  induction m with
  | zero => intro h; omega
  | succ m ih =>
    intro h
    rw [List.range_succ, List.map_append, List.map_append, List.sum_append, List.sum_append]
    simp only [List.map_cons, List.map_nil, List.sum_cons, List.sum_nil, Nat.add_zero]
    by_cases hs : s = m
    · subst hs
      have hsame : (List.range s).map (fun j => if j = s then a else f j)
          = (List.range s).map f := by
        apply List.map_congr_left
        intro j hj
        have : j ≠ s := by
          have := List.mem_range.mp hj
          omega
        rw [if_neg this]
      rw [hsame, if_pos rfl]
      omega
    · have hlt : s < m := by omega
      have := ih hlt
      rw [if_neg (fun h => hs h.symm)]
      omega

theorem key_slot_lt (u : Int) (i : Nat)
    (h : ¬ (u > 90 ∨ u < 48 ∨ (u > 57 ∧ u < 65) ∨ i = 16)) : (key_slot u).toNat < KEY_CHAR := by
  unfold key_slot START_SYM1 START_SYM2 START_SYM3 START_NUMBER START_LETTER KEY_CHAR
  split_ifs <;> omega

theorem create_KT_totals (mem : Alloc) (k : Nat) :
    (create_KT mem k).count = 0 ∧ (create_KT mem k).total = 0 := by
  unfold create_KT
  split
  · have hz : ∀ (g : KT → Nat), g .null = 0 → g .wild = 0 → ∀ m : Nat,
        ((List.range m).map (fun j => g (if j < 8 then KT.null
          else if mem.wild k j = true then KT.wild else KT.null))).sum = 0 := by
      intro g h1 h2 m
      apply List.sum_eq_zero
      intro x hx
      obtain ⟨j, _, rfl⟩ := List.mem_map.mp hx
      split
      · exact h1
      · split
        · exact h2
        · exact h1
    constructor
    · rw [KT.count, hz KT.count rfl rfl]
    · rw [KT.total, hz KT.total rfl rfl]
  · exact ⟨rfl, rfl⟩

/-- A pass of the key loop adds one to the sum of the counts and the size of the record to
the sum of the sizes, while the 32-bit count and the 64-bit size do not wrap. -/
theorem key_loop_totals (mem : Alloc) (key : List Byte) (fd : FILE)
    (hok : ∀ k, mem.ok k = true) :
    ∀ (n i : Nat) (tmp : KT) (k : Nat) (r : KT × Nat × FILE), i + n = 17 → i ≤ 16 →
      key_loop mem key n i tmp k fd = some r →
      (tmp.count + 1 < 4294967296 → r.1.count = tmp.count + 1) ∧
      (tmp.total + rec_size fd < 18446744073709551616 →
        r.1.total = tmp.total + rec_size fd) := by
  intro n
  induction n with
  | zero => intro i tmp k r h1 h2; omega
  | succ n ih =>
    intro i tmp k r hin hi hrun
    cases tmp with
    | null => simp [key_loop] at hrun
    | wild => simp [key_loop] at hrun
    | node type num size avgttl bigttl next =>
      by_cases hterm : toupper (key.getD i 0) > 90 ∨ toupper (key.getD i 0) < 48
          ∨ (toupper (key.getD i 0) > 57 ∧ toupper (key.getD i 0) < 65) ∨ i = 16
      · rw [key_loop] at hrun
        simp only [if_pos hterm, key_end_eq, Option.some.injEq] at hrun
        rw [← hrun]
        simp only [KT.count, KT.total, U32, U64]
        constructor
        · intro h
          have : (num + 1) % 4294967296 = num + 1 := Nat.mod_eq_of_lt (by omega)
          rw [this]
          omega
        · intro h
          have : (size + rec_size fd) % 18446744073709551616 = size + rec_size fd :=
            Nat.mod_eq_of_lt (by omega)
          rw [this]
          omega
      · have hi1 : i + 1 ≤ 16 := by
          have : i ≠ 16 := fun h => hterm (Or.inr (Or.inr (Or.inr h)))
          omega
        have hlt := key_slot_lt _ i hterm
        generalize hslot : (key_slot (toupper (key.getD i 0))).toNat = slot at hlt
        have hkl : key_loop mem key (n + 1) i (.node type num size avgttl bigttl next) k fd
            = match next slot with
              | .null =>
                if mem.ok k then
                  match key_loop mem key n (i + 1) (create_KT mem k) (k + 1) fd with
                  | none => none
                  | some r =>
                    some (.node type num size avgttl bigttl
                            (fun j => if j = slot then r.1 else next j), r.2.1, r.2.2)
                else some (.node type num size avgttl bigttl next, k + 1, fd)
              | child =>
                match key_loop mem key n (i + 1) child k fd with
                | none => none
                | some r =>
                  some (.node type num size avgttl bigttl
                          (fun j => if j = slot then r.1 else next j), r.2.1, r.2.2) := by
          rw [key_loop]
          simp only [if_neg hterm, hslot]
        rw [hkl] at hrun
        have hchild : ∀ (child : KT) (k0 : Nat) (r1 : KT × Nat × FILE),
            child.count = (next slot).count → child.total = (next slot).total →
            key_loop mem key n (i + 1) child k0 fd = some r1 →
            ((KT.node type num size avgttl bigttl next).count + 1 < 4294967296 →
              (KT.node type num size avgttl bigttl
                (fun j => if j = slot then r1.1 else next j)).count
                = (KT.node type num size avgttl bigttl next).count + 1) ∧
            ((KT.node type num size avgttl bigttl next).total + rec_size fd
                < 18446744073709551616 →
              (KT.node type num size avgttl bigttl
                (fun j => if j = slot then r1.1 else next j)).total
                = (KT.node type num size avgttl bigttl next).total + rec_size fd) := by
          intro child k0 r1 hcc hct hr
          obtain ⟨ih1, ih2⟩ := ih (i + 1) child k0 r1 (by omega) hi1 hr
          have hc0 := sum_range_update (fun j => (next j).count) 0 slot KEY_CHAR hlt
          have hc1 := sum_range_update (fun j => (next j).count) r1.1.count slot KEY_CHAR hlt
          have ht0 := sum_range_update (fun j => (next j).total) 0 slot KEY_CHAR hlt
          have ht1 := sum_range_update (fun j => (next j).total) r1.1.total slot KEY_CHAR hlt
          have ec : (fun j => (if j = slot then r1.1 else next j).count)
              = (fun j => if j = slot then r1.1.count else (next j).count) := by
            funext j
            split <;> rfl
          have et : (fun j => (if j = slot then r1.1 else next j).total)
              = (fun j => if j = slot then r1.1.total else (next j).total) := by
            funext j
            split <;> rfl
          simp only [KT.count, KT.total, ec, et]
          simp only [] at hc0 hc1 ht0 ht1
          constructor
          · intro h
            have := ih1 (by rw [hcc]; omega)
            rw [hcc] at this
            omega
          · intro h
            have := ih2 (by rw [hct]; omega)
            rw [hct] at this
            omega
        cases hc : next slot with
        | null =>
          rw [hc] at hrun hchild
          simp only [hok, if_true] at hrun
          cases hr : key_loop mem key n (i + 1) (create_KT mem k) (k + 1) fd with
          | none => rw [hr] at hrun; simp at hrun
          | some r1 =>
            rw [hr] at hrun
            simp only [Option.some.injEq] at hrun
            rw [← hrun]
            exact hchild (create_KT mem k) (k + 1) r1 (create_KT_totals mem k).1
              (create_KT_totals mem k).2 hr
        | wild =>
          rw [hc] at hrun
          simp only [] at hrun
          have hnone : key_loop mem key n (i + 1) KT.wild k fd = none := by
            cases n with
            | zero => rfl
            | succ n2 => rfl
          rw [hnone] at hrun
          simp at hrun
        | node t2 n2 s2 a2 b2 nx2 =>
          rw [hc] at hrun hchild
          simp only [] at hrun
          cases hr : key_loop mem key n (i + 1) (.node t2 n2 s2 a2 b2 nx2) k fd with
          | none => rw [hr] at hrun; simp at hrun
          | some r1 =>
            rw [hr] at hrun
            simp only [Option.some.injEq] at hrun
            rw [← hrun]
            exact hchild (.node t2 n2 s2 a2 b2 nx2) k r1 rfl rfl hr

/-- One record of the report at the head of the stream, as `main_loop_record`, with what
the pass does to the sums of the counts and of the sizes. -/
theorem main_loop_record_totals (mem : Alloc) (tr : KT) (k f : Nat) (data : List Byte)
    (pos : Nat) (name label rest : List Byte) (s e : Nat)
    (hok : ∀ k, mem.ok k = true) (hw : ∀ k j, mem.wild k j = false)
    (hnode : ∃ ty, tr.type = some ty) (hnw : ∀ q, (tr.get q).isWild = false)
    (hname : ∀ x ∈ name, x.val ≠ 10) (hnlen : name.length ≤ 990)
    (hlabel : ∀ x ∈ label, x.val ≠ 10) (hllen : label.length ≤ 990)
    (hs : s < 9223372036854775808) (he : e < 9223372036854775808)
    (hd : data.drop pos = (ascii "Key  : " ++ name) ++ 10 :: ((ascii "Type : " ++ label)
            ++ 10 :: ((ascii "Size : " ++ fmt_u s) ++ 10 :: ((ascii "Exp  : " ++ fmt_u e)
            ++ 10 :: rest)))) :
    ∃ tr1 k1,
      main_loop mem (f + 1) tr k ⟨data, pos⟩
        = main_loop mem f tr1 k1
            ⟨data, pos + (7 + name.length + 1) + (7 + label.length + 1)
                    + (7 + (fmt_u s).length + 1) + (7 + (fmt_u e).length + 1)⟩ ∧
      data.drop (pos + (7 + name.length + 1) + (7 + label.length + 1)
                    + (7 + (fmt_u s).length + 1) + (7 + (fmt_u e).length + 1)) = rest ∧
      (∀ q, (tr1.get q).isWild = false) ∧
      (∃ ty, tr1.type = some ty) ∧
      (tr.count + 1 < 4294967296 → tr1.count = tr.count + 1) ∧
      (tr.total + s < 18446744073709551616 → tr1.total = tr.total + s) := by
  have h7 : ∀ t : String, t.length = 7 → (ascii t).length = 7 := by
    intro t ht; simp [ascii, ht]
  have hK : (ascii "Key  : ").length = 7 := rfl
  have hT : (ascii "Type : ").length = 7 := rfl
  have hS : (ascii "Size : ").length = 7 := rfl
  have hE : (ascii "Exp  : ").length = 7 := rfl
  have hsl := fmt_u_length s hs
  have hel := fmt_u_length e he
  -- the four lines
  have hl0 : (ascii "Key  : " ++ name).length = 7 + name.length := by
    rw [List.length_append, hK]
  have hl1 : (ascii "Type : " ++ label).length = 7 + label.length := by
    rw [List.length_append, hT]
  have hl2 : (ascii "Size : " ++ fmt_u s).length = 7 + (fmt_u s).length := by
    rw [List.length_append, hS]
  have hl3 : (ascii "Exp  : " ++ fmt_u e).length = 7 + (fmt_u e).length := by
    rw [List.length_append, hE]
  have hg0 := fgets_line ⟨data, pos⟩ (ascii "Key  : " ++ name) _ hd
    (no_newline_append _ _ ascii_no_newline7.1 hname) (by rw [hl0]; omega)
  have hd1 := Dumpread.drop_add_of_drop data pos ((ascii "Key  : " ++ name) ++ [10])
    ((ascii "Type : " ++ label) ++ 10 :: ((ascii "Size : " ++ fmt_u s) ++ 10 :: ((ascii "Exp  : " ++ fmt_u e) ++ 10 :: rest)))
    (by rw [hd]; simp)
  rw [List.length_append, hl0] at hd1
  have hr1 := read_line_line ⟨data, pos + (7 + name.length + [(10 : Byte)].length)⟩
    (ascii "Type : " ++ label) _ hd1
    (no_newline_append _ _ ascii_no_newline7.2.1 hlabel) (by rw [hl1]; omega)
  have hd2 := Dumpread.drop_add_of_drop data _ ((ascii "Type : " ++ label) ++ [10])
    ((ascii "Size : " ++ fmt_u s) ++ 10 :: ((ascii "Exp  : " ++ fmt_u e) ++ 10 :: rest))
    (by rw [hd1]; simp)
  rw [List.length_append, hl1] at hd2
  have hr2 := read_line_line
    ⟨data, pos + (7 + name.length + [(10 : Byte)].length)
      + (7 + label.length + [(10 : Byte)].length)⟩
    (ascii "Size : " ++ fmt_u s) _ hd2
    (no_newline_append _ _ ascii_no_newline7.2.2.1 (fmt_u_no_newline s)) (by rw [hl2]; omega)
  have hd3 := Dumpread.drop_add_of_drop data _ ((ascii "Size : " ++ fmt_u s) ++ [10])
    ((ascii "Exp  : " ++ fmt_u e) ++ 10 :: rest)
    (by rw [hd2]; simp)
  rw [List.length_append, hl2] at hd3
  have hr3 := read_line_line
    ⟨data, pos + (7 + name.length + [(10 : Byte)].length)
      + (7 + label.length + [(10 : Byte)].length)
      + (7 + (fmt_u s).length + [(10 : Byte)].length)⟩
    (ascii "Exp  : " ++ fmt_u e) _ hd3
    (no_newline_append _ _ ascii_no_newline7.2.2.2.1 (fmt_u_no_newline e)) (by rw [hl3]; omega)
  have hd4 := Dumpread.drop_add_of_drop data _ ((ascii "Exp  : " ++ fmt_u e) ++ [10]) rest
    (by rw [hd3]; simp)
  rw [List.length_append, hl3] at hd4
  simp only [List.length_singleton] at hr1 hr2 hr3 hd4
  rw [hl1] at hr1
  rw [hl2] at hr2
  rw [hl3] at hr3
  -- what `key_end` reads
  have hdrop7 : ∀ (t : String) (x : List Byte), (ascii t).length = 7 →
      (ascii t ++ x ++ [10]).drop 7 = x ++ [10] := by
    intro t x ht
    rw [List.append_assoc, ← ht, List.drop_left]
  have hsize : rec_size ⟨data, pos + (7 + name.length + 1)⟩ = s := by
    simp only [rec_size, hr1, hr2]
    rw [hdrop7 "Size : " (fmt_u s) hS, atol_fmt_u s [] hs, to_u64_nat s hs]
  have hexp : rec_exp ⟨data, pos + (7 + name.length + 1)⟩ = e := by
    simp only [rec_exp, hr1, hr2, hr3]
    rw [hdrop7 "Exp  : " (fmt_u e) hE, atol_fmt_u e [] he, to_u64_nat e he]
  have htype : rec_type ⟨data, pos + (7 + name.length + 1)⟩
      = type_code (toupper ((ascii "Type : " ++ label ++ [10]).getD 8 0)) := by
    simp only [rec_type, hr1]
  have hfd : rec_fd ⟨data, pos + (7 + name.length + 1)⟩
      = ⟨data, pos + (7 + name.length + 1) + (7 + label.length + 1)
                    + (7 + (fmt_u s).length + 1) + (7 + (fmt_u e).length + 1)⟩ := by
    simp only [rec_fd, hr1, hr2, hr3]
  obtain ⟨tr1, k1, hk, _, _, h3, h4, _, _, _⟩ :=
    key_loop_spec mem (ascii "Key  : " ++ name ++ [10]) ⟨data, pos + (7 + name.length + 1)⟩
      hok hw 10 7 tr k rfl (by decide) hnode hnw
  have htot := key_loop_totals mem (ascii "Key  : " ++ name ++ [10])
    ⟨data, pos + (7 + name.length + 1)⟩ hok 10 7 tr k _ rfl (by decide) hk
  rw [hsize] at htot
  rw [hfd] at hk
  refine ⟨tr1, k1, ?_, hd4, h3, h4, htot.1, htot.2⟩
  rw [main_loop]
  simp only [hg0, hl0]
  have hkey : (ascii "Key  : " ++ name ++ [10]).getD 0 0 = 75
      ∧ (ascii "Key  : " ++ name ++ [10]).getD 1 0 = 101
      ∧ (ascii "Key  : " ++ name ++ [10]).getD 2 0 = 121 := ⟨rfl, rfl, rfl⟩
  rw [if_pos hkey, hk]

theorem report_cons (full : Bool) (r : Record) (rs : List Record) :
    report full (r :: rs)
      = Dumpread.report_record full r.name (Dumpread.type_label r.type) r.size r.exp r.value
          ++ report full rs := rfl

/-- One record of a report, with the lines behind its four fields: the loop of `main` goes
on behind the record with one more in the sum of the counts and the size of the record
more in the sum of the sizes. -/
theorem main_loop_one (mem : Alloc) (full : Bool) (r : Record) (tr : KT) (k f : Nat)
    (data : List Byte) (pos : Nat) (rest : List Byte)
    (hok : ∀ k, mem.ok k = true) (hw : ∀ k j, mem.wild k j = false)
    (hnode : ∃ ty, tr.type = some ty) (hnw : ∀ q, (tr.get q).isWild = false)
    (hfit : r.fits full)
    (hd : data.drop pos
      = Dumpread.report_record full r.name (Dumpread.type_label r.type) r.size r.exp r.value
          ++ rest) :
    ∃ tr1 k1 pos1,
      main_loop mem (f + 3) tr k ⟨data, pos⟩
        = main_loop mem (f + (if full then 0 else 1)) tr1 k1 ⟨data, pos1⟩ ∧
      data.drop pos1 = rest ∧
      (∀ q, (tr1.get q).isWild = false) ∧
      (∃ ty, tr1.type = some ty) ∧
      (tr.count + 1 < 4294967296 → tr1.count = tr.count + 1) ∧
      (tr.total + r.size < 18446744073709551616 → tr1.total = tr.total + r.size) := by
  obtain ⟨hn1, hn2, hs, he, hv⟩ := hfit
  rw [report_record_lines] at hd
  simp only [List.append_assoc, List.cons_append] at hd
  obtain ⟨tr1, k1, hrun, hrest, hw1, hnode1, hcnt, htot⟩ :=
    main_loop_record_totals mem tr k (f + 2) data pos r.name (Dumpread.type_label r.type)
      ((if full then (ascii "Value: " ++ r.value) ++ 10 :: [10] else [10]) ++ rest)
      r.size r.exp hok hw hnode hnw hn1 hn2
      (type_label_line r.type).1 (type_label_line r.type).2 hs he
      (by simp only [List.append_assoc, List.cons_append]; exact hd)
  generalize hP : pos + (7 + r.name.length + 1)
      + (7 + (Dumpread.type_label r.type).length + 1)
      + (7 + (fmt_u r.size).length + 1)
      + (7 + (fmt_u r.exp).length + 1) = P at hrun hrest
  have hblank : ¬ ((([] : List Byte) ++ [10]).getD 0 0 = 75
      ∧ (([] : List Byte) ++ [10]).getD 1 0 = 101
      ∧ (([] : List Byte) ++ [10]).getD 2 0 = 121) := by
    intro h
    exact absurd h.1 (by decide)
  cases full with
  | false =>
    simp only [Bool.false_eq_true, if_false] at hrest ⊢
    have hrest1 : data.drop P = [] ++ 10 :: rest := hrest
    have hskip := main_loop_skip mem tr1 k1 (f + 1) data P [] rest hrest1
      (by intro x hx; simp at hx) (by simp) hblank
    have hd2 := Dumpread.drop_add_of_drop data P [10] rest hrest
    refine ⟨tr1, k1, _, ?_, hd2, hw1, hnode1, hcnt, htot⟩
    rw [hrun, hskip]
    rfl
  | true =>
    simp only [if_true, List.append_assoc, List.cons_append, List.nil_append] at hrest ⊢
    obtain ⟨hv1, hv2⟩ := hv rfl
    have hV : (ascii "Value: ").length = 7 := rfl
    have hlen : (ascii "Value: " ++ r.value).length ≤ 997 := by
      rw [List.length_append, hV]; omega
    have hkey : ¬ ((ascii "Value: " ++ r.value ++ [10]).getD 0 0 = 75
        ∧ (ascii "Value: " ++ r.value ++ [10]).getD 1 0 = 101
        ∧ (ascii "Value: " ++ r.value ++ [10]).getD 2 0 = 121) := by
      intro h
      have h86 : (ascii "Value: " ++ r.value ++ [10]).getD 0 0 = 86 := rfl
      rw [h86] at h
      exact absurd h.1 (by decide)
    have hrest1 : data.drop P = (ascii "Value: " ++ r.value) ++ 10 :: (10 :: rest) := by
      rw [hrest]
      simp only [List.append_assoc]
    have hskip := main_loop_skip mem tr1 k1 (f + 1) data P
      (ascii "Value: " ++ r.value) (10 :: rest) hrest1
      (no_newline_append _ _ ascii_no_newline7.2.2.2.2 hv1) hlen hkey
    have hd2 := Dumpread.drop_add_of_drop data P
      ((ascii "Value: " ++ r.value) ++ [10]) (10 :: rest) (by rw [hrest1]; simp)
    rw [List.length_append, List.length_singleton] at hd2
    have hd2b : data.drop (P + ((ascii "Value: " ++ r.value).length + 1))
        = [] ++ 10 :: rest := hd2
    have hskip2 := main_loop_skip mem tr1 k1 f data _ [] rest hd2b
      (by intro x hx; simp at hx) (by simp) hblank
    have hd3 := Dumpread.drop_add_of_drop data _ [10] rest hd2
    refine ⟨tr1, k1, _, ?_, hd3, hw1, hnode1, hcnt, htot⟩
    rw [hrun, hskip, hskip2]
    rfl

/-- The loop of `main` on a report of records that fit: it ends, with the number of the
records more in the sum of the counts and the sum of their sizes more in the sum of the
sizes. -/
theorem main_loop_records (mem : Alloc) (full : Bool) (data : List Byte)
    (hok : ∀ k, mem.ok k = true) (hw : ∀ k j, mem.wild k j = false) :
    ∀ (rs : List Record) (tr : KT) (k f pos : Nat),
      (∀ r ∈ rs, r.fits full) →
      (∃ ty, tr.type = some ty) → (∀ q, (tr.get q).isWild = false) →
      data.drop pos = report full rs →
      tr.count + rs.length < 4294967296 →
      tr.total + (rs.map Record.size).sum < 18446744073709551616 →
      ∃ tr1 k1 fd1,
        main_loop mem (f + 1 + 3 * rs.length) tr k ⟨data, pos⟩ = some (some (tr1, k1, fd1)) ∧
        tr1.count = tr.count + rs.length ∧
        tr1.total = tr.total + (rs.map Record.size).sum := by
  intro rs
  induction rs with
  | nil =>
    intro tr k f pos _ _ _ hd _ _
    exact ⟨tr, k, ⟨data, pos⟩, main_loop_eof mem tr k f data pos hd, rfl, rfl⟩
  | cons r rs ih =>
    intro tr k f pos hfit hnode hnw hd hcnt htot
    rw [report_cons] at hd
    simp only [List.length_cons, List.map_cons, List.sum_cons] at hcnt htot ⊢
    obtain ⟨tr1, k1, pos1, hrun, hrest, hw1, hnode1, hc1, ht1⟩ :=
      main_loop_one mem full r tr k (f + 1 + 3 * rs.length) data pos (report full rs)
        hok hw hnode hnw (hfit r (List.mem_cons_self _ _)) hd
    have hc := hc1 (by omega)
    have ht := ht1 (by omega)
    obtain ⟨tr2, k2, fd2, hrun2, hc2, ht2⟩ :=
      ih tr1 k1 (f + (if full then 0 else 1)) pos1
        (fun x hx => hfit x (List.mem_cons_of_mem _ hx)) hnode1 hw1 hrest
        (by rw [hc]; omega) (by rw [ht]; omega)
    refine ⟨tr2, k2, fd2, ?_, ?_, ?_⟩
    · have e1 : f + 1 + 3 * (rs.length + 1) = f + 1 + 3 * rs.length + 3 := by omega
      have e2 : f + 1 + 3 * rs.length + (if full then 0 else 1)
          = f + (if full then 0 else 1) + 1 + 3 * rs.length := by omega
      rw [e1, hrun, e2, hrun2]
    · rw [hc2, hc]; omega
    · rw [ht2, ht]; omega

set_option maxRecDepth 1000000 in
/-- Counterexample for C22: (1) the record of a key name of 1000 letters `b` with size 1041:
the `Key` line does not fit one `fgets`, and the sum of the sizes of the nodes is 0 after
the record; (2) three records of the size `2^63 - 1`: the 64-bit size of the node K
wraps, the sum of the sizes of the nodes is `2^63 - 3`. -/
theorem trie_totals_counterexample :
    (main_loop ⟨fun _ => true, fun _ => 0, fun _ _ => false⟩ 8
        (create_KT ⟨fun _ => true, fun _ => 0, fun _ _ => false⟩ 0) 1
        ⟨report false [⟨List.replicate 1000 0x62, 0, 1041, 7, []⟩], 0⟩).map
      (Option.map (fun r => (r.1.count, r.1.total)))
      = some (some (1, 0)) ∧
    (main_loop ⟨fun _ => true, fun _ => 0, fun _ _ => false⟩ 12
        (create_KT ⟨fun _ => true, fun _ => 0, fun _ _ => false⟩ 0) 1
        ⟨report false [⟨ascii "k", 0, 9223372036854775807, 0, []⟩,
          ⟨ascii "k", 0, 9223372036854775807, 0, []⟩,
          ⟨ascii "k", 0, 9223372036854775807, 0, []⟩], 0⟩).map
      (Option.map (fun r => (r.1.count, r.1.total)))
      = some (some (3, 9223372036854775805)) := by
  refine ⟨?_, ?_⟩
  · rfl
  · rfl

/-- C22 (amended): for records that fit the lines of the aggregator (a name without
newline of at most 990 bytes, size and expiration below `2^63`, in full-render mode a
value without newline of at most 990 bytes), the allocations succeeding on a trie without
uninitialised pointers: processing one record changes the count, total size, ttl sum and
max ttl of exactly one node, the record's terminal node, and of no ancestor or other node;
hence after any sequence of fewer than `2^32` such records whose sizes sum to less than
`2^64`, read on the empty trie, the run ends, the sum of the counts over all nodes equals
the number of records processed and the sum of the node total sizes equals the sum of the
records' sizes. -/
theorem trie_totals (mem : Alloc) (full : Bool) (rs : List Record) (f : Nat)
    (hok : ∀ k, mem.ok k = true) (hw : ∀ k j, mem.wild k j = false)
    (hfit : ∀ r ∈ rs, r.fits full)
    (hcount : rs.length < 4294967296)
    (hsum : (rs.map Record.size).sum < 18446744073709551616) :
    (∀ (r : Record) (tr : KT) (k g : Nat) (data : List Byte) (pos : Nat) (rest : List Byte),
      r.fits full → (∃ ty, tr.type = some ty) → (∀ q, (tr.get q).isWild = false) →
      data.drop pos
        = Dumpread.report_record full r.name (Dumpread.type_label r.type) r.size r.exp r.value
            ++ rest →
      ∃ tr1 k1 pos1,
        main_loop mem (g + 1) tr k ⟨data, pos⟩ = main_loop mem g tr1 k1 ⟨data, pos1⟩ ∧
        (tr1.get (key_path (ascii "Key  : " ++ r.name ++ [10]) 10 7)).stats
          = bump (tr.get (key_path (ascii "Key  : " ++ r.name ++ [10]) 10 7)).stats
              r.size r.exp ∧
        (∀ q, q ≠ key_path (ascii "Key  : " ++ r.name ++ [10]) 10 7 →
          (tr1.get q).stats = (tr.get q).stats)) ∧
    (∃ tr1 k1 fd1,
      main_loop mem (f + 1 + 3 * rs.length) (create_KT mem 0) 1 ⟨report full rs, 0⟩
        = some (some (tr1, k1, fd1)) ∧
      tr1.count = rs.length ∧
      tr1.total = (rs.map Record.size).sum) := by
  constructor
  · intro r tr k g data pos rest hr hnode hnw hd
    obtain ⟨hn1, hn2, hs, he, _⟩ := hr
    rw [report_record_lines] at hd
    simp only [List.append_assoc, List.cons_append] at hd
    obtain ⟨tr1, k1, hrun, _, hst, hfr, _⟩ :=
      main_loop_record mem tr k g data pos r.name (Dumpread.type_label r.type)
        ((if full then (ascii "Value: " ++ r.value) ++ 10 :: [10] else [10]) ++ rest)
        r.size r.exp hok hw hnode hnw hn1 hn2
        (type_label_line r.type).1 (type_label_line r.type).2 hs he
        (by simp only [List.append_assoc, List.cons_append]; exact hd)
    exact ⟨tr1, k1, _, hrun, hst, hfr⟩
  · have hnode : ∃ ty, (create_KT mem 0).type = some ty := by
      unfold create_KT
      rw [hok]
      exact ⟨_, rfl⟩
    obtain ⟨tr1, k1, fd1, hrun, hc, ht⟩ :=
      main_loop_records mem full (report full rs) hok hw rs (create_KT mem 0) 1 f 0 hfit
        hnode (create_KT_isWild mem 0 hw) rfl
        (by rw [(create_KT_totals mem 0).1]; omega)
        (by rw [(create_KT_totals mem 0).2]; omega)
    rw [(create_KT_totals mem 0).1, Nat.zero_add] at hc
    rw [(create_KT_totals mem 0).2, Nat.zero_add] at ht
    exact ⟨tr1, k1, fd1, hrun, hc, ht⟩

set_option maxRecDepth 1000000 in
/-- Witness for C22 (amended): the two records "k" (size 50) and "kk" (size 70) read on the
empty trie in zeroed memory: the sum of the counts is 2 and the sum of the sizes 120. -/
theorem trie_totals_witness :
    ∃ tr1 k1 fd1,
      main_loop ⟨fun _ => true, fun _ => 0, fun _ _ => false⟩ (0 + 1 + 3 * 2)
          (create_KT ⟨fun _ => true, fun _ => 0, fun _ _ => false⟩ 0) 1
          ⟨report false [⟨ascii "k", 0, 50, 7, []⟩, ⟨ascii "kk", 4, 70, 0, []⟩], 0⟩
        = some (some (tr1, k1, fd1)) ∧
      tr1.count = 2 ∧ tr1.total = 120 :=
  (trie_totals ⟨fun _ => true, fun _ => 0, fun _ _ => false⟩ false
    [⟨ascii "k", 0, 50, 7, []⟩, ⟨ascii "kk", 4, 70, 0, []⟩] 0
    (fun _ => rfl) (fun _ _ => rfl)
    (by
      intro r hr
      simp only [List.mem_cons, List.mem_singleton, List.not_mem_nil, or_false] at hr
      rcases hr with rfl | rfl
      · exact ⟨by decide, by decide, by decide, by decide, fun h => absurd h (by decide)⟩
      · exact ⟨by decide, by decide, by decide, by decide, fun h => absurd h (by decide)⟩)
    (by decide) (by decide)).2

/-! ## Records with different labels at one node -/

set_option maxRecDepth 100000 in
/-- The type codes of the eleven labels of the report emitter: seven codes, none of them 0. -/
theorem label_code_table :
    label_code 0 = 6 ∧ label_code 1 = 3 ∧ label_code 2 = 2 ∧ label_code 3 = 5 ∧
    label_code 4 = 1 ∧ label_code 9 = 3 ∧ label_code 10 = 3 ∧ label_code 11 = 4 ∧
    label_code 12 = 5 ∧ label_code 13 = 1 ∧ label_code 14 = 7 := by
  refine ⟨?_, ?_, ?_, ?_, ?_, ?_, ?_, ?_, ?_, ?_, ?_⟩ <;> rfl

theorem label_code_ne_zero (t : Nat) (ht : t ≤ 4 ∨ (9 ≤ t ∧ t ≤ 14)) :
    (label_code t).val ≠ 0 := by
  obtain ⟨h0, h1, h2, h3, h4, h9, h10, h11, h12, h13, h14⟩ := label_code_table
  have hcases : t = 0 ∨ t = 1 ∨ t = 2 ∨ t = 3 ∨ t = 4 ∨ t = 9 ∨ t = 10 ∨ t = 11 ∨ t = 12
      ∨ t = 13 ∨ t = 14 := by omega
  rcases hcases with h | h | h | h | h | h | h | h | h | h | h <;> subst h
  · rw [h0]; decide
  · rw [h1]; decide
  · rw [h2]; decide
  · rw [h3]; decide
  · rw [h4]; decide
  · rw [h9]; decide
  · rw [h10]; decide
  · rw [h11]; decide
  · rw [h12]; decide
  · rw [h13]; decide
  · rw [h14]; decide

/-- The type code `key_end` reads when the `Type` line of the tag `t` is next in the
stream. -/
theorem rec_type_label (data : List Byte) (pos t : Nat) (rest : List Byte)
    (hd : data.drop pos = (ascii "Type : " ++ Dumpread.type_label t) ++ 10 :: rest) :
    rec_type ⟨data, pos⟩ = label_code t := by
  have hT : (ascii "Type : ").length = 7 := rfl
  have hl : (ascii "Type : " ++ Dumpread.type_label t).length ≤ 997 := by
    rw [List.length_append, hT]
    have := (type_label_line t).2
    omega
  have hr := read_line_line ⟨data, pos⟩ (ascii "Type : " ++ Dumpread.type_label t) rest hd
    (no_newline_append _ _ ascii_no_newline7.2.1 (type_label_line t).1) hl
  simp only [rec_type, hr, label_code]

set_option maxRecDepth 100000 in
theorem merge_type_collision (ty c1 c2 : Byte) (h1 : c1.val ≠ 0) (hne : c1 ≠ c2) :
    merge_type (merge_type ty c1) c2 = 8 := by
  have ha := merge_type_cases ty c1
  have hfirst : merge_type ty c1 = c1 ∨ merge_type ty c1 = 8 := by
    by_cases h0 : ty.val = 0
    · exact Or.inl (ha.1 h0)
    · by_cases he : ty = c1
      · left
        rw [ha.2.1 he, he]
      · exact Or.inr (ha.2.2.1 h0 he)
  rcases hfirst with h | h
  · rw [h]
    exact (merge_type_cases c1 c2).2.2.1 h1 hne
  · rw [h]
    exact (merge_type_cases 8 c2).2.2.2 rfl

set_option maxRecDepth 1000000 in
/-- Counterexample for C36: two records of the key "k" on an empty trie, the first with the
label "List" (type tag 1), the second with the label "Ziplist" (type tag 10).  Both labels
have the second letter `i`, the code 3: the node K has the count 2 and the type 3 (List),
not Multi. -/
theorem label_collision_counterexample :
    (main_loop ⟨fun _ => true, fun _ => 0, fun _ _ => false⟩ 12
        (create_KT ⟨fun _ => true, fun _ => 0, fun _ _ => false⟩ 0) 1
        ⟨Dumpread.report_record false (ascii "k") (Dumpread.type_label 1) 65 0 []
          ++ Dumpread.report_record false (ascii "k") (Dumpread.type_label 10) 43 0 [], 0⟩).map
      (Option.map (fun r => ((r.1.get [10]).stats, (r.1.get [10]).type)))
      = some (some ((2, 108, 0, 0), some 3)) ∧
    Dumpread.type_label 1 = ascii "List" ∧ Dumpread.type_label 10 = ascii "Ziplist" := by
  refine ⟨?_, ?_, ?_⟩ <;> rfl

set_option maxRecDepth 100000 in
theorem label_code_ne_multi (t : Nat) (ht : t ≤ 4 ∨ (9 ≤ t ∧ t ≤ 14)) :
    (label_code t).val ≠ 8 := by
  obtain ⟨h0, h1, h2, h3, h4, h9, h10, h11, h12, h13, h14⟩ := label_code_table
  have hcases : t = 0 ∨ t = 1 ∨ t = 2 ∨ t = 3 ∨ t = 4 ∨ t = 9 ∨ t = 10 ∨ t = 11 ∨ t = 12
      ∨ t = 13 ∨ t = 14 := by omega
  rcases hcases with h | h | h | h | h | h | h | h | h | h | h <;> subst h
  · rw [h0]; decide
  · rw [h1]; decide
  · rw [h2]; decide
  · rw [h3]; decide
  · rw [h4]; decide
  · rw [h9]; decide
  · rw [h10]; decide
  · rw [h11]; decide
  · rw [h12]; decide
  · rw [h13]; decide
  · rw [h14]; decide

/-- A node whose type is unset (0) or the code `c` has the type `c` after two records of
the code `c`. -/
theorem merge_type_same (ty c : Byte) (h : ty.val = 0 ∨ ty = c) :
    merge_type (merge_type ty c) c = c := by
  have hfirst : merge_type ty c = c := by
    rcases h with h | h
    · exact (merge_type_cases ty c).1 h
    · rw [(merge_type_cases ty c).2.1 h, h]
  rw [hfirst, (merge_type_cases c c).2.1 rfl]

/-- C36 (amended): the aggregator takes the type code of a record from the second letter of
its label, so that the eleven labels of the report emitter have seven codes: String 6; List,
Zipmap and Ziplist 3; Set 2; Sorted set and Sorted set in ziplist 5; Hash and Hashmap in
ziplist 1; Intset 4; Quicklist 7.  Two records that end at the same trie node, the first of
them with one of the eleven labels, are both counted (every allocation succeeding, on a trie
without uninitialised pointers), and after the second record: if their labels have different
type codes, the node's type is Multi (8), whatever it was before; if their labels have the
same code, be they different labels, and the node's type was unset (0: also a node made for
the first record, in a block whose type byte is 0) or that code before, the node's type is
that code, which is not Multi. -/
theorem type_multi_on_collision (mem : Alloc) (key1 key2 : List Byte) (fd1 fd2 : FILE)
    (tmp : KT) (k t1 t2 : Nat)
    (hok : ∀ k, mem.ok k = true) (hw : ∀ k j, mem.wild k j = false)
    (hnode : ∃ ty, tmp.type = some ty) (hnw : ∀ q, (tmp.get q).isWild = false)
    (hpath : key_path key2 10 7 = key_path key1 10 7)
    (h1 : rec_type fd1 = label_code t1) (h2 : rec_type fd2 = label_code t2)
    (ht1 : t1 ≤ 4 ∨ (9 ≤ t1 ∧ t1 ≤ 14)) :
    (∃ tmp1 k1 tmp2 k2,
      key_loop mem key1 10 7 tmp k fd1 = some (tmp1, k1, rec_fd fd1) ∧
      key_loop mem key2 10 7 tmp1 k1 fd2 = some (tmp2, k2, rec_fd fd2) ∧
      (label_code t1 ≠ label_code t2 →
        (tmp2.get (key_path key1 10 7)).type = some 8) ∧
      (label_code t1 = label_code t2 →
        (∀ ty, (tmp.get (key_path key1 10 7)).type = some ty →
          ty.val = 0 ∨ ty = label_code t1) →
        ((tmp.get (key_path key1 10 7)).type = none → ∀ j, (mem.type j).val = 0) →
        (tmp2.get (key_path key1 10 7)).type = some (label_code t1) ∧
          (label_code t1).val ≠ 8)) ∧
    (label_code 0 = 6 ∧ label_code 1 = 3 ∧ label_code 2 = 2 ∧ label_code 3 = 5 ∧
      label_code 4 = 1 ∧ label_code 9 = 3 ∧ label_code 10 = 3 ∧ label_code 11 = 4 ∧
      label_code 12 = 5 ∧ label_code 13 = 1 ∧ label_code 14 = 7) ∧
    (∀ (data : List Byte) (pos t : Nat) (rest : List Byte),
      data.drop pos = (ascii "Type : " ++ Dumpread.type_label t) ++ 10 :: rest →
      rec_type ⟨data, pos⟩ = label_code t) := by
  refine ⟨?_, label_code_table, rec_type_label⟩
  obtain ⟨tmp1, k1, hk1, _, _, hw1, hn1, ha1, hb1, _⟩ :=
    key_loop_spec mem key1 fd1 hok hw 10 7 tmp k (by omega) (by omega) hnode hnw
  obtain ⟨tmp2, k2, hk2, _, _, _, _, ha2, _, _⟩ :=
    key_loop_spec mem key2 fd2 hok hw 10 7 tmp1 k1 (by omega) (by omega) hn1 hw1
  refine ⟨tmp1, k1, tmp2, k2, hk1, hk2, ?_, ?_⟩
  · intro hne
    rw [hpath] at ha2
    rw [h1] at ha1 hb1
    rw [h2] at ha2
    have hc1 := label_code_ne_zero t1 ht1
    cases hty : (tmp.get (key_path key1 10 7)).type with
    | none =>
      obtain ⟨j, hty1⟩ := hb1 hty
      rw [ha2 _ hty1, merge_type_collision (mem.type j) _ _ hc1 hne]
    | some ty =>
      rw [ha2 _ (ha1 ty hty), merge_type_collision ty _ _ hc1 hne]
  · intro heq hold hfresh
    refine ⟨?_, label_code_ne_multi t1 ht1⟩
    rw [hpath] at ha2
    rw [h1] at ha1 hb1
    rw [h2, ← heq] at ha2
    cases hty : (tmp.get (key_path key1 10 7)).type with
    | none =>
      obtain ⟨j, hty1⟩ := hb1 hty
      rw [ha2 _ hty1, merge_type_same (mem.type j) _ (Or.inl (hfresh hty j))]
    | some ty =>
      rw [ha2 _ (ha1 ty hty), merge_type_same ty _ (hold ty hty)]

set_option maxRecDepth 1000000 in
/-- Witness for C36 (amended): the key "k" on an empty trie, with a String record and then a
List record (codes 6 and 3: the node K is Multi), and with a List record and then a Ziplist
record (both of code 3: the node K has the type 3). -/
theorem type_multi_on_collision_witness :
    (∃ tmp1 k1 tmp2 k2,
      key_loop ⟨fun _ => true, fun _ => 0, fun _ _ => false⟩ (ascii "Key  : k\n") 10 7
          (create_KT ⟨fun _ => true, fun _ => 0, fun _ _ => false⟩ 0) 1
          ⟨ascii "Type : String\nSize : 17\nExp  : 0\n", 0⟩
        = some (tmp1, k1, rec_fd ⟨ascii "Type : String\nSize : 17\nExp  : 0\n", 0⟩) ∧
      key_loop ⟨fun _ => true, fun _ => 0, fun _ _ => false⟩ (ascii "Key  : k\n") 10 7 tmp1 k1
          ⟨ascii "Type : List\nSize : 65\nExp  : 0\n", 0⟩
        = some (tmp2, k2, rec_fd ⟨ascii "Type : List\nSize : 65\nExp  : 0\n", 0⟩) ∧
      (tmp2.get (key_path (ascii "Key  : k\n") 10 7)).type = some 8) ∧
    (∃ tmp1 k1 tmp2 k2,
      key_loop ⟨fun _ => true, fun _ => 0, fun _ _ => false⟩ (ascii "Key  : k\n") 10 7
          (create_KT ⟨fun _ => true, fun _ => 0, fun _ _ => false⟩ 0) 1
          ⟨ascii "Type : List\nSize : 65\nExp  : 0\n", 0⟩
        = some (tmp1, k1, rec_fd ⟨ascii "Type : List\nSize : 65\nExp  : 0\n", 0⟩) ∧
      key_loop ⟨fun _ => true, fun _ => 0, fun _ _ => false⟩ (ascii "Key  : k\n") 10 7 tmp1 k1
          ⟨ascii "Type : Ziplist\nSize : 43\nExp  : 0\n", 0⟩
        = some (tmp2, k2, rec_fd ⟨ascii "Type : Ziplist\nSize : 43\nExp  : 0\n", 0⟩) ∧
      (tmp2.get (key_path (ascii "Key  : k\n") 10 7)).type = some (label_code 1) ∧
      (label_code 1).val ≠ 8) :=
  ⟨(type_multi_on_collision ⟨fun _ => true, fun _ => 0, fun _ _ => false⟩
      (ascii "Key  : k\n") (ascii "Key  : k\n")
      ⟨ascii "Type : String\nSize : 17\nExp  : 0\n", 0⟩
      ⟨ascii "Type : List\nSize : 65\nExp  : 0\n", 0⟩
      (create_KT ⟨fun _ => true, fun _ => 0, fun _ _ => false⟩ 0) 1 0 1
      (fun _ => rfl) (fun _ _ => rfl) ⟨0, rfl⟩ (create_KT_isWild _ 0 (fun _ _ => rfl))
      rfl rfl rfl (by decide)).1.imp
    (fun _ h => h.imp (fun _ h => h.imp (fun _ h => h.imp
      (fun _ h => ⟨h.1, h.2.1, h.2.2.1 (by decide)⟩)))),
   (type_multi_on_collision ⟨fun _ => true, fun _ => 0, fun _ _ => false⟩
      (ascii "Key  : k\n") (ascii "Key  : k\n")
      ⟨ascii "Type : List\nSize : 65\nExp  : 0\n", 0⟩
      ⟨ascii "Type : Ziplist\nSize : 43\nExp  : 0\n", 0⟩
      (create_KT ⟨fun _ => true, fun _ => 0, fun _ _ => false⟩ 0) 1 1 10
      (fun _ => rfl) (fun _ _ => rfl) ⟨0, rfl⟩ (create_KT_isWild _ 0 (fun _ _ => rfl))
      rfl rfl rfl (by decide)).1.imp
    (fun _ h => h.imp (fun _ h => h.imp (fun _ h => h.imp
      (fun _ h => ⟨h.1, h.2.1, h.2.2.2 (by decide) (fun ty hty => by
          have : (KT.get (create_KT ⟨fun _ => true, fun _ => 0, fun _ _ => false⟩ 0)
            (key_path (ascii "Key  : k\n") 10 7)).type = none := by decide
          rw [this] at hty; cases hty) (fun _ _ => rfl)⟩))))⟩

end Trie
